import Mathlib

/-!
# libshell: the Compressive mid-edge formulation and the edge-DOF penalty

A shallow embedding of

* `src/src/SecondFundamentalForm/MidedgeAngleCompressiveFormulation.cpp`
  (`edgeTheta`, `secondFundamentalFormEntries`,
  `MidedgeAngleCompressiveFormulation::secondFundamentalForm`,
  `MidedgeAngleCompressiveFormulation::initializeExtraDOFs`), and
* `src/bending_models/main.cpp` (`edgeDOFPenaltyEnergy`).

Conventions.

* `double` is idealised as an element of a field `R` (exact arithmetic); the
  theorems that need the tangent are stated over `ℝ` with `Real.tan`.  The
  definitions are polymorphic in `R`, hence executable over `ℚ`.
* The C library functions `tan` and `cos` are parameters of the definitions.
* A null output slot is the flag `false`; an output that was not requested is
  `none` in the result.
* An access outside a vector or a matrix (undefined behaviour in C++) makes the
  embedded function return `none`.
* Index arithmetic is done on `Int`/`Nat`; no size in this development comes
  close to the range of a C++ `int`.
-/

namespace LibShell

/-! ## Data model -/

/-- Eigen::Vector3d, a point or vector of three coordinates. -/
abbrev Vector3d (R : Type) := Fin 3 → R

/-- Eigen::MatrixXd holding one 3D point per row (the vertex positions). -/
abbrev MatrixX3d (R : Type) := List (Vector3d R)

/-- Eigen::VectorXd, a dense vector of dynamic size. -/
abbrev VectorXd (R : Type) := List R

/-- Eigen::Triplet, one (row, column, value) contribution of a sparse matrix. -/
structure Triplet (R : Type) where
  row : Nat
  col : Nat
  value : R
deriving DecidableEq

/-- Modelled from the spec: MeshConnectivity (include/MeshConnectivity.h is not
part of the sources at hand).  Only the lookup interface of spec section 4.1
is kept: `faceEdgeOrientation` is 0 or 1, `edgeFace` and `edgeOppositeVertex`
are `-1` on the boundary side of an edge. -/
structure MeshConnectivity where
  nFaces : Nat
  nVertices : Nat
  nEdges : Nat
  faceVertex : Int → Int → Int
  faceEdge : Int → Int → Int
  faceEdgeOrientation : Int → Int → Fin 2
  edgeVertex : Int → Int → Int
  edgeFace : Int → Int → Int
  edgeOppositeVertex : Int → Int → Int
  vertexOppositeFaceEdge : Int → Int → Int

/-- The differentiable primitives of `GeometryDerivatives.h` that the
formulation calls, taken as parameters: `angle` and `triangleAltitude`, each
with the 1x9 derivative and the 9x9 Hessian it writes when the corresponding
slot is non-null. -/
structure GeometryDerivatives (R : Type) where
  angle : Vector3d R → Vector3d R → Vector3d R → R
  angleDeriv : Vector3d R → Vector3d R → Vector3d R → Matrix (Fin 1) (Fin 9) R
  angleHess : Vector3d R → Vector3d R → Vector3d R → Matrix (Fin 9) (Fin 9) R
  triangleAltitude : MeshConnectivity → MatrixX3d R → Int → Int → R
  triangleAltitudeDeriv : MeshConnectivity → MatrixX3d R → Int → Int → Matrix (Fin 1) (Fin 9) R
  triangleAltitudeHess : MeshConnectivity → MatrixX3d R → Int → Int → Matrix (Fin 9) (Fin 9) R

/-- The value returned by a function following the energy/derivative
convention, with the contents of the two optional output slots. -/
structure Eval (V D H : Type) where
  value : V
  derivative : Option D
  hessian : Option H

section Ops

variable {R : Type}

/-- The row `curPos.row(i)`; `none` when the row does not exist. -/
def rowAt (curPos : MatrixX3d R) (i : Int) : Option (Vector3d R) :=
  if i < 0 then none else curPos[i.toNat]?

/-- The coefficient `v[i]` (or `v(i)`); `none` when it does not exist. -/
def coeffAt (v : VectorXd R) (i : Int) : Option R :=
  if i < 0 then none else v[i.toNat]?

/-- The `p x q` block of `M` whose top-left corner is `(r, c)`, as in
`M.block(r, c, p, q)` and `M.block<p, q>(r, c)`. -/
def block [Zero R] {m n : Nat} (M : Matrix (Fin m) (Fin n) R) (r c p q : Nat) :
    Matrix (Fin p) (Fin q) R :=
  fun i j => if h : r + i.val < m ∧ c + j.val < n then M ⟨r + i.val, h.1⟩ ⟨c + j.val, h.2⟩ else 0

/-- The update `M.block(r, c, p, q) += B`. -/
def addBlock [Add R] {m n p q : Nat} (M : Matrix (Fin m) (Fin n) R) (r c : Nat)
    (B : Matrix (Fin p) (Fin q) R) : Matrix (Fin m) (Fin n) R :=
  fun i j =>
    if h : (r ≤ i.val ∧ i.val < r + p) ∧ (c ≤ j.val ∧ j.val < c + q) then
      M i j + B ⟨i.val - r, by omega⟩ ⟨j.val - c, by omega⟩
    else M i j

/-- The update `M(r, c) += x`. -/
def addEntry [Add R] {m n : Nat} (M : Matrix (Fin m) (Fin n) R) (r c : Nat) (x : R) :
    Matrix (Fin m) (Fin n) R :=
  fun i j => if i.val = r ∧ j.val = c then M i j + x else M i j

/-- The update `M.row(r) += v`. -/
def addRow [Add R] {m n : Nat} (M : Matrix (Fin m) (Fin n) R) (r : Nat) (v : Fin n → R) :
    Matrix (Fin m) (Fin n) R :=
  fun i j => if i.val = r then M i j + v j else M i j

/-- A matrix multiplied by a scalar on the right, `M * c`. -/
def mulScalar [Mul R] {m n : Nat} (M : Matrix (Fin m) (Fin n) R) (c : R) :
    Matrix (Fin m) (Fin n) R :=
  fun i j => M i j * c

/-- Eigen's `a.cross(b)`. -/
def cross [Ring R] (a b : Vector3d R) : Vector3d R :=
  ![a 1 * b 2 - a 2 * b 1, a 2 * b 0 - a 0 * b 2, a 0 * b 1 - a 1 * b 0]

/-- Modelled from the spec: crossMatrix (GeometryDerivatives, not part of the
sources at hand), "the 3x3 skew-symmetric matrix M such that M x = v × x for
all x". -/
def crossMatrix [Ring R] (v : Vector3d R) : Matrix (Fin 3) (Fin 3) R :=
  !![0, -v 2, v 1; v 2, 0, -v 0; -v 1, v 0, 0]

end Ops

/-! ## `edgeTheta` -/

section EdgeTheta

variable {R : Type} [Field R]

/-- The derivative accumulated by `edgeTheta` for an interior edge
(source lines 38-46), starting from the zeroed slot. -/
def edgeThetaDerivative (q0 q1 q2 q3 : Vector3d R) (angderiv : Matrix (Fin 1) (Fin 9) R) :
    Matrix (Fin 1) (Fin 12) R :=
  let derivative : Matrix (Fin 1) (Fin 12) R := 0
  let derivative := addBlock derivative 0 0 (block angderiv 0 0 1 3 * crossMatrix (q2 - q1))
  let derivative := addBlock derivative 0 3 (block angderiv 0 0 1 3 * crossMatrix (q0 - q2))
  let derivative := addBlock derivative 0 6 (block angderiv 0 0 1 3 * crossMatrix (q1 - q0))
  let derivative := addBlock derivative 0 0 (block angderiv 0 3 1 3 * crossMatrix (q1 - q3))
  let derivative := addBlock derivative 0 3 (block angderiv 0 3 1 3 * crossMatrix (q3 - q0))
  let derivative := addBlock derivative 0 9 (block angderiv 0 3 1 3 * crossMatrix (q0 - q1))
  derivative

/-- The Hessian accumulated by `edgeTheta` for an interior edge
(source lines 48-103), starting from the zeroed slot. -/
def edgeThetaHessian (q0 q1 q2 q3 : Vector3d R) (angderiv : Matrix (Fin 1) (Fin 9) R)
    (anghess : Matrix (Fin 9) (Fin 9) R) : Matrix (Fin 12) (Fin 12) R :=
  let vqm : Fin 3 → Matrix (Fin 3) (Fin 3) R :=
    ![crossMatrix (q0 - q2), crossMatrix (q1 - q0), crossMatrix (q2 - q1)]
  let wqm : Fin 3 → Matrix (Fin 3) (Fin 3) R :=
    ![crossMatrix (q0 - q1), crossMatrix (q1 - q3), crossMatrix (q3 - q0)]
  let vindices : Fin 3 → Nat := ![3, 6, 0]
  let windices : Fin 3 → Nat := ![9, 0, 3]
  let hessian : Matrix (Fin 12) (Fin 12) R := 0
  let hessian := (List.finRange 3).foldl (fun hessian i =>
    let hessian := (List.finRange 3).foldl (fun hessian j =>
      let hessian := addBlock hessian (vindices i) (vindices j)
        ((vqm i).transpose * block anghess 0 0 3 3 * vqm j)
      let hessian := addBlock hessian (vindices i) (windices j)
        ((vqm i).transpose * block anghess 0 3 3 3 * wqm j)
      let hessian := addBlock hessian (windices i) (vindices j)
        ((wqm i).transpose * block anghess 3 0 3 3 * vqm j)
      let hessian := addBlock hessian (windices i) (windices j)
        ((wqm i).transpose * block anghess 3 3 3 3 * wqm j)
      hessian) hessian
    let hessian := addBlock hessian (vindices i) 3 ((vqm i).transpose * block anghess 0 6 3 3)
    let hessian := addBlock hessian 3 (vindices i) (block anghess 6 0 3 3 * vqm i)
    let hessian := addBlock hessian (vindices i) 0 (-(vqm i).transpose * block anghess 0 6 3 3)
    let hessian := addBlock hessian 0 (vindices i) (-block anghess 6 0 3 3 * vqm i)
    let hessian := addBlock hessian (windices i) 3 ((wqm i).transpose * block anghess 3 6 3 3)
    let hessian := addBlock hessian 3 (windices i) (block anghess 6 3 3 3 * wqm i)
    let hessian := addBlock hessian (windices i) 0 (-(wqm i).transpose * block anghess 3 6 3 3)
    let hessian := addBlock hessian 0 (windices i) (-block anghess 6 3 3 3 * wqm i)
    hessian) hessian
  let dang1 : Vector3d R := fun k => (block angderiv 0 0 1 3).transpose k 0
  let dang2 : Vector3d R := fun k => (block angderiv 0 3 1 3).transpose k 0
  let dang1mat := crossMatrix dang1
  let dang2mat := crossMatrix dang2
  let hessian := addBlock hessian 6 3 dang1mat
  let hessian := addBlock hessian 0 3 (-dang1mat)
  let hessian := addBlock hessian 0 6 dang1mat
  let hessian := addBlock hessian 3 0 dang1mat
  let hessian := addBlock hessian 3 6 (-dang1mat)
  let hessian := addBlock hessian 6 0 (-dang1mat)
  let hessian := addBlock hessian 9 0 dang2mat
  let hessian := addBlock hessian 3 0 (-dang2mat)
  let hessian := addBlock hessian 3 9 dang2mat
  let hessian := addBlock hessian 0 3 dang2mat
  let hessian := addBlock hessian 0 9 (-dang2mat)
  let hessian := addBlock hessian 9 3 (-dang2mat)
  hessian

/-- The function `edgeTheta` of MidedgeAngleCompressiveFormulation.cpp.  The
slots `derivative` (1x12, over edgeVertex then edgeOppositeVertex) and
`hessian` (12x12) are zeroed first; a boundary edge returns 0 before any
position is read. -/
def edgeTheta (G : GeometryDerivatives R) (mesh : MeshConnectivity) (curPos : MatrixX3d R)
    (edge : Int) (derivative hessian : Bool) :
    Option (Eval R (Matrix (Fin 1) (Fin 12) R) (Matrix (Fin 12) (Fin 12) R)) :=
  let derivativeSlot : Option (Matrix (Fin 1) (Fin 12) R) := if derivative then some 0 else none
  let hessianSlot : Option (Matrix (Fin 12) (Fin 12) R) := if hessian then some 0 else none
  let v0 := mesh.edgeVertex edge 0
  let v1 := mesh.edgeVertex edge 1
  let v2 := mesh.edgeOppositeVertex edge 0
  let v3 := mesh.edgeOppositeVertex edge 1
  if v2 = -1 ∨ v3 = -1 then some ⟨0, derivativeSlot, hessianSlot⟩
  else do
    let q0 ← rowAt curPos v0
    let q1 ← rowAt curPos v1
    let q2 ← rowAt curPos v2
    let q3 ← rowAt curPos v3
    let n0 := cross (q0 - q2) (q1 - q2)
    let n1 := cross (q1 - q3) (q0 - q3)
    let axis := q1 - q0
    let angderiv := G.angleDeriv n0 n1 axis
    let anghess := G.angleHess n0 n1 axis
    let theta := G.angle n0 n1 axis
    let derivativeSlot := if derivative then some (edgeThetaDerivative q0 q1 q2 q3 angderiv) else none
    let hessianSlot := if hessian then some (edgeThetaHessian q0 q1 q2 q3 angderiv anghess) else none
    pure ⟨theta, derivativeSlot, hessianSlot⟩

end EdgeTheta

/-! ## `secondFundamentalFormEntries` -/

section Entries

variable {R : Type} [Field R]

/-- The update of row `i` of the 3x27 derivative in
`secondFundamentalFormEntries` (source lines 159-169). -/
def entriesDerivative (tan cos : R → R) (derivative : Matrix (Fin 3) (Fin 27) R) (i : Nat)
    (hv : Fin 3 → Nat) (av : Fin 4 → Nat) (altitude alpha orient vec_norm : R) (offset : Nat)
    (hderiv : Matrix (Fin 1) (Fin 9) R) (thetaderiv : Matrix (Fin 1) (Fin 12) R) :
    Matrix (Fin 3) (Fin 27) R :=
  let derivative := (List.finRange 3).foldl (fun derivative j =>
    addBlock derivative i (3 * hv j)
      (mulScalar ((2 * tan alpha) • block hderiv 0 (3 * j.val) 1 3) vec_norm)) derivative
  let derivative := (List.finRange 4).foldl (fun derivative j =>
    addBlock derivative i (3 * av j)
      (mulScalar ((altitude / cos alpha / cos alpha) • block thetaderiv 0 (3 * j.val) 1 3)
        vec_norm)) derivative
  let derivative := addEntry derivative i (18 + 3 * i)
    (2 * altitude / cos alpha / cos alpha * orient * vec_norm)
  let derivative := addEntry derivative i (18 + 3 * i + offset) (2 * tan alpha * altitude)
  derivative

/-- The update of the 27x27 matrix `(*hessian)[i]` in
`secondFundamentalFormEntries` (source lines 171-230). -/
def entriesHessian (tan cos : R → R) (hess : Matrix (Fin 27) (Fin 27) R) (i : Nat)
    (hv : Fin 3 → Nat) (av : Fin 4 → Nat) (altitude alpha orient vec_norm : R) (offset : Nat)
    (hderiv : Matrix (Fin 1) (Fin 9) R) (hhess : Matrix (Fin 9) (Fin 9) R)
    (thetaderiv : Matrix (Fin 1) (Fin 12) R) (thetahess : Matrix (Fin 12) (Fin 12) R) :
    Matrix (Fin 27) (Fin 27) R :=
  let hess := (List.finRange 3).foldl (fun hess j =>
    (List.finRange 3).foldl (fun hess k =>
      addBlock hess (3 * hv j) (3 * hv k)
        (mulScalar ((2 * tan alpha) • block hhess (3 * j.val) (3 * k.val) 3 3) vec_norm))
      hess) hess
  let hess := (List.finRange 3).foldl (fun hess k =>
    let hess := (List.finRange 4).foldl (fun hess j =>
      let hess := addBlock hess (3 * av j) (3 * hv k)
        (mulScalar ((1 / cos alpha / cos alpha) • (block thetaderiv 0 (3 * j.val) 1 3).transpose *
          block hderiv 0 (3 * k.val) 1 3) vec_norm)
      let hess := addBlock hess (3 * hv k) (3 * av j)
        (mulScalar ((1 / cos alpha / cos alpha) • (block hderiv 0 (3 * k.val) 1 3).transpose *
          block thetaderiv 0 (3 * j.val) 1 3) vec_norm)
      hess) hess
    let hess := addBlock hess (18 + 3 * i) (3 * hv k)
      (mulScalar ((2 / cos alpha / cos alpha * orient) • block hderiv 0 (3 * k.val) 1 3) vec_norm)
    let hess := addBlock hess (3 * hv k) (18 + 3 * i)
      (mulScalar ((2 / cos alpha / cos alpha * orient) •
        (block hderiv 0 (3 * k.val) 1 3).transpose) vec_norm)
    hess) hess
  let hess := (List.finRange 4).foldl (fun hess k =>
    let hess := (List.finRange 4).foldl (fun hess j =>
      let hess := addBlock hess (3 * av j) (3 * av k)
        (mulScalar ((altitude / cos alpha / cos alpha) •
          block thetahess (3 * j.val) (3 * k.val) 3 3) vec_norm)
      let hess := addBlock hess (3 * av j) (3 * av k)
        (mulScalar ((altitude * tan alpha / cos alpha / cos alpha) •
          (block thetaderiv 0 (3 * j.val) 1 3).transpose * block thetaderiv 0 (3 * k.val) 1 3)
          vec_norm)
      hess) hess
    let hess := addBlock hess (18 + 3 * i) (3 * av k)
      (mulScalar ((2 * altitude * tan alpha / cos alpha / cos alpha * orient) •
        block thetaderiv 0 (3 * k.val) 1 3) vec_norm)
    let hess := addBlock hess (3 * av k) (18 + 3 * i)
      (mulScalar ((2 * altitude * tan alpha / cos alpha / cos alpha * orient) •
        (block thetaderiv 0 (3 * k.val) 1 3).transpose) vec_norm)
    hess) hess
  let hess := addEntry hess (18 + 3 * i) (18 + 3 * i)
    (4 * altitude * tan alpha / cos alpha / cos alpha * vec_norm)
  -- extra norm dofs
  let hess := (List.finRange 3).foldl (fun hess j =>
    let hess := addBlock hess (18 + 3 * i + offset) (3 * hv j)
      ((2 * tan alpha) • block hderiv 0 (3 * j.val) 1 3)
    let hess := addBlock hess (3 * hv j) (18 + 3 * i + offset)
      ((2 * tan alpha) • (block hderiv 0 (3 * j.val) 1 3).transpose)
    hess) hess
  let hess := (List.finRange 4).foldl (fun hess j =>
    let hess := addBlock hess (18 + 3 * i + offset) (3 * av j)
      ((altitude / cos alpha / cos alpha) • block thetaderiv 0 (3 * j.val) 1 3)
    let hess := addBlock hess (3 * av j) (18 + 3 * i + offset)
      ((altitude / cos alpha / cos alpha) • (block thetaderiv 0 (3 * j.val) 1 3).transpose)
    hess) hess
  let hess := addEntry hess (18 + 3 * i + offset) (18 + 3 * i)
    (2 * altitude / cos alpha / cos alpha * orient)
  let hess := addEntry hess (18 + 3 * i) (18 + 3 * i + offset)
    (2 * altitude / cos alpha / cos alpha * orient)
  hess

/-- The result type of `secondFundamentalFormEntries`: the three entries, the
3x27 derivative and the three 27x27 Hessians. -/
abbrev EntriesEval (R : Type) :=
  Eval (Vector3d R) (Matrix (Fin 3) (Fin 27) R) (Fin 3 → Matrix (Fin 27) (Fin 27) R)

/-- One iteration `i` of the loop of `secondFundamentalFormEntries`
(source lines 121-232), acting on the entries and slots computed so far. -/
def entriesStep (tan cos : R → R) (G : GeometryDerivatives R) (mesh : MeshConnectivity)
    (curPos : MatrixX3d R) (edgeDOFs : VectorXd R) (face : Int) (derivative hessian : Bool)
    (st : EntriesEval R) (i : Fin 3) : Option (EntriesEval R) := do
  let hderiv := G.triangleAltitudeDeriv mesh curPos face i.val
  let hhess := G.triangleAltitudeHess mesh curPos face i.val
  let altitude := G.triangleAltitude mesh curPos face i.val
  let edge := mesh.faceEdge face i.val
  let th ← edgeTheta G mesh curPos edge (derivative || hessian) hessian
  let thetaderiv := th.derivative.getD 0
  let thetahess := th.hessian.getD 0
  let theta := th.value
  let orient : R := if mesh.faceEdgeOrientation face i.val = 0 then 1 else -1
  let angleDOF ← coeffAt edgeDOFs (3 * edge)
  let alpha := 0.5 * theta + orient * angleDOF
  let offset : Nat := (mesh.faceEdgeOrientation face i.val).val + 1
  let vec_norm ← coeffAt edgeDOFs (3 * edge + offset)
  let II := Function.update st.value i (2 * altitude * tan alpha * vec_norm)
  if derivative || hessian then
    let hv : Fin 3 → Nat := fun j => (i.val + j.val) % 3
    let av : Fin 4 → Nat :=
      if mesh.faceEdgeOrientation face i.val = 0 then
        ![(i.val + 1) % 3, (i.val + 2) % 3, i.val, 3 + i.val]
      else
        ![(i.val + 2) % 3, (i.val + 1) % 3, 3 + i.val, i.val]
    let derivativeSlot := st.derivative.map fun d =>
      entriesDerivative tan cos d i.val hv av altitude alpha orient vec_norm offset hderiv thetaderiv
    let hessianSlot := st.hessian.map fun h =>
      Function.update h i
        (entriesHessian tan cos (h i) i.val hv av altitude alpha orient vec_norm offset
          hderiv hhess thetaderiv thetahess)
    pure ⟨II, derivativeSlot, hessianSlot⟩
  else
    pure ⟨II, st.derivative, st.hessian⟩

/-- The function `secondFundamentalFormEntries` of
MidedgeAngleCompressiveFormulation.cpp: the three per-edge curvature entries
of `face`, with their 3x27 derivative and 27x27 Hessians when requested. -/
def secondFundamentalFormEntries (tan cos : R → R) (G : GeometryDerivatives R)
    (mesh : MeshConnectivity) (curPos : MatrixX3d R) (edgeDOFs : VectorXd R) (face : Int)
    (derivative hessian : Bool) : Option (EntriesEval R) :=
  let derivativeSlot : Option (Matrix (Fin 3) (Fin 27) R) := if derivative then some 0 else none
  let hessianSlot : Option (Fin 3 → Matrix (Fin 27) (Fin 27) R) :=
    if hessian then some (fun _ => 0) else none
  (List.finRange 3).foldlM
    (entriesStep tan cos G mesh curPos edgeDOFs face derivative hessian)
    ⟨0, derivativeSlot, hessianSlot⟩

end Entries

/-! ## `MidedgeAngleCompressiveFormulation` -/

namespace MidedgeAngleCompressiveFormulation

variable {R : Type} [Field R]

/-- Modelled from the spec: numExtraDOFs (its value is set in
include/MidedgeAngleCompressiveFormulation.h, not part of the sources at
hand): "3 for Compressive", the angle and two stretch magnitudes of an edge. -/
def numExtraDOFs : Nat := 3

/-- The result type of `secondFundamentalForm`: the 2x2 matrix, the
4 x (18 + 3 * numExtraDOFs) derivative and the four Hessians. -/
abbrev FormEval (R : Type) :=
  Eval (Matrix (Fin 2) (Fin 2) R) (Matrix (Fin 4) (Fin 27) R)
    (Fin 4 → Matrix (Fin 27) (Fin 27) R)

/-- The 2x2 matrix assembled from the three entries (source lines 259-260). -/
def formValue (II : Vector3d R) : Matrix (Fin 2) (Fin 2) R :=
  !![II 0 + II 1, II 0; II 0, II 0 + II 2]

/-- The accumulation of the rows of `IIderiv` into the zeroed 4x27 derivative
(source lines 262-271). -/
def formDerivative (derivative : Matrix (Fin 4) (Fin 27) R) (IIderiv : Matrix (Fin 3) (Fin 27) R) :
    Matrix (Fin 4) (Fin 27) R :=
  let derivative := addRow derivative 0 (IIderiv 0)
  let derivative := addRow derivative 0 (IIderiv 1)
  let derivative := addRow derivative 1 (IIderiv 0)
  let derivative := addRow derivative 2 (IIderiv 0)
  let derivative := addRow derivative 3 (IIderiv 0)
  let derivative := addRow derivative 3 (IIderiv 2)
  derivative

/-- The accumulation of the matrices of `IIhess` into the four zeroed Hessians
(source lines 272-281). -/
def formHessian (hessian : Fin 4 → Matrix (Fin 27) (Fin 27) R)
    (IIhess : Fin 3 → Matrix (Fin 27) (Fin 27) R) : Fin 4 → Matrix (Fin 27) (Fin 27) R :=
  let hessian := Function.update hessian 0 (hessian 0 + IIhess 0)
  let hessian := Function.update hessian 0 (hessian 0 + IIhess 1)
  let hessian := Function.update hessian 1 (hessian 1 + IIhess 0)
  let hessian := Function.update hessian 2 (hessian 2 + IIhess 0)
  let hessian := Function.update hessian 3 (hessian 3 + IIhess 0)
  let hessian := Function.update hessian 3 (hessian 3 + IIhess 2)
  hessian

/-- The function `MidedgeAngleCompressiveFormulation::secondFundamentalForm`. -/
def secondFundamentalForm (tan cos : R → R) (G : GeometryDerivatives R)
    (mesh : MeshConnectivity) (curPos : MatrixX3d R) (extraDOFs : VectorXd R) (face : Int)
    (derivative hessian : Bool) : Option (FormEval R) := do
  let derivativeSlot : Option (Matrix (Fin 4) (Fin 27) R) := if derivative then some 0 else none
  let hessianSlot : Option (Fin 4 → Matrix (Fin 27) (Fin 27) R) :=
    if hessian then some (fun _ => 0) else none
  let entries ← secondFundamentalFormEntries tan cos G mesh curPos extraDOFs face derivative hessian
  let IIderiv := entries.derivative.getD 0
  let IIhess := entries.hessian.getD (fun _ => 0)
  let II := entries.value
  let result := formValue II
  let derivativeSlot := derivativeSlot.map fun derivative => formDerivative derivative IIderiv
  let hessianSlot := hessianSlot.map fun hessian => formHessian hessian IIhess
  pure ⟨result, derivativeSlot, hessianSlot⟩

/-- The function `MidedgeAngleCompressiveFormulation::initializeExtraDOFs`:
the vector is resized to `numExtraDOFs * nEdges`, zeroed, and the entries
`3 * i + j` with `1 <= j < numExtraDOFs` are set to 1. -/
def initializeExtraDOFs (mesh : MeshConnectivity) (_curPos : MatrixX3d R) : VectorXd R :=
  let extraDOFs : VectorXd R := List.replicate (numExtraDOFs * mesh.nEdges) 0
  (List.range mesh.nEdges).foldl (fun extraDOFs i =>
    (List.range' 1 (numExtraDOFs - 1)).foldl (fun extraDOFs j =>
      extraDOFs.set (3 * i + j) 1) extraDOFs) extraDOFs

end MidedgeAngleCompressiveFormulation

/-! ## `edgeDOFPenaltyEnergy` (bending_models/main.cpp) -/

section Penalty

variable {R : Type} [Field R]

/-- The result type of `edgeDOFPenaltyEnergy`: the penalty, its derivative and
the triplets of its Hessian. -/
abbrev PenaltyEval (R : Type) := Eval R (VectorXd R) (List (Triplet R))

/-- The update `v(i) += x`; `none` when the coefficient does not exist. -/
def addCoeff (v : VectorXd R) (i : Nat) (x : R) : Option (VectorXd R) := do
  let old ← v[i]?
  pure (v.set i (old + x))

/-- One iteration `i` of the loop of `edgeDOFPenaltyEnergy`
(source lines 86-99). -/
def penaltyStep (edgeDOFs edge_area : VectorXd R) (penaltyScale : R) (ndof_per_edge : Nat)
    (st : PenaltyEval R) (i : Nat) : Option (PenaltyEval R) := do
  let area ← edge_area[i]?
  let m1 ← edgeDOFs[i * ndof_per_edge + 1]?
  let m2 ← edgeDOFs[i * ndof_per_edge + 2]?
  let penalty := st.value + (m1 - 1) * (m1 - 1) * penaltyScale * area
  let penalty := penalty + (m2 - 1) * (m2 - 1) * penaltyScale * area
  let derivSlot ← match st.derivative with
    | none => pure none
    | some deriv => do
      let deriv ← addCoeff deriv (i * ndof_per_edge + 1) (2 * (m1 - 1) * penaltyScale * area)
      let deriv ← addCoeff deriv (i * ndof_per_edge + 2) (2 * (m2 - 1) * penaltyScale * area)
      pure (some deriv)
  let hessianSlot := st.hessian.map fun hessian =>
    hessian ++
      [⟨i * ndof_per_edge + 1, i * ndof_per_edge + 1, 2 * penaltyScale * area⟩,
       ⟨i * ndof_per_edge + 2, i * ndof_per_edge + 2, 2 * penaltyScale * area⟩]
  pure ⟨penalty, derivSlot, hessianSlot⟩

/-- The function `edgeDOFPenaltyEnergy` of bending_models/main.cpp.  The
derivative slot is resized to `edgeDOFs.size()` and zeroed, the triplet list is
cleared; an integer modulo by zero makes the function fail. -/
def edgeDOFPenaltyEnergy (edgeDOFs edge_area : VectorXd R) (penaltyScale : R)
    (deriv hessian : Bool) : Option (PenaltyEval R) :=
  let nedges : Nat := edge_area.length
  let derivSlot : Option (VectorXd R) :=
    if deriv then some (List.replicate edgeDOFs.length 0) else none
  let hessianSlot : Option (List (Triplet R)) := if hessian then some [] else none
  if edgeDOFs.length = nedges then some ⟨0, derivSlot, hessianSlot⟩
  else if nedges = 0 then none
  else if edgeDOFs.length % nedges ≠ 0 then some ⟨0, derivSlot, hessianSlot⟩
  else
    let ndof_per_edge := edgeDOFs.length / nedges
    (List.range nedges).foldlM (penaltyStep edgeDOFs edge_area penaltyScale ndof_per_edge)
      ⟨0, derivSlot, hessianSlot⟩

/-- Eigen's `SparseMatrix::setFromTriplets`, read as a dense matrix: the
entry (i, j) is the sum of the values of the triplets placed at (i, j). -/
def setFromTriplets (rows cols : Nat) (triplets : List (Triplet R)) :
    Matrix (Fin rows) (Fin cols) R :=
  fun i j =>
    ((triplets.filter (fun t => t.row = i.val ∧ t.col = j.val)).map (fun t => t.value)).sum

/-- The value returned by `edgeDOFPenaltyEnergy`, as a function of an edge-DOF
vector with `N` entries (0 when the call fails). -/
def penaltyValue (edge_area : VectorXd R) (penaltyScale : R) {N : Nat} (x : Fin N → R) : R :=
  ((edgeDOFPenaltyEnergy (List.ofFn x) edge_area penaltyScale true true).map
    (fun r => r.value)).getD 0

/-- The derivative written by `edgeDOFPenaltyEnergy`, as a function of an
edge-DOF vector with `N` entries. -/
def penaltyGradient (edge_area : VectorXd R) (penaltyScale : R) {N : Nat} (x : Fin N → R) :
    Fin N → R :=
  fun j => (((edgeDOFPenaltyEnergy (List.ofFn x) edge_area penaltyScale true true).bind
    (fun r => r.derivative)).getD []).getD j.val 0

/-- The matrix built by `setFromTriplets` from the Hessian triplets written by
`edgeDOFPenaltyEnergy`, as a function of an edge-DOF vector with `N` entries. -/
def penaltyHessian (edge_area : VectorXd R) (penaltyScale : R) {N : Nat} (x : Fin N → R) :
    Matrix (Fin N) (Fin N) R :=
  setFromTriplets N N (((edgeDOFPenaltyEnergy (List.ofFn x) edge_area penaltyScale true true).bind
    (fun r => r.hessian)).getD [])

end Penalty

/-! ## Concrete inputs -/

section Inputs

variable {R : Type} [Field R]

/-- The connectivity of a mesh made of the single face (0, 1, 2): edge 0 joins
the vertices 0 and 1, edge 1 the vertices 0 and 2, edge 2 the vertices 1 and 2;
edge `faceEdge 0 i` is opposite vertex `i`; every edge has the face on one
side and nothing (`-1`) on the other. -/
def isolatedTriangle : MeshConnectivity where
  nFaces := 1
  nVertices := 3
  nEdges := 3
  faceVertex := fun f i => if f = 0 ∧ 0 ≤ i ∧ i < 3 then i else -1
  faceEdge := fun f i => if f = 0 ∧ 0 ≤ i ∧ i < 3 then 2 - i else -1
  faceEdgeOrientation := fun f i => if f = 0 ∧ i = 1 then 1 else 0
  edgeVertex := fun e j =>
    if e = 0 then (if j = 0 then 0 else 1)
    else if e = 1 then (if j = 0 then 0 else 2)
    else if e = 2 then (if j = 0 then 1 else 2)
    else -1
  edgeFace := fun e j =>
    if e = 0 ∨ e = 2 then (if j = 0 then 0 else -1)
    else if e = 1 then (if j = 1 then 0 else -1)
    else -1
  edgeOppositeVertex := fun e j =>
    if e = 0 then (if j = 0 then 2 else -1)
    else if e = 1 then (if j = 1 then 1 else -1)
    else if e = 2 then (if j = 0 then 0 else -1)
    else -1
  vertexOppositeFaceEdge := fun _ _ => -1

/-- Modelled from the spec: triangleAltitude (GeometryDerivatives, not part of
the sources at hand), "the perpendicular distance from vertexIdx's opposite
edge to vertexIdx within face": twice the area of the face over the length of
the edge opposite to the vertex.  The square root is a parameter; a missing
position row is read as the origin. -/
def triangleAltitudeSpec (sqrt : R → R) (mesh : MeshConnectivity) (curPos : MatrixX3d R)
    (face vertexIdx : Int) : R :=
  let p := (rowAt curPos (mesh.faceVertex face vertexIdx)).getD 0
  let q0 := (rowAt curPos (mesh.faceVertex face ((vertexIdx + 1) % 3))).getD 0
  let q1 := (rowAt curPos (mesh.faceVertex face ((vertexIdx + 2) % 3))).getD 0
  let n := cross (q0 - p) (q1 - p)
  let e := q1 - q0
  sqrt (n 0 * n 0 + n 1 * n 1 + n 2 * n 2) / sqrt (e 0 * e 0 + e 1 * e 1 + e 2 * e 2)

/-- The geometric primitives for an evaluation with null slots on a mesh
without interior edge: the altitude of `triangleAltitudeSpec`; `angle` and the
derivatives, which such an evaluation never consults, are zero. -/
def boundaryGeometry (sqrt : R → R) : GeometryDerivatives R where
  angle := fun _ _ _ => 0
  angleDeriv := fun _ _ _ => 0
  angleHess := fun _ _ _ => 0
  triangleAltitude := triangleAltitudeSpec sqrt
  triangleAltitudeDeriv := fun _ _ _ _ => 0
  triangleAltitudeHess := fun _ _ _ _ => 0

/-- Modelled from the spec: the St. Venant-Kirchhoff bending energy of a face
(the material models are not part of the sources at hand), section 4.4:
`lameAlpha/2 * trace(M)² + lameBeta * trace(M²)` with `M = Abar⁻¹ (B - Bbar)`,
scaled by `area(Abar) * thickness³/12`, where the rest area of a face is
`sqrt(det(abar)) / 2` (as in bending_models/main.cpp, line 287).  The square
root is a parameter. -/
def stvkBendingEnergy (sqrt : R → R) (thickness lameAlpha lameBeta : R)
    (abar bbar b : Matrix (Fin 2) (Fin 2) R) : R :=
  let abarinv : Matrix (Fin 2) (Fin 2) R := (abar.det)⁻¹ • abar.adjugate
  let M := abarinv * (b - bbar)
  let area := sqrt abar.det / 2
  thickness ^ 3 / 12 * area * (lameAlpha / 2 * M.trace ^ 2 + lameBeta * (M * M).trace)

end Inputs

/-! ## The drivers: material parameters and ground-truth energies -/

section Drivers

variable {R : Type} [Field R]

/-- The function `lameParameters` of bending_models/main.cpp; the globals
`thickness` and `poisson` it reads are parameters, the two output references
are returned as the pair (alpha, beta). -/
def lameParameters (thickness poisson : R) : R × R :=
  let young := 1 / thickness
  let alpha := young * poisson / (1 - poisson * poisson)
  let beta := young / 2 / (1 + poisson)
  (alpha, beta)

/-- The function `lame_parameters` of example/optimize_edge_dofs.cpp; the
globals `young` and `poisson` it reads are parameters, the two output
references are returned as the pair (alpha, beta). -/
def lame_parameters (young poisson : R) : R × R :=
  let alpha := young * poisson / (1 - poisson * poisson)
  let beta := young / 2 / (1 + poisson)
  (alpha, beta)

/-- Eigen's `inverse()` of a 2x2 matrix: the adjugate divided by the
determinant. -/
def inverse2 (A : Matrix (Fin 2) (Fin 2) R) : Matrix (Fin 2) (Fin 2) R :=
  (A.det)⁻¹ • A.adjugate

/-- The constant `PI` of `measureCylinderEnergy` and `measureSphereEnergy`. -/
def PI : R := 3.1415926535898

/-- The field `result.exact` computed by `measureCylinderEnergy`
(bending_models/main.cpp, lines 338-356); none of the other statements of the
function writes a variable read here. -/
def cylinderExact (thickness lameAlpha lameBeta curRadius curHeight : R) : R :=
  let abar : Matrix (Fin 2) (Fin 2) R := 1
  let b : Matrix (Fin 2) (Fin 2) R := !![1 / curRadius, 0; 0, 0]
  let M := inverse2 abar * b
  let svnorm := lameAlpha / 2 * M.trace * M.trace + lameBeta * (M * M).trace
  let coeff := thickness * thickness * thickness / 12
  let area := PI * curRadius * curHeight
  svnorm * coeff * area

/-- The field `result.exact` computed by `measureSphereEnergy`
(bending_models/main.cpp, lines 456-470); none of the other statements of the
function writes a variable read here. -/
def sphereExact (thickness lameAlpha lameBeta radius : R) : R :=
  let abar : Matrix (Fin 2) (Fin 2) R := 1
  let b : Matrix (Fin 2) (Fin 2) R := !![1 / radius, 0; 0, 1 / radius]
  let M := inverse2 abar * b
  let svnorm := lameAlpha / 2 * M.trace * M.trace + lameBeta * (M * M).trace
  let coeff := thickness * thickness * thickness / 12
  let area := 4 * PI * radius * radius
  svnorm * coeff * area

end Drivers

/-! ## `run_simulation` (example/optimize_edge_dofs.cpp): the optimizer variable -/

section RunSimulation

variable {R : Type} [Field R]

/-- The test `!fixed_verts || !fixed_verts->count(i)` of `run_simulation`:
vertex `i` is free.  The pointer `fixed_verts` is `none` when null. -/
def isFreeVertex (fixed_verts : Option (List Int)) (i : Nat) : Bool :=
  match fixed_verts with
  | none => true
  | some s => !(s.contains (i : Int))

/-- The update `v.segment<3>(n) = p`; `none` when the segment leaves `v`. -/
def setSegment3 (v : VectorXd R) (n : Nat) (p : Vector3d R) : Option (VectorXd R) :=
  if n + 3 ≤ v.length then some (((v.set n (p 0)).set (n + 1) (p 1)).set (n + 2) (p 2)) else none

/-- The segment `v.segment<3>(n)`; `none` when it leaves `v`. -/
def segment3 (v : VectorXd R) (n : Nat) : Option (Vector3d R) :=
  if n + 3 ≤ v.length then some ![v.getD n 0, v.getD (n + 1) 0, v.getD (n + 2) 0] else none

/-- The tail `v.tail(k)`; `none` when `v` has fewer than `k` entries. -/
def tail (v : VectorXd R) (k : Nat) : Option (VectorXd R) :=
  if k ≤ v.length then some (v.drop (v.length - k)) else none

/-- The state built by the set-up loops of `run_simulation`
(source lines 109-129). -/
structure ProjectionSetup (R : Type) where
  Pcoeffs : List (Triplet R)
  fixed_dofs : VectorXd R
  nfree : Nat

/-- The set-up of the projection in `run_simulation` (source lines 109-129):
the triplets of `P`, the vector `fixed_dofs` holding the positions of the
fixed vertices, and the number `nfree` of optimizer variables. -/
def projectionSetup (cur_pos : MatrixX3d R) (fixed_verts : Option (List Int))
    (nedges nedgedofs : Nat) : ProjectionSetup R :=
  let fixed_dofs : VectorXd R := List.replicate (3 * cur_pos.length) 0
  let st : ProjectionSetup R := ⟨[], fixed_dofs, 0⟩
  let st := (List.range cur_pos.length).foldl (fun (st : ProjectionSetup R) i =>
    if isFreeVertex fixed_verts i then
      { st with
        Pcoeffs := st.Pcoeffs ++
          [⟨st.nfree, 3 * i, 1⟩, ⟨st.nfree + 1, 3 * i + 1, 1⟩, ⟨st.nfree + 2, 3 * i + 2, 1⟩],
        nfree := st.nfree + 3 }
    else
      { st with
        fixed_dofs :=
          (setSegment3 st.fixed_dofs (3 * i) (cur_pos.getD i 0)).getD st.fixed_dofs }) st
  let st := (List.range (nedges * nedgedofs)).foldl (fun (st : ProjectionSetup R) i =>
    { st with
      Pcoeffs := st.Pcoeffs ++ [⟨st.nfree, 3 * cur_pos.length + i, 1⟩],
      nfree := st.nfree + 1 }) st
  st

/-- The lambda `pos_edgedofs_to_variable` of `run_simulation`
(source lines 137-148).  The vector `var(nfree)` starts uninitialised (read
here as zeros); a write outside it, or an `edge_DOFs` whose size is not
`nedges * nedgedofs`, makes the call fail. -/
def pos_edgedofs_to_variable (fixed_verts : Option (List Int)) (nedges nedgedofs nfree : Nat)
    (pos : MatrixX3d R) (edge_DOFs : VectorXd R) : Option (VectorXd R) := do
  let var : VectorXd R := List.replicate nfree 0
  let (var, _) ← (List.range pos.length).foldlM (fun (st : VectorXd R × Nat) i =>
    if isFreeVertex fixed_verts i then do
      let var ← setSegment3 st.1 st.2 (pos.getD i 0)
      pure (var, st.2 + 3)
    else pure st) (var, 0)
  if edge_DOFs.length = nedges * nedgedofs ∧ nedges * nedgedofs ≤ var.length then
    pure (var.take (var.length - nedges * nedgedofs) ++ edge_DOFs)
  else none

/-- The lambda `variable_to_pos_edgedofs` of `run_simulation`
(source lines 150-163): `nrows` is `cur_pos.rows()` and `fixed_dofs` the vector
filled at set-up. -/
def variable_to_pos_edgedofs (fixed_verts : Option (List Int)) (nedges nedgedofs nrows : Nat)
    (fixed_dofs : VectorXd R) (var : VectorXd R) : Option (MatrixX3d R × VectorXd R) := do
  let (pos, _) ← (List.range nrows).foldlM (fun (st : MatrixX3d R × Nat) i =>
    if isFreeVertex fixed_verts i then do
      let row ← segment3 var st.2
      pure (st.1 ++ [row], st.2 + 3)
    else do
      let row ← segment3 fixed_dofs (3 * i)
      pure (st.1 ++ [row], st.2)) (([] : MatrixX3d R), 0)
  let edge_DOFs ← tail var (nedges * nedgedofs)
  pure (pos, edge_DOFs)

end RunSimulation

/-! ## `optimizeEdgeDOFs`: the objective (bending_models/main.cpp) -/

section Objective

variable {R : Type} [Field R]

/-- Modelled from the spec: HessianProjectType (declared in a header that is
not part of the sources at hand); the two values that bending_models/main.cpp
passes to `elasticEnergy`. -/
inductive HessianProjectType where
  | kNone
  | kMaxZero
deriving DecidableEq

/-- Modelled from the spec: ShellEnergy (bending_models/ShellEnergy.h is not
part of the sources at hand), an energy model that computes "a scalar elastic
energy plus its exact analytic gradient and sparse Hessian with respect to
vertex positions and auxiliary edge-director degrees of freedom".  The call
`elasticEnergy(curPos, edgeDOFs, bendingOnly, derivative, hessian, projType)`
is taken as three parameters: the returned value, the gradient written to a
non-null `derivative` (position coordinates, then edge DOFs) and the triplets
written to a non-null `hessian`. -/
structure ShellEnergy (R : Type) where
  elasticEnergy : MatrixX3d R → VectorXd R → Bool → R
  elasticEnergyDeriv : MatrixX3d R → VectorXd R → Bool → VectorXd R
  elasticEnergyHess : MatrixX3d R → VectorXd R → Bool → HessianProjectType → List (Triplet R)

/-- Eigen::SparseMatrix, read through its dimensions and coefficients. -/
structure SparseMatrix (R : Type) where
  rows : Nat
  cols : Nat
  coeff : Nat → Nat → R

/-- The sum of the values of the triplets placed at (i, j). -/
def tripletSum (triplets : List (Triplet R)) (i j : Nat) : R :=
  ((triplets.filter (fun t => t.row = i ∧ t.col = j)).map (fun t => t.value)).sum

/-- Eigen's `setFromTriplets` on a sparse matrix of the given size: duplicates
are summed; a triplet outside the matrix makes the call fail. -/
def sparseFromTriplets (rows cols : Nat) (triplets : List (Triplet R)) :
    Option (SparseMatrix R) :=
  if triplets.all (fun t => decide (t.row < rows) && decide (t.col < cols)) then
    some ⟨rows, cols, tripletSum triplets⟩
  else none

/-- Eigen's `A.transpose()`. -/
def SparseMatrix.transpose (A : SparseMatrix R) : SparseMatrix R :=
  ⟨A.cols, A.rows, fun i j => A.coeff j i⟩

/-- Eigen's product `A * B`; `none` when the inner dimensions differ. -/
def SparseMatrix.mul (A B : SparseMatrix R) : Option (SparseMatrix R) :=
  if A.cols = B.rows then
    some ⟨A.rows, B.cols, fun i j => ∑ k ∈ Finset.range A.cols, A.coeff i k * B.coeff k j⟩
  else none

/-- Eigen's update `A += B`; `none` when the dimensions differ. -/
def SparseMatrix.add (A B : SparseMatrix R) : Option (SparseMatrix R) :=
  if A.rows = B.rows ∧ A.cols = B.cols then
    some ⟨A.rows, A.cols, fun i j => A.coeff i j + B.coeff i j⟩
  else none

/-- Eigen's product `A * v` with a dense vector; `none` when the sizes do not
fit. -/
def SparseMatrix.mulVec (A : SparseMatrix R) (v : VectorXd R) : Option (VectorXd R) :=
  if A.cols = v.length then
    some ((List.range A.rows).map
      (fun i => ∑ k ∈ Finset.range A.cols, A.coeff i k * v.getD k 0))
  else none

/-- Eigen's update `u += v` of dense vectors; `none` when the sizes differ. -/
def addVec (u v : VectorXd R) : Option (VectorXd R) :=
  if u.length = v.length then some (List.zipWith (fun a b => a + b) u v) else none

/-- The matrix `P` of `optimizeEdgeDOFs` (source lines 107-118): it has
`nedgedofs` rows and `nposdofs + nedgedofs` columns, and the triplets
`(i, nposdofs + i, 1)`. -/
def edgeProjection (nposdofs nedgedofs : Nat) : Option (SparseMatrix R) :=
  sparseFromTriplets nedgedofs (nposdofs + nedgedofs)
    ((List.range nedgedofs).map (fun i => (⟨i, nposdofs + i, 1⟩ : Triplet R)))

/-- The result type of the objective of `optimizeEdgeDOFs`: the total energy,
the gradient and the Hessian. -/
abbrev ObjectiveEval (R : Type) := Eval R (VectorXd R) (SparseMatrix R)

/-- The lambda `obj_func` of `optimizeEdgeDOFs` (source lines 126-155).  The
variables it captures are parameters: the energy model, `curPos`,
`edge_area`, the matrices `P` and `PT` and `penaltyScale`. -/
def obj_func (energy : ShellEnergy R) (curPos : MatrixX3d R) (edge_area : VectorXd R)
    (P PT : SparseMatrix R) (penaltyScale : R) (var : VectorXd R)
    (grad hessian psd_proj : Bool) : Option (ObjectiveEval R) := do
  let hessian_triplets : List (Triplet R) :=
    if hessian then
      energy.elasticEnergyHess curPos var true
        (if psd_proj then HessianProjectType.kMaxZero else HessianProjectType.kNone)
    else []
  let total_energy : R := 0
  let elastic_energy := energy.elasticEnergy curPos var true
  let total_energy := total_energy + elastic_energy
  let pen ← edgeDOFPenaltyEnergy var edge_area penaltyScale grad hessian
  let edge_penalty_deriv := pen.derivative.getD []
  let edge_penalty_hessian := pen.hessian.getD []
  let penalty := pen.value
  let total_energy := total_energy + penalty
  let gradSlot ←
    if grad then do
      let g ← P.mulVec (energy.elasticEnergyDeriv curPos var true)
      let g ← addVec g edge_penalty_deriv
      pure (some g)
    else pure none
  let hessianSlot ←
    if hessian then do
      let H ← sparseFromTriplets (var.length + 3 * curPos.length)
        (var.length + 3 * curPos.length) hessian_triplets
      let PH ← P.mul H
      let H ← PH.mul PT
      let edge_penalty_hessian_mat ← sparseFromTriplets var.length var.length edge_penalty_hessian
      let H ← H.add edge_penalty_hessian_mat
      pure (some H)
    else pure none
  pure ⟨total_energy, gradSlot, hessianSlot⟩

/-- The objective that `optimizeEdgeDOFs` hands to the Newton solver (source
lines 106-155): `obj_func` with `P` built for `nposdofs = curPos.rows() * 3`
and `nedgedofs = edgeDOFs.size()`, `PT = P.transpose()` and
`penaltyScale = 1e3 * thickness`, where `thickness` is the global variable. -/
def optimizeObjective (thickness : R) (energy : ShellEnergy R) (curPos : MatrixX3d R)
    (edge_area : VectorXd R) (edgeDOFs : VectorXd R) (var : VectorXd R)
    (grad hessian psd_proj : Bool) : Option (ObjectiveEval R) := do
  let nposdofs := curPos.length * 3
  let nedgedofs := edgeDOFs.length
  let P ← edgeProjection nposdofs nedgedofs
  let PT := P.transpose
  let stiffness : R := 1000
  let penaltyScale := stiffness * thickness
  obj_func energy curPos edge_area P PT penaltyScale var grad hessian psd_proj

end Objective

/-! ## The energy `stvkIncompressibleDir` of the two measurements -/

section Measurements

variable {R : Type} [Field R]

/-- The assignment `v[i] = x`; `none` when the coefficient does not exist. -/
def setCoeff (v : VectorXd R) (i : Nat) (x : R) : Option (VectorXd R) :=
  if i < v.length then some (v.set i x) else none

/-- The computation of `result.stvkIncompressibleDir` in
`measureCylinderEnergy` (bending_models/main.cpp, lines 292-293 and 299-306),
from the director angles `diredgeDOFs` left by `optimizeEdgeDOFs`.  An integer
division by zero makes the computation fail. -/
def cylinderIncompressibleDir (_stvk_dir_energyModel stvk_compress_dir_energyModel : ShellEnergy R)
    (mesh : MeshConnectivity) (curPos : MatrixX3d R) (diredgeDOFs : VectorXd R) : Option R := do
  let zero_compressed_diredgeDOFs : VectorXd R :=
    MidedgeAngleCompressiveFormulation.initializeExtraDOFs mesh curPos
  if mesh.nEdges = 0 then none
  let compressed_nedgedofs := zero_compressed_diredgeDOFs.length / mesh.nEdges
  let zero_compressed_diredgeDOFs ← (List.range mesh.nEdges).foldlM (fun (v : VectorXd R) i => do
    let angle ← diredgeDOFs[i]?
    let v ← setCoeff v (i * compressed_nedgedofs) angle
    let v ← setCoeff v (i * compressed_nedgedofs + 1) 1
    let v ← setCoeff v (i * compressed_nedgedofs + 2) 1
    pure v) zero_compressed_diredgeDOFs
  pure (stvk_compress_dir_energyModel.elasticEnergy curPos zero_compressed_diredgeDOFs true)

/-- The computation of `result.stvkIncompressibleDir` in `measureSphereEnergy`
(bending_models/main.cpp, lines 437-438 and 447-454), from the director angles
`diredgeDOFs` left by `optimizeEdgeDOFs`.  An integer division by zero makes
the computation fail. -/
def sphereIncompressibleDir (stvk_dir_energyModel _stvk_compress_dir_energyModel : ShellEnergy R)
    (mesh : MeshConnectivity) (curPos : MatrixX3d R) (diredgeDOFs : VectorXd R) : Option R := do
  let zero_compressed_diredgeDOFs : VectorXd R :=
    MidedgeAngleCompressiveFormulation.initializeExtraDOFs mesh curPos
  if mesh.nEdges = 0 then none
  let compressed_nedgedofs := zero_compressed_diredgeDOFs.length / mesh.nEdges
  let zero_compressed_diredgeDOFs ← (List.range mesh.nEdges).foldlM (fun (v : VectorXd R) i => do
    let angle ← diredgeDOFs[i]?
    let v ← setCoeff v (i * compressed_nedgedofs) angle
    pure v) zero_compressed_diredgeDOFs
  pure (stvk_dir_energyModel.elasticEnergy curPos zero_compressed_diredgeDOFs true)

end Measurements

/-! ## Sample energy models -/

section Samples

variable {R : Type} [Field R]

/-- A sample energy model with one DOF per edge, for evaluating the
measurements: the sum of the director angles `edgeDOFs[e]` of the first
`nEdges` edges; its derivative and Hessian are not consulted. -/
def sampleDirectorEnergy (nEdges : Nat) : ShellEnergy R where
  elasticEnergy := fun _ edgeDOFs _ => ((List.range nEdges).map (fun e => edgeDOFs.getD e 0)).sum
  elasticEnergyDeriv := fun _ _ _ => []
  elasticEnergyHess := fun _ _ _ _ => []

/-- A sample energy model with three DOFs per edge, for evaluating the
measurements: the sum of the director angles `edgeDOFs[3 * e]` of the first
`nEdges` edges; its derivative and Hessian are not consulted. -/
def sampleCompressiveEnergy (nEdges : Nat) : ShellEnergy R where
  elasticEnergy := fun _ edgeDOFs _ =>
    ((List.range nEdges).map (fun e => edgeDOFs.getD (3 * e) 0)).sum
  elasticEnergyDeriv := fun _ _ _ => []
  elasticEnergyHess := fun _ _ _ _ => []

end Samples

/-! ## The objective as a function of the edge DOFs -/

section ObjectiveFunctions

variable {R : Type} [Field R]

/-- The value returned by the objective of `optimizeEdgeDOFs`, as a function
of a variable vector with `N` entries (0 when the call fails). -/
def objectiveValue (thickness : R) (energy : ShellEnergy R) (curPos : MatrixX3d R)
    (edge_area : VectorXd R) {N : Nat} (x : Fin N → R) : R :=
  ((optimizeObjective thickness energy curPos edge_area (List.ofFn x) (List.ofFn x)
    false false false).map (fun r => r.value)).getD 0

/-- The gradient written by the objective of `optimizeEdgeDOFs`, as a function
of a variable vector with `N` entries. -/
def objectiveGradient (thickness : R) (energy : ShellEnergy R) (curPos : MatrixX3d R)
    (edge_area : VectorXd R) {N : Nat} (x : Fin N → R) : Fin N → R :=
  fun j => (((optimizeObjective thickness energy curPos edge_area (List.ofFn x) (List.ofFn x)
    true false false).bind (fun r => r.derivative)).getD []).getD j.val 0

/-- The Hessian written by the objective of `optimizeEdgeDOFs` (without
projection), as a function of a variable vector with `N` entries. -/
def objectiveHessian (thickness : R) (energy : ShellEnergy R) (curPos : MatrixX3d R)
    (edge_area : VectorXd R) {N : Nat} (x : Fin N → R) : Matrix (Fin N) (Fin N) R :=
  fun i j => (((optimizeObjective thickness energy curPos edge_area (List.ofFn x) (List.ofFn x)
    false true false).bind (fun r => r.hessian)).map (fun H => H.coeff i.val j.val)).getD 0

end ObjectiveFunctions

section SampleQuadratic

variable {R : Type} [Field R]

/-- A sample energy model for evaluating the objective: half the sum of the
squares of the edge DOFs, with its gradient (zero on the position
coordinates, the edge DOFs on the edge-DOF block) and its Hessian (ones on
the diagonal of the edge-DOF block). -/
def sampleQuadraticEnergy : ShellEnergy R where
  elasticEnergy := fun _ edgeDOFs _ => (edgeDOFs.map (fun a => a * a / 2)).sum
  elasticEnergyDeriv := fun curPos edgeDOFs _ => List.replicate (3 * curPos.length) 0 ++ edgeDOFs
  elasticEnergyHess := fun curPos edgeDOFs _ _ =>
    (List.range edgeDOFs.length).map
      (fun i => (⟨3 * curPos.length + i, 3 * curPos.length + i, 1⟩ : Triplet R))

end SampleQuadratic

/-! ## The chain rule through `(n0, n1, axis)`, as the claims on `edgeTheta` state it -/

section ChainRule

variable {R : Type} [Field R]

/-- The three vectors that `edgeTheta` hands to `angle` (source lines 30-32),
`n0 = (q0 - q2) x (q1 - q2)`, `n1 = (q1 - q3) x (q0 - q3)` and
`axis = q1 - q0`, as one vector of nine coordinates, in terms of the twelve
coordinates of `(q0, q1, q2, q3)`. -/
def edgeNormals (q : Fin 12 → R) : Fin 9 → R :=
  let q0 : Vector3d R := ![q 0, q 1, q 2]
  let q1 : Vector3d R := ![q 3, q 4, q 5]
  let q2 : Vector3d R := ![q 6, q 7, q 8]
  let q3 : Vector3d R := ![q 9, q 10, q 11]
  let n0 := cross (q0 - q2) (q1 - q2)
  let n1 := cross (q1 - q3) (q0 - q3)
  let axis := q1 - q0
  ![n0 0, n0 1, n0 2, n1 0, n1 1, n1 2, axis 0, axis 1, axis 2]

/-- The 9x12 Jacobian `J` of `(n0, n1, axis)` with respect to
`(q0, q1, q2, q3)`, written by 3x3 blocks as in the claims: the rows of `n0`
are `[q2-q1]x, [q0-q2]x, [q1-q0]x, 0`, the rows of `n1` are
`[q1-q3]x, [q3-q0]x, 0, [q0-q1]x` and the rows of `axis` are `-I, I, 0, 0`. -/
def chainRuleJacobian (q0 q1 q2 q3 : Vector3d R) : Matrix (Fin 9) (Fin 12) R :=
  let J : Matrix (Fin 9) (Fin 12) R := 0
  let J := addBlock J 0 0 (crossMatrix (q2 - q1))
  let J := addBlock J 0 3 (crossMatrix (q0 - q2))
  let J := addBlock J 0 6 (crossMatrix (q1 - q0))
  let J := addBlock J 3 0 (crossMatrix (q1 - q3))
  let J := addBlock J 3 3 (crossMatrix (q3 - q0))
  let J := addBlock J 3 9 (crossMatrix (q0 - q1))
  let J := addBlock J 6 0 (-(1 : Matrix (Fin 3) (Fin 3) R))
  let J := addBlock J 6 3 (1 : Matrix (Fin 3) (Fin 3) R)
  J

/-- The full chain-rule derivative of `(q0, q1, q2, q3) ↦ angle(n0, n1, axis)`
as the claim on the derivative of `edgeTheta` states it, block by block, for
the derivative row `(g_n0, g_n1, g_axis)` of `angle`. -/
def chainRuleDerivative (q0 q1 q2 q3 : Vector3d R) (angderiv : Matrix (Fin 1) (Fin 9) R) :
    Matrix (Fin 1) (Fin 12) R :=
  let g_n0 := block angderiv 0 0 1 3
  let g_n1 := block angderiv 0 3 1 3
  let g_axis := block angderiv 0 6 1 3
  let D : Matrix (Fin 1) (Fin 12) R := 0
  let D := addBlock D 0 0 (g_n0 * crossMatrix (q2 - q1) + g_n1 * crossMatrix (q1 - q3) - g_axis)
  let D := addBlock D 0 3 (g_n0 * crossMatrix (q0 - q2) + g_n1 * crossMatrix (q3 - q0) + g_axis)
  let D := addBlock D 0 6 (g_n0 * crossMatrix (q1 - q0))
  let D := addBlock D 0 9 (g_n1 * crossMatrix (q0 - q1))
  D

/-- The second-order terms of the chain rule, which arise because `n0` and
`n1` are bilinear in the vertex positions: with `n0 = q0 x q1 + q1 x q2 +
q2 x q0` the block of the vertex pair `(q0, q1)`, `(q1, q2)` and `(q2, q0)` is
`-[g_n0]x` and the transposed pairs get `+[g_n0]x`; with `n1 = q1 x q0 +
q3 x q1 + q0 x q3` the same holds for `g_n1` and the pairs `(q1, q0)`,
`(q3, q1)` and `(q0, q3)`. -/
def chainRuleSecondOrder (angderiv : Matrix (Fin 1) (Fin 9) R) : Matrix (Fin 12) (Fin 12) R :=
  let g_n0 : Vector3d R := fun k => angderiv 0 ⟨k.val, by omega⟩
  let g_n1 : Vector3d R := fun k => angderiv 0 ⟨3 + k.val, by omega⟩
  let S : Matrix (Fin 12) (Fin 12) R := 0
  let S := addBlock S 0 3 (-crossMatrix g_n0)
  let S := addBlock S 3 6 (-crossMatrix g_n0)
  let S := addBlock S 6 0 (-crossMatrix g_n0)
  let S := addBlock S 3 0 (crossMatrix g_n0)
  let S := addBlock S 6 3 (crossMatrix g_n0)
  let S := addBlock S 0 6 (crossMatrix g_n0)
  let S := addBlock S 3 0 (-crossMatrix g_n1)
  let S := addBlock S 9 3 (-crossMatrix g_n1)
  let S := addBlock S 0 9 (-crossMatrix g_n1)
  let S := addBlock S 0 3 (crossMatrix g_n1)
  let S := addBlock S 3 9 (crossMatrix g_n1)
  let S := addBlock S 9 0 (crossMatrix g_n1)
  S

/-- The full chain-rule Hessian of `(q0, q1, q2, q3) ↦ angle(n0, n1, axis)` as
the claim on the Hessian of `edgeTheta` states it: `J^T * A * J` plus the
second-order terms, for the derivative row `g` and the Hessian `A` of
`angle`. -/
def chainRuleHessian (q0 q1 q2 q3 : Vector3d R) (angderiv : Matrix (Fin 1) (Fin 9) R)
    (anghess : Matrix (Fin 9) (Fin 9) R) : Matrix (Fin 12) (Fin 12) R :=
  (chainRuleJacobian q0 q1 q2 q3).transpose * anghess * chainRuleJacobian q0 q1 q2 q3 +
    chainRuleSecondOrder angderiv

/-- The derivative row of `angle` with the entries for `axis` replaced by 0. -/
def withoutAxis (angderiv : Matrix (Fin 1) (Fin 9) R) : Matrix (Fin 1) (Fin 9) R :=
  fun i j => if 6 ≤ j.val then 0 else angderiv i j

/-- The Hessian of `angle` with the axis-axis block replaced by 0. -/
def withoutAxisAxis (anghess : Matrix (Fin 9) (Fin 9) R) : Matrix (Fin 9) (Fin 9) R :=
  fun i j => if 6 ≤ i.val ∧ 6 ≤ j.val then 0 else anghess i j

/-- The connectivity of a mesh made of the faces (0, 1, 2) and (1, 0, 3),
which share the interior edge 0 joining the vertices 0 and 1; the edges 1 to 4
join (0, 2), (1, 2), (0, 3) and (1, 3) and lie on the boundary; edge
`faceEdge f i` is opposite vertex `i` of face `f`. -/
def twoTriangles : MeshConnectivity where
  nFaces := 2
  nVertices := 4
  nEdges := 5
  faceVertex := fun f i =>
    if f = 0 then (if i = 0 then 0 else if i = 1 then 1 else if i = 2 then 2 else -1)
    else if f = 1 then (if i = 0 then 1 else if i = 1 then 0 else if i = 2 then 3 else -1)
    else -1
  faceEdge := fun f i =>
    if f = 0 then (if i = 0 then 2 else if i = 1 then 1 else if i = 2 then 0 else -1)
    else if f = 1 then (if i = 0 then 3 else if i = 1 then 4 else if i = 2 then 0 else -1)
    else -1
  faceEdgeOrientation := fun f i =>
    if f = 0 then (if i = 1 then 1 else 0)
    else if f = 1 then (if i = 0 then 0 else 1)
    else 0
  edgeVertex := fun e j =>
    if e = 0 then (if j = 0 then 0 else 1)
    else if e = 1 then (if j = 0 then 0 else 2)
    else if e = 2 then (if j = 0 then 1 else 2)
    else if e = 3 then (if j = 0 then 0 else 3)
    else if e = 4 then (if j = 0 then 1 else 3)
    else -1
  edgeFace := fun e j =>
    if e = 0 then (if j = 0 then 0 else 1)
    else if e = 1 then (if j = 1 then 0 else -1)
    else if e = 2 then (if j = 0 then 0 else -1)
    else if e = 3 then (if j = 0 then 1 else -1)
    else if e = 4 then (if j = 1 then 1 else -1)
    else -1
  edgeOppositeVertex := fun e j =>
    if e = 0 then (if j = 0 then 2 else 3)
    else if e = 1 then (if j = 1 then 1 else -1)
    else if e = 2 then (if j = 0 then 0 else -1)
    else if e = 3 then (if j = 0 then 1 else -1)
    else if e = 4 then (if j = 1 then 0 else -1)
    else -1
  vertexOppositeFaceEdge := fun f i =>
    if f = 0 ∧ i = 2 then 3 else if f = 1 ∧ i = 2 then 2 else -1

end ChainRule

/-! ## Local coordinates of a face -/

section LocalCoordinates

variable {R : Type} [Field R]

/-- The coordinate `k` of a vector, read as 0 outside the vector. -/
def coord {n : Nat} (x : Fin n → R) (k : Nat) : R :=
  if h : k < n then x ⟨k, h⟩ else 0

/-- The nine coordinates of the three vertices in the slots `hv` of the 27
local variables of a face, the argument of `triangleAltitude`. -/
def gatherH (hv : Fin 3 → Nat) (x : Fin 27 → R) : Fin 9 → R :=
  fun p => coord x (3 * hv ⟨p.val / 3, by omega⟩ + p.val % 3)

/-- The twelve coordinates of the four vertices in the slots `av` of the 27
local variables of a face, the argument of `edgeTheta`. -/
def gatherA (av : Fin 4 → Nat) (x : Fin 27 → R) : Fin 12 → R :=
  fun p => coord x (3 * av ⟨p.val / 3, by omega⟩ + p.val % 3)

/-- The slots `hv` of `secondFundamentalFormEntries` for the local edge `i`
(source lines 141-144). -/
def altitudeSlots (i : Nat) : Fin 3 → Nat :=
  fun j => (i + j.val) % 3

/-- The slots `av` of `secondFundamentalFormEntries` for the local edge `i`
with the given orientation (source lines 146-157). -/
def thetaSlots (i : Nat) (orientation : Fin 2) : Fin 4 → Nat :=
  if orientation = 0 then ![(i + 1) % 3, (i + 2) % 3, i, 3 + i]
  else ![(i + 2) % 3, (i + 1) % 3, 3 + i, i]

end LocalCoordinates

/-! ## The derivative of a curvature entry, as the claims state it -/

section ClaimedEntries

variable {R : Type} [Field R]

/-- The gradient of `II[i] = 2*h*tan(alpha)*m` with respect to the 27 local
variables as the claim on the derivative of `secondFundamentalFormEntries`
states it: `2*tan(alpha)*m*h'` scattered to the slots `hv`, plus
`h*m*theta'/cos²(alpha)` scattered to the slots `av`, plus `2*h*m*s/cos²(alpha)`
in column `18 + 3i` and `2*h*tan(alpha)` in column `18 + 3i + offset`. -/
def claimedEntryRow (tan cos : R → R) (i : Nat) (hv : Fin 3 → Nat) (av : Fin 4 → Nat)
    (altitude alpha orient vec_norm : R) (offset : Nat)
    (hderiv : Matrix (Fin 1) (Fin 9) R) (thetaderiv : Matrix (Fin 1) (Fin 12) R) : Fin 27 → R :=
  fun c =>
    (∑ j : Fin 3, ∑ b : Fin 3, if 3 * hv j + b.val = c.val then
        2 * tan alpha * coord (hderiv 0) (3 * j.val + b.val) * vec_norm else 0) +
    (∑ j : Fin 4, ∑ b : Fin 3, if 3 * av j + b.val = c.val then
        altitude / cos alpha / cos alpha * coord (thetaderiv 0) (3 * j.val + b.val) * vec_norm
      else 0) +
    (if 18 + 3 * i = c.val then 2 * altitude / cos alpha / cos alpha * orient * vec_norm else 0) +
    (if 18 + 3 * i + offset = c.val then 2 * tan alpha * altitude else 0)

end ClaimedEntries

/-! ## The Hessian of a curvature entry, as the claims state it -/

section ClaimedHessian

variable {R : Type} [Field R]

/-- The bilinear form `u^T M v` of a square matrix. -/
def bilinearForm {n : Nat} (u : Fin n → R) (M : Matrix (Fin n) (Fin n) R) (v : Fin n → R) : R :=
  ∑ a : Fin n, ∑ b : Fin n, u a * M a b * v b

/-- The Hessian of `II[i] = 2*h*tan(alpha)*m` with respect to the 27 local
variables as the claim on the Hessians of `secondFundamentalFormEntries`
states it, read as a bilinear form in two directions `u` and `v`: the
altitude-altitude blocks `2*tan(alpha)*m*h''`, the altitude-theta cross blocks
`m*sec²(alpha)*(theta'^T h')` and its transpose, the theta-theta blocks
`h*m*sec²(alpha)*theta'' + h*m*tan(alpha)*sec²(alpha)*theta'^T theta'`, the
angle-DOF row and column `2*s*m*sec²(alpha)*h' + 2*s*h*m*tan(alpha)*sec²(alpha)*theta'`,
the angle-angle entry `4*h*m*tan(alpha)*sec²(alpha)`, the magnitude row and
column `2*tan(alpha)*h' + h*sec²(alpha)*theta'`, the magnitude-angle entries
`2*s*h*sec²(alpha)` and the magnitude-magnitude entry 0; the blocks of `h'`,
`h''` sit at the slots `hv` and those of `theta'`, `theta''` at the slots
`av`. -/
def claimedEntryHessian (tan cos : R → R) (i : Nat) (hv : Fin 3 → Nat) (av : Fin 4 → Nat)
    (altitude alpha orient vec_norm : R) (offset : Nat)
    (hderiv : Matrix (Fin 1) (Fin 9) R) (hhess : Matrix (Fin 9) (Fin 9) R)
    (thetaderiv : Matrix (Fin 1) (Fin 12) R) (thetahess : Matrix (Fin 12) (Fin 12) R)
    (u v : Fin 27 → R) : R :=
  let sec2 := 1 / cos alpha / cos alpha
  let hu := ∑ p : Fin 9, hderiv 0 p * gatherH hv u p
  let hvv := ∑ p : Fin 9, hderiv 0 p * gatherH hv v p
  let tu := ∑ p : Fin 12, thetaderiv 0 p * gatherA av u p
  let tv := ∑ p : Fin 12, thetaderiv 0 p * gatherA av v p
  let uphi := coord u (18 + 3 * i)
  let vphi := coord v (18 + 3 * i)
  let um := coord u (18 + 3 * i + offset)
  let vm := coord v (18 + 3 * i + offset)
  2 * tan alpha * vec_norm * bilinearForm (gatherH hv u) hhess (gatherH hv v) +
  vec_norm * sec2 * (tu * hvv + hu * tv) +
  altitude * vec_norm * sec2 * bilinearForm (gatherA av u) thetahess (gatherA av v) +
  altitude * vec_norm * tan alpha * sec2 * (tu * tv) +
  (uphi * (2 * orient * vec_norm * sec2 * hvv +
      2 * orient * altitude * vec_norm * tan alpha * sec2 * tv) +
    (2 * orient * vec_norm * sec2 * hu +
      2 * orient * altitude * vec_norm * tan alpha * sec2 * tu) * vphi) +
  4 * altitude * vec_norm * tan alpha * sec2 * (uphi * vphi) +
  (um * (2 * tan alpha * hvv + altitude * sec2 * tv) +
    (2 * tan alpha * hu + altitude * sec2 * tu) * vm) +
  2 * orient * altitude * sec2 * (um * vphi + uphi * vm)

end ClaimedHessian

/-! ## The reads of one curvature entry -/

section EntryReads

variable {R : Type} [Field R]

/-- The index `3 * edge + offset` of the magnitude DOF that iteration `i` of
`secondFundamentalFormEntries` reads for `face` (source lines 127, 136-137). -/
def magnitudeIndex (mesh : MeshConnectivity) (face : Int) (i : Int) : Int :=
  let edge := mesh.faceEdge face i
  let offset : Nat := (mesh.faceEdgeOrientation face i).val + 1
  3 * edge + offset

/-- The half angle `alpha` that iteration `i` of `secondFundamentalFormEntries`
computes for `face` (source lines 127-134), with null slots. -/
def entryAlpha (G : GeometryDerivatives R) (mesh : MeshConnectivity) (curPos : MatrixX3d R)
    (edgeDOFs : VectorXd R) (face : Int) (i : Int) : Option R := do
  let edge := mesh.faceEdge face i
  let th ← edgeTheta G mesh curPos edge false false
  let theta := th.value
  let orient : R := if mesh.faceEdgeOrientation face i = 0 then 1 else -1
  let angleDOF ← coeffAt edgeDOFs (3 * edge)
  let alpha := 0.5 * theta + orient * angleDOF
  pure alpha

end EntryReads

section SampleAngle

variable {R : Type} [Field R]

/-- Geometric primitives with a constant dihedral angle `theta` and a constant
altitude `h`; the derivatives and Hessians are zero. -/
def constantGeometry (theta h : R) : GeometryDerivatives R where
  angle := fun _ _ _ => theta
  angleDeriv := fun _ _ _ => 0
  angleHess := fun _ _ _ => 0
  triangleAltitude := fun _ _ _ _ => h
  triangleAltitudeDeriv := fun _ _ _ _ => 0
  triangleAltitudeHess := fun _ _ _ _ => 0

end SampleAngle

/-! ## The optional output slots of the calls to GeometryDerivatives.h

A second embedding of `edgeTheta`, `secondFundamentalFormEntries` and
`secondFundamentalForm` in which every call of `angle` and `triangleAltitude`
carries the two flags that say whether its derivative and its Hessian slot are
non-null, so that the value and the slot contents may depend on them. -/

namespace WithSlots

variable {R : Type} [Field R]

/-- The primitives `angle` and `triangleAltitude` of GeometryDerivatives.h
with their two optional output slots: the last two arguments say whether the
derivative and the Hessian slot of the call are non-null, and the three
functions of each primitive give the returned value and the contents of the
two slots after the call. -/
structure GeometryCalls (R : Type) where
  angle : Vector3d R → Vector3d R → Vector3d R → Bool → Bool → R
  angleDeriv : Vector3d R → Vector3d R → Vector3d R → Bool → Bool → Matrix (Fin 1) (Fin 9) R
  angleHess : Vector3d R → Vector3d R → Vector3d R → Bool → Bool → Matrix (Fin 9) (Fin 9) R
  triangleAltitude : MeshConnectivity → MatrixX3d R → Int → Int → Bool → Bool → R
  triangleAltitudeDeriv :
    MeshConnectivity → MatrixX3d R → Int → Int → Bool → Bool → Matrix (Fin 1) (Fin 9) R
  triangleAltitudeHess :
    MeshConnectivity → MatrixX3d R → Int → Int → Bool → Bool → Matrix (Fin 9) (Fin 9) R

/-- The primitives as they answer when every call is made with the given
slots. -/
def GeometryCalls.withSlots (F : GeometryCalls R) (derivative hessian : Bool) :
    GeometryDerivatives R where
  angle := fun n0 n1 axis => F.angle n0 n1 axis derivative hessian
  angleDeriv := fun n0 n1 axis => F.angleDeriv n0 n1 axis derivative hessian
  angleHess := fun n0 n1 axis => F.angleHess n0 n1 axis derivative hessian
  triangleAltitude := fun mesh curPos face i =>
    F.triangleAltitude mesh curPos face i derivative hessian
  triangleAltitudeDeriv := fun mesh curPos face i =>
    F.triangleAltitudeDeriv mesh curPos face i derivative hessian
  triangleAltitudeHess := fun mesh curPos face i =>
    F.triangleAltitudeHess mesh curPos face i derivative hessian

/-- The function `edgeTheta`, with the slots of its call of `angle`
(source line 36): `(derivative || hessian) ? &angderiv : NULL` and
`hessian ? &anghess : NULL`. -/
def edgeTheta (F : GeometryCalls R) (mesh : MeshConnectivity) (curPos : MatrixX3d R)
    (edge : Int) (derivative hessian : Bool) :
    Option (Eval R (Matrix (Fin 1) (Fin 12) R) (Matrix (Fin 12) (Fin 12) R)) :=
  let derivativeSlot : Option (Matrix (Fin 1) (Fin 12) R) := if derivative then some 0 else none
  let hessianSlot : Option (Matrix (Fin 12) (Fin 12) R) := if hessian then some 0 else none
  let v0 := mesh.edgeVertex edge 0
  let v1 := mesh.edgeVertex edge 1
  let v2 := mesh.edgeOppositeVertex edge 0
  let v3 := mesh.edgeOppositeVertex edge 1
  if v2 = -1 ∨ v3 = -1 then some ⟨0, derivativeSlot, hessianSlot⟩
  else do
    let q0 ← rowAt curPos v0
    let q1 ← rowAt curPos v1
    let q2 ← rowAt curPos v2
    let q3 ← rowAt curPos v3
    let n0 := cross (q0 - q2) (q1 - q2)
    let n1 := cross (q1 - q3) (q0 - q3)
    let axis := q1 - q0
    let angderiv := F.angleDeriv n0 n1 axis (derivative || hessian) hessian
    let anghess := F.angleHess n0 n1 axis (derivative || hessian) hessian
    let theta := F.angle n0 n1 axis (derivative || hessian) hessian
    let derivativeSlot := if derivative then some (edgeThetaDerivative q0 q1 q2 q3 angderiv) else none
    let hessianSlot := if hessian then some (edgeThetaHessian q0 q1 q2 q3 angderiv anghess) else none
    pure ⟨theta, derivativeSlot, hessianSlot⟩

/-- One iteration of the loop of `secondFundamentalFormEntries`, with the
slots of its calls of `triangleAltitude` (source lines 124-125) and of
`edgeTheta` (source lines 130-131); the slots `hv` and `av` of source lines
141-157 are `altitudeSlots` and `thetaSlots`. -/
def entriesStep (tan cos : R → R) (F : GeometryCalls R) (mesh : MeshConnectivity)
    (curPos : MatrixX3d R) (edgeDOFs : VectorXd R) (face : Int) (derivative hessian : Bool)
    (st : EntriesEval R) (i : Fin 3) : Option (EntriesEval R) := do
  let hderiv := F.triangleAltitudeDeriv mesh curPos face i.val (derivative || hessian) hessian
  let hhess := F.triangleAltitudeHess mesh curPos face i.val (derivative || hessian) hessian
  let altitude := F.triangleAltitude mesh curPos face i.val (derivative || hessian) hessian
  let edge := mesh.faceEdge face i.val
  let th ← edgeTheta F mesh curPos edge (derivative || hessian) hessian
  let thetaderiv := th.derivative.getD 0
  let thetahess := th.hessian.getD 0
  let theta := th.value
  let orient : R := if mesh.faceEdgeOrientation face i.val = 0 then 1 else -1
  let angleDOF ← coeffAt edgeDOFs (3 * edge)
  let alpha := 0.5 * theta + orient * angleDOF
  let offset : Nat := (mesh.faceEdgeOrientation face i.val).val + 1
  let vec_norm ← coeffAt edgeDOFs (3 * edge + offset)
  let II := Function.update st.value i (2 * altitude * tan alpha * vec_norm)
  if derivative || hessian then
    let hv : Fin 3 → Nat := altitudeSlots i.val
    let av : Fin 4 → Nat := thetaSlots i.val (mesh.faceEdgeOrientation face i.val)
    let derivativeSlot := st.derivative.map fun d =>
      entriesDerivative tan cos d i.val hv av altitude alpha orient vec_norm offset hderiv thetaderiv
    let hessianSlot := st.hessian.map fun h =>
      Function.update h i
        (entriesHessian tan cos (h i) i.val hv av altitude alpha orient vec_norm offset
          hderiv hhess thetaderiv thetahess)
    pure ⟨II, derivativeSlot, hessianSlot⟩
  else
    pure ⟨II, st.derivative, st.hessian⟩

/-- The function `secondFundamentalFormEntries`, with the slots of the calls
it makes. -/
def secondFundamentalFormEntries (tan cos : R → R) (F : GeometryCalls R)
    (mesh : MeshConnectivity) (curPos : MatrixX3d R) (edgeDOFs : VectorXd R) (face : Int)
    (derivative hessian : Bool) : Option (EntriesEval R) :=
  let derivativeSlot : Option (Matrix (Fin 3) (Fin 27) R) := if derivative then some 0 else none
  let hessianSlot : Option (Fin 3 → Matrix (Fin 27) (Fin 27) R) :=
    if hessian then some (fun _ => 0) else none
  (List.finRange 3).foldlM
    (entriesStep tan cos F mesh curPos edgeDOFs face derivative hessian)
    ⟨0, derivativeSlot, hessianSlot⟩

/-- The function `MidedgeAngleCompressiveFormulation::secondFundamentalForm`,
with the slots of its call of `secondFundamentalFormEntries` (source lines
257-258): `derivative ? &IIderiv : NULL` and `hessian ? &IIhess : NULL`. -/
def secondFundamentalForm (tan cos : R → R) (F : GeometryCalls R)
    (mesh : MeshConnectivity) (curPos : MatrixX3d R) (extraDOFs : VectorXd R) (face : Int)
    (derivative hessian : Bool) :
    Option (MidedgeAngleCompressiveFormulation.FormEval R) := do
  let derivativeSlot : Option (Matrix (Fin 4) (Fin 27) R) := if derivative then some 0 else none
  let hessianSlot : Option (Fin 4 → Matrix (Fin 27) (Fin 27) R) :=
    if hessian then some (fun _ => 0) else none
  let entries ← secondFundamentalFormEntries tan cos F mesh curPos extraDOFs face derivative hessian
  let IIderiv := entries.derivative.getD 0
  let IIhess := entries.hessian.getD (fun _ => 0)
  let II := entries.value
  let result := MidedgeAngleCompressiveFormulation.formValue II
  let derivativeSlot := derivativeSlot.map fun derivative =>
    MidedgeAngleCompressiveFormulation.formDerivative derivative IIderiv
  let hessianSlot := hessianSlot.map fun hessian =>
    MidedgeAngleCompressiveFormulation.formHessian hessian IIhess
  pure ⟨result, derivativeSlot, hessianSlot⟩

end WithSlots

/-! ## The edge areas of `measureCylinderEnergy` (bending_models/main.cpp) -/

section EdgeArea

variable {R : Type} [Field R]

/-- The matrix `abars[fid]`; `none` when it does not exist. -/
def abarAt (abars : List (Matrix (Fin 2) (Fin 2) R)) (fid : Int) :
    Option (Matrix (Fin 2) (Fin 2) R) :=
  if fid < 0 then none else abars[fid.toNat]?

/-- The body of the loops of `measureCylinderEnergy` that fill `edge_area`
(bending_models/main.cpp, lines 285-288), for side `j` of edge `i`.  The list
`abars` is `restState.abars` and the square root is a parameter; a face index
outside `abars` makes the computation fail. -/
def edgeAreaStep (sqrt : R → R) (mesh : MeshConnectivity)
    (abars : List (Matrix (Fin 2) (Fin 2) R)) (i : Nat) (edge_area : VectorXd R) (j : Nat) :
    Option (VectorXd R) :=
  let fid := mesh.edgeFace i j
  if fid ≠ -1 then do
    let abar ← abarAt abars fid
    addCoeff edge_area i (sqrt abar.det / 2 / 3)
  else pure edge_area

/-- The vector `edge_area` computed by `measureCylinderEnergy`
(bending_models/main.cpp, lines 281-290), starting from
`Eigen::VectorXd::Zero(mesh.nEdges())`. -/
def cylinderEdgeArea (sqrt : R → R) (mesh : MeshConnectivity)
    (abars : List (Matrix (Fin 2) (Fin 2) R)) : Option (VectorXd R) :=
  let edge_area : VectorXd R := List.replicate mesh.nEdges 0
  (List.range mesh.nEdges).foldlM (fun (edge_area : VectorXd R) (i : Nat) =>
    (List.range 2).foldlM (edgeAreaStep sqrt mesh abars i) edge_area) edge_area

/-- The share of the face on side `j` of edge `e` in the area of the edge as
the claim states it: `sqrt(det(abar_f)) / 6` for an existing face
`f = edgeFace(e, j)`, nothing for a missing one. -/
def faceShare (sqrt : R → R) (mesh : MeshConnectivity)
    (abars : List (Matrix (Fin 2) (Fin 2) R)) (e j : Nat) : R :=
  if mesh.edgeFace e j ≠ -1 then sqrt ((abars.getD (mesh.edgeFace e j).toNat 0).det) / 6 else 0

end EdgeArea

/-! ## The calls of `optimizeEdgeDOFs` (bending_models/main.cpp) -/

section OptimizeCalls

variable {R : Type} [Field R]

/-- Eigen::MatrixXd, read through its dimensions and coefficients. -/
structure DenseMatrix (R : Type) where
  rows : Nat
  cols : Nat
  coeff : Nat → Nat → R

/-- The vertex positions as the Eigen::MatrixXd they are in the drivers: one
row per vertex, three columns. -/
def positionsAsMatrix (curPos : MatrixX3d R) : DenseMatrix R :=
  ⟨curPos.length, 3, fun i j => if h : j < 3 then (curPos.getD i 0) ⟨j, h⟩ else 0⟩

/-- An Eigen::VectorXd passed where a `const Eigen::MatrixXd&` is expected:
the temporary matrix has one column. -/
def vectorAsMatrix (v : VectorXd R) : DenseMatrix R :=
  ⟨v.length, 1, fun i _ => v.getD i 0⟩

/-- An Eigen::MatrixXd passed where a `const Eigen::VectorXd&` is expected:
Eigen builds a temporary vector, which requires the matrix to have a single
column or a single row; anything else is outside Eigen's contract. -/
def matrixAsVector (M : DenseMatrix R) : Option (VectorXd R) :=
  if M.cols = 1 then some ((List.range M.rows).map (fun i => M.coeff i 0))
  else if M.rows = 1 then some ((List.range M.cols).map (fun j => M.coeff 0 j))
  else none

/-- The values bound to the parameters `curPos` and `edge_area` of
`optimizeEdgeDOFs` by a call. -/
structure OptimizeArguments (R : Type) where
  curPos : DenseMatrix R
  edge_area : VectorXd R

/-- The number `nposdofs` of `optimizeEdgeDOFs` (source line 107). -/
def nposdofs (curPos : DenseMatrix R) : Nat :=
  curPos.rows * 3

/-- The first call in `measureCylinderEnergy` (source line 297):
`optimizeEdgeDOFs(stvk_dir_energyModel, curPos, edge_area, diredgeDOFs)`. -/
def cylinderDirectorCall (curPos : MatrixX3d R) (edge_area : VectorXd R) :
    Option (OptimizeArguments R) :=
  some ⟨positionsAsMatrix curPos, edge_area⟩

/-- The second call in `measureCylinderEnergy` (source line 320):
`optimizeEdgeDOFs(stvk_compress_dir_energyModel, curPos, edge_area,
compresed_diredgeDOFs)`. -/
def cylinderCompressiveCall (curPos : MatrixX3d R) (edge_area : VectorXd R) :
    Option (OptimizeArguments R) :=
  some ⟨positionsAsMatrix curPos, edge_area⟩

/-- The first call in `measureSphereEnergy` (source line 429):
`optimizeEdgeDOFs(stvk_dir_energyModel, edge_area, curPos, diredgeDOFs)`. -/
def sphereDirectorCall (curPos : MatrixX3d R) (edge_area : VectorXd R) :
    Option (OptimizeArguments R) := do
  let edge_area_argument ← matrixAsVector (positionsAsMatrix curPos)
  pure ⟨vectorAsMatrix edge_area, edge_area_argument⟩

/-- The second call in `measureSphereEnergy` (source line 441):
`optimizeEdgeDOFs(stvk_compress_dir_energyModel, curPos, edge_area,
compresed_diredgeDOFs)`. -/
def sphereCompressiveCall (curPos : MatrixX3d R) (edge_area : VectorXd R) :
    Option (OptimizeArguments R) :=
  some ⟨positionsAsMatrix curPos, edge_area⟩

end OptimizeCalls

/-! ## `run_simulation`: the projection matrix -/

section RunProjection

variable {R : Type} [Field R]

/-- The matrix `P` of `run_simulation` (example/optimize_edge_dofs.cpp, lines
108-132): `nfree` rows, `3 * cur_pos.rows() + nedges * nedgedofs` columns, set
from the triplets collected by the set-up loops. -/
def runProjection (cur_pos : MatrixX3d R) (fixed_verts : Option (List Int))
    (nedges nedgedofs : Nat) : Option (SparseMatrix R) :=
  let st : ProjectionSetup R := projectionSetup cur_pos fixed_verts nedges nedgedofs
  sparseFromTriplets st.nfree (3 * cur_pos.length + nedges * nedgedofs) st.Pcoeffs

/-- The global vector of a configuration, "3 * nVertices position coordinates
followed by nEdges * k edge DOFs". -/
def globalVector (pos : MatrixX3d R) (edge_DOFs : VectorXd R) : VectorXd R :=
  pos.flatMap (fun p => [p 0, p 1, p 2]) ++ edge_DOFs

/-- The three entries of each free vertex among the first `m` vertices, in
order: what the loops of `run_simulation` over the vertices collect. -/
def packRows {α : Type} (free : Nat → Bool) (rows : Nat → Fin 3 → α) : Nat → List α
  | 0 => []
  | m + 1 => packRows free rows m ++ (if free m then [rows m 0, rows m 1, rows m 2] else [])

/-- The columns of the global vector that `run_simulation` keeps, in order:
the coordinates of the free vertices, then the edge DOFs. -/
def freeColumns (fixed_verts : Option (List Int)) (nrows m : Nat) : List Nat :=
  packRows (isFreeVertex fixed_verts) (fun i b => 3 * i + b.val) nrows ++
    (List.range m).map (fun i => 3 * nrows + i)

/-- The triplets `(r, cols[r], 1)` of the matrix that selects the columns
`cols`. -/
def selectionTriplets (cols : List Nat) : List (Triplet R) :=
  (List.range cols.length).map (fun r => ⟨r, cols.getD r 0, 1⟩)

end RunProjection

/-! ## `run_simulation`: the projected gradient and Hessian -/

section RunProjected

variable {R : Type} [Field R]

/-- The gradient after `obj_func` of `run_simulation`
(example/optimize_edge_dofs.cpp, lines 179-183): `*grad = P * (*grad)` when
`fixed_verts` is not null. -/
def projectedGradient (P : SparseMatrix R) (fixed_verts : Option (List Int))
    (grad : VectorXd R) : Option (VectorXd R) :=
  if fixed_verts.isSome then P.mulVec grad else some grad

/-- The Hessian after `obj_func` of `run_simulation`
(example/optimize_edge_dofs.cpp, lines 185-191): set from the triplets at size
`totalDOFs`, then `P * (*hessian) * P.transpose()` when `fixed_verts` is not
null. -/
def projectedHessian (P : SparseMatrix R) (fixed_verts : Option (List Int)) (totalDOFs : Nat)
    (hessian_triplets : List (Triplet R)) : Option (SparseMatrix R) := do
  let hessian ← sparseFromTriplets totalDOFs totalDOFs hessian_triplets
  if fixed_verts.isSome then do
    let PH ← P.mul hessian
    PH.mul P.transpose
  else pure hessian

end RunProjected

/-! ## The signed angle of `GeometryDerivatives`, from the specification -/

section SignedAngle

variable {R : Type} [Field R]

/-- Eigen's `a.dot(b)`. -/
def dot (a b : Vector3d R) : R :=
  a 0 * b 0 + a 1 * b 1 + a 2 * b 2

/-- Modelled from the spec: angle (GeometryDerivatives, not part of the
sources at hand), "signed dihedral angle between two face normals n0, n1 about
a shared axis vector, using atan2-based construction so the sign and magnitude
are continuous across zero and near ±π".  The construction taken here is the
half-angle one: twice the `atan2` of the sine part `(n0 x n1) . axis / |axis|`
and the cosine part `n0 . n1 + |n0| * |n1|`, which is the angle from `n0` to
`n1` about `axis` in `(-π, π]` when both are perpendicular to `axis`; `axis`
enters through the sine part only.  The functions `atan2` (arguments `y`, then
`x`) and `sqrt` are parameters. -/
def signedAngle (atan2 : R → R → R) (sqrt : R → R) (n0 n1 axis : Vector3d R) : R :=
  2 * atan2 (dot (cross n0 n1) axis / sqrt (dot axis axis))
    (dot n0 n1 + sqrt (dot n0 n0) * sqrt (dot n1 n1))

/-- The signed angle as a function of the 9 scalar inputs
`(n0, n1, axis)`, the order of the derivative row and of the Hessian of
`angle`. -/
def signedAngleOfInputs (atan2 : R → R → R) (sqrt : R → R) (n : Fin 9 → R) : R :=
  signedAngle atan2 sqrt ![n 0, n 1, n 2] ![n 3, n 4, n 5] ![n 6, n 7, n 8]

/-- Modelled from the spec: the outputs of angle ("returns derivative/Hessian
with respect to the 9 scalar inputs") at the arguments `n0 = (0,0,1)`,
`n1 = (0,3,4)`, `axis = (1,0,0)`, which are the ones `edgeTheta` passes at the
folded configuration `q0 = (0,0,0)`, `q1 = (1,0,0)`, `q2 = (0,1,0)`,
`q3 = (0,-4,3)`: the value is the signed angle, and the derivative row and the
Hessian are those of `signedAngle` at these arguments (the sine part is -3, the
cosine part 9).  The altitude is not consulted. -/
def foldedAngle (atan2 : R → R → R) (sqrt : R → R) : GeometryDerivatives R where
  angle := signedAngle atan2 sqrt
  angleDeriv := fun _ _ _ => !![0, 1, 0, 0, -4 / 25, 3 / 25, 0, 0, 0]
  angleHess := fun _ _ _ =>
    !![1 / 3, 0, 0, 1 / 15, 0, 0, 0, -4 / 5, 3 / 5;
       0, 0, -1, 0, 0, 0, 0, 0, 0;
       0, -1, 0, 0, 0, 0, 0, 0, 0;
       1 / 15, 0, 0, 1 / 75, 0, 0, 0, 1 / 5, 0;
       0, 0, 0, 0, 24 / 625, 7 / 625, 0, 0, 0;
       0, 0, 0, 0, 7 / 625, -24 / 625, 0, 0, 0;
       0, 0, 0, 0, 0, 0, 0, 0, 0;
       -4 / 5, 0, 0, 1 / 5, 0, 0, 0, 3 / 5, 0;
       3 / 5, 0, 0, 0, 0, 0, 0, 0, 3 / 5]
  triangleAltitude := fun _ _ _ _ => 0
  triangleAltitudeDeriv := fun _ _ _ _ => 0
  triangleAltitudeHess := fun _ _ _ _ => 0

end SignedAngle

/-! ## Auxiliary lemmas -/

open MidedgeAngleCompressiveFormulation

section Lemmas

variable {R : Type} [Field R]

theorem edgeTheta_of_boundary (G : GeometryDerivatives R) (mesh : MeshConnectivity)
    (curPos : MatrixX3d R) (edge : Int) (derivative hessian : Bool)
    (hb : mesh.edgeOppositeVertex edge 0 = -1 ∨ mesh.edgeOppositeVertex edge 1 = -1) :
    edgeTheta G mesh curPos edge derivative hessian =
      some ⟨0, if derivative then some 0 else none, if hessian then some 0 else none⟩ := by
  unfold edgeTheta
  simp only [hb, if_true]

theorem edgeTheta_value_flags (G : GeometryDerivatives R) (mesh : MeshConnectivity)
    (curPos : MatrixX3d R) (edge : Int) (derivative hessian : Bool) :
    (edgeTheta G mesh curPos edge derivative hessian).map (fun r => r.value) =
      (edgeTheta G mesh curPos edge false false).map (fun r => r.value) := by
  unfold edgeTheta
  by_cases hb : mesh.edgeOppositeVertex edge 0 = -1 ∨ mesh.edgeOppositeVertex edge 1 = -1
  · simp only [hb, if_true, Option.map_some']
  · simp only [hb, if_false, Option.bind_eq_bind, Option.pure_def]
    cases rowAt curPos (mesh.edgeVertex edge 0) <;>
    cases rowAt curPos (mesh.edgeVertex edge 1) <;>
    cases rowAt curPos (mesh.edgeOppositeVertex edge 0) <;>
    cases rowAt curPos (mesh.edgeOppositeVertex edge 1) <;> rfl

theorem entriesStep_value (tan cos : R → R) (G : GeometryDerivatives R) (mesh : MeshConnectivity)
    (curPos : MatrixX3d R) (edgeDOFs : VectorXd R) (face : Int) (derivative hessian : Bool)
    (st : EntriesEval R) (i : Fin 3) (theta angleDOF vec_norm : R)
    (htheta : (edgeTheta G mesh curPos (mesh.faceEdge face i.val) false false).map
      (fun r => r.value) = some theta)
    (hangle : coeffAt edgeDOFs (3 * mesh.faceEdge face i.val) = some angleDOF)
    (hnorm : coeffAt edgeDOFs
      (3 * mesh.faceEdge face i.val + (mesh.faceEdgeOrientation face i.val).val + 1) =
        some vec_norm) :
    ∃ st', entriesStep tan cos G mesh curPos edgeDOFs face derivative hessian st i = some st' ∧
      st'.value = Function.update st.value i
        (2 * G.triangleAltitude mesh curPos face i.val *
          tan (0.5 * theta +
            (if mesh.faceEdgeOrientation face i.val = 0 then 1 else -1) * angleDOF) * vec_norm) := by
  rw [← edgeTheta_value_flags G mesh curPos _ (derivative || hessian) hessian] at htheta
  simp only [Option.map_eq_some'] at htheta
  obtain ⟨th, hth, hval⟩ := htheta
  have hnorm' : coeffAt edgeDOFs (3 * mesh.faceEdge face i.val +
      (((mesh.faceEdgeOrientation face i.val).val + 1 : Nat) : Int)) = some vec_norm := by
    rw [← hnorm]; congr 1; push_cast; ring
  unfold entriesStep
  simp only [hth, hangle, hnorm', Option.bind_eq_bind, Option.some_bind, Option.pure_def, hval]
  split <;> exact ⟨_, rfl, rfl⟩

theorem entries_value_of_reads (tan cos : R → R) (G : GeometryDerivatives R)
    (mesh : MeshConnectivity) (curPos : MatrixX3d R) (edgeDOFs : VectorXd R) (face : Int)
    (derivative hessian : Bool) (theta angleDOF vec_norm : Fin 3 → R)
    (htheta : ∀ i : Fin 3, (edgeTheta G mesh curPos (mesh.faceEdge face i.val) false false).map
      (fun r => r.value) = some (theta i))
    (hangle : ∀ i : Fin 3, coeffAt edgeDOFs (3 * mesh.faceEdge face i.val) = some (angleDOF i))
    (hnorm : ∀ i : Fin 3, coeffAt edgeDOFs
      (3 * mesh.faceEdge face i.val + (mesh.faceEdgeOrientation face i.val).val + 1) =
        some (vec_norm i)) :
    ∃ r, secondFundamentalFormEntries tan cos G mesh curPos edgeDOFs face derivative hessian =
        some r ∧
      ∀ i : Fin 3, r.value i =
        2 * G.triangleAltitude mesh curPos face i.val *
          tan (0.5 * theta i +
            (if mesh.faceEdgeOrientation face i.val = 0 then 1 else -1) * angleDOF i) *
          vec_norm i := by
  unfold secondFundamentalFormEntries
  have hr : List.finRange 3 = [0, 1, 2] := by decide
  simp only [hr, List.foldlM_cons, List.foldlM_nil, Option.bind_eq_bind, Option.pure_def]
  obtain ⟨s0, h0, v0⟩ := entriesStep_value tan cos G mesh curPos edgeDOFs face derivative hessian
    ⟨0, if derivative then some 0 else none, if hessian then some (fun _ => 0) else none⟩ 0
    _ _ _ (htheta 0) (hangle 0) (hnorm 0)
  obtain ⟨s1, h1, v1⟩ := entriesStep_value tan cos G mesh curPos edgeDOFs face derivative hessian
    s0 1 _ _ _ (htheta 1) (hangle 1) (hnorm 1)
  obtain ⟨s2, h2, v2⟩ := entriesStep_value tan cos G mesh curPos edgeDOFs face derivative hessian
    s1 2 _ _ _ (htheta 2) (hangle 2) (hnorm 2)
  rw [h0, Option.some_bind, h1, Option.some_bind, h2, Option.some_bind]
  refine ⟨s2, rfl, ?_⟩
  intro i
  rw [v2, v1, v0]
  fin_cases i <;> simp [Function.update]

theorem formDerivative_zero (IIderiv : Matrix (Fin 3) (Fin 27) R) :
    formDerivative 0 IIderiv =
      Matrix.of ![IIderiv 0 + IIderiv 1, IIderiv 0, IIderiv 0, IIderiv 0 + IIderiv 2] := by
  ext i j
  have h3 : ((3 : Fin 4) : ℕ) = 3 := rfl
  fin_cases i <;> simp [formDerivative, addRow, h3]

theorem formHessian_zero (IIhess : Fin 3 → Matrix (Fin 27) (Fin 27) R) :
    formHessian (fun _ => 0) IIhess =
      ![IIhess 0 + IIhess 1, IIhess 0, IIhess 0, IIhess 0 + IIhess 2] := by
  funext i
  fin_cases i <;> simp [formHessian, Function.update]

theorem formValue_eq_zero_iff [CharZero R] (II : Vector3d R) :
    formValue II = 0 ↔ ∀ i : Fin 3, II i = 0 := by
  constructor
  · intro h
    have h01 : II 0 = 0 := by simpa [formValue] using congrFun (congrFun h 0) 1
    have h00 : II 0 + II 1 = 0 := by simpa [formValue] using congrFun (congrFun h 0) 0
    have h11 : II 0 + II 2 = 0 := by simpa [formValue] using congrFun (congrFun h 1) 1
    intro i
    fin_cases i
    · exact h01
    · simpa [h01] using h00
    · simpa [h01] using h11
  · intro h
    ext i j
    fin_cases i <;> fin_cases j <;> simp [formValue, h]

theorem entriesStep_slots (tan cos : R → R) (G : GeometryDerivatives R) (mesh : MeshConnectivity)
    (curPos : MatrixX3d R) (edgeDOFs : VectorXd R) (face : Int) (derivative hessian : Bool)
    (st st' : EntriesEval R) (i : Fin 3)
    (h : entriesStep tan cos G mesh curPos edgeDOFs face derivative hessian st i = some st') :
    st'.derivative.isSome = st.derivative.isSome ∧ st'.hessian.isSome = st.hessian.isSome := by
  unfold entriesStep at h
  simp only [Option.bind_eq_bind, Option.pure_def, Option.bind_eq_some] at h
  obtain ⟨th, -, a, -, m, -, h⟩ := h
  split at h <;> (simp only [Option.some.injEq] at h; subst h; simp)

theorem entries_foldl_slots (tan cos : R → R) (G : GeometryDerivatives R) (mesh : MeshConnectivity)
    (curPos : MatrixX3d R) (edgeDOFs : VectorXd R) (face : Int) (derivative hessian : Bool)
    (l : List (Fin 3)) (st st' : EntriesEval R)
    (h : l.foldlM (entriesStep tan cos G mesh curPos edgeDOFs face derivative hessian) st =
      some st') :
    st'.derivative.isSome = st.derivative.isSome ∧ st'.hessian.isSome = st.hessian.isSome := by
  induction l generalizing st with
  | nil =>
    simp only [List.foldlM_nil, Option.pure_def, Option.some.injEq] at h
    subst h; exact ⟨rfl, rfl⟩
  | cons a l ih =>
    simp only [List.foldlM_cons, Option.bind_eq_bind, Option.bind_eq_some] at h
    obtain ⟨st1, h1, h2⟩ := h
    have := entriesStep_slots tan cos G mesh curPos edgeDOFs face derivative hessian st st1 a h1
    have := ih st1 h2
    constructor <;> simp_all

theorem entries_slots (tan cos : R → R) (G : GeometryDerivatives R) (mesh : MeshConnectivity)
    (curPos : MatrixX3d R) (edgeDOFs : VectorXd R) (face : Int) (derivative hessian : Bool)
    (e : EntriesEval R)
    (h : secondFundamentalFormEntries tan cos G mesh curPos edgeDOFs face derivative hessian =
      some e) :
    e.derivative.isSome = derivative ∧ e.hessian.isSome = hessian := by
  unfold secondFundamentalFormEntries at h
  have := entries_foldl_slots tan cos G mesh curPos edgeDOFs face derivative hessian _ _ _ h
  cases derivative <;> cases hessian <;> simpa using this

theorem form_of_entries (tan cos : R → R) (G : GeometryDerivatives R)
    (mesh : MeshConnectivity) (curPos : MatrixX3d R) (extraDOFs : VectorXd R) (face : Int)
    (derivative hessian : Bool) (e : EntriesEval R)
    (hE : secondFundamentalFormEntries tan cos G mesh curPos extraDOFs face derivative hessian =
      some e) :
    ∃ r, MidedgeAngleCompressiveFormulation.secondFundamentalForm tan cos G mesh curPos extraDOFs
        face derivative hessian = some r ∧
      r.value = formValue e.value ∧
      r.derivative = e.derivative.map (fun IIderiv => formDerivative 0 IIderiv) ∧
      r.hessian = e.hessian.map (fun IIhess => formHessian (fun _ => 0) IIhess) := by
  obtain ⟨hd, hh⟩ := entries_slots tan cos G mesh curPos extraDOFs face derivative hessian e hE
  unfold MidedgeAngleCompressiveFormulation.secondFundamentalForm
  rw [hE]
  refine ⟨_, rfl, rfl, ?_, ?_⟩
  · cases hed : e.derivative with
    | none =>
      rw [hed] at hd; simp at hd; subst hd; simp
    | some d =>
      rw [hed] at hd; simp at hd; subst hd
      simp only [if_true, Option.map_some', Option.getD_some]
  · cases heh : e.hessian with
    | none =>
      rw [heh] at hh; simp at hh; subst hh; simp
    | some d =>
      rw [heh] at hh; simp at hh; subst hh
      simp only [if_true, Option.map_some', Option.getD_some]

theorem stvkBendingEnergy_zero (sqrt : R → R) (thickness lameAlpha lameBeta : R)
    (abar : Matrix (Fin 2) (Fin 2) R) :
    stvkBendingEnergy sqrt thickness lameAlpha lameBeta abar 0 0 = 0 := by
  simp [stvkBendingEnergy]

theorem initializeExtraDOFs_foldl (n m : Nat) (hm : m ≤ n) :
    let v := (List.range m).foldl (fun (extraDOFs : VectorXd R) i =>
      (List.range' 1 (numExtraDOFs - 1)).foldl (fun extraDOFs j =>
        extraDOFs.set (3 * i + j) 1) extraDOFs) (List.replicate (numExtraDOFs * n) 0)
    v.length = 3 * n ∧
      ∀ k, k < 3 * n → v[k]? = some (if k < 3 * m ∧ k % 3 ≠ 0 then 1 else 0) := by
  induction m with
  | zero =>
    simp [numExtraDOFs, List.getElem?_replicate]
  | succ m ih =>
    have ih := ih (by omega)
    have h12 : List.range' 1 (numExtraDOFs - 1) = [1, 2] := by decide
    simp only [h12, List.range_succ, List.foldl_append, List.foldl_cons, List.foldl_nil,
      List.length_set] at ih ⊢
    obtain ⟨hlen, hget⟩ := ih
    refine ⟨hlen, ?_⟩
    intro k hk
    simp only [List.getElem?_set, List.length_set, hlen]
    by_cases h2 : 3 * m + 2 = k
    · have : 3 * m + 2 < 3 * n := by omega
      have h3 : k < 3 * (m + 1) ∧ k % 3 ≠ 0 := by omega
      simp [h2, h3, hk]
    · by_cases h1 : 3 * m + 1 = k
      · have h3 : k < 3 * (m + 1) ∧ k % 3 ≠ 0 := by omega
        simp [h2, h1, h3, hk]
      · simp only [h2, h1, if_false]
        rw [hget k hk]
        have : (k < 3 * m ∧ k % 3 ≠ 0) ↔ (k < 3 * (m + 1) ∧ k % 3 ≠ 0) := by omega
        simp only [this]

theorem initializeExtraDOFs_entries (mesh : MeshConnectivity) (curPos : MatrixX3d R) :
    (initializeExtraDOFs mesh curPos).length = 3 * mesh.nEdges ∧
    (∀ i, i < mesh.nEdges →
      (initializeExtraDOFs mesh curPos)[3 * i]? = some 0 ∧
      (initializeExtraDOFs mesh curPos)[3 * i + 1]? = some 1 ∧
      (initializeExtraDOFs mesh curPos)[3 * i + 2]? = some 1) := by
  have h := @initializeExtraDOFs_foldl R _ mesh.nEdges mesh.nEdges le_rfl
  simp only at h
  refine ⟨h.1, ?_⟩
  intro i hi
  unfold initializeExtraDOFs
  refine ⟨?_, ?_, ?_⟩
  · rw [h.2 (3 * i) (by omega)]; simp
  · rw [h.2 (3 * i + 1) (by omega)]
    have : 3 * i + 1 < 3 * mesh.nEdges ∧ (3 * i + 1) % 3 ≠ 0 := by omega
    simp [this]
  · rw [h.2 (3 * i + 2) (by omega)]
    have : 3 * i + 2 < 3 * mesh.nEdges ∧ (3 * i + 2) % 3 ≠ 0 := by omega
    simp [this]

theorem coeffAt_initializeExtraDOFs (mesh : MeshConnectivity) (initPos : MatrixX3d R) (e : Int)
    (he : 0 ≤ e ∧ e < mesh.nEdges) (o : Fin 2) :
    coeffAt (initializeExtraDOFs mesh initPos) (3 * e) = some 0 ∧
    coeffAt (initializeExtraDOFs mesh initPos) (3 * e + o.val + 1) = some 1 := by
  obtain ⟨-, h⟩ := initializeExtraDOFs_entries mesh initPos
  have hlt : e.toNat < mesh.nEdges := by omega
  obtain ⟨h0, h1, h2⟩ := h e.toNat hlt
  unfold coeffAt
  have n0 : ¬ (3 * e < 0) := by omega
  have n1 : ¬ (3 * e + (o.val : Int) + 1 < 0) := by omega
  have t0 : (3 * e).toNat = 3 * e.toNat := by omega
  simp only [n0, n1, if_false, t0]
  refine ⟨h0, ?_⟩
  fin_cases o
  · have t1 : (3 * e + ((⟨0, by decide⟩ : Fin 2).val : Int) + 1).toNat = 3 * e.toNat + 1 := by
      simp; omega
    rw [t1]; exact h1
  · have t1 : (3 * e + ((⟨1, by decide⟩ : Fin 2).val : Int) + 1).toNat = 3 * e.toNat + 2 := by
      simp; omega
    rw [t1]; exact h2

theorem isolatedTriangle_boundary (e : Int) :
    isolatedTriangle.edgeOppositeVertex e 0 = -1 ∨
      isolatedTriangle.edgeOppositeVertex e 1 = -1 := by
  unfold isolatedTriangle
  simp only
  by_cases h0 : e = 0
  · right; simp [h0]
  · by_cases h1 : e = 1
    · left; simp [h1]
    · by_cases h2 : e = 2
      · right; simp [h2]
      · left; simp [h0, h1, h2]

theorem addCoeff_eq (v : VectorXd R) (i : Nat) (x : R) (hi : i < v.length) :
    addCoeff v i x = some (v.set i (v.getD i 0 + x)) := by
  unfold addCoeff
  simp [List.getElem?_eq_getElem hi, List.getD_eq_getElem?_getD]

theorem index_div_mod (k m c : Nat) (hc : c < k) :
    (m * k + c) / k = m ∧ (m * k + c) % k = c := by
  constructor
  · apply Nat.div_eq_of_lt_le
    · omega
    · have : (m + 1) * k = m * k + k := by ring
      omega
  · rw [Nat.mul_add_mod_of_lt hc]

theorem penalty_deriv_step (edgeDOFs edge_area : VectorXd R) (penaltyScale : R) (k n m : Nat)
    (hk : 3 ≤ k) (hmk : m * k + 2 < k * n) :
    (addCoeff ((List.range (k * n)).map (fun j =>
          if j / k < m ∧ (j % k = 1 ∨ j % k = 2) then
            2 * (edgeDOFs.getD j 0 - 1) * penaltyScale * edge_area.getD (j / k) 0
          else 0)) (m * k + 1)
        (2 * (edgeDOFs.getD (m * k + 1) 0 - 1) * penaltyScale * edge_area.getD m 0)).bind
      (fun d => (addCoeff d (m * k + 2)
        (2 * (edgeDOFs.getD (m * k + 2) 0 - 1) * penaltyScale * edge_area.getD m 0)).bind
          (fun d => some (some d))) =
      some (some ((List.range (k * n)).map (fun j =>
          if j / k < m + 1 ∧ (j % k = 1 ∨ j % k = 2) then
            2 * (edgeDOFs.getD j 0 - 1) * penaltyScale * edge_area.getD (j / k) 0
          else 0))) := by
  obtain ⟨d1, r1⟩ := index_div_mod k m 1 (by omega)
  obtain ⟨d2, r2⟩ := index_div_mod k m 2 (by omega)
  rw [addCoeff_eq _ _ _ (by simp; omega)]
  simp only [Option.some_bind]
  rw [addCoeff_eq _ _ _ (by simp; omega)]
  simp only [Option.some_bind, Option.some.injEq]
  apply List.ext_getElem?
  intro j
  simp only [List.getElem?_set, List.length_set, List.length_map, List.length_range,
    List.getD_eq_getElem?_getD, List.getElem?_map, List.getElem?_range]
  by_cases hj2 : m * k + 2 = j
  · subst hj2
    have hne : ¬ (m * k + 1 = m * k + 2) := by omega
    simp [hmk, hne, d2, r2, List.getElem?_range]
  · by_cases hj1 : m * k + 1 = j
    · subst hj1
      have : m * k + 1 < k * n := by omega
      simp [this, d1, r1, List.getElem?_range]
    · simp only [hj2, hj1, if_false]
      by_cases hj : j < k * n
      · simp only [List.getElem?_range hj, Option.map_some', Option.some.injEq]
        have hdm := Nat.div_add_mod j k
        have : (j / k < m ∧ (j % k = 1 ∨ j % k = 2)) ↔
            (j / k < m + 1 ∧ (j % k = 1 ∨ j % k = 2)) := by
          constructor
          · rintro ⟨h, h'⟩; exact ⟨by omega, h'⟩
          · rintro ⟨h, h'⟩
            refine ⟨?_, h'⟩
            by_contra hc
            have hq : j / k = m := by omega
            rw [hq] at hdm
            have hkm : k * m = m * k := Nat.mul_comm k m
            rcases h' with h' | h' <;> omega
        simp only [this]
      · have : (List.range (k * n))[j]? = none := by
          rw [List.getElem?_eq_none_iff]; simp; omega
        simp [this]

theorem penalty_fold (edgeDOFs edge_area : VectorXd R) (penaltyScale : R) (k n : Nat)
    (deriv hessian : Bool) (hk : 3 ≤ k) (hlen : edgeDOFs.length = k * n)
    (harea : edge_area.length = n) (m : Nat) (hm : m ≤ n) :
    (List.range m).foldlM (penaltyStep edgeDOFs edge_area penaltyScale k)
        (⟨0, if deriv then some (List.replicate edgeDOFs.length 0) else none,
          if hessian then some [] else none⟩ : PenaltyEval R) =
      some ⟨∑ i ∈ Finset.range m,
          ((edgeDOFs.getD (i * k + 1) 0 - 1) * (edgeDOFs.getD (i * k + 1) 0 - 1) * penaltyScale *
              edge_area.getD i 0 +
            (edgeDOFs.getD (i * k + 2) 0 - 1) * (edgeDOFs.getD (i * k + 2) 0 - 1) * penaltyScale *
              edge_area.getD i 0),
        if deriv then some ((List.range (k * n)).map (fun j =>
          if j / k < m ∧ (j % k = 1 ∨ j % k = 2) then
            2 * (edgeDOFs.getD j 0 - 1) * penaltyScale * edge_area.getD (j / k) 0
          else 0)) else none,
        if hessian then some ((List.range m).flatMap (fun i =>
          [(⟨i * k + 1, i * k + 1, 2 * penaltyScale * edge_area.getD i 0⟩ : Triplet R),
           ⟨i * k + 2, i * k + 2, 2 * penaltyScale * edge_area.getD i 0⟩])) else none⟩ := by
  induction m with
  | zero =>
    simp only [List.range_zero, List.foldlM_nil, Option.pure_def, Finset.range_zero,
      Finset.sum_empty, List.flatMap_nil, Nat.not_lt_zero, false_and, if_false, hlen]
    congr 2
    cases deriv
    · rfl
    · simp only [if_true, Option.some.injEq]
      apply List.ext_getElem?
      intro j
      simp [List.getElem?_replicate, List.getElem?_map, List.getElem?_range]
  | succ m ih =>
    have ih := ih (by omega)
    have hmk : m * k + 2 < k * n := by
      have : (m + 1) * k ≤ n * k := Nat.mul_le_mul_right k hm
      have h1 : (m + 1) * k = m * k + k := by ring
      have h2 : n * k = k * n := by ring
      omega
    rw [List.range_succ, List.foldlM_append, ih]
    simp only [Option.bind_eq_bind, Option.some_bind, List.foldlM_cons, List.foldlM_nil,
      Option.pure_def, Option.bind_some]
    have ha : edge_area[m]? = some (edge_area.getD m 0) := by
      rw [List.getD_eq_getElem?_getD, List.getElem?_eq_getElem (by omega)]; rfl
    have h1 : edgeDOFs[m * k + 1]? = some (edgeDOFs.getD (m * k + 1) 0) := by
      rw [List.getD_eq_getElem?_getD, List.getElem?_eq_getElem (by omega)]; rfl
    have h2 : edgeDOFs[m * k + 2]? = some (edgeDOFs.getD (m * k + 2) 0) := by
      rw [List.getD_eq_getElem?_getD, List.getElem?_eq_getElem (by omega)]; rfl
    unfold penaltyStep
    simp only [ha, h1, h2, Option.bind_eq_bind, Option.some_bind, Option.pure_def]
    have hsum := Finset.sum_range_succ (fun i =>
      ((edgeDOFs.getD (i * k + 1) 0 - 1) * (edgeDOFs.getD (i * k + 1) 0 - 1) * penaltyScale *
              edge_area.getD i 0 +
            (edgeDOFs.getD (i * k + 2) 0 - 1) * (edgeDOFs.getD (i * k + 2) 0 - 1) * penaltyScale *
              edge_area.getD i 0)) m
    have hh : (if hessian = true then some ((List.range m ++ [m]).flatMap (fun i =>
          [(⟨i * k + 1, i * k + 1, 2 * penaltyScale * edge_area.getD i 0⟩ : Triplet R),
           ⟨i * k + 2, i * k + 2, 2 * penaltyScale * edge_area.getD i 0⟩])) else none) =
        Option.map (fun hessian => hessian ++
          [(⟨m * k + 1, m * k + 1, 2 * penaltyScale * edge_area.getD m 0⟩ : Triplet R),
           ⟨m * k + 2, m * k + 2, 2 * penaltyScale * edge_area.getD m 0⟩])
          (if hessian = true then some ((List.range m).flatMap (fun i =>
          [(⟨i * k + 1, i * k + 1, 2 * penaltyScale * edge_area.getD i 0⟩ : Triplet R),
           ⟨i * k + 2, i * k + 2, 2 * penaltyScale * edge_area.getD i 0⟩])) else none) := by
      cases hessian <;> simp [List.flatMap_append]
    rw [hh, hsum]
    cases deriv
    · simp only [Bool.false_eq_true, if_false, Option.some.injEq]
      congr 1
      ring
    · simp only [if_true]
      have := penalty_deriv_step edgeDOFs edge_area penaltyScale k n m hk hmk
      simp only [Option.bind_eq_some] at this
      obtain ⟨dA, hA, dB, hB, hC⟩ := this
      simp only [Option.some.injEq] at hC
      subst hC
      simp only [hA, Option.some_bind, hB, Option.some.injEq]
      congr 1
      ring

theorem penalty_eq_fold (edgeDOFs edge_area : VectorXd R) (penaltyScale : R)
    (k n : Nat) (deriv hessian : Bool) (hn : 1 ≤ n) (hk : 3 ≤ k)
    (harea : edge_area.length = n) (hlen : edgeDOFs.length = k * n) :
    edgeDOFPenaltyEnergy edgeDOFs edge_area penaltyScale deriv hessian =
      some ⟨∑ i ∈ Finset.range n,
          ((edgeDOFs.getD (i * k + 1) 0 - 1) * (edgeDOFs.getD (i * k + 1) 0 - 1) * penaltyScale *
              edge_area.getD i 0 +
            (edgeDOFs.getD (i * k + 2) 0 - 1) * (edgeDOFs.getD (i * k + 2) 0 - 1) * penaltyScale *
              edge_area.getD i 0),
        if deriv then some ((List.range (k * n)).map (fun j =>
          if j / k < n ∧ (j % k = 1 ∨ j % k = 2) then
            2 * (edgeDOFs.getD j 0 - 1) * penaltyScale * edge_area.getD (j / k) 0
          else 0)) else none,
        if hessian then some ((List.range n).flatMap (fun i =>
          [(⟨i * k + 1, i * k + 1, 2 * penaltyScale * edge_area.getD i 0⟩ : Triplet R),
           ⟨i * k + 2, i * k + 2, 2 * penaltyScale * edge_area.getD i 0⟩])) else none⟩ := by
  have h3 : 3 * n ≤ k * n := Nat.mul_le_mul_right n hk
  have hne : ¬ (k * n = n) := by omega
  have hn0 : ¬ (n = 0) := by omega
  have hmod : (k * n) % n = 0 := Nat.mul_mod_left k n
  have hdiv : (k * n) / n = k := Nat.mul_div_left k (by omega)
  have := penalty_fold edgeDOFs edge_area penaltyScale k n deriv hessian hk hlen harea n le_rfl
  unfold edgeDOFPenaltyEnergy
  simp only [harea, hlen, hne, hn0, hmod, hdiv, if_false, ne_eq, not_true_eq_false]
  rw [hlen] at this
  exact this

theorem sum_thirds (T : ℕ → ℕ → R) (n : ℕ) :
    ∑ i ∈ Finset.range n, (T (i * 3 + 1) i + T (i * 3 + 2) i) =
      ∑ j ∈ Finset.range (3 * n), (if j % 3 = 1 ∨ j % 3 = 2 then T j (j / 3) else 0) := by
  induction n with
  | zero => simp
  | succ n ih =>
    have h3 : 3 * (n + 1) = 3 * n + 1 + 1 + 1 := by ring
    rw [Finset.sum_range_succ, ih, h3, Finset.sum_range_succ, Finset.sum_range_succ,
      Finset.sum_range_succ]
    have e0 : (3 * n) % 3 = 0 := by omega
    have e1 : (3 * n + 1) % 3 = 1 := by omega
    have e2 : (3 * n + 1 + 1) % 3 = 2 := by omega
    have d1 : (3 * n + 1) / 3 = n := by omega
    have d2 : (3 * n + 1 + 1) / 3 = n := by omega
    have c1 : n * 3 + 1 = 3 * n + 1 := by ring
    have c2 : n * 3 + 2 = 3 * n + 1 + 1 := by ring
    simp only [e0, e1, e2, d1, d2, c1, c2]
    simp
    ring

theorem getD_ofFn {N : Nat} (x : Fin N → R) (j : Fin N) : (List.ofFn x).getD j.val 0 = x j := by
  rw [List.getD_eq_getElem?_getD, List.getElem?_eq_getElem (by simp)]
  simp

theorem penaltyValue_eq (edge_area : VectorXd R) (penaltyScale : R) (n : Nat) (hn : 1 ≤ n)
    (harea : edge_area.length = n) (x : Fin (3 * n) → R) :
    penaltyValue edge_area penaltyScale x =
      ∑ j : Fin (3 * n), (if j.val % 3 = 1 ∨ j.val % 3 = 2 then
        (x j - 1) * (x j - 1) * penaltyScale * edge_area.getD (j.val / 3) 0 else 0) := by
  unfold penaltyValue
  rw [penalty_eq_fold (List.ofFn x) edge_area penaltyScale 3 n true true hn le_rfl
    harea (by simp)]
  simp only [Option.map_some', Option.getD_some]
  have h := sum_thirds (fun j i => ((List.ofFn x).getD j 0 - 1) * ((List.ofFn x).getD j 0 - 1) *
    penaltyScale * edge_area.getD i 0) n
  simp only at h
  rw [h, ← Fin.sum_univ_eq_sum_range]
  apply Finset.sum_congr rfl
  intro j _
  rw [getD_ofFn]

theorem penaltyGradient_eq (edge_area : VectorXd R) (penaltyScale : R) (n : Nat) (hn : 1 ≤ n)
    (harea : edge_area.length = n) (x : Fin (3 * n) → R) (j : Fin (3 * n)) :
    penaltyGradient edge_area penaltyScale x j =
      if j.val % 3 = 1 ∨ j.val % 3 = 2 then
        2 * (x j - 1) * penaltyScale * edge_area.getD (j.val / 3) 0 else 0 := by
  unfold penaltyGradient
  rw [penalty_eq_fold (List.ofFn x) edge_area penaltyScale 3 n true true hn le_rfl
    harea (by simp)]
  simp only [Option.some_bind, if_true, Option.getD_some]
  rw [List.getD_eq_getElem?_getD, List.getElem?_map, List.getElem?_range j.isLt]
  have hj : j.val / 3 < n := by have := j.isLt; omega
  simp only [Option.map_some', Option.getD_some, hj, true_and, getD_ofFn]

theorem triplets_sum (edge_area : VectorXd R) (penaltyScale : R) (m j l : Nat) :
    ((((List.range m).flatMap (fun i =>
        [(⟨i * 3 + 1, i * 3 + 1, 2 * penaltyScale * edge_area.getD i 0⟩ : Triplet R),
         ⟨i * 3 + 2, i * 3 + 2, 2 * penaltyScale * edge_area.getD i 0⟩])).filter
        (fun t => t.row = j ∧ t.col = l)).map (fun t => t.value)).sum =
      if j = l ∧ j / 3 < m ∧ (j % 3 = 1 ∨ j % 3 = 2) then
        2 * penaltyScale * edge_area.getD (j / 3) 0 else 0 := by
  induction m with
  | zero => simp
  | succ m ih =>
    rw [List.range_succ, List.flatMap_append, List.filter_append, List.map_append,
      List.sum_append, ih]
    simp only [List.flatMap_cons, List.flatMap_nil, List.append_nil]
    by_cases hjl : j = l
    · subst hjl
      by_cases h1 : m * 3 + 1 = j
      · have hc : ¬ (j / 3 < m) := by omega
        have hc' : j / 3 < m + 1 ∧ (j % 3 = 1 ∨ j % 3 = 2) := by omega
        have hd : j / 3 = m := by omega
        have h2 : ¬ (m * 3 + 2 = j) := by omega
        simp [List.filter_cons, h1, h2, hc, hc', hd]
      · by_cases h2 : m * 3 + 2 = j
        · have hc : ¬ (j / 3 < m) := by omega
          have hc' : j / 3 < m + 1 ∧ (j % 3 = 1 ∨ j % 3 = 2) := by omega
          have hd : j / 3 = m := by omega
          simp [List.filter_cons, h1, h2, hc, hc', hd]
        · have hiff : (j / 3 < m ∧ (j % 3 = 1 ∨ j % 3 = 2)) ↔
              (j / 3 < m + 1 ∧ (j % 3 = 1 ∨ j % 3 = 2)) := by omega
          simp [List.filter_cons, h1, h2, hiff]
    · have h1 : ¬ (m * 3 + 1 = j ∧ m * 3 + 1 = l) := by omega
      have h2 : ¬ (m * 3 + 2 = j ∧ m * 3 + 2 = l) := by omega
      simp [List.filter_cons, hjl, h1, h2]

theorem penaltyHessian_eq (edge_area : VectorXd R) (penaltyScale : R) (n : Nat) (hn : 1 ≤ n)
    (harea : edge_area.length = n) (x : Fin (3 * n) → R) (j l : Fin (3 * n)) :
    penaltyHessian edge_area penaltyScale x j l =
      if j = l ∧ (j.val % 3 = 1 ∨ j.val % 3 = 2) then
        2 * penaltyScale * edge_area.getD (j.val / 3) 0 else 0 := by
  unfold penaltyHessian setFromTriplets
  rw [penalty_eq_fold (List.ofFn x) edge_area penaltyScale 3 n true true hn le_rfl
    harea (by simp)]
  simp only [Option.some_bind, if_true, Option.getD_some]
  rw [triplets_sum]
  have hj : j.val / 3 < n := by have := j.isLt; omega
  simp only [hj, true_and, Fin.ext_iff]

end Lemmas

/-! ## Differentiation lemmas -/

theorem penaltyValue_hasFDerivAt (edge_area : VectorXd ℝ) (penaltyScale : ℝ) (n : Nat)
    (hn : 1 ≤ n) (harea : edge_area.length = n) (x : Fin (3 * n) → ℝ) :
    HasFDerivAt (fun y : Fin (3 * n) → ℝ => penaltyValue edge_area penaltyScale y)
      (∑ j : Fin (3 * n), penaltyGradient edge_area penaltyScale x j •
        (ContinuousLinearMap.proj j : (Fin (3 * n) → ℝ) →L[ℝ] ℝ)) x := by
  have hfun : (fun y : Fin (3 * n) → ℝ => penaltyValue edge_area penaltyScale y) =
      fun y => ∑ j : Fin (3 * n), (if j.val % 3 = 1 ∨ j.val % 3 = 2 then
        (y j - 1) * (y j - 1) * penaltyScale * edge_area.getD (j.val / 3) 0 else 0) := by
    funext y
    exact penaltyValue_eq edge_area penaltyScale n hn harea y
  rw [hfun]
  apply HasFDerivAt.sum
  intro j _
  rw [penaltyGradient_eq edge_area penaltyScale n hn harea x j]
  have hp : HasFDerivAt (fun y : Fin (3 * n) → ℝ => y j)
      (ContinuousLinearMap.proj j : (Fin (3 * n) → ℝ) →L[ℝ] ℝ) x := hasFDerivAt_apply j x
  by_cases hc : j.val % 3 = 1 ∨ j.val % 3 = 2
  · simp only [hc, if_true]
    have h1 := ((hp.sub_const 1).mul (hp.sub_const 1)).mul_const
      (penaltyScale) |>.mul_const (edge_area.getD (j.val / 3) 0)
    refine h1.congr_fderiv ?_
    ext v
    simp
    ring
  · simp only [hc, if_false, zero_smul]
    exact hasFDerivAt_const _ _

theorem penaltyGradient_hasFDerivAt (edge_area : VectorXd ℝ) (penaltyScale : ℝ) (n : Nat)
    (hn : 1 ≤ n) (harea : edge_area.length = n) (x : Fin (3 * n) → ℝ) :
    HasFDerivAt (fun y : Fin (3 * n) → ℝ => penaltyGradient edge_area penaltyScale y)
      (LinearMap.toContinuousLinearMap
        (Matrix.toLin' (penaltyHessian edge_area penaltyScale x))) x := by
  rw [hasFDerivAt_pi']
  intro j
  have hfun : (fun y : Fin (3 * n) → ℝ => penaltyGradient edge_area penaltyScale y j) =
      fun y => if j.val % 3 = 1 ∨ j.val % 3 = 2 then
        2 * (y j - 1) * penaltyScale * edge_area.getD (j.val / 3) 0 else 0 := by
    funext y
    exact penaltyGradient_eq edge_area penaltyScale n hn harea y j
  rw [hfun]
  have hp : HasFDerivAt (fun y : Fin (3 * n) → ℝ => y j)
      (ContinuousLinearMap.proj j : (Fin (3 * n) → ℝ) →L[ℝ] ℝ) x := hasFDerivAt_apply j x
  by_cases hc : j.val % 3 = 1 ∨ j.val % 3 = 2
  · simp only [hc, if_true]
    have h1 := (((hp.sub_const 1).const_mul 2).mul_const penaltyScale).mul_const
      (edge_area.getD (j.val / 3) 0)
    refine h1.congr_fderiv ?_
    ext v
    simp [Matrix.mulVec, Matrix.dotProduct, penaltyHessian_eq edge_area penaltyScale n hn harea,
      hc]
    ring
  · simp only [hc, if_false]
    refine (hasFDerivAt_const (0 : ℝ) x).congr_fderiv ?_
    ext v
    simp [Matrix.mulVec, Matrix.dotProduct, penaltyHessian_eq edge_area penaltyScale n hn harea,
      hc]

theorem formValue_hasFDerivAt (F : (Fin 27 → ℝ) → Vector3d ℝ) (x : Fin 27 → ℝ)
    (IIderiv : Matrix (Fin 3) (Fin 27) ℝ)
    (hF : ∀ k : Fin 3, HasFDerivAt (fun y => F y k)
      (∑ j : Fin 27, IIderiv k j • (ContinuousLinearMap.proj j : (Fin 27 → ℝ) →L[ℝ] ℝ)) x)
    (r : Fin 4) :
    HasFDerivAt (fun y => ![formValue (F y) 0 0, formValue (F y) 0 1, formValue (F y) 1 0,
        formValue (F y) 1 1] r)
      (∑ j : Fin 27, formDerivative 0 IIderiv r j •
        (ContinuousLinearMap.proj j : (Fin 27 → ℝ) →L[ℝ] ℝ)) x := by
  rw [formDerivative_zero]
  fin_cases r
  · refine ((hF 0).add (hF 1)).congr_fderiv ?_
    simp [add_smul, Finset.sum_add_distrib]
  · exact hF 0
  · exact hF 0
  · refine ((hF 0).add (hF 2)).congr_fderiv ?_
    simp [add_smul, Finset.sum_add_distrib]

theorem formValue_sum_hasFDerivAt (F : (Fin 27 → ℝ) → Vector3d ℝ) (x : Fin 27 → ℝ)
    (IIderiv : Matrix (Fin 3) (Fin 27) ℝ)
    (hF : ∀ k : Fin 3, HasFDerivAt (fun y => F y k)
      (∑ j : Fin 27, IIderiv k j • (ContinuousLinearMap.proj j : (Fin 27 → ℝ) →L[ℝ] ℝ)) x) :
    HasFDerivAt (fun y => formValue (F y) 0 0 + formValue (F y) 0 1 + formValue (F y) 1 1)
      (∑ j : Fin 27, (formDerivative 0 IIderiv 0 j + formDerivative 0 IIderiv 1 j +
          formDerivative 0 IIderiv 3 j) •
        (ContinuousLinearMap.proj j : (Fin 27 → ℝ) →L[ℝ] ℝ)) x := by
  have h0 := formValue_hasFDerivAt F x IIderiv hF 0
  have h1 := formValue_hasFDerivAt F x IIderiv hF 1
  have h3 := formValue_hasFDerivAt F x IIderiv hF 3
  refine ((h0.add h1).add h3).congr_fderiv ?_
  simp [add_smul, Finset.sum_add_distrib]

theorem formDerivative_hasFDerivAt (D : (Fin 27 → ℝ) → Matrix (Fin 3) (Fin 27) ℝ)
    (x : Fin 27 → ℝ) (IIhess : Fin 3 → Matrix (Fin 27) (Fin 27) ℝ)
    (hD : ∀ k : Fin 3, HasFDerivAt (fun y => D y k)
      (LinearMap.toContinuousLinearMap (Matrix.toLin' (IIhess k))) x)
    (r : Fin 4) :
    HasFDerivAt (fun y => formDerivative 0 (D y) r)
      (LinearMap.toContinuousLinearMap
        (Matrix.toLin' (formHessian (fun _ => 0) IIhess r))) x := by
  simp only [formDerivative_zero, formHessian_zero]
  fin_cases r
  · refine ((hD 0).add (hD 1)).congr_fderiv ?_
    ext v
    simp [Matrix.add_mulVec]
  · exact hD 0
  · exact hD 0
  · refine ((hD 0).add (hD 2)).congr_fderiv ?_
    ext v
    simp [Matrix.add_mulVec]

theorem boundary_face_value (G : GeometryDerivatives ℝ) (mesh : MeshConnectivity)
    (curPos : MatrixX3d ℝ) (edgeDOFs : VectorXd ℝ) (face : Int) (derivative hessian : Bool)
    (angleDOF vec_norm : Fin 3 → ℝ)
    (hb : ∀ i : Fin 3, mesh.edgeOppositeVertex (mesh.faceEdge face i.val) 0 = -1 ∨
      mesh.edgeOppositeVertex (mesh.faceEdge face i.val) 1 = -1)
    (hangle : ∀ i : Fin 3, coeffAt edgeDOFs (3 * mesh.faceEdge face i.val) = some (angleDOF i))
    (hnorm : ∀ i : Fin 3, coeffAt edgeDOFs
      (3 * mesh.faceEdge face i.val + (mesh.faceEdgeOrientation face i.val).val + 1) =
        some (vec_norm i)) :
    ∃ r, secondFundamentalForm Real.tan Real.cos G mesh curPos edgeDOFs face derivative hessian =
        some r ∧
      r.value = formValue (fun i => 2 * G.triangleAltitude mesh curPos face i.val *
        Real.tan ((if mesh.faceEdgeOrientation face i.val = 0 then 1 else -1) * angleDOF i) *
        vec_norm i) := by
  obtain ⟨e, hE, hv⟩ := entries_value_of_reads Real.tan Real.cos G mesh curPos edgeDOFs
    face derivative hessian (fun _ => 0) angleDOF vec_norm
    (fun i => by rw [edgeTheta_of_boundary G mesh curPos _ false false (hb i)]; rfl) hangle hnorm
  obtain ⟨r, hr, hrv, -⟩ := form_of_entries Real.tan Real.cos G mesh curPos edgeDOFs
    face derivative hessian e hE
  refine ⟨r, hr, ?_⟩
  have hval : e.value = fun i => 2 * G.triangleAltitude mesh curPos face i.val *
      Real.tan ((if mesh.faceEdgeOrientation face i.val = 0 then 1 else -1) * angleDOF i) *
      vec_norm i := by
    funext i
    rw [hv i]
    simp
  rw [hrv, hval]

/-! ## Auxiliary lemmas: the optimizer variable of `run_simulation` -/

section RunSimulationLemmas

variable {R : Type} [Field R]

theorem vec3_eta (p : Vector3d R) : ![p 0, p 1, p 2] = p := by
  funext k
  fin_cases k <;> rfl

theorem segment3_setSegment3 (v : VectorXd R) (n : Nat) (p : Vector3d R)
    (h : n + 3 ≤ v.length) :
    ∃ w, setSegment3 v n p = some w ∧ w.length = v.length ∧ segment3 w n = some p ∧
      ∀ m, (m + 3 ≤ n ∨ n + 3 ≤ m) → segment3 w m = segment3 v m := by
  unfold setSegment3
  rw [if_pos h]
  refine ⟨_, rfl, by simp, ?_, ?_⟩
  · unfold segment3
    rw [if_pos (by simpa using h)]
    congr 1
    rw [← vec3_eta p]
    have h0 : n < v.length := by omega
    have h1 : n + 1 < v.length := by omega
    have h2 : n + 2 < v.length := by omega
    simp [List.getD_eq_getElem?_getD, List.getElem?_set, h0, h1, h2]
  · intro m hm
    unfold segment3
    simp only [List.length_set]
    by_cases hml : m + 3 ≤ v.length
    · simp only [hml, if_true, List.getD_eq_getElem?_getD, List.getElem?_set, List.length_set]
      have e1 : ¬ (n + 2 = m) := by omega
      have e2 : ¬ (n + 1 = m) := by omega
      have e3 : ¬ (n = m) := by omega
      have e4 : ¬ (n + 2 = m + 1) := by omega
      have e5 : ¬ (n + 1 = m + 1) := by omega
      have e6 : ¬ (n = m + 1) := by omega
      have e7 : ¬ (n + 2 = m + 2) := by omega
      have e8 : ¬ (n + 1 = m + 2) := by omega
      have e9 : ¬ (n = m + 2) := by omega
      simp only [e1, e2, e3, e4, e5, e6, e7, e8, e9, if_false]
    · simp only [hml, if_false]

/-- The first loop of `projectionSetup` after `m` vertices. -/
theorem setup_vertices (cur_pos : MatrixX3d R) (fixed_verts : Option (List Int)) (m : Nat)
    (hm : m ≤ cur_pos.length) :
    let st := (List.range m).foldl (fun (st : ProjectionSetup R) i =>
      if isFreeVertex fixed_verts i then
        { st with
          Pcoeffs := st.Pcoeffs ++
            [⟨st.nfree, 3 * i, 1⟩, ⟨st.nfree + 1, 3 * i + 1, 1⟩, ⟨st.nfree + 2, 3 * i + 2, 1⟩],
          nfree := st.nfree + 3 }
      else
        { st with
          fixed_dofs :=
            (setSegment3 st.fixed_dofs (3 * i) (cur_pos.getD i 0)).getD st.fixed_dofs })
      (⟨[], List.replicate (3 * cur_pos.length) 0, 0⟩ : ProjectionSetup R)
    st.nfree = 3 * (List.range m).countP (isFreeVertex fixed_verts) ∧
    st.fixed_dofs.length = 3 * cur_pos.length ∧
    ∀ j, j < m → isFreeVertex fixed_verts j = false →
      segment3 st.fixed_dofs (3 * j) = some (cur_pos.getD j 0) := by
  induction m with
  | zero => simp
  | succ m ih =>
    have ih := ih (by omega)
    simp only [List.range_succ, List.foldl_append, List.foldl_cons, List.foldl_nil,
      List.countP_append, List.countP_cons, List.countP_nil] at ih ⊢
    obtain ⟨hn, hl, hs⟩ := ih
    by_cases hf : isFreeVertex fixed_verts m = true
    · simp only [hf, if_true]
      refine ⟨by rw [hn]; ring, hl, ?_⟩
      intro j hj hjf
      have : j ≠ m := by rintro rfl; rw [hf] at hjf; exact absurd hjf (by simp)
      exact hs j (by omega) hjf
    · simp only [Bool.not_eq_true] at hf
      simp only [hf, Bool.false_eq_true, if_false]
      obtain ⟨w, hw, hwl, hwn, hwo⟩ := segment3_setSegment3 _ (3 * m) (cur_pos.getD m 0)
        (by rw [hl]; omega)
      rw [hw, Option.getD_some]
      refine ⟨by rw [hn]; simp, by rw [hwl, hl], ?_⟩
      intro j hj hjf
      by_cases hjm : j = m
      · subst hjm; exact hwn
      · rw [hwo (3 * j) (by omega)]
        exact hs j (by omega) hjf

/-- The second loop of `projectionSetup` only appends triplets and counts. -/
theorem setup_edges (st : ProjectionSetup R) (rows k : Nat) :
    let st' := (List.range k).foldl (fun (st : ProjectionSetup R) i =>
      { st with
        Pcoeffs := st.Pcoeffs ++ [⟨st.nfree, 3 * rows + i, 1⟩],
        nfree := st.nfree + 1 }) st
    st'.nfree = st.nfree + k ∧ st'.fixed_dofs = st.fixed_dofs := by
  induction k with
  | zero => simp
  | succ k ih =>
    simp only [List.range_succ, List.foldl_append, List.foldl_cons, List.foldl_nil] at ih ⊢
    exact ⟨by rw [ih.1]; ring, ih.2⟩

theorem projectionSetup_spec (cur_pos : MatrixX3d R) (fixed_verts : Option (List Int))
    (nedges nedgedofs : Nat) :
    (projectionSetup cur_pos fixed_verts nedges nedgedofs).nfree =
      3 * (List.range cur_pos.length).countP (isFreeVertex fixed_verts) + nedges * nedgedofs ∧
    (projectionSetup cur_pos fixed_verts nedges nedgedofs).fixed_dofs.length =
      3 * cur_pos.length ∧
    ∀ j, j < cur_pos.length → isFreeVertex fixed_verts j = false →
      segment3 (projectionSetup cur_pos fixed_verts nedges nedgedofs).fixed_dofs (3 * j) =
        some (cur_pos.getD j 0) := by
  have h1 := setup_vertices cur_pos fixed_verts cur_pos.length le_rfl
  simp only at h1
  have h2 := setup_edges ((List.range cur_pos.length).foldl (fun (st : ProjectionSetup R) i =>
      if isFreeVertex fixed_verts i then
        { st with
          Pcoeffs := st.Pcoeffs ++
            [⟨st.nfree, 3 * i, 1⟩, ⟨st.nfree + 1, 3 * i + 1, 1⟩, ⟨st.nfree + 2, 3 * i + 2, 1⟩],
          nfree := st.nfree + 3 }
      else
        { st with
          fixed_dofs :=
            (setSegment3 st.fixed_dofs (3 * i) (cur_pos.getD i 0)).getD st.fixed_dofs })
      (⟨[], List.replicate (3 * cur_pos.length) 0, 0⟩ : ProjectionSetup R))
    cur_pos.length (nedges * nedgedofs)
  simp only at h2
  unfold projectionSetup
  simp only
  rw [h2.1, h2.2]
  exact ⟨by rw [h1.1], h1.2.1, h1.2.2⟩

/-- The loop of `variable_to_pos_edgedofs` after `m` vertices. -/
theorem unpack_loop (fixed_verts : Option (List Int)) (nrows : Nat)
    (fixed_dofs var : VectorXd R) (cur_pos : MatrixX3d R)
    (hvar : 3 * (List.range nrows).countP (isFreeVertex fixed_verts) ≤ var.length)
    (hfix : ∀ j, j < nrows → isFreeVertex fixed_verts j = false →
      segment3 fixed_dofs (3 * j) = some (cur_pos.getD j 0))
    (m : Nat) (hm : m ≤ nrows) :
    ∃ pos, (List.range m).foldlM (fun (st : MatrixX3d R × Nat) i =>
        if isFreeVertex fixed_verts i then do
          let row ← segment3 var st.2
          pure (st.1 ++ [row], st.2 + 3)
        else do
          let row ← segment3 fixed_dofs (3 * i)
          pure (st.1 ++ [row], st.2)) (([] : MatrixX3d R), 0) =
        some (pos, 3 * (List.range m).countP (isFreeVertex fixed_verts)) ∧
      pos.length = m ∧
      ∀ j, j < m → pos[j]? = some
        (if isFreeVertex fixed_verts j then
          ![var.getD (3 * (List.range j).countP (isFreeVertex fixed_verts)) 0,
            var.getD (3 * (List.range j).countP (isFreeVertex fixed_verts) + 1) 0,
            var.getD (3 * (List.range j).countP (isFreeVertex fixed_verts) + 2) 0]
        else cur_pos.getD j 0) := by
  induction m with
  | zero => exact ⟨[], by simp, rfl, by simp⟩
  | succ m ih =>
    obtain ⟨pos, hpos, hlen, hrows⟩ := ih (by omega)
    have hmono : (List.range (m + 1)).countP (isFreeVertex fixed_verts) ≤
        (List.range nrows).countP (isFreeVertex fixed_verts) := by
      apply List.Sublist.countP_le
      exact (List.range_sublist.2 hm)
    rw [List.range_succ, List.foldlM_append, hpos]
    simp only [Option.bind_eq_bind, Option.some_bind, List.foldlM_cons, List.foldlM_nil,
      Option.pure_def, Option.bind_some, List.countP_append, List.countP_cons, List.countP_nil]
    rw [List.range_succ, List.countP_append, List.countP_cons, List.countP_nil] at hmono
    by_cases hf : isFreeVertex fixed_verts m = true
    · simp only [hf, if_true] at hmono ⊢
      have hseg : segment3 var (3 * (List.range m).countP (isFreeVertex fixed_verts)) =
          some ![var.getD (3 * (List.range m).countP (isFreeVertex fixed_verts)) 0,
            var.getD (3 * (List.range m).countP (isFreeVertex fixed_verts) + 1) 0,
            var.getD (3 * (List.range m).countP (isFreeVertex fixed_verts) + 2) 0] := by
        unfold segment3
        rw [if_pos (by omega)]
      rw [hseg]
      refine ⟨pos ++ [![var.getD (3 * (List.range m).countP (isFreeVertex fixed_verts)) 0,
            var.getD (3 * (List.range m).countP (isFreeVertex fixed_verts) + 1) 0,
            var.getD (3 * (List.range m).countP (isFreeVertex fixed_verts) + 2) 0]],
        by simp [Nat.mul_add], by simp [hlen], ?_⟩
      intro j hj
      by_cases hjm : j = m
      · subst hjm
        rw [List.getElem?_append_right (by omega)]
        simp [hlen, hf]
      · rw [List.getElem?_append_left (by omega)]
        exact hrows j (by omega)
    · simp only [Bool.not_eq_true] at hf
      simp only [hf, Bool.false_eq_true, if_false] at hmono ⊢
      rw [hfix m (by omega) hf]
      refine ⟨pos ++ [cur_pos.getD m 0], by simp, by simp [hlen], ?_⟩
      intro j hj
      by_cases hjm : j = m
      · subst hjm
        rw [List.getElem?_append_right (by omega)]
        simp [hlen, hf]
      · rw [List.getElem?_append_left (by omega)]
        exact hrows j (by omega)

/-- The function `variable_to_pos_edgedofs` on a variable vector of length
`nfree`: it returns, and the rows are the captured rows of `cur_pos` at fixed
vertices and consecutive segments of `var` at free vertices. -/
theorem unpack_spec (cur_pos : MatrixX3d R) (fixed_verts : Option (List Int))
    (nedges nedgedofs : Nat) (var : VectorXd R)
    (hvar : var.length = (projectionSetup cur_pos fixed_verts nedges nedgedofs).nfree) :
    ∃ pos, variable_to_pos_edgedofs fixed_verts nedges nedgedofs cur_pos.length
        (projectionSetup cur_pos fixed_verts nedges nedgedofs).fixed_dofs var =
        some (pos, var.drop (var.length - nedges * nedgedofs)) ∧
      pos.length = cur_pos.length ∧
      ∀ j, j < cur_pos.length → pos[j]? = some
        (if isFreeVertex fixed_verts j then
          ![var.getD (3 * (List.range j).countP (isFreeVertex fixed_verts)) 0,
            var.getD (3 * (List.range j).countP (isFreeVertex fixed_verts) + 1) 0,
            var.getD (3 * (List.range j).countP (isFreeVertex fixed_verts) + 2) 0]
        else cur_pos.getD j 0) := by
  obtain ⟨hn, -, hfix⟩ := projectionSetup_spec cur_pos fixed_verts nedges nedgedofs
  obtain ⟨pos, hpos, hlen, hrows⟩ := unpack_loop fixed_verts cur_pos.length
    (projectionSetup cur_pos fixed_verts nedges nedgedofs).fixed_dofs var cur_pos
    (by rw [hvar, hn]; omega) hfix cur_pos.length le_rfl
  refine ⟨pos, ?_, hlen, hrows⟩
  unfold variable_to_pos_edgedofs
  rw [hpos]
  have ht : tail var (nedges * nedgedofs) = some (var.drop (var.length - nedges * nedgedofs)) := by
    unfold tail
    rw [if_pos (by rw [hvar, hn]; omega)]
  simp [ht]

end RunSimulationLemmas

/-! ## Auxiliary lemmas: the drivers -/

section DriverLemmas

variable {R : Type} [Field R]

theorem inverse2_one : inverse2 (1 : Matrix (Fin 2) (Fin 2) R) = 1 := by
  unfold inverse2
  simp

end DriverLemmas

/-! ## Auxiliary lemmas: the measured energies -/

section MeasurementLemmas

variable {R : Type} [Field R]

theorem setCoeff_eq (v : VectorXd R) (i : Nat) (x : R) (hi : i < v.length) :
    setCoeff v i x = some (v.set i x) := by
  unfold setCoeff
  rw [if_pos hi]

/-- The entries of the vector of `initializeExtraDOFs`. -/
theorem initializeExtraDOFs_getElem (mesh : MeshConnectivity) (curPos : MatrixX3d R) (k : Nat)
    (hk : k < 3 * mesh.nEdges) :
    (initializeExtraDOFs mesh curPos)[k]? = some (if k % 3 = 0 then (0 : R) else 1) := by
  have h := @initializeExtraDOFs_foldl R _ mesh.nEdges mesh.nEdges le_rfl
  simp only at h
  unfold initializeExtraDOFs
  rw [h.2 k hk]
  by_cases h0 : k % 3 = 0
  · simp [h0]
  · simp [h0, hk]

/-- The loop of `cylinderIncompressibleDir` after `m` edges. -/
theorem cylinder_loop (mesh : MeshConnectivity) (curPos : MatrixX3d R) (diredgeDOFs : VectorXd R)
    (hd : mesh.nEdges ≤ diredgeDOFs.length) (m : Nat) (hm : m ≤ mesh.nEdges) :
    ∃ v : VectorXd R, (List.range m).foldlM (fun (v : VectorXd R) i => do
        let angle ← diredgeDOFs[i]?
        let v ← setCoeff v (i * 3) angle
        let v ← setCoeff v (i * 3 + 1) 1
        let v ← setCoeff v (i * 3 + 2) 1
        pure v) (initializeExtraDOFs mesh curPos) = some v ∧
      v.length = 3 * mesh.nEdges ∧
      ∀ k, k < 3 * mesh.nEdges → v[k]? = some
        (if k % 3 = 0 then (if k / 3 < m then diredgeDOFs.getD (k / 3) 0 else 0) else 1) := by
  induction m with
  | zero =>
    refine ⟨_, rfl, (initializeExtraDOFs_entries mesh curPos).1, ?_⟩
    intro k hk
    rw [initializeExtraDOFs_getElem mesh curPos k hk]
    simp
  | succ m ih =>
    obtain ⟨v, hv, hlen, hget⟩ := ih (by omega)
    rw [List.range_succ, List.foldlM_append, hv]
    have hdm : diredgeDOFs[m]? = some (diredgeDOFs.getD m 0) := by
      rw [List.getD_eq_getElem?_getD, List.getElem?_eq_getElem (by omega)]
      simp
    simp only [Option.bind_eq_bind, Option.some_bind, List.foldlM_cons, List.foldlM_nil, hdm,
      Option.pure_def]
    rw [setCoeff_eq _ _ _ (by omega)]
    simp only [Option.some_bind]
    rw [setCoeff_eq _ _ _ (by simp; omega)]
    simp only [Option.some_bind]
    rw [setCoeff_eq _ _ _ (by simp; omega)]
    simp only [Option.some_bind]
    refine ⟨_, rfl, by simp [hlen], ?_⟩
    intro k hk
    simp only [List.getElem?_set, List.length_set, hlen]
    by_cases h2 : m * 3 + 2 = k
    · have h3 : ¬ (k % 3 = 0) := by omega
      simp [h2, h3, hk]
    · by_cases h1 : m * 3 + 1 = k
      · have h3 : ¬ (k % 3 = 0) := by omega
        simp [h2, h1, h3, hk]
      · by_cases h0 : m * 3 = k
        · have h3 : k % 3 = 0 := by omega
          have h4 : k / 3 = m := by omega
          simp [h2, h1, h0, h3, h4, hk]
        · simp only [h2, h1, h0, if_false]
          rw [hget k hk]
          by_cases h3 : k % 3 = 0
          · have : (k / 3 < m) ↔ (k / 3 < m + 1) := by omega
            simp only [h3, if_true, this]
          · simp only [h3, if_false]

/-- The loop of `sphereIncompressibleDir` after `m` edges. -/
theorem sphere_loop (mesh : MeshConnectivity) (curPos : MatrixX3d R) (diredgeDOFs : VectorXd R)
    (hd : mesh.nEdges ≤ diredgeDOFs.length) (m : Nat) (hm : m ≤ mesh.nEdges) :
    ∃ v : VectorXd R, (List.range m).foldlM (fun (v : VectorXd R) i => do
        let angle ← diredgeDOFs[i]?
        let v ← setCoeff v (i * 3) angle
        pure v) (initializeExtraDOFs mesh curPos) = some v ∧
      v.length = 3 * mesh.nEdges ∧
      ∀ k, k < 3 * mesh.nEdges → v[k]? = some
        (if k % 3 = 0 then (if k / 3 < m then diredgeDOFs.getD (k / 3) 0 else 0) else 1) := by
  induction m with
  | zero =>
    refine ⟨_, rfl, (initializeExtraDOFs_entries mesh curPos).1, ?_⟩
    intro k hk
    rw [initializeExtraDOFs_getElem mesh curPos k hk]
    simp
  | succ m ih =>
    obtain ⟨v, hv, hlen, hget⟩ := ih (by omega)
    rw [List.range_succ, List.foldlM_append, hv]
    have hdm : diredgeDOFs[m]? = some (diredgeDOFs.getD m 0) := by
      rw [List.getD_eq_getElem?_getD, List.getElem?_eq_getElem (by omega)]
      simp
    simp only [Option.bind_eq_bind, Option.some_bind, List.foldlM_cons, List.foldlM_nil, hdm,
      Option.pure_def]
    rw [setCoeff_eq _ _ _ (by omega)]
    simp only [Option.some_bind]
    refine ⟨_, rfl, by simp [hlen], ?_⟩
    intro k hk
    simp only [List.getElem?_set, List.length_set, hlen]
    by_cases h0 : m * 3 = k
    · have h3 : k % 3 = 0 := by omega
      have h4 : k / 3 = m := by omega
      simp [h0, h3, h4, hk]
    · simp only [h0, if_false]
      rw [hget k hk]
      by_cases h3 : k % 3 = 0
      · have : (k / 3 < m) ↔ (k / 3 < m + 1) := by omega
        simp only [h3, if_true, this]
      · simp only [h3, if_false]

/-- The edge-DOF vector with the entries (angle of the edge, 1, 1) for each of
`n` edges. -/
theorem angle_one_one_ext (n : Nat) (diredgeDOFs v : VectorXd R) (hlen : v.length = 3 * n)
    (hget : ∀ k, k < 3 * n → v[k]? = some
      (if k % 3 = 0 then (if k / 3 < n then diredgeDOFs.getD (k / 3) 0 else 0) else 1)) :
    v = (List.range n).flatMap (fun i => [diredgeDOFs.getD i 0, 1, 1]) := by
  have hflat : ∀ m : Nat,
      ((List.range m).flatMap (fun i => [diredgeDOFs.getD i 0, (1 : R), 1])).length = 3 * m ∧
      ∀ k, k < 3 * m → ((List.range m).flatMap (fun i => [diredgeDOFs.getD i 0, (1 : R), 1]))[k]? =
        some (if k % 3 = 0 then diredgeDOFs.getD (k / 3) 0 else 1) := by
    intro m
    induction m with
    | zero => simp
    | succ m ih =>
      obtain ⟨il, ig⟩ := ih
      rw [List.range_succ, List.flatMap_append]
      refine ⟨by rw [List.length_append, il]; simp; omega, ?_⟩
      intro k hk
      by_cases hkm : k < 3 * m
      · rw [List.getElem?_append_left (by omega)]
        exact ig k hkm
      · rw [List.getElem?_append_right (by omega), il]
        have hc : k - 3 * m = 0 ∨ k - 3 * m = 1 ∨ k - 3 * m = 2 := by omega
        rcases hc with h | h | h
        · have h3 : k % 3 = 0 := by omega
          have h4 : k / 3 = m := by omega
          simp [h, h3, h4]
        · have h3 : ¬ (k % 3 = 0) := by omega
          simp [h, h3]
        · have h3 : ¬ (k % 3 = 0) := by omega
          simp [h, h3]
  apply List.ext_getElem?
  intro k
  by_cases hk : k < 3 * n
  · rw [hget k hk, (hflat n).2 k hk]
    by_cases h3 : k % 3 = 0
    · have : k / 3 < n := by omega
      simp [h3, this]
    · simp [h3]
  · rw [List.getElem?_eq_none (by omega), List.getElem?_eq_none (by rw [(hflat n).1]; omega)]

/-- Both measurements build the edge-DOF vector (angle, 1, 1); the cylinder
hands it to the compressive model, the sphere to the director model. -/
theorem incompressibleDir_eq (dirModel compressModel : ShellEnergy R) (mesh : MeshConnectivity)
    (curPos : MatrixX3d R) (diredgeDOFs : VectorXd R) (hn : 1 ≤ mesh.nEdges)
    (hd : mesh.nEdges ≤ diredgeDOFs.length) :
    cylinderIncompressibleDir dirModel compressModel mesh curPos diredgeDOFs =
      some (compressModel.elasticEnergy curPos
        ((List.range mesh.nEdges).flatMap (fun i => [diredgeDOFs.getD i 0, 1, 1])) true) ∧
    sphereIncompressibleDir dirModel compressModel mesh curPos diredgeDOFs =
      some (dirModel.elasticEnergy curPos
        ((List.range mesh.nEdges).flatMap (fun i => [diredgeDOFs.getD i 0, 1, 1])) true) := by
  have hl := (@initializeExtraDOFs_entries R _ mesh curPos).1
  have hk : 3 * mesh.nEdges / mesh.nEdges = 3 := Nat.mul_div_left 3 (by omega)
  have hne : ¬ (mesh.nEdges = 0) := by omega
  constructor
  · obtain ⟨v, hv, hlen, hget⟩ := cylinder_loop mesh curPos diredgeDOFs hd mesh.nEdges le_rfl
    unfold cylinderIncompressibleDir
    simp only [hl, hk, hne, if_false]
    simp only [Option.bind_eq_bind, Option.pure_def] at hv ⊢
    rw [hv]
    simp only [Option.some_bind]
    rw [angle_one_one_ext mesh.nEdges diredgeDOFs v hlen hget]
  · obtain ⟨v, hv, hlen, hget⟩ := sphere_loop mesh curPos diredgeDOFs hd mesh.nEdges le_rfl
    unfold sphereIncompressibleDir
    simp only [hl, hk, hne, if_false]
    simp only [Option.bind_eq_bind, Option.pure_def] at hv ⊢
    rw [hv]
    simp only [Option.some_bind]
    rw [angle_one_one_ext mesh.nEdges diredgeDOFs v hlen hget]

end MeasurementLemmas

/-! ## Auxiliary lemmas: the objective of `optimizeEdgeDOFs` -/

section ObjectiveLemmas

variable {R : Type} [Field R]

theorem sparseFromTriplets_eq (rows cols : Nat) (triplets : List (Triplet R))
    (h : ∀ t ∈ triplets, t.row < rows ∧ t.col < cols) :
    sparseFromTriplets rows cols triplets = some ⟨rows, cols, tripletSum triplets⟩ := by
  unfold sparseFromTriplets
  rw [if_pos]
  rw [List.all_eq_true]
  intro t ht
  simp [h t ht]

/-- The coefficients of the triplets `(i, nposdofs + i, 1)`. -/
theorem tripletSum_projection (nposdofs m i j : Nat) :
    tripletSum ((List.range m).map (fun i => (⟨i, nposdofs + i, 1⟩ : Triplet R))) i j =
      if i < m ∧ j = nposdofs + i then 1 else 0 := by
  unfold tripletSum
  induction m with
  | zero => simp
  | succ m ih =>
    rw [List.range_succ, List.map_append, List.filter_append, List.map_append, List.sum_append, ih]
    by_cases hi : m = i
    · subst hi
      by_cases hj : j = nposdofs + m
      · subst hj
        simp [List.filter_cons]
      · have hj' : ¬ (nposdofs + m = j) := fun h => hj h.symm
        simp [List.filter_cons, hj, hj']
    · have hlt : (i < m ∧ j = nposdofs + i) ↔ (i < m + 1 ∧ j = nposdofs + i) := by
        constructor
        · rintro ⟨a, b⟩; exact ⟨by omega, b⟩
        · rintro ⟨a, b⟩; exact ⟨by omega, b⟩
      simp [List.filter_cons, hi, hlt]

theorem edgeProjection_eq (nposdofs nedgedofs : Nat) :
    edgeProjection nposdofs nedgedofs = some (⟨nedgedofs, nposdofs + nedgedofs,
      fun i j => if i < nedgedofs ∧ j = nposdofs + i then 1 else 0⟩ : SparseMatrix R) := by
  unfold edgeProjection
  rw [sparseFromTriplets_eq]
  · congr 2
    funext i j
    exact tripletSum_projection nposdofs nedgedofs i j
  · intro t ht
    rw [List.mem_map] at ht
    obtain ⟨i, hi, rfl⟩ := ht
    rw [List.mem_range] at hi
    exact ⟨hi, by dsimp only; omega⟩

/-- A sum against the row `i` of `P` picks the entry `nposdofs + i`. -/
theorem sum_projection_row (nposdofs nedgedofs i : Nat) (hi : i < nedgedofs) (f : Nat → R) :
    ∑ k ∈ Finset.range (nposdofs + nedgedofs),
      (if i < nedgedofs ∧ k = nposdofs + i then (1 : R) else 0) * f k = f (nposdofs + i) := by
  rw [Finset.sum_eq_single (nposdofs + i)]
  · simp [hi]
  · intro k _ hk
    simp [hk]
  · intro h
    exact absurd (Finset.mem_range.2 (by omega)) h

/-- A sum against the column `j` of `PT` picks the entry `nposdofs + j`. -/
theorem sum_projection_col (nposdofs nedgedofs j : Nat) (hj : j < nedgedofs) (f : Nat → R) :
    ∑ k ∈ Finset.range (nposdofs + nedgedofs),
      f k * (if j < nedgedofs ∧ k = nposdofs + j then (1 : R) else 0) = f (nposdofs + j) := by
  rw [Finset.sum_eq_single (nposdofs + j)]
  · simp [hj]
  · intro k _ hk
    simp [hk]
  · intro h
    exact absurd (Finset.mem_range.2 (by omega)) h

theorem addVec_eq (u v : VectorXd R) (h : u.length = v.length) :
    ∃ w, addVec u v = some w ∧ w.length = u.length ∧
      ∀ i, i < u.length → w.getD i 0 = u.getD i 0 + v.getD i 0 := by
  unfold addVec
  rw [if_pos h]
  refine ⟨_, rfl, by simp [h], ?_⟩
  intro i hi
  have hi' : i < v.length := by omega
  simp [List.getD_eq_getElem?_getD, List.getElem?_zipWith, List.getElem?_eq_getElem hi,
    List.getElem?_eq_getElem hi']

end ObjectiveLemmas

section PenaltyShape

variable {R : Type} [Field R]

/-- The shape of the slots written by `edgeDOFPenaltyEnergy` whenever the
sizes make the call well defined: a derivative as long as `edgeDOFs` and
diagonal triplets inside the matrix. -/
theorem penalty_returns (edgeDOFs edge_area : VectorXd R) (penaltyScale : R)
    (deriv hessian : Bool) (hn : 1 ≤ edge_area.length)
    (hs : edgeDOFs.length % edge_area.length ≠ 0 ∨ edgeDOFs.length = edge_area.length ∨
      3 * edge_area.length ≤ edgeDOFs.length) :
    ∃ pen, edgeDOFPenaltyEnergy edgeDOFs edge_area penaltyScale deriv hessian = some pen ∧
      (deriv = true → ∃ d, pen.derivative = some d ∧ d.length = edgeDOFs.length) ∧
      (deriv = false → pen.derivative = none) ∧
      (hessian = true → ∃ ts, pen.hessian = some ts) ∧
      (hessian = false → pen.hessian = none) ∧
      ∀ t ∈ pen.hessian.getD [], t.row = t.col ∧ t.row < edgeDOFs.length := by
  by_cases hearly : edgeDOFs.length % edge_area.length ≠ 0 ∨ edgeDOFs.length = edge_area.length
  · refine ⟨⟨0, if deriv then some (List.replicate edgeDOFs.length 0) else none,
      if hessian then some [] else none⟩, ?_, ?_, ?_, ?_, ?_, ?_⟩
    · unfold edgeDOFPenaltyEnergy
      rcases hearly with h | h
      · have h0 : edge_area.length ≠ 0 := by omega
        by_cases h1 : edgeDOFs.length = edge_area.length
        · simp only [h1, if_true]
        · simp only [h1, h0, h, if_false, ne_eq, not_false_eq_true, if_true]
      · simp only [h, if_true]
    · intro hd; subst hd; exact ⟨_, rfl, by simp⟩
    · intro hd; subst hd; rfl
    · intro hh; subst hh; exact ⟨_, rfl⟩
    · intro hh; subst hh; rfl
    · intro t ht
      cases hessian <;> simp at ht
  · have hmod : edgeDOFs.length % edge_area.length = 0 := by
      by_contra hc
      exact hearly (Or.inl hc)
    have hne : edgeDOFs.length ≠ edge_area.length := fun hc => hearly (Or.inr hc)
    have h3 : 3 * edge_area.length ≤ edgeDOFs.length := by
      rcases hs with h | h | h
      · exact absurd hmod h
      · exact absurd h hne
      · exact h
    have hlen : edgeDOFs.length = edgeDOFs.length / edge_area.length * edge_area.length :=
      (Nat.div_mul_cancel (Nat.dvd_of_mod_eq_zero hmod)).symm
    have hk : 3 ≤ edgeDOFs.length / edge_area.length := by
      rw [Nat.le_div_iff_mul_le (by omega)]
      exact h3
    have hfold := penalty_eq_fold edgeDOFs edge_area penaltyScale
      (edgeDOFs.length / edge_area.length) edge_area.length deriv hessian hn hk rfl
      hlen
    refine ⟨_, hfold, ?_, ?_, ?_, ?_, ?_⟩
    · intro hd; subst hd
      refine ⟨_, rfl, ?_⟩
      rw [List.length_map, List.length_range]
      exact hlen.symm
    · intro hd; subst hd; rfl
    · intro hh; subst hh; exact ⟨_, rfl⟩
    · intro hh; subst hh; rfl
    · intro t ht
      cases hessian
      · simp at ht
      · simp only [if_true, Option.getD_some, List.mem_flatMap, List.mem_range] at ht
        obtain ⟨i, hi, hmem⟩ := ht
        have hbound : (i + 1) * (edgeDOFs.length / edge_area.length) ≤
            edge_area.length * (edgeDOFs.length / edge_area.length) :=
          Nat.mul_le_mul_right _ (by omega)
        rw [Nat.add_mul, Nat.one_mul, Nat.mul_comm edge_area.length, ← hlen] at hbound
        simp only [List.mem_cons, List.mem_singleton, List.not_mem_nil, or_false] at hmem
        rcases hmem with rfl | rfl
        · exact ⟨rfl, by dsimp only; omega⟩
        · exact ⟨rfl, by dsimp only; omega⟩

end PenaltyShape

section ObjectiveShape

variable {R : Type} [Field R]

/-- The objective of `optimizeEdgeDOFs` in terms of the elastic energy and the
penalty, for a variable vector as long as the edge-DOF vector. -/
theorem optimizeObjective_eq (thickness : R) (energy : ShellEnergy R) (curPos : MatrixX3d R)
    (edge_area edgeDOFs var : VectorXd R) (grad hessian psd_proj : Bool)
    (hvar : var.length = edgeDOFs.length) (hn : 1 ≤ edge_area.length)
    (hs : var.length % edge_area.length ≠ 0 ∨ var.length = edge_area.length ∨
      3 * edge_area.length ≤ var.length)
    (hg : grad = true →
      (energy.elasticEnergyDeriv curPos var true).length = 3 * curPos.length + var.length)
    (hH : hessian = true → ∀ t ∈ energy.elasticEnergyHess curPos var true
        (if psd_proj then HessianProjectType.kMaxZero else HessianProjectType.kNone),
      t.row < 3 * curPos.length + var.length ∧ t.col < 3 * curPos.length + var.length) :
    ∃ pen r, edgeDOFPenaltyEnergy var edge_area (1000 * thickness) grad hessian = some pen ∧
      optimizeObjective thickness energy curPos edge_area edgeDOFs var grad hessian psd_proj =
        some r ∧
      r.value = energy.elasticEnergy curPos var true + pen.value ∧
      (grad = true → ∃ g, r.derivative = some g ∧ g.length = var.length ∧
        ∀ i, i < var.length → g.getD i 0 =
          (energy.elasticEnergyDeriv curPos var true).getD (3 * curPos.length + i) 0 +
            (pen.derivative.getD []).getD i 0) ∧
      (grad = false → r.derivative = none) ∧
      (hessian = true → ∃ H, r.hessian = some H ∧ H.rows = var.length ∧ H.cols = var.length ∧
        ∀ i j, i < var.length → j < var.length → H.coeff i j =
          tripletSum (energy.elasticEnergyHess curPos var true
            (if psd_proj then HessianProjectType.kMaxZero else HessianProjectType.kNone))
            (3 * curPos.length + i) (3 * curPos.length + j) +
          tripletSum (pen.hessian.getD []) i j) ∧
      (hessian = false → r.hessian = none) := by
  obtain ⟨pen, hpen, hpd, hpdn, hph, hphn, hpt⟩ :=
    penalty_returns var edge_area (1000 * thickness) grad hessian hn hs
  have h3 : curPos.length * 3 = 3 * curPos.length := Nat.mul_comm _ _
  -- the gradient slot
  have hgrad : ∃ gs : Option (VectorXd R),
      (if grad then
        ((⟨edgeDOFs.length, curPos.length * 3 + edgeDOFs.length,
          fun i j => if i < edgeDOFs.length ∧ j = curPos.length * 3 + i then 1 else 0⟩ :
            SparseMatrix R).mulVec (energy.elasticEnergyDeriv curPos var true)).bind
          (fun g => (addVec g (pen.derivative.getD [])).bind (fun g => some (some g)))
      else some none) = some gs ∧
      (grad = true → ∃ g, gs = some g ∧ g.length = var.length ∧
        ∀ i, i < var.length → g.getD i 0 =
          (energy.elasticEnergyDeriv curPos var true).getD (3 * curPos.length + i) 0 +
            (pen.derivative.getD []).getD i 0) ∧
      (grad = false → gs = none) := by
    cases grad
    · exact ⟨none, rfl, by simp, fun _ => rfl⟩
    · obtain ⟨d, hd, hdl⟩ := hpd rfl
      have hgl := hg rfl
      simp only [if_true, SparseMatrix.mulVec]
      rw [if_pos (by rw [hgl, h3, hvar])]
      simp only [Option.some_bind, hd, Option.getD_some]
      obtain ⟨w, hw, hwl, hwg⟩ := addVec_eq ((List.range edgeDOFs.length).map (fun i =>
        ∑ k ∈ Finset.range (curPos.length * 3 + edgeDOFs.length),
          (if i < edgeDOFs.length ∧ k = curPos.length * 3 + i then (1 : R) else 0) *
            (energy.elasticEnergyDeriv curPos var true).getD k 0)) d
        (by rw [List.length_map, List.length_range, hdl, hvar])
      rw [hw]
      refine ⟨some w, rfl, fun _ => ⟨w, rfl, ?_, ?_⟩, by simp⟩
      · rw [hwl, List.length_map, List.length_range, hvar]
      · intro i hi
        rw [hwg i (by rw [List.length_map, List.length_range, ← hvar]; exact hi)]
        congr 1
        rw [List.getD_eq_getElem?_getD, List.getElem?_map,
          List.getElem?_range (by rw [← hvar]; exact hi)]
        simp only [Option.map_some', Option.getD_some]
        rw [sum_projection_row _ _ _ (by rw [← hvar]; exact hi), h3]
  -- the Hessian slot
  have hhess : ∃ hs : Option (SparseMatrix R),
      (if hessian then
        (sparseFromTriplets (var.length + 3 * curPos.length) (var.length + 3 * curPos.length)
          (if hessian then energy.elasticEnergyHess curPos var true
            (if psd_proj then HessianProjectType.kMaxZero else HessianProjectType.kNone)
          else [])).bind (fun H =>
          ((⟨edgeDOFs.length, curPos.length * 3 + edgeDOFs.length,
            fun i j => if i < edgeDOFs.length ∧ j = curPos.length * 3 + i then 1 else 0⟩ :
              SparseMatrix R).mul H).bind (fun PH =>
            (PH.mul (SparseMatrix.transpose (⟨edgeDOFs.length, curPos.length * 3 + edgeDOFs.length,
              fun i j => if i < edgeDOFs.length ∧ j = curPos.length * 3 + i then 1 else 0⟩ :
                SparseMatrix R))).bind (fun H =>
              (sparseFromTriplets var.length var.length (pen.hessian.getD [])).bind (fun M =>
                (H.add M).bind (fun H => some (some H))))))
      else some none) = some hs ∧
      (hessian = true → ∃ H, hs = some H ∧ H.rows = var.length ∧ H.cols = var.length ∧
        ∀ i j, i < var.length → j < var.length → H.coeff i j =
          tripletSum (energy.elasticEnergyHess curPos var true
            (if psd_proj then HessianProjectType.kMaxZero else HessianProjectType.kNone))
            (3 * curPos.length + i) (3 * curPos.length + j) +
          tripletSum (pen.hessian.getD []) i j) ∧
      (hessian = false → hs = none) := by
    cases hessian
    · exact ⟨none, rfl, by simp, fun _ => rfl⟩
    · have hHr := hH rfl
      simp only [if_true]
      rw [sparseFromTriplets_eq _ _ _ (fun t ht => by
        have := hHr t ht
        constructor <;> omega)]
      rw [sparseFromTriplets_eq _ _ _ (fun t ht => by
        have := hpt t ht
        constructor <;> omega)]
      have e : var.length + 3 * curPos.length = curPos.length * 3 + edgeDOFs.length := by omega
      simp only [Option.some_bind, SparseMatrix.mul, SparseMatrix.transpose, SparseMatrix.add, e,
        if_true]
      rw [if_pos ⟨hvar.symm, hvar.symm⟩]
      simp only [Option.some_bind]
      refine ⟨_, rfl, fun _ => ⟨_, rfl, hvar.symm, hvar.symm, ?_⟩, by simp⟩
      intro i j hi hj
      dsimp only
      congr 1
      rw [sum_projection_col _ _ _ (by rw [← hvar]; exact hj),
        sum_projection_row _ _ _ (by rw [← hvar]; exact hi), h3]
  obtain ⟨gs, hgs, hgs1, hgs2⟩ := hgrad
  obtain ⟨hs', hhs, hhs1, hhs2⟩ := hhess
  refine ⟨pen, ⟨0 + energy.elasticEnergy curPos var true + pen.value, gs, hs'⟩, hpen, ?_,
    by simp, hgs1, hgs2, hhs1, hhs2⟩
  simp only [optimizeObjective, edgeProjection_eq, Option.bind_eq_bind, Option.some_bind]
  unfold obj_func
  simp only [Option.bind_eq_bind, Option.pure_def, hpen, Option.some_bind]
  have hG : grad = true → ∃ g1 g2,
      (⟨edgeDOFs.length, curPos.length * 3 + edgeDOFs.length,
          fun i j => if i < edgeDOFs.length ∧ j = curPos.length * 3 + i then 1 else 0⟩ :
            SparseMatrix R).mulVec (energy.elasticEnergyDeriv curPos var true) = some g1 ∧
        addVec g1 (pen.derivative.getD []) = some g2 ∧ gs = some g2 := by
    intro hgt
    rw [if_pos hgt] at hgs
    obtain ⟨g1, hg1, hgs⟩ := Option.bind_eq_some.1 hgs
    obtain ⟨g2, hg2, hgs⟩ := Option.bind_eq_some.1 hgs
    exact ⟨g1, g2, hg1, hg2, (Option.some.inj hgs).symm⟩
  have hHs : hessian = true → ∃ H1 H2 H3 H4 H5,
      sparseFromTriplets (var.length + 3 * curPos.length) (var.length + 3 * curPos.length)
          (if hessian then energy.elasticEnergyHess curPos var true
            (if psd_proj then HessianProjectType.kMaxZero else HessianProjectType.kNone)
          else []) = some H1 ∧
        (⟨edgeDOFs.length, curPos.length * 3 + edgeDOFs.length,
            fun i j => if i < edgeDOFs.length ∧ j = curPos.length * 3 + i then 1 else 0⟩ :
              SparseMatrix R).mul H1 = some H2 ∧
        H2.mul (SparseMatrix.transpose (⟨edgeDOFs.length, curPos.length * 3 + edgeDOFs.length,
              fun i j => if i < edgeDOFs.length ∧ j = curPos.length * 3 + i then 1 else 0⟩ :
                SparseMatrix R)) = some H3 ∧
        sparseFromTriplets var.length var.length (pen.hessian.getD []) = some H4 ∧
        H3.add H4 = some H5 ∧ hs' = some H5 := by
    intro hht
    rw [if_pos hht] at hhs
    obtain ⟨H1, h1, hhs⟩ := Option.bind_eq_some.1 hhs
    obtain ⟨H2, h2, hhs⟩ := Option.bind_eq_some.1 hhs
    obtain ⟨H3, h3', hhs⟩ := Option.bind_eq_some.1 hhs
    obtain ⟨H4, h4, hhs⟩ := Option.bind_eq_some.1 hhs
    obtain ⟨H5, h5, hhs⟩ := Option.bind_eq_some.1 hhs
    exact ⟨H1, H2, H3, H4, H5, h1, h2, h3', h4, h5, (Option.some.inj hhs).symm⟩
  cases grad
  · rw [hgs2 rfl]
    cases hessian
    · rw [hhs2 rfl]
      simp
    · obtain ⟨H1, H2, H3, H4, H5, h1, h2, h3', h4, h5, e⟩ := hHs rfl
      simp only [Bool.false_eq_true, if_false, if_true] at h1 ⊢
      rw [h1]; simp only [Option.some_bind]
      rw [h2]; simp only [Option.some_bind]
      rw [h3']; simp only [Option.some_bind]
      rw [h4]; simp only [Option.some_bind]
      rw [h5, e]; simp only [Option.some_bind]
  · obtain ⟨g1, g2, hg1, hg2, eg⟩ := hG rfl
    simp only [if_true]
    rw [hg1]; simp only [Option.some_bind]
    rw [hg2]; simp only [Option.some_bind]
    cases hessian
    · rw [hhs2 rfl, eg]
      simp
    · obtain ⟨H1, H2, H3, H4, H5, h1, h2, h3', h4, h5, e⟩ := hHs rfl
      simp only [if_true] at h1 ⊢
      rw [h1]; simp only [Option.some_bind]
      rw [h2]; simp only [Option.some_bind]
      rw [h3']; simp only [Option.some_bind]
      rw [h4]; simp only [Option.some_bind]
      rw [h5, e, eg]; simp only [Option.some_bind]

end ObjectiveShape

section ObjectiveCalculus

variable {R : Type} [Field R]

/-- The slots of a successful call of `edgeDOFPenaltyEnergy` on `3 * n` DOFs
are the values of `penaltyValue`, `penaltyGradient` and `penaltyHessian`. -/
theorem penalty_slots_eq (edge_area : VectorXd R) (penaltyScale : R) (n : Nat) (hn : 1 ≤ n)
    (harea : edge_area.length = n) (x : Fin (3 * n) → R) (deriv hessian : Bool)
    (pen : PenaltyEval R)
    (hpen : edgeDOFPenaltyEnergy (List.ofFn x) edge_area penaltyScale deriv hessian = some pen) :
    pen.value = penaltyValue edge_area penaltyScale x ∧
    (deriv = true → ∀ j : Fin (3 * n),
      (pen.derivative.getD []).getD j.val 0 = penaltyGradient edge_area penaltyScale x j) ∧
    (hessian = true → ∀ i j : Fin (3 * n),
      tripletSum (pen.hessian.getD []) i.val j.val = penaltyHessian edge_area penaltyScale x i j) := by
  rw [penalty_eq_fold (List.ofFn x) edge_area penaltyScale 3 n deriv hessian hn le_rfl
    harea (by simp)] at hpen
  have hp := (Option.some.inj hpen).symm
  subst hp
  unfold penaltyValue penaltyGradient penaltyHessian setFromTriplets tripletSum
  rw [penalty_eq_fold (List.ofFn x) edge_area penaltyScale 3 n true true hn le_rfl
    harea (by simp)]
  refine ⟨rfl, ?_, ?_⟩
  · intro hd; subst hd
    intro j
    rfl
  · intro hh; subst hh
    intro i j
    rfl

end ObjectiveCalculus

/-- The objective of `optimizeEdgeDOFs` on `3 * n` DOFs is the elastic energy
plus the penalty, its gradient the edge-DOF block of the elastic gradient plus
the penalty gradient, its Hessian the trailing block of the elastic Hessian
plus the penalty Hessian. -/
theorem objective_functions_eq {R : Type} [Field R] (thickness : R) (energy : ShellEnergy R)
    (curPos : MatrixX3d R) (edge_area : VectorXd R) (n : Nat) (hn : 1 ≤ n)
    (harea : edge_area.length = n) (x : Fin (3 * n) → R) :
    objectiveValue thickness energy curPos edge_area x =
      energy.elasticEnergy curPos (List.ofFn x) true +
        penaltyValue edge_area (1000 * thickness) x ∧
    ((energy.elasticEnergyDeriv curPos (List.ofFn x) true).length =
        3 * curPos.length + 3 * n →
      ∀ j : Fin (3 * n), objectiveGradient thickness energy curPos edge_area x j =
        (energy.elasticEnergyDeriv curPos (List.ofFn x) true).getD (3 * curPos.length + j.val) 0 +
          penaltyGradient edge_area (1000 * thickness) x j) ∧
    ((∀ t ∈ energy.elasticEnergyHess curPos (List.ofFn x) true HessianProjectType.kNone,
        t.row < 3 * curPos.length + 3 * n ∧ t.col < 3 * curPos.length + 3 * n) →
      ∀ i j : Fin (3 * n), objectiveHessian thickness energy curPos edge_area x i j =
        tripletSum (energy.elasticEnergyHess curPos (List.ofFn x) true HessianProjectType.kNone)
          (3 * curPos.length + i.val) (3 * curPos.length + j.val) +
        penaltyHessian edge_area (1000 * thickness) x i j) := by
  have hlen : (List.ofFn x).length = 3 * n := by simp
  have hs : (List.ofFn x).length % edge_area.length ≠ 0 ∨
      (List.ofFn x).length = edge_area.length ∨
      3 * edge_area.length ≤ (List.ofFn x).length := by
    right; right; rw [hlen, harea]
  refine ⟨?_, ?_, ?_⟩
  · obtain ⟨pen, r, hpen, hr, hv, -⟩ := optimizeObjective_eq thickness energy curPos edge_area
      (List.ofFn x) (List.ofFn x) false false false rfl (by omega) hs (by simp) (by simp)
    unfold objectiveValue
    rw [hr]
    simp only [Option.map_some', Option.getD_some, hv]
    rw [(penalty_slots_eq edge_area _ n hn harea x false false pen hpen).1]
  · intro hgl j
    obtain ⟨pen, r, hpen, hr, -, hg, -⟩ := optimizeObjective_eq thickness energy curPos edge_area
      (List.ofFn x) (List.ofFn x) true false false rfl (by omega) hs
      (fun _ => by rw [hgl, hlen]) (by simp)
    obtain ⟨g, hrg, -, hgi⟩ := hg rfl
    unfold objectiveGradient
    rw [hr]
    simp only [Option.some_bind, hrg, Option.getD_some]
    rw [hgi j.val (by rw [hlen]; exact j.isLt),
      (penalty_slots_eq edge_area _ n hn harea x true false pen hpen).2.1 rfl j]
  · intro hHl i j
    obtain ⟨pen, r, hpen, hr, -, -, -, hH, -⟩ := optimizeObjective_eq thickness energy curPos
      edge_area (List.ofFn x) (List.ofFn x) false true false rfl (by omega) hs (by simp)
      (fun _ t ht => by rw [hlen]; exact hHl t ht)
    obtain ⟨H, hrH, -, -, hHi⟩ := hH rfl
    unfold objectiveHessian
    rw [hr]
    simp only [Option.some_bind, hrH, Option.map_some', Option.getD_some]
    rw [hHi i.val j.val (by rw [hlen]; exact i.isLt) (by rw [hlen]; exact j.isLt),
      (penalty_slots_eq edge_area _ n hn harea x false true pen hpen).2.2 rfl i j]
    rfl

/-- The objective of `optimizeEdgeDOFs` and its gradient are differentiable
with the written gradient and Hessian whenever the elastic energy and the
edge-DOF block of its gradient are, with the edge-DOF block of the elastic
gradient and the trailing block of the elastic Hessian. -/
theorem objective_hasFDerivAt (thickness : ℝ) (energy : ShellEnergy ℝ) (curPos : MatrixX3d ℝ)
    (edge_area : VectorXd ℝ) (n : Nat) (hn : 1 ≤ n) (harea : edge_area.length = n)
    (x : Fin (3 * n) → ℝ)
    (hgl : ∀ y : Fin (3 * n) → ℝ,
      (energy.elasticEnergyDeriv curPos (List.ofFn y) true).length = 3 * curPos.length + 3 * n)
    (hHl : ∀ t ∈ energy.elasticEnergyHess curPos (List.ofFn x) true HessianProjectType.kNone,
      t.row < 3 * curPos.length + 3 * n ∧ t.col < 3 * curPos.length + 3 * n)
    (hE : HasFDerivAt (fun y : Fin (3 * n) → ℝ => energy.elasticEnergy curPos (List.ofFn y) true)
      (∑ j : Fin (3 * n),
        (energy.elasticEnergyDeriv curPos (List.ofFn x) true).getD (3 * curPos.length + j.val) 0 •
          (ContinuousLinearMap.proj j : (Fin (3 * n) → ℝ) →L[ℝ] ℝ)) x)
    (hE2 : HasFDerivAt (fun (y : Fin (3 * n) → ℝ) (j : Fin (3 * n)) =>
        (energy.elasticEnergyDeriv curPos (List.ofFn y) true).getD (3 * curPos.length + j.val) 0)
      (LinearMap.toContinuousLinearMap (Matrix.toLin' (fun i j : Fin (3 * n) =>
        tripletSum (energy.elasticEnergyHess curPos (List.ofFn x) true HessianProjectType.kNone)
          (3 * curPos.length + i.val) (3 * curPos.length + j.val)))) x) :
    HasFDerivAt (fun y : Fin (3 * n) → ℝ => objectiveValue thickness energy curPos edge_area y)
      (∑ j : Fin (3 * n), objectiveGradient thickness energy curPos edge_area x j •
        (ContinuousLinearMap.proj j : (Fin (3 * n) → ℝ) →L[ℝ] ℝ)) x ∧
    HasFDerivAt (fun y : Fin (3 * n) → ℝ => objectiveGradient thickness energy curPos edge_area y)
      (LinearMap.toContinuousLinearMap
        (Matrix.toLin' (objectiveHessian thickness energy curPos edge_area x))) x := by
  constructor
  · have hfun : (fun y : Fin (3 * n) → ℝ => objectiveValue thickness energy curPos edge_area y) =
        fun y => energy.elasticEnergy curPos (List.ofFn y) true +
          penaltyValue edge_area (1000 * thickness) y := by
      funext y
      exact (objective_functions_eq thickness energy curPos edge_area n hn harea y).1
    rw [hfun]
    refine (hE.add (penaltyValue_hasFDerivAt edge_area (1000 * thickness) n hn harea x)).congr_fderiv
      ?_
    rw [← Finset.sum_add_distrib]
    apply Finset.sum_congr rfl
    intro j _
    rw [(objective_functions_eq thickness energy curPos edge_area n hn harea x).2.1 (hgl x) j,
      add_smul]
  · have hfun : (fun y : Fin (3 * n) → ℝ =>
          objectiveGradient thickness energy curPos edge_area y) =
        fun y => (fun j : Fin (3 * n) =>
          (energy.elasticEnergyDeriv curPos (List.ofFn y) true).getD
            (3 * curPos.length + j.val) 0) + penaltyGradient edge_area (1000 * thickness) y := by
      funext y j
      exact (objective_functions_eq thickness energy curPos edge_area n hn harea y).2.1 (hgl y) j
    rw [hfun]
    refine (hE2.add (penaltyGradient_hasFDerivAt edge_area (1000 * thickness) n hn harea
      x)).congr_fderiv ?_
    have hmat : objectiveHessian thickness energy curPos edge_area x =
        Matrix.of (fun i j : Fin (3 * n) =>
          tripletSum (energy.elasticEnergyHess curPos (List.ofFn x) true HessianProjectType.kNone)
            (3 * curPos.length + i.val) (3 * curPos.length + j.val)) +
        penaltyHessian edge_area (1000 * thickness) x := by
      funext i j
      exact (objective_functions_eq thickness energy curPos edge_area n hn harea x).2.2 hHl i j
    rw [hmat]
    ext v
    simp [Matrix.add_mulVec]
    rfl

/-! ## Auxiliary lemmas: blocks of matrices -/

section BlockLemmas

variable {R : Type} [Field R]

theorem block_zero (m n r c p q : Nat) :
    block (0 : Matrix (Fin m) (Fin n) R) r c p q = 0 := by
  ext i j
  simp [block]

theorem block_add {m n : Nat} (M N : Matrix (Fin m) (Fin n) R) (r c p q : Nat) :
    block (M + N) r c p q = block M r c p q + block N r c p q := by
  ext i j
  by_cases h : r + i.val < m ∧ c + j.val < n
  · simp [block, h]
  · simp [block, h]

/-- A block of an updated matrix at the place of the update. -/
theorem block_addBlock_same {m n p q : Nat} (M : Matrix (Fin m) (Fin n) R) (r c : Nat)
    (B : Matrix (Fin p) (Fin q) R) (hr : r + p ≤ m) (hc : c + q ≤ n) :
    block (addBlock M r c B) r c p q = block M r c p q + B := by
  ext i j
  have hi := i.isLt
  have hj := j.isLt
  have h1 : r + i.val < m ∧ c + j.val < n := ⟨by omega, by omega⟩
  have h2 : (r ≤ r + i.val ∧ r + i.val < r + p) ∧ (c ≤ c + j.val ∧ c + j.val < c + q) :=
    ⟨⟨by omega, by omega⟩, by omega, by omega⟩
  simp only [block, addBlock, dif_pos h1, dif_pos h2, Matrix.add_apply]
  congr 2
  · exact Fin.ext (by simp)
  · exact Fin.ext (by simp)

/-- A block of an updated matrix away from the update. -/
theorem block_addBlock_disjoint {m n p q p' q' : Nat} (M : Matrix (Fin m) (Fin n) R)
    (r c r' c' : Nat) (B : Matrix (Fin p) (Fin q) R)
    (h : r + p ≤ r' ∨ r' + p' ≤ r ∨ c + q ≤ c' ∨ c' + q' ≤ c) :
    block (addBlock M r c B) r' c' p' q' = block M r' c' p' q' := by
  ext i j
  have hi := i.isLt
  have hj := j.isLt
  by_cases h1 : r' + i.val < m ∧ c' + j.val < n
  · have h2 : ¬ ((r ≤ r' + i.val ∧ r' + i.val < r + p) ∧ (c ≤ c' + j.val ∧ c' + j.val < c + q)) := by
      omega
    simp only [block, addBlock, dif_pos h1, dif_neg h2]
  · simp only [block, dif_neg h1]

end BlockLemmas

section BlockProducts

variable {R : Type} [Field R]

theorem block_transpose {m n : Nat} (M : Matrix (Fin m) (Fin n) R) (r c p q : Nat) :
    block M.transpose r c p q = (block M c r q p).transpose := by
  ext i j
  by_cases h : r + i.val < n ∧ c + j.val < m
  · have h' : c + j.val < m ∧ r + i.val < n := ⟨h.2, h.1⟩
    simp [block, h, h']
  · have h' : ¬ (c + j.val < m ∧ r + i.val < n) := fun hc => h ⟨hc.2, hc.1⟩
    simp [block, h, h']

theorem sum_univ_nine {M : Type} [AddCommMonoid M] (f : Fin 9 → M) :
    ∑ i, f i = f 0 + f 1 + f 2 + f 3 + f 4 + f 5 + f 6 + f 7 + f 8 := by
  rw [Fin.sum_univ_castSucc, Fin.sum_univ_eight]
  rfl

theorem sum_univ_twelve {M : Type} [AddCommMonoid M] (f : Fin 12 → M) :
    ∑ i, f i = f 0 + f 1 + f 2 + f 3 + f 4 + f 5 + f 6 + f 7 + f 8 + f 9 + f 10 + f 11 := by
  rw [Fin.sum_univ_castSucc, Fin.sum_univ_castSucc, Fin.sum_univ_castSucc, Fin.sum_univ_castSucc,
    Fin.sum_univ_eight]
  rfl

/-- A block of a product over nine inner indices, in terms of 3-wide blocks. -/
theorem block_mul_nine {a b : Nat} (P : Matrix (Fin a) (Fin 9) R) (Q : Matrix (Fin 9) (Fin b) R)
    (r c p q : Nat) (hr : r + p ≤ a) (hc : c + q ≤ b) :
    block (P * Q) r c p q =
      block P r 0 p 3 * block Q 0 c 3 q + block P r 3 p 3 * block Q 3 c 3 q +
        block P r 6 p 3 * block Q 6 c 3 q := by
  ext i j
  have hi := i.isLt
  have hj := j.isLt
  have h1 : r + i.val < a := by omega
  have h2 : c + j.val < b := by omega
  simp [block, Matrix.mul_apply, sum_univ_nine, Fin.sum_univ_three, h1, h2]
  ring

/-- Two 12x12 matrices with the same sixteen 3x3 blocks are equal. -/
theorem ext_blocks_twelve (M N : Matrix (Fin 12) (Fin 12) R)
    (h : ∀ a b : Fin 4, block M (3 * a.val) (3 * b.val) 3 3 = block N (3 * a.val) (3 * b.val) 3 3) :
    M = N := by
  ext i j
  have hi := i.isLt
  have hj := j.isLt
  have hb := congrFun (congrFun (h ⟨i.val / 3, by omega⟩ ⟨j.val / 3, by omega⟩)
    ⟨i.val % 3, by omega⟩) ⟨j.val % 3, by omega⟩
  have e1 : 3 * (i.val / 3) + i.val % 3 = i.val := by omega
  have e2 : 3 * (j.val / 3) + j.val % 3 = j.val := by omega
  have hlt : 3 * (i.val / 3) + i.val % 3 < 12 ∧ 3 * (j.val / 3) + j.val % 3 < 12 := by omega
  simp only [block, dif_pos hlt] at hb
  have ei : (⟨3 * (i.val / 3) + i.val % 3, hlt.1⟩ : Fin 12) = i := Fin.ext e1
  have ej : (⟨3 * (j.val / 3) + j.val % 3, hlt.2⟩ : Fin 12) = j := Fin.ext e2
  rw [ei, ej] at hb
  exact hb

/-- Two 1x12 matrices with the same four 1x3 blocks are equal. -/
theorem ext_blocks_row (M N : Matrix (Fin 1) (Fin 12) R)
    (h : ∀ b : Fin 4, block M 0 (3 * b.val) 1 3 = block N 0 (3 * b.val) 1 3) :
    M = N := by
  ext i j
  have hj := j.isLt
  have hb := congrFun (congrFun (h ⟨j.val / 3, by omega⟩) 0) ⟨j.val % 3, by omega⟩
  have e2 : 3 * (j.val / 3) + j.val % 3 = j.val := by omega
  have hlt : 0 + ((0 : Fin 1) : Nat) < 1 ∧ 3 * (j.val / 3) + j.val % 3 < 12 := by
    constructor
    · simp
    · omega
  simp only [block, dif_pos hlt] at hb
  have ej : (⟨3 * (j.val / 3) + j.val % 3, hlt.2⟩ : Fin 12) = j := Fin.ext e2
  have ei : (⟨0 + ((0 : Fin 1) : Nat), hlt.1⟩ : Fin 1) = i := Subsingleton.elim _ _
  rw [ei, ej] at hb
  exact hb

end BlockProducts

/-! ## Auxiliary lemmas: `edgeTheta` and the chain rule -/

section ChainRuleLemmas

variable {R : Type} [Field R]

theorem block_withoutAxis (g : Matrix (Fin 1) (Fin 9) R) :
    block (withoutAxis g) 0 0 1 3 = block g 0 0 1 3 ∧
    block (withoutAxis g) 0 3 1 3 = block g 0 3 1 3 ∧
    block (withoutAxis g) 0 6 1 3 = 0 := by
  refine ⟨?_, ?_, ?_⟩ <;>
  · ext i j
    have hj := j.isLt
    fin_cases j <;> simp [block, withoutAxis]

/-- The blocks of the Jacobian of `(n0, n1, axis)`. -/
theorem block_chainRuleJacobian (q0 q1 q2 q3 : Vector3d R) :
    block (chainRuleJacobian q0 q1 q2 q3) 0 0 3 3 = crossMatrix (q2 - q1) ∧
    block (chainRuleJacobian q0 q1 q2 q3) 0 3 3 3 = crossMatrix (q0 - q2) ∧
    block (chainRuleJacobian q0 q1 q2 q3) 0 6 3 3 = crossMatrix (q1 - q0) ∧
    block (chainRuleJacobian q0 q1 q2 q3) 0 9 3 3 = 0 ∧
    block (chainRuleJacobian q0 q1 q2 q3) 3 0 3 3 = crossMatrix (q1 - q3) ∧
    block (chainRuleJacobian q0 q1 q2 q3) 3 3 3 3 = crossMatrix (q3 - q0) ∧
    block (chainRuleJacobian q0 q1 q2 q3) 3 6 3 3 = 0 ∧
    block (chainRuleJacobian q0 q1 q2 q3) 3 9 3 3 = crossMatrix (q0 - q1) ∧
    block (chainRuleJacobian q0 q1 q2 q3) 6 0 3 3 = -1 ∧
    block (chainRuleJacobian q0 q1 q2 q3) 6 3 3 3 = 1 ∧
    block (chainRuleJacobian q0 q1 q2 q3) 6 6 3 3 = 0 ∧
    block (chainRuleJacobian q0 q1 q2 q3) 6 9 3 3 = 0 := by
  unfold chainRuleJacobian
  refine ⟨?_, ?_, ?_, ?_, ?_, ?_, ?_, ?_, ?_, ?_, ?_, ?_⟩ <;>
    simp (disch := omega) only [block_addBlock_same, block_addBlock_disjoint, block_zero, zero_add]

/-- The derivative written by `edgeTheta` is the claimed chain-rule derivative
for the derivative row of `angle` without its part for `axis`. -/
theorem edgeThetaDerivative_eq (q0 q1 q2 q3 : Vector3d R) (g : Matrix (Fin 1) (Fin 9) R) :
    edgeThetaDerivative q0 q1 q2 q3 g = chainRuleDerivative q0 q1 q2 q3 (withoutAxis g) := by
  obtain ⟨w0, w3, w6⟩ := block_withoutAxis g
  apply ext_blocks_row
  intro b
  unfold edgeThetaDerivative chainRuleDerivative
  fin_cases b <;>
    simp (disch := omega) only [block_addBlock_same, block_addBlock_disjoint, block_zero, zero_add,
      w0, w3, w6, sub_zero, add_zero, Fin.val_zero, Fin.val_one, Fin.val_two, mul_zero, mul_one,
      Nat.reduceMul, Fin.zero_eta, Fin.mk_one, Fin.reduceFinMk]

/-- The claimed chain-rule derivative is the derivative row of `angle` times
the Jacobian of `(n0, n1, axis)`. -/
theorem chainRuleDerivative_eq (q0 q1 q2 q3 : Vector3d R) (g : Matrix (Fin 1) (Fin 9) R) :
    chainRuleDerivative q0 q1 q2 q3 g = g * chainRuleJacobian q0 q1 q2 q3 := by
  obtain ⟨j00, j03, j06, j09, j30, j33, j36, j39, j60, j63, j66, j69⟩ :=
    block_chainRuleJacobian q0 q1 q2 q3
  apply ext_blocks_row
  intro b
  unfold chainRuleDerivative
  fin_cases b <;>
    simp (disch := omega) only [block_addBlock_same, block_addBlock_disjoint, block_zero, zero_add,
      block_mul_nine, j00, j03, j06, j09, j30, j33, j36, j39, j60, j63, j66, j69,
      Fin.val_zero, Fin.val_one, Fin.val_two, mul_zero, mul_one,
      Nat.reduceMul, Fin.zero_eta, Fin.mk_one, Fin.reduceFinMk, Matrix.mul_zero, add_zero,
      Matrix.mul_neg, Matrix.mul_one, sub_eq_add_neg]

end ChainRuleLemmas

section ChainRuleHessianLemmas

variable {R : Type} [Field R]

theorem block_withoutAxisAxis (A : Matrix (Fin 9) (Fin 9) R) :
    block (withoutAxisAxis A) 0 0 3 3 = block A 0 0 3 3 ∧
    block (withoutAxisAxis A) 0 3 3 3 = block A 0 3 3 3 ∧
    block (withoutAxisAxis A) 0 6 3 3 = block A 0 6 3 3 ∧
    block (withoutAxisAxis A) 3 0 3 3 = block A 3 0 3 3 ∧
    block (withoutAxisAxis A) 3 3 3 3 = block A 3 3 3 3 ∧
    block (withoutAxisAxis A) 3 6 3 3 = block A 3 6 3 3 ∧
    block (withoutAxisAxis A) 6 0 3 3 = block A 6 0 3 3 ∧
    block (withoutAxisAxis A) 6 3 3 3 = block A 6 3 3 3 ∧
    block (withoutAxisAxis A) 6 6 3 3 = 0 := by
  refine ⟨?_, ?_, ?_, ?_, ?_, ?_, ?_, ?_, ?_⟩ <;>
  · ext i j
    fin_cases i <;> fin_cases j <;> simp [block, withoutAxisAxis]

theorem dang_eq (g : Matrix (Fin 1) (Fin 9) R) :
    (fun k : Fin 3 => (block g 0 0 1 3).transpose k 0) = (fun k => g 0 ⟨k.val, by omega⟩) ∧
    (fun k : Fin 3 => (block g 0 3 1 3).transpose k 0) = (fun k => g 0 ⟨3 + k.val, by omega⟩) := by
  constructor <;>
  · funext k
    fin_cases k <;> simp [block]

theorem crossMatrix_transpose (v : Vector3d R) : (crossMatrix v).transpose = -crossMatrix v := by
  ext i j
  fin_cases i <;> fin_cases j <;> simp [crossMatrix]

set_option maxHeartbeats 1600000 in
/-- The Hessian written by `edgeTheta` is the claimed chain-rule Hessian for
the Hessian of `angle` without its axis-axis block. -/
theorem edgeThetaHessian_eq (q0 q1 q2 q3 : Vector3d R) (g : Matrix (Fin 1) (Fin 9) R)
    (A : Matrix (Fin 9) (Fin 9) R) :
    edgeThetaHessian q0 q1 q2 q3 g A = chainRuleHessian q0 q1 q2 q3 g (withoutAxisAxis A) := by
  obtain ⟨j00, j03, j06, j09, j30, j33, j36, j39, j60, j63, j66, j69⟩ :=
    block_chainRuleJacobian q0 q1 q2 q3
  obtain ⟨a00, a03, a06, a30, a33, a36, a60, a63, a66⟩ := block_withoutAxisAxis A
  obtain ⟨d1, d2⟩ := dang_eq g
  have hr : List.finRange 3 = [0, 1, 2] := by decide
  apply ext_blocks_twelve
  intro a b
  unfold edgeThetaHessian chainRuleHessian chainRuleSecondOrder
  simp only [hr, List.foldl_cons, List.foldl_nil, Matrix.cons_val_zero, Matrix.cons_val_one,
    Matrix.head_cons, Matrix.cons_val_two, Matrix.tail_cons, d1, d2]
  fin_cases a <;> fin_cases b <;>
  · simp (disch := omega) only [block_addBlock_same, block_addBlock_disjoint, block_zero, zero_add,
      block_add, block_mul_nine, block_transpose,
      j00, j03, j06, j09, j30, j33, j36, j39, j60, j63, j66, j69,
      a00, a03, a06, a30, a33, a36, a60, a63, a66,
      Fin.val_zero, Fin.val_one, Fin.val_two, mul_zero, mul_one,
      Nat.reduceMul, Fin.zero_eta, Fin.mk_one, Fin.reduceFinMk]
    try simp only [Matrix.mul_zero, Matrix.zero_mul, add_zero, zero_add, Matrix.mul_neg,
      Matrix.neg_mul, Matrix.mul_one, Matrix.one_mul, Matrix.transpose_zero, Matrix.transpose_neg,
      Matrix.transpose_one, Matrix.mul_add, Matrix.add_mul, neg_neg, neg_zero]
    try abel

end ChainRuleHessianLemmas

section ChainRuleCalculus

theorem hasFDerivAt_crossComponent (q : Fin 12 → ℝ) (a b c d e f g h : Fin 12) :
    HasFDerivAt (fun x : Fin 12 → ℝ => (x a - x b) * (x c - x d) - (x e - x f) * (x g - x h))
      (((q a - q b) • ((ContinuousLinearMap.proj c : (Fin 12 → ℝ) →L[ℝ] ℝ) -
            ContinuousLinearMap.proj d) +
          (q c - q d) • ((ContinuousLinearMap.proj a : (Fin 12 → ℝ) →L[ℝ] ℝ) -
            ContinuousLinearMap.proj b)) -
        ((q e - q f) • ((ContinuousLinearMap.proj g : (Fin 12 → ℝ) →L[ℝ] ℝ) -
            ContinuousLinearMap.proj h) +
          (q g - q h) • ((ContinuousLinearMap.proj e : (Fin 12 → ℝ) →L[ℝ] ℝ) -
            ContinuousLinearMap.proj f))) q := by
  have p : ∀ i : Fin 12, HasFDerivAt (fun x : Fin 12 → ℝ => x i)
      (ContinuousLinearMap.proj i : (Fin 12 → ℝ) →L[ℝ] ℝ) q := fun i => hasFDerivAt_apply i q
  exact (((p a).sub (p b)).mul ((p c).sub (p d))).sub (((p e).sub (p f)).mul ((p g).sub (p h)))

theorem fin_twelve_val :
    ((3 : Fin 12) : ℕ) = 3 ∧ ((4 : Fin 12) : ℕ) = 4 ∧ ((5 : Fin 12) : ℕ) = 5 ∧
    ((6 : Fin 12) : ℕ) = 6 ∧ ((7 : Fin 12) : ℕ) = 7 ∧ ((8 : Fin 12) : ℕ) = 8 ∧
    ((9 : Fin 12) : ℕ) = 9 ∧ ((10 : Fin 12) : ℕ) = 10 ∧ ((11 : Fin 12) : ℕ) = 11 :=
  ⟨rfl, rfl, rfl, rfl, rfl, rfl, rfl, rfl, rfl⟩

theorem fin_nine_val :
    ((3 : Fin 9) : ℕ) = 3 ∧ ((4 : Fin 9) : ℕ) = 4 ∧ ((5 : Fin 9) : ℕ) = 5 ∧
    ((6 : Fin 9) : ℕ) = 6 ∧ ((7 : Fin 9) : ℕ) = 7 ∧ ((8 : Fin 9) : ℕ) = 8 :=
  ⟨rfl, rfl, rfl, rfl, rfl, rfl⟩

set_option maxHeartbeats 1600000 in
/-- The matrix `chainRuleJacobian` is the Fréchet derivative of
`(q0, q1, q2, q3) ↦ (n0, n1, axis)`. -/
theorem edgeNormals_hasFDerivAt (q : Fin 12 → ℝ) :
    HasFDerivAt (fun x : Fin 12 → ℝ => edgeNormals x)
      (LinearMap.toContinuousLinearMap (Matrix.toLin'
        (chainRuleJacobian ![q 0, q 1, q 2] ![q 3, q 4, q 5] ![q 6, q 7, q 8]
          ![q 9, q 10, q 11]))) q := by
  have p : ∀ i : Fin 12, HasFDerivAt (fun x : Fin 12 → ℝ => x i)
      (ContinuousLinearMap.proj i : (Fin 12 → ℝ) →L[ℝ] ℝ) q := fun i => hasFDerivAt_apply i q
  obtain ⟨v3, v4, v5, v6, v7, v8, v9, v10, v11⟩ := fin_twelve_val
  obtain ⟨w3, w4, w5, w6, w7, w8⟩ := fin_nine_val
  rw [hasFDerivAt_pi']
  intro k
  fin_cases k
  · refine (hasFDerivAt_crossComponent q 1 7 5 8 2 8 4 7).congr_fderiv ?_
    ext v
    simp [Matrix.mulVec, Matrix.dotProduct, sum_univ_twelve, chainRuleJacobian, addBlock,
      crossMatrix, v3, v4, v5, v6, v7, v8, v9, v10, v11, w3, w4, w5, w6, w7, w8]
    ring
  · refine (hasFDerivAt_crossComponent q 2 8 3 6 0 6 5 8).congr_fderiv ?_
    ext v
    simp [Matrix.mulVec, Matrix.dotProduct, sum_univ_twelve, chainRuleJacobian, addBlock,
      crossMatrix, v3, v4, v5, v6, v7, v8, v9, v10, v11, w3, w4, w5, w6, w7, w8]
    ring
  · refine (hasFDerivAt_crossComponent q 0 6 4 7 1 7 3 6).congr_fderiv ?_
    ext v
    simp [Matrix.mulVec, Matrix.dotProduct, sum_univ_twelve, chainRuleJacobian, addBlock,
      crossMatrix, v3, v4, v5, v6, v7, v8, v9, v10, v11, w3, w4, w5, w6, w7, w8]
    ring
  · refine (hasFDerivAt_crossComponent q 4 10 2 11 5 11 1 10).congr_fderiv ?_
    ext v
    simp [Matrix.mulVec, Matrix.dotProduct, sum_univ_twelve, chainRuleJacobian, addBlock,
      crossMatrix, v3, v4, v5, v6, v7, v8, v9, v10, v11, w3, w4, w5, w6, w7, w8]
    ring
  · refine (hasFDerivAt_crossComponent q 5 11 0 9 3 9 2 11).congr_fderiv ?_
    ext v
    simp [Matrix.mulVec, Matrix.dotProduct, sum_univ_twelve, chainRuleJacobian, addBlock,
      crossMatrix, v3, v4, v5, v6, v7, v8, v9, v10, v11, w3, w4, w5, w6, w7, w8]
    ring
  · refine (hasFDerivAt_crossComponent q 3 9 1 10 4 10 0 9).congr_fderiv ?_
    ext v
    simp [Matrix.mulVec, Matrix.dotProduct, sum_univ_twelve, chainRuleJacobian, addBlock,
      crossMatrix, v3, v4, v5, v6, v7, v8, v9, v10, v11, w3, w4, w5, w6, w7, w8]
    ring
  · refine ((p 3).sub (p 0)).congr_fderiv ?_
    ext v
    simp [Matrix.mulVec, Matrix.dotProduct, sum_univ_twelve, chainRuleJacobian, addBlock,
      crossMatrix, Matrix.one_apply, v3, v4, v5, v6, v7, v8, v9, v10, v11, w3, w4, w5, w6, w7, w8]
    try ring
  · refine ((p 4).sub (p 1)).congr_fderiv ?_
    ext v
    simp [Matrix.mulVec, Matrix.dotProduct, sum_univ_twelve, chainRuleJacobian, addBlock,
      crossMatrix, Matrix.one_apply, v3, v4, v5, v6, v7, v8, v9, v10, v11, w3, w4, w5, w6, w7, w8]
    try ring
  · refine ((p 5).sub (p 2)).congr_fderiv ?_
    ext v
    simp [Matrix.mulVec, Matrix.dotProduct, sum_univ_twelve, chainRuleJacobian, addBlock,
      crossMatrix, Matrix.one_apply, v3, v4, v5, v6, v7, v8, v9, v10, v11, w3, w4, w5, w6, w7, w8]
    try ring

end ChainRuleCalculus

section EdgeThetaInterior

variable {R : Type} [Field R]

/-- The result of `edgeTheta` on an interior edge whose four position rows
exist. -/
theorem edgeTheta_of_interior (G : GeometryDerivatives R) (mesh : MeshConnectivity)
    (curPos : MatrixX3d R) (edge : Int) (derivative hessian : Bool) (q0 q1 q2 q3 : Vector3d R)
    (hi : mesh.edgeOppositeVertex edge 0 ≠ -1 ∧ mesh.edgeOppositeVertex edge 1 ≠ -1)
    (h0 : rowAt curPos (mesh.edgeVertex edge 0) = some q0)
    (h1 : rowAt curPos (mesh.edgeVertex edge 1) = some q1)
    (h2 : rowAt curPos (mesh.edgeOppositeVertex edge 0) = some q2)
    (h3 : rowAt curPos (mesh.edgeOppositeVertex edge 1) = some q3) :
    edgeTheta G mesh curPos edge derivative hessian =
      some ⟨G.angle (cross (q0 - q2) (q1 - q2)) (cross (q1 - q3) (q0 - q3)) (q1 - q0),
        if derivative then some (edgeThetaDerivative q0 q1 q2 q3
          (G.angleDeriv (cross (q0 - q2) (q1 - q2)) (cross (q1 - q3) (q0 - q3)) (q1 - q0)))
        else none,
        if hessian then some (edgeThetaHessian q0 q1 q2 q3
          (G.angleDeriv (cross (q0 - q2) (q1 - q2)) (cross (q1 - q3) (q0 - q3)) (q1 - q0))
          (G.angleHess (cross (q0 - q2) (q1 - q2)) (cross (q1 - q3) (q0 - q3)) (q1 - q0)))
        else none⟩ := by
  unfold edgeTheta
  have hb : ¬ (mesh.edgeOppositeVertex edge 0 = -1 ∨ mesh.edgeOppositeVertex edge 1 = -1) := by
    rintro (h | h)
    · exact hi.1 h
    · exact hi.2 h
  simp only [hb, if_false, h0, h1, h2, h3, Option.bind_eq_bind, Option.some_bind, Option.pure_def]

theorem withoutAxis_eq_self (g : Matrix (Fin 1) (Fin 9) R) (h : block g 0 6 1 3 = 0) :
    withoutAxis g = g := by
  ext i j
  unfold withoutAxis
  by_cases hj : 6 ≤ j.val
  · rw [if_pos hj]
    have hlt : 0 + ((0 : Fin 1) : Nat) < 1 ∧ 6 + (j.val - 6) < 9 := by
      have := j.isLt
      constructor
      · simp
      · omega
    have hb := congrFun (congrFun h 0) ⟨j.val - 6, by have := j.isLt; omega⟩
    simp only [block, dif_pos hlt, Matrix.zero_apply] at hb
    have ej : (⟨6 + (j.val - 6), hlt.2⟩ : Fin 9) = j := Fin.ext (by simp; omega)
    have ei : (⟨0 + ((0 : Fin 1) : Nat), hlt.1⟩ : Fin 1) = i := Subsingleton.elim _ _
    rw [ei, ej] at hb
    exact hb.symm
  · rw [if_neg hj]

/-- The derivative written by `edgeTheta` is the full chain-rule derivative
exactly when the derivative of `angle` has no part for `axis`. -/
theorem edgeThetaDerivative_full_iff (q0 q1 q2 q3 : Vector3d R) (g : Matrix (Fin 1) (Fin 9) R) :
    edgeThetaDerivative q0 q1 q2 q3 g = chainRuleDerivative q0 q1 q2 q3 g ↔
      block g 0 6 1 3 = 0 := by
  constructor
  · intro h
    have hb := congrArg (fun D => block D 0 0 1 3) h
    obtain ⟨w0, w3, w6⟩ := block_withoutAxis g
    rw [edgeThetaDerivative_eq] at hb
    unfold chainRuleDerivative at hb
    simp (disch := omega) only [block_addBlock_same, block_addBlock_disjoint, block_zero, zero_add,
      w0, w3, w6, sub_zero] at hb
    have := sub_eq_self.1 hb.symm
    exact this
  · intro h
    rw [edgeThetaDerivative_eq, withoutAxis_eq_self g h]

end EdgeThetaInterior

/-- The claimed chain-rule derivative is the Fréchet derivative of
`(q0, q1, q2, q3) ↦ angle(n0, n1, axis)` whenever the row `g` is the Fréchet
derivative of `angle`. -/
theorem chainRuleDerivative_hasFDerivAt (angleFn : (Fin 9 → ℝ) → ℝ) (x : Fin 12 → ℝ)
    (g : Matrix (Fin 1) (Fin 9) ℝ)
    (hA : HasFDerivAt angleFn
      (∑ k : Fin 9, g 0 k • (ContinuousLinearMap.proj k : (Fin 9 → ℝ) →L[ℝ] ℝ)) (edgeNormals x)) :
    HasFDerivAt (fun y : Fin 12 → ℝ => angleFn (edgeNormals y))
      (∑ j : Fin 12, chainRuleDerivative ![x 0, x 1, x 2] ![x 3, x 4, x 5] ![x 6, x 7, x 8]
          ![x 9, x 10, x 11] g 0 j •
        (ContinuousLinearMap.proj j : (Fin 12 → ℝ) →L[ℝ] ℝ)) x := by
  refine (hA.comp x (edgeNormals_hasFDerivAt x)).congr_fderiv ?_
  ext v
  rw [chainRuleDerivative_eq]
  simp only [ContinuousLinearMap.comp_apply, ContinuousLinearMap.sum_apply,
    ContinuousLinearMap.smul_apply, ContinuousLinearMap.proj_apply, smul_eq_mul,
    LinearMap.coe_toContinuousLinearMap', Matrix.toLin'_apply]
  have h := congrFun (Matrix.mulVec_mulVec v g
    (chainRuleJacobian ![x 0, x 1, x 2] ![x 3, x 4, x 5] ![x 6, x 7, x 8] ![x 9, x 10, x 11])) 0
  simp only [Matrix.mulVec, Matrix.dotProduct] at h
  exact h



/-! ## Auxiliary lemmas: entries of updated matrices -/

section EntryLemmas

variable {R : Type} [Field R]

/-- An entry of `M.block(r, c, p, q) += B`: the entry of `M` plus the entries
of `B` that land on it. -/
theorem addBlock_apply_sum {m n p q : Nat} (M : Matrix (Fin m) (Fin n) R) (r c : Nat)
    (B : Matrix (Fin p) (Fin q) R) (i : Fin m) (j : Fin n) :
    addBlock M r c B i j =
      M i j + ∑ a : Fin p, ∑ b : Fin q,
        if r + a.val = i.val ∧ c + b.val = j.val then B a b else 0 := by
  unfold addBlock
  by_cases h : (r ≤ i.val ∧ i.val < r + p) ∧ (c ≤ j.val ∧ j.val < c + q)
  · rw [dif_pos h]
    congr 1
    rw [Finset.sum_eq_single (⟨i.val - r, by omega⟩ : Fin p)]
    · rw [Finset.sum_eq_single (⟨j.val - c, by omega⟩ : Fin q)]
      · have : r + (i.val - r) = i.val ∧ c + (j.val - c) = j.val := by omega
        simp [this]
      · intro b _ hb
        have : ¬ (c + b.val = j.val) := by
          intro hc
          apply hb
          apply Fin.ext
          simp
          omega
        simp [this]
      · intro hc
        exact absurd (Finset.mem_univ _) hc
    · intro a _ ha
      have : ¬ (r + a.val = i.val) := by
        intro hc
        apply ha
        apply Fin.ext
        simp
        omega
      simp [this]
    · intro hc
      exact absurd (Finset.mem_univ _) hc
  · rw [dif_neg h]
    have hz : ∀ a : Fin p, ∀ b : Fin q,
        (if r + a.val = i.val ∧ c + b.val = j.val then B a b else 0) = 0 := by
      intro a b
      have ha := a.isLt
      have hb := b.isLt
      have : ¬ (r + a.val = i.val ∧ c + b.val = j.val) := by omega
      simp [this]
    simp [hz]

theorem addEntry_apply_sum {m n : Nat} (M : Matrix (Fin m) (Fin n) R) (r c : Nat) (x : R)
    (i : Fin m) (j : Fin n) :
    addEntry M r c x i j = M i j + if r = i.val ∧ c = j.val then x else 0 := by
  unfold addEntry
  by_cases h : i.val = r ∧ j.val = c
  · have h' : r = i.val ∧ c = j.val := ⟨h.1.symm, h.2.symm⟩
    rw [if_pos h, if_pos h']
  · have h' : ¬ (r = i.val ∧ c = j.val) := fun hc => h ⟨hc.1.symm, hc.2.symm⟩
    rw [if_neg h, if_neg h', add_zero]

/-- A sum against an indicator picks a coordinate. -/
theorem sum_indicator_coord {n : Nat} (v : Fin n → R) (k : Nat) (X : R) :
    ∑ c : Fin n, (if k = c.val then X else 0) * v c = X * coord v k := by
  unfold coord
  by_cases h : k < n
  · rw [dif_pos h, Finset.sum_eq_single (⟨k, h⟩ : Fin n)]
    · simp
    · intro b _ hb
      have : ¬ (k = b.val) := by
        intro hc
        apply hb
        apply Fin.ext
        exact hc.symm
      simp [this]
    · intro hc
      exact absurd (Finset.mem_univ _) hc
  · rw [dif_neg h]
    have hz : ∀ c : Fin n, (if k = c.val then X else 0) * v c = 0 := by
      intro c
      have := c.isLt
      have : ¬ (k = c.val) := by omega
      simp [this]
    simp [hz]

end EntryLemmas

/-! ## Auxiliary lemmas: the derivative of `secondFundamentalFormEntries` -/

section EntriesDerivativeLemmas

variable {R : Type} [Field R]

theorem mulScalar_smul_block_row {n : Nat} (X : Matrix (Fin 1) (Fin n) R) (k : R) (m : R)
    (c : Nat) (a : Fin 1) (b : Fin 3) :
    mulScalar (k • block X 0 c 1 3) m a b = k * coord (X 0) (c + b.val) * m := by
  have ha : a = 0 := Subsingleton.elim _ _
  subst ha
  by_cases h : c + b.val < n
  · simp [mulScalar, block, coord, h]
  · simp [mulScalar, block, coord, h]

set_option maxHeartbeats 1000000 in
/-- The update of the derivative in `secondFundamentalFormEntries` adds the
claimed row to the row `i` and leaves the other rows. -/
theorem entriesDerivative_apply (tan cos : R → R) (d : Matrix (Fin 3) (Fin 27) R) (i : Nat)
    (hv : Fin 3 → Nat) (av : Fin 4 → Nat) (altitude alpha orient vec_norm : R) (offset : Nat)
    (hderiv : Matrix (Fin 1) (Fin 9) R) (thetaderiv : Matrix (Fin 1) (Fin 12) R)
    (r : Fin 3) (c : Fin 27) :
    entriesDerivative tan cos d i hv av altitude alpha orient vec_norm offset hderiv thetaderiv r c =
      d r c + if i = r.val then
        claimedEntryRow tan cos i hv av altitude alpha orient vec_norm offset hderiv thetaderiv c
      else 0 := by
  have h3 : List.finRange 3 = [0, 1, 2] := by decide
  have h4 : List.finRange 4 = [0, 1, 2, 3] := by decide
  have v3 : ((3 : Fin 4) : ℕ) = 3 := rfl
  unfold entriesDerivative claimedEntryRow
  simp only [h3, h4, List.foldl_cons, List.foldl_nil, addBlock_apply_sum, addEntry_apply_sum,
    Finset.univ_unique, Fin.default_eq_zero, Finset.sum_singleton, Fin.val_zero, add_zero,
    mulScalar_smul_block_row]
  by_cases hr : i = r.val
  · simp only [hr, true_and, if_true, Fin.sum_univ_four, v3, Fin.val_one, Fin.val_two,
      Fin.val_zero]
    rw [Fin.sum_univ_three (fun j : Fin 3 => ∑ b : Fin 3, if 3 * hv j + b.val = c.val then
        2 * tan alpha * coord (hderiv 0) (3 * j.val + b.val) * vec_norm else 0)]
    simp only [Fin.val_one, Fin.val_two, Fin.val_zero]
    ring
  · simp only [hr, false_and, if_false, Finset.sum_const_zero, add_zero]

/-- One iteration of the loop of `secondFundamentalFormEntries` when its three
reads succeed. -/
theorem entriesStep_eq (tan cos : R → R) (G : GeometryDerivatives R) (mesh : MeshConnectivity)
    (curPos : MatrixX3d R) (edgeDOFs : VectorXd R) (face : Int) (derivative hessian : Bool)
    (st : EntriesEval R) (i : Fin 3)
    (th : Eval R (Matrix (Fin 1) (Fin 12) R) (Matrix (Fin 12) (Fin 12) R)) (angleDOF vec_norm : R)
    (htheta : edgeTheta G mesh curPos (mesh.faceEdge face i.val) (derivative || hessian) hessian =
      some th)
    (hangle : coeffAt edgeDOFs (3 * mesh.faceEdge face i.val) = some angleDOF)
    (hnorm : coeffAt edgeDOFs
      (3 * mesh.faceEdge face i.val + (mesh.faceEdgeOrientation face i.val).val + 1) =
        some vec_norm) :
    entriesStep tan cos G mesh curPos edgeDOFs face derivative hessian st i =
      some ⟨Function.update st.value i
          (2 * G.triangleAltitude mesh curPos face i.val *
            tan (0.5 * th.value +
              (if mesh.faceEdgeOrientation face i.val = 0 then 1 else -1) * angleDOF) * vec_norm),
        if derivative || hessian then
          st.derivative.map (fun (d : Matrix (Fin 3) (Fin 27) R) =>
            entriesDerivative tan cos d i.val (altitudeSlots i.val)
              (thetaSlots i.val (mesh.faceEdgeOrientation face i.val))
              (G.triangleAltitude mesh curPos face i.val)
              (0.5 * th.value +
                (if mesh.faceEdgeOrientation face i.val = 0 then 1 else -1) * angleDOF)
              (if mesh.faceEdgeOrientation face i.val = 0 then 1 else -1) vec_norm
              ((mesh.faceEdgeOrientation face i.val).val + 1)
              (G.triangleAltitudeDeriv mesh curPos face i.val) (th.derivative.getD 0))
        else st.derivative,
        if derivative || hessian then
          st.hessian.map (fun (h : Fin 3 → Matrix (Fin 27) (Fin 27) R) =>
            Function.update h i
              (entriesHessian tan cos (h i) i.val (altitudeSlots i.val)
                (thetaSlots i.val (mesh.faceEdgeOrientation face i.val))
                (G.triangleAltitude mesh curPos face i.val)
                (0.5 * th.value +
                  (if mesh.faceEdgeOrientation face i.val = 0 then 1 else -1) * angleDOF)
                (if mesh.faceEdgeOrientation face i.val = 0 then 1 else -1) vec_norm
                ((mesh.faceEdgeOrientation face i.val).val + 1)
                (G.triangleAltitudeDeriv mesh curPos face i.val)
                (G.triangleAltitudeHess mesh curPos face i.val)
                (th.derivative.getD 0) (th.hessian.getD 0)))
        else st.hessian⟩ := by
  have hnorm' : coeffAt edgeDOFs (3 * mesh.faceEdge face i.val +
      (((mesh.faceEdgeOrientation face i.val).val + 1 : Nat) : Int)) = some vec_norm := by
    rw [← hnorm]; congr 1; push_cast; ring
  unfold entriesStep
  simp only [htheta, hangle, hnorm', Option.bind_eq_bind, Option.some_bind, Option.pure_def]
  split <;> rfl

end EntriesDerivativeLemmas

section EntriesFold

variable {R : Type} [Field R]

/-- The slots written by `secondFundamentalFormEntries` when the reads of its
three iterations succeed: row `i` of the derivative is the claimed row and
`(*hessian)[i]` is what iteration `i` adds to the zero matrix. -/
theorem entries_slots_of_reads (tan cos : R → R) (G : GeometryDerivatives R)
    (mesh : MeshConnectivity) (curPos : MatrixX3d R) (edgeDOFs : VectorXd R) (face : Int)
    (derivative hessian : Bool)
    (th : Fin 3 → Eval R (Matrix (Fin 1) (Fin 12) R) (Matrix (Fin 12) (Fin 12) R))
    (angleDOF vec_norm alpha orient : Fin 3 → R)
    (htheta : ∀ i : Fin 3, edgeTheta G mesh curPos (mesh.faceEdge face i.val)
      (derivative || hessian) hessian = some (th i))
    (hangle : ∀ i : Fin 3, coeffAt edgeDOFs (3 * mesh.faceEdge face i.val) = some (angleDOF i))
    (hnorm : ∀ i : Fin 3, coeffAt edgeDOFs
      (3 * mesh.faceEdge face i.val + (mesh.faceEdgeOrientation face i.val).val + 1) =
        some (vec_norm i))
    (horient : ∀ i : Fin 3, orient i = if mesh.faceEdgeOrientation face i.val = 0 then 1 else -1)
    (halpha : ∀ i : Fin 3, alpha i = 0.5 * (th i).value + orient i * angleDOF i) :
    ∃ e, secondFundamentalFormEntries tan cos G mesh curPos edgeDOFs face derivative hessian =
        some e ∧
      (∀ i : Fin 3, e.value i =
        2 * G.triangleAltitude mesh curPos face i.val * tan (alpha i) * vec_norm i) ∧
      (derivative = true → ∃ D, e.derivative = some D ∧ ∀ (i : Fin 3) (c : Fin 27), D i c =
        claimedEntryRow tan cos i.val (altitudeSlots i.val)
          (thetaSlots i.val (mesh.faceEdgeOrientation face i.val))
          (G.triangleAltitude mesh curPos face i.val) (alpha i) (orient i) (vec_norm i)
          ((mesh.faceEdgeOrientation face i.val).val + 1)
          (G.triangleAltitudeDeriv mesh curPos face i.val) ((th i).derivative.getD 0) c) ∧
      (hessian = true → ∃ Hs, e.hessian = some Hs ∧ ∀ i : Fin 3, Hs i =
        entriesHessian tan cos 0 i.val (altitudeSlots i.val)
          (thetaSlots i.val (mesh.faceEdgeOrientation face i.val))
          (G.triangleAltitude mesh curPos face i.val) (alpha i) (orient i) (vec_norm i)
          ((mesh.faceEdgeOrientation face i.val).val + 1)
          (G.triangleAltitudeDeriv mesh curPos face i.val)
          (G.triangleAltitudeHess mesh curPos face i.val)
          ((th i).derivative.getD 0) ((th i).hessian.getD 0)) := by
  have hr : List.finRange 3 = [0, 1, 2] := by decide
  have ha : ∀ i : Fin 3, 0.5 * (th i).value + orient i * angleDOF i = alpha i :=
    fun i => (halpha i).symm
  have ho : ∀ i : Fin 3,
      (if mesh.faceEdgeOrientation face i.val = 0 then (1 : R) else -1) = orient i := by
    intro i
    rw [horient i]
  unfold secondFundamentalFormEntries
  simp only [hr, List.foldlM_cons, List.foldlM_nil, Option.bind_eq_bind, Option.pure_def]
  rw [entriesStep_eq tan cos G mesh curPos edgeDOFs face derivative hessian _ 0 (th 0) _ _
    (htheta 0) (hangle 0) (hnorm 0), Option.some_bind,
    entriesStep_eq tan cos G mesh curPos edgeDOFs face derivative hessian _ 1 (th 1) _ _
    (htheta 1) (hangle 1) (hnorm 1), Option.some_bind,
    entriesStep_eq tan cos G mesh curPos edgeDOFs face derivative hessian _ 2 (th 2) _ _
    (htheta 2) (hangle 2) (hnorm 2), Option.some_bind]
  simp only [ho]
  simp only [ha]
  refine ⟨_, rfl, ?_, ?_, ?_⟩
  · intro i
    fin_cases i <;> simp [Function.update]
  · intro hd
    subst hd
    simp only [Bool.true_or, if_true, Option.map_some']
    refine ⟨_, rfl, ?_⟩
    intro i c
    simp only [entriesDerivative_apply, Matrix.zero_apply, zero_add]
    fin_cases i <;> simp
  · intro hh
    subst hh
    simp only [Bool.or_true, if_true, Option.map_some']
    refine ⟨_, rfl, ?_⟩
    intro i
    fin_cases i <;> simp [Function.update]

end EntriesFold

/-! ## Auxiliary lemmas: the calculus of a curvature entry -/

section EntryCalculus

variable {R : Type} [Field R]

theorem coord_eq_sum {n : Nat} (v : Fin n → R) (k : Nat) :
    coord v k = ∑ c : Fin n, (if k = c.val then 1 else 0) * v c := by
  rw [sum_indicator_coord, one_mul]

/-- The nine coordinates of `gatherH`, as three slots of three. -/
theorem sum_gatherH (hv : Fin 3 → Nat) (w : Fin 9 → R) (v : Fin 27 → R) :
    ∑ p : Fin 9, w p * gatherH hv v p =
      ∑ j : Fin 3, ∑ b : Fin 3, coord w (3 * j.val + b.val) * coord v (3 * hv j + b.val) := by
  obtain ⟨w3, w4, w5, w6, w7, w8⟩ := fin_nine_val
  have c : ∀ (k : Nat) (h : k < 9), coord w k = w ⟨k, h⟩ := by
    intro k h
    unfold coord
    rw [dif_pos h]
  rw [sum_univ_nine]
  simp only [Fin.sum_univ_three, gatherH, w3, w4, w5, w6, w7, w8, Fin.val_zero, Fin.val_one,
    Fin.val_two, Nat.reduceDiv, Nat.reduceMod, Nat.reduceMul, Nat.reduceAdd, Nat.zero_div,
    Nat.zero_mod, add_zero, mul_zero, zero_add, mul_one, Fin.zero_eta, Fin.mk_one,
    Fin.reduceFinMk, c 0 (by omega), c 1 (by omega), c 2 (by omega), c 3 (by omega),
    c 4 (by omega), c 5 (by omega), c 6 (by omega), c 7 (by omega), c 8 (by omega)]
  ring

/-- The twelve coordinates of `gatherA`, as four slots of three. -/
theorem sum_gatherA (av : Fin 4 → Nat) (w : Fin 12 → R) (v : Fin 27 → R) :
    ∑ p : Fin 12, w p * gatherA av v p =
      ∑ j : Fin 4, ∑ b : Fin 3, coord w (3 * j.val + b.val) * coord v (3 * av j + b.val) := by
  obtain ⟨v3, v4, v5, v6, v7, v8, v9, v10, v11⟩ := fin_twelve_val
  have f3 : ((3 : Fin 4) : ℕ) = 3 := rfl
  have c : ∀ (k : Nat) (h : k < 12), coord w k = w ⟨k, h⟩ := by
    intro k h
    unfold coord
    rw [dif_pos h]
  rw [sum_univ_twelve]
  simp only [Fin.sum_univ_three, Fin.sum_univ_four, gatherA, v3, v4, v5, v6, v7, v8, v9, v10, v11,
    f3, Fin.val_zero, Fin.val_one,
    Fin.val_two, Nat.reduceDiv, Nat.reduceMod, Nat.reduceMul, Nat.reduceAdd, Nat.zero_div,
    Nat.zero_mod, add_zero, mul_zero, zero_add, mul_one, Fin.zero_eta, Fin.mk_one,
    Fin.reduceFinMk, c 0 (by omega), c 1 (by omega), c 2 (by omega), c 3 (by omega),
    c 4 (by omega), c 5 (by omega), c 6 (by omega), c 7 (by omega), c 8 (by omega),
    c 9 (by omega), c 10 (by omega), c 11 (by omega)]
  ring

/-- The claimed row applied to a direction. -/
theorem claimedEntryRow_dot (tan cos : R → R) (i : Nat) (hv : Fin 3 → Nat) (av : Fin 4 → Nat)
    (altitude alpha orient vec_norm : R) (offset : Nat)
    (hderiv : Matrix (Fin 1) (Fin 9) R) (thetaderiv : Matrix (Fin 1) (Fin 12) R)
    (v : Fin 27 → R) :
    ∑ c : Fin 27, claimedEntryRow tan cos i hv av altitude alpha orient vec_norm offset hderiv
        thetaderiv c * v c =
      2 * tan alpha * vec_norm * (∑ p : Fin 9, hderiv 0 p * gatherH hv v p) +
      altitude / cos alpha / cos alpha * vec_norm *
        (∑ p : Fin 12, thetaderiv 0 p * gatherA av v p) +
      2 * altitude / cos alpha / cos alpha * orient * vec_norm * coord v (18 + 3 * i) +
      2 * tan alpha * altitude * coord v (18 + 3 * i + offset) := by
  unfold claimedEntryRow
  simp only [add_mul, Finset.sum_add_distrib, Finset.sum_mul, sum_indicator_coord]
  rw [Finset.sum_comm]
  simp only [Finset.sum_comm (s := (Finset.univ : Finset (Fin 27))) (t := (Finset.univ : Finset (Fin 3)))]
  simp only [sum_indicator_coord, sum_gatherH, sum_gatherA, Finset.mul_sum]
  congr 1
  congr 1
  congr 1
  · apply Finset.sum_congr rfl
    intro j _
    apply Finset.sum_congr rfl
    intro b _
    ring
  · rw [Finset.sum_comm]
    simp only [Finset.sum_comm (s := (Finset.univ : Finset (Fin 27))) (t := (Finset.univ : Finset (Fin 3))),
      sum_indicator_coord]
    apply Finset.sum_congr rfl
    intro j _
    apply Finset.sum_congr rfl
    intro b _
    ring

end EntryCalculus

section EntryDerivative

theorem hasFDerivAt_coord {n : Nat} (k : Nat) (x : Fin n → ℝ) :
    HasFDerivAt (fun y : Fin n → ℝ => coord y k)
      (∑ c : Fin n, (if k = c.val then (1 : ℝ) else 0) •
        (ContinuousLinearMap.proj c : (Fin n → ℝ) →L[ℝ] ℝ)) x := by
  have hfun : (fun y : Fin n → ℝ => coord y k) =
      fun y => ∑ c : Fin n, (if k = c.val then 1 else 0) * y c := by
    funext y
    exact coord_eq_sum y k
  rw [hfun]
  apply HasFDerivAt.sum
  intro c _
  exact (hasFDerivAt_apply c x).const_mul _

theorem coord_deriv_apply {n : Nat} (k : Nat) (v : Fin n → ℝ) :
    (∑ c : Fin n, (if k = c.val then (1 : ℝ) else 0) •
      (ContinuousLinearMap.proj c : (Fin n → ℝ) →L[ℝ] ℝ)) v = coord v k := by
  rw [coord_eq_sum]
  simp only [ContinuousLinearMap.sum_apply, ContinuousLinearMap.smul_apply,
    ContinuousLinearMap.proj_apply, smul_eq_mul]

/-- A function of the gathered altitude coordinates, differentiated with
respect to the 27 local variables. -/
theorem hasFDerivAt_comp_gatherH (hv : Fin 3 → Nat) (Hfn : (Fin 9 → ℝ) → ℝ) (x : Fin 27 → ℝ)
    (w : Fin 9 → ℝ)
    (hH : HasFDerivAt Hfn
      (∑ p : Fin 9, w p • (ContinuousLinearMap.proj p : (Fin 9 → ℝ) →L[ℝ] ℝ)) (gatherH hv x)) :
    ∃ L : (Fin 27 → ℝ) →L[ℝ] ℝ, HasFDerivAt (fun y => Hfn (gatherH hv y)) L x ∧
      ∀ v, L v = ∑ p : Fin 9, w p * gatherH hv v p := by
  have hG : HasFDerivAt (fun y : Fin 27 → ℝ => gatherH hv y)
      (ContinuousLinearMap.pi (fun p : Fin 9 =>
        ∑ c : Fin 27, (if 3 * hv ⟨p.val / 3, by omega⟩ + p.val % 3 = c.val then (1 : ℝ) else 0) •
          (ContinuousLinearMap.proj c : (Fin 27 → ℝ) →L[ℝ] ℝ))) x := by
    rw [hasFDerivAt_pi]
    intro p
    exact hasFDerivAt_coord _ x
  refine ⟨_, hH.comp x hG, ?_⟩
  intro v
  simp only [ContinuousLinearMap.comp_apply, ContinuousLinearMap.sum_apply,
    ContinuousLinearMap.smul_apply, ContinuousLinearMap.proj_apply, smul_eq_mul,
    ContinuousLinearMap.pi_apply]
  apply Finset.sum_congr rfl
  intro p _
  congr 1
  have := coord_deriv_apply (3 * hv ⟨p.val / 3, by omega⟩ + p.val % 3) v
  simp only [ContinuousLinearMap.sum_apply, ContinuousLinearMap.smul_apply,
    ContinuousLinearMap.proj_apply, smul_eq_mul] at this
  rw [this]
  rfl

/-- A function of the gathered angle coordinates, differentiated with respect
to the 27 local variables. -/
theorem hasFDerivAt_comp_gatherA (av : Fin 4 → Nat) (Tfn : (Fin 12 → ℝ) → ℝ) (x : Fin 27 → ℝ)
    (w : Fin 12 → ℝ)
    (hT : HasFDerivAt Tfn
      (∑ p : Fin 12, w p • (ContinuousLinearMap.proj p : (Fin 12 → ℝ) →L[ℝ] ℝ)) (gatherA av x)) :
    ∃ L : (Fin 27 → ℝ) →L[ℝ] ℝ, HasFDerivAt (fun y => Tfn (gatherA av y)) L x ∧
      ∀ v, L v = ∑ p : Fin 12, w p * gatherA av v p := by
  have hG : HasFDerivAt (fun y : Fin 27 → ℝ => gatherA av y)
      (ContinuousLinearMap.pi (fun p : Fin 12 =>
        ∑ c : Fin 27, (if 3 * av ⟨p.val / 3, by omega⟩ + p.val % 3 = c.val then (1 : ℝ) else 0) •
          (ContinuousLinearMap.proj c : (Fin 27 → ℝ) →L[ℝ] ℝ))) x := by
    rw [hasFDerivAt_pi]
    intro p
    exact hasFDerivAt_coord _ x
  refine ⟨_, hT.comp x hG, ?_⟩
  intro v
  simp only [ContinuousLinearMap.comp_apply, ContinuousLinearMap.sum_apply,
    ContinuousLinearMap.smul_apply, ContinuousLinearMap.proj_apply, smul_eq_mul,
    ContinuousLinearMap.pi_apply]
  apply Finset.sum_congr rfl
  intro p _
  congr 1
  have := coord_deriv_apply (3 * av ⟨p.val / 3, by omega⟩ + p.val % 3) v
  simp only [ContinuousLinearMap.sum_apply, ContinuousLinearMap.smul_apply,
    ContinuousLinearMap.proj_apply, smul_eq_mul] at this
  rw [this]
  rfl

/-- The claimed row is the gradient of `2 * h * tan(theta/2 + s*phi) * m` in
the 27 local variables, when `h'` and `theta'` are the derivatives of the
altitude and of the angle and `cos(alpha) ≠ 0`. -/
theorem claimedEntryRow_hasFDerivAt (i : Nat) (hv : Fin 3 → Nat) (av : Fin 4 → Nat)
    (offset : Nat) (orient : ℝ) (Hfn : (Fin 9 → ℝ) → ℝ) (Tfn : (Fin 12 → ℝ) → ℝ)
    (x : Fin 27 → ℝ) (hderiv : Matrix (Fin 1) (Fin 9) ℝ) (thetaderiv : Matrix (Fin 1) (Fin 12) ℝ)
    (hH : HasFDerivAt Hfn
      (∑ p : Fin 9, hderiv 0 p • (ContinuousLinearMap.proj p : (Fin 9 → ℝ) →L[ℝ] ℝ))
      (gatherH hv x))
    (hT : HasFDerivAt Tfn
      (∑ p : Fin 12, thetaderiv 0 p • (ContinuousLinearMap.proj p : (Fin 12 → ℝ) →L[ℝ] ℝ))
      (gatherA av x))
    (hcos : Real.cos (0.5 * Tfn (gatherA av x) + orient * coord x (18 + 3 * i)) ≠ 0) :
    HasFDerivAt (fun y : Fin 27 → ℝ => 2 * Hfn (gatherH hv y) *
        Real.tan (0.5 * Tfn (gatherA av y) + orient * coord y (18 + 3 * i)) *
        coord y (18 + 3 * i + offset))
      (∑ c : Fin 27, claimedEntryRow Real.tan Real.cos i hv av (Hfn (gatherH hv x))
          (0.5 * Tfn (gatherA av x) + orient * coord x (18 + 3 * i)) orient
          (coord x (18 + 3 * i + offset)) offset hderiv thetaderiv c •
        (ContinuousLinearMap.proj c : (Fin 27 → ℝ) →L[ℝ] ℝ)) x := by
  obtain ⟨LH, hLH, hLHv⟩ := hasFDerivAt_comp_gatherH hv Hfn x (hderiv 0) hH
  obtain ⟨LT, hLT, hLTv⟩ := hasFDerivAt_comp_gatherA av Tfn x (thetaderiv 0) hT
  have hphi := hasFDerivAt_coord (18 + 3 * i) x
  have hm := hasFDerivAt_coord (18 + 3 * i + offset) x
  have halpha := (hLT.const_mul (0.5 : ℝ)).add (hphi.const_mul orient)
  have htan := (Real.hasDerivAt_tan hcos).comp_hasFDerivAt x halpha
  have hall := ((hLH.const_mul (2 : ℝ)).mul htan).mul hm
  refine hall.congr_fderiv ?_
  ext v
  have hdot := claimedEntryRow_dot Real.tan Real.cos i hv av (Hfn (gatherH hv x))
    (0.5 * Tfn (gatherA av x) + orient * coord x (18 + 3 * i)) orient
    (coord x (18 + 3 * i + offset)) offset hderiv thetaderiv v
  have e1 := coord_deriv_apply (18 + 3 * i) v
  have e2 := coord_deriv_apply (18 + 3 * i + offset) v
  simp only [ContinuousLinearMap.sum_apply, ContinuousLinearMap.smul_apply,
    ContinuousLinearMap.proj_apply, smul_eq_mul] at e1 e2
  simp only [ContinuousLinearMap.add_apply, ContinuousLinearMap.smul_apply,
    ContinuousLinearMap.sum_apply, ContinuousLinearMap.proj_apply, smul_eq_mul,
    Function.comp_apply, hLHv, hLTv, e1, e2, hdot]
  field_simp
  ring

end EntryDerivative

/-! ## Auxiliary lemmas: bilinear forms of updated matrices -/

section BilinearLemmas

variable {R : Type} [Field R]

theorem bilinear_indicator {n : Nat} (u v : Fin n → R) (r c : Nat) (X : R) :
    ∑ a : Fin n, ∑ b : Fin n, u a * (if r = a.val ∧ c = b.val then X else 0) * v b =
      coord u r * X * coord v c := by
  have h : ∀ a b : Fin n, u a * (if r = a.val ∧ c = b.val then X else 0) * v b =
      ((if r = a.val then 1 else 0) * u a) * (X * ((if c = b.val then 1 else 0) * v b)) := by
    intro a b
    by_cases h1 : r = a.val <;> by_cases h2 : c = b.val <;> simp [h1, h2]
    ring
  simp only [h]
  simp only [← Finset.mul_sum, ← Finset.sum_mul, ← coord_eq_sum]
  ring

theorem sum_comm_four {A B C D : Type} [Fintype A] [Fintype B] [Fintype C] [Fintype D]
    (F : A → B → C → D → R) :
    ∑ a : A, ∑ b : B, ∑ x : C, ∑ y : D, F a b x y = ∑ x : C, ∑ y : D, ∑ a : A, ∑ b : B, F a b x y := by
  have h1 : ∀ a : A, ∑ b : B, ∑ x : C, ∑ y : D, F a b x y = ∑ x : C, ∑ y : D, ∑ b : B, F a b x y := by
    intro a
    rw [Finset.sum_comm]
    apply Finset.sum_congr rfl
    intro x _
    rw [Finset.sum_comm]
  simp only [h1]
  rw [Finset.sum_comm]
  apply Finset.sum_congr rfl
  intro x _
  rw [Finset.sum_comm]

/-- The bilinear form of an updated matrix. -/
theorem bilinearForm_addBlock {n p q : Nat} (u v : Fin n → R) (M : Matrix (Fin n) (Fin n) R)
    (r c : Nat) (B : Matrix (Fin p) (Fin q) R) :
    bilinearForm u (addBlock M r c B) v =
      bilinearForm u M v +
        ∑ x : Fin p, ∑ y : Fin q, coord u (r + x.val) * B x y * coord v (c + y.val) := by
  unfold bilinearForm
  have key : ∀ a b : Fin n, u a * addBlock M r c B a b * v b = u a * M a b * v b +
      ∑ x : Fin p, ∑ y : Fin q,
        u a * (if r + x.val = a.val ∧ c + y.val = b.val then B x y else 0) * v b := by
    intro a b
    rw [addBlock_apply_sum, mul_add, add_mul, Finset.mul_sum, Finset.sum_mul]
    congr 1
    apply Finset.sum_congr rfl
    intro x _
    rw [Finset.mul_sum, Finset.sum_mul]
  simp only [key, Finset.sum_add_distrib]
  congr 1
  rw [sum_comm_four]
  apply Finset.sum_congr rfl
  intro x _
  apply Finset.sum_congr rfl
  intro y _
  exact bilinear_indicator u v (r + x.val) (c + y.val) (B x y)

theorem bilinearForm_addEntry {n : Nat} (u v : Fin n → R) (M : Matrix (Fin n) (Fin n) R)
    (r c : Nat) (X : R) :
    bilinearForm u (addEntry M r c X) v = bilinearForm u M v + coord u r * X * coord v c := by
  unfold bilinearForm
  have key : ∀ a b : Fin n, u a * addEntry M r c X a b * v b = u a * M a b * v b +
      u a * (if r = a.val ∧ c = b.val then X else 0) * v b := by
    intro a b
    rw [addEntry_apply_sum, mul_add, add_mul]
  simp only [key, Finset.sum_add_distrib]
  rw [bilinear_indicator]

theorem bilinearForm_zero {n : Nat} (u v : Fin n → R) :
    bilinearForm u (0 : Matrix (Fin n) (Fin n) R) v = 0 := by
  simp [bilinearForm]

end BilinearLemmas

/-! ## Auxiliary lemmas: the Hessian of `secondFundamentalFormEntries` -/

section EntriesHessianLoops

variable {R : Type} [Field R]

set_option maxHeartbeats 4000000 in
/-- The altitude-altitude loop of `entriesHessian` (source lines 172-177). -/
theorem loop_altitude_altitude (tan : R → R) (M : Matrix (Fin 27) (Fin 27) R) (hv : Fin 3 → Nat)
    (alpha vec_norm : R) (hhess : Matrix (Fin 9) (Fin 9) R) (u v : Fin 27 → R) :
    bilinearForm u ((List.finRange 3).foldl (fun hess j =>
      (List.finRange 3).foldl (fun hess k =>
        addBlock hess (3 * hv j) (3 * hv k)
          (mulScalar ((2 * tan alpha) • block hhess (3 * j.val) (3 * k.val) 3 3) vec_norm))
        hess) M) v =
      bilinearForm u M v +
        2 * tan alpha * vec_norm * bilinearForm (gatherH hv u) hhess (gatherH hv v) := by
  have h3 : List.finRange 3 = [0, 1, 2] := by decide
  obtain ⟨w3, w4, w5, w6, w7, w8⟩ := fin_nine_val
  simp only [h3, List.foldl_cons, List.foldl_nil, bilinearForm_addBlock]
  simp only [bilinearForm, sum_univ_nine, Fin.sum_univ_three, gatherH, mulScalar, block,
    Matrix.smul_apply, smul_eq_mul,
    w3, w4, w5, w6, w7, w8, Fin.val_zero, Fin.val_one,
    Fin.val_two, Nat.reduceDiv, Nat.reduceMod, Nat.reduceMul, Nat.reduceAdd, Nat.zero_div,
    Nat.zero_mod, add_zero, mul_zero, zero_add, mul_one, Fin.zero_eta, Fin.mk_one,
    Fin.reduceFinMk, Nat.reduceLT, and_self, dite_true]
  ring

set_option maxHeartbeats 4000000 in
/-- The altitude-theta loop of `entriesHessian` (source lines 179-192). -/
theorem loop_altitude_theta (cos : R → R) (M : Matrix (Fin 27) (Fin 27) R) (i : Nat)
    (hv : Fin 3 → Nat) (av : Fin 4 → Nat) (alpha orient vec_norm : R)
    (hderiv : Matrix (Fin 1) (Fin 9) R) (thetaderiv : Matrix (Fin 1) (Fin 12) R)
    (u v : Fin 27 → R) :
    bilinearForm u ((List.finRange 3).foldl (fun hess k =>
      let hess := (List.finRange 4).foldl (fun hess j =>
        let hess := addBlock hess (3 * av j) (3 * hv k)
          (mulScalar ((1 / cos alpha / cos alpha) •
            (block thetaderiv 0 (3 * j.val) 1 3).transpose * block hderiv 0 (3 * k.val) 1 3)
            vec_norm)
        let hess := addBlock hess (3 * hv k) (3 * av j)
          (mulScalar ((1 / cos alpha / cos alpha) •
            (block hderiv 0 (3 * k.val) 1 3).transpose * block thetaderiv 0 (3 * j.val) 1 3)
            vec_norm)
        hess) hess
      let hess := addBlock hess (18 + 3 * i) (3 * hv k)
        (mulScalar ((2 / cos alpha / cos alpha * orient) • block hderiv 0 (3 * k.val) 1 3)
          vec_norm)
      let hess := addBlock hess (3 * hv k) (18 + 3 * i)
        (mulScalar ((2 / cos alpha / cos alpha * orient) •
          (block hderiv 0 (3 * k.val) 1 3).transpose) vec_norm)
      hess) M) v =
      bilinearForm u M v +
        1 / cos alpha / cos alpha * vec_norm *
          ((∑ p : Fin 12, thetaderiv 0 p * gatherA av u p) *
              (∑ p : Fin 9, hderiv 0 p * gatherH hv v p) +
            (∑ p : Fin 9, hderiv 0 p * gatherH hv u p) *
              (∑ p : Fin 12, thetaderiv 0 p * gatherA av v p)) +
        2 / cos alpha / cos alpha * orient * vec_norm *
          (coord u (18 + 3 * i) * (∑ p : Fin 9, hderiv 0 p * gatherH hv v p) +
            (∑ p : Fin 9, hderiv 0 p * gatherH hv u p) * coord v (18 + 3 * i)) := by
  have h3 : List.finRange 3 = [0, 1, 2] := by decide
  have h4 : List.finRange 4 = [0, 1, 2, 3] := by decide
  have f3 : ((3 : Fin 4) : ℕ) = 3 := rfl
  obtain ⟨w3, w4, w5, w6, w7, w8⟩ := fin_nine_val
  obtain ⟨v3, v4, v5, v6, v7, v8, v9, v10, v11⟩ := fin_twelve_val
  simp only [h3, h4, List.foldl_cons, List.foldl_nil, bilinearForm_addBlock]
  simp only [sum_univ_nine, sum_univ_twelve, Fin.sum_univ_three, gatherH, gatherA,
    mulScalar, block, Matrix.mul_apply, Matrix.transpose_apply,
    Matrix.smul_apply, smul_eq_mul, Finset.univ_unique, Fin.default_eq_zero, Finset.sum_singleton,
    w3, w4, w5, w6, w7, w8, v3, v4, v5, v6, v7, v8, v9, v10, v11, f3, Fin.val_zero, Fin.val_one,
    Fin.val_two, Nat.reduceDiv, Nat.reduceMod, Nat.reduceMul, Nat.reduceAdd, Nat.zero_div,
    Nat.zero_mod, add_zero, mul_zero, zero_add, mul_one, Fin.zero_eta, Fin.mk_one,
    Fin.reduceFinMk, Nat.reduceLT, and_self, dite_true]
  ring

set_option maxHeartbeats 4000000 in
/-- The theta-theta loop of `entriesHessian` (source lines 194-208). -/
theorem loop_theta_theta (tan cos : R → R) (M : Matrix (Fin 27) (Fin 27) R) (i : Nat)
    (av : Fin 4 → Nat) (altitude alpha orient vec_norm : R)
    (thetaderiv : Matrix (Fin 1) (Fin 12) R) (thetahess : Matrix (Fin 12) (Fin 12) R)
    (u v : Fin 27 → R) :
    bilinearForm u ((List.finRange 4).foldl (fun hess k =>
      let hess := (List.finRange 4).foldl (fun hess j =>
        let hess := addBlock hess (3 * av j) (3 * av k)
          (mulScalar ((altitude / cos alpha / cos alpha) •
            block thetahess (3 * j.val) (3 * k.val) 3 3) vec_norm)
        let hess := addBlock hess (3 * av j) (3 * av k)
          (mulScalar ((altitude * tan alpha / cos alpha / cos alpha) •
            (block thetaderiv 0 (3 * j.val) 1 3).transpose * block thetaderiv 0 (3 * k.val) 1 3)
            vec_norm)
        hess) hess
      let hess := addBlock hess (18 + 3 * i) (3 * av k)
        (mulScalar ((2 * altitude * tan alpha / cos alpha / cos alpha * orient) •
          block thetaderiv 0 (3 * k.val) 1 3) vec_norm)
      let hess := addBlock hess (3 * av k) (18 + 3 * i)
        (mulScalar ((2 * altitude * tan alpha / cos alpha / cos alpha * orient) •
          (block thetaderiv 0 (3 * k.val) 1 3).transpose) vec_norm)
      hess) M) v =
      bilinearForm u M v +
        altitude / cos alpha / cos alpha * vec_norm *
          bilinearForm (gatherA av u) thetahess (gatherA av v) +
        altitude * tan alpha / cos alpha / cos alpha * vec_norm *
          ((∑ p : Fin 12, thetaderiv 0 p * gatherA av u p) *
            (∑ p : Fin 12, thetaderiv 0 p * gatherA av v p)) +
        2 * altitude * tan alpha / cos alpha / cos alpha * orient * vec_norm *
          (coord u (18 + 3 * i) * (∑ p : Fin 12, thetaderiv 0 p * gatherA av v p) +
            (∑ p : Fin 12, thetaderiv 0 p * gatherA av u p) * coord v (18 + 3 * i)) := by
  have h4 : List.finRange 4 = [0, 1, 2, 3] := by decide
  have f3 : ((3 : Fin 4) : ℕ) = 3 := rfl
  obtain ⟨v3, v4, v5, v6, v7, v8, v9, v10, v11⟩ := fin_twelve_val
  simp only [h4, List.foldl_cons, List.foldl_nil, bilinearForm_addBlock]
  simp only [bilinearForm, sum_univ_twelve, Fin.sum_univ_three, gatherA,
    mulScalar, block, Matrix.mul_apply, Matrix.transpose_apply,
    Matrix.smul_apply, smul_eq_mul, Finset.univ_unique, Fin.default_eq_zero, Finset.sum_singleton,
    v3, v4, v5, v6, v7, v8, v9, v10, v11, f3, Fin.val_zero, Fin.val_one,
    Fin.val_two, Nat.reduceDiv, Nat.reduceMod, Nat.reduceMul, Nat.reduceAdd, Nat.zero_div,
    Nat.zero_mod, add_zero, mul_zero, zero_add, mul_one, Fin.zero_eta, Fin.mk_one,
    Fin.reduceFinMk, Nat.reduceLT, and_self, dite_true]
  ring

set_option maxHeartbeats 4000000 in
/-- The magnitude-altitude loop of `entriesHessian` (source lines 213-218). -/
theorem loop_magnitude_altitude (tan : R → R) (M : Matrix (Fin 27) (Fin 27) R) (i : Nat)
    (hv : Fin 3 → Nat) (alpha : R) (offset : Nat) (hderiv : Matrix (Fin 1) (Fin 9) R)
    (u v : Fin 27 → R) :
    bilinearForm u ((List.finRange 3).foldl (fun hess j =>
      let hess := addBlock hess (18 + 3 * i + offset) (3 * hv j)
        ((2 * tan alpha) • block hderiv 0 (3 * j.val) 1 3)
      let hess := addBlock hess (3 * hv j) (18 + 3 * i + offset)
        ((2 * tan alpha) • (block hderiv 0 (3 * j.val) 1 3).transpose)
      hess) M) v =
      bilinearForm u M v +
        2 * tan alpha *
          (coord u (18 + 3 * i + offset) * (∑ p : Fin 9, hderiv 0 p * gatherH hv v p) +
            (∑ p : Fin 9, hderiv 0 p * gatherH hv u p) * coord v (18 + 3 * i + offset)) := by
  have h3 : List.finRange 3 = [0, 1, 2] := by decide
  obtain ⟨w3, w4, w5, w6, w7, w8⟩ := fin_nine_val
  simp only [h3, List.foldl_cons, List.foldl_nil, bilinearForm_addBlock]
  simp only [sum_univ_nine, Fin.sum_univ_three, gatherH,
    block, Matrix.transpose_apply,
    Matrix.smul_apply, smul_eq_mul, Finset.univ_unique, Fin.default_eq_zero, Finset.sum_singleton,
    w3, w4, w5, w6, w7, w8, Fin.val_zero, Fin.val_one,
    Fin.val_two, Nat.reduceDiv, Nat.reduceMod, Nat.reduceMul, Nat.reduceAdd, Nat.zero_div,
    Nat.zero_mod, add_zero, mul_zero, zero_add, mul_one, Fin.zero_eta, Fin.mk_one,
    Fin.reduceFinMk, Nat.reduceLT, and_self, dite_true]
  ring

set_option maxHeartbeats 4000000 in
/-- The magnitude-theta loop of `entriesHessian` (source lines 220-225). -/
theorem loop_magnitude_theta (cos : R → R) (M : Matrix (Fin 27) (Fin 27) R) (i : Nat)
    (av : Fin 4 → Nat) (altitude alpha : R) (offset : Nat)
    (thetaderiv : Matrix (Fin 1) (Fin 12) R) (u v : Fin 27 → R) :
    bilinearForm u ((List.finRange 4).foldl (fun hess j =>
      let hess := addBlock hess (18 + 3 * i + offset) (3 * av j)
        ((altitude / cos alpha / cos alpha) • block thetaderiv 0 (3 * j.val) 1 3)
      let hess := addBlock hess (3 * av j) (18 + 3 * i + offset)
        ((altitude / cos alpha / cos alpha) • (block thetaderiv 0 (3 * j.val) 1 3).transpose)
      hess) M) v =
      bilinearForm u M v +
        altitude / cos alpha / cos alpha *
          (coord u (18 + 3 * i + offset) * (∑ p : Fin 12, thetaderiv 0 p * gatherA av v p) +
            (∑ p : Fin 12, thetaderiv 0 p * gatherA av u p) * coord v (18 + 3 * i + offset)) := by
  have h4 : List.finRange 4 = [0, 1, 2, 3] := by decide
  have f3 : ((3 : Fin 4) : ℕ) = 3 := rfl
  obtain ⟨v3, v4, v5, v6, v7, v8, v9, v10, v11⟩ := fin_twelve_val
  simp only [h4, List.foldl_cons, List.foldl_nil, bilinearForm_addBlock]
  simp only [sum_univ_twelve, Fin.sum_univ_three, gatherA,
    block, Matrix.transpose_apply,
    Matrix.smul_apply, smul_eq_mul, Finset.univ_unique, Fin.default_eq_zero, Finset.sum_singleton,
    v3, v4, v5, v6, v7, v8, v9, v10, v11, f3, Fin.val_zero, Fin.val_one,
    Fin.val_two, Nat.reduceDiv, Nat.reduceMod, Nat.reduceMul, Nat.reduceAdd, Nat.zero_div,
    Nat.zero_mod, add_zero, mul_zero, zero_add, mul_one, Fin.zero_eta, Fin.mk_one,
    Fin.reduceFinMk, Nat.reduceLT, and_self, dite_true]
  ring

end EntriesHessianLoops

section EntriesHessianForm

variable {R : Type} [Field R]

/-- The matrix that one iteration of `secondFundamentalFormEntries` adds to
the zero Hessian, as a bilinear form: the blocks the code scatters, gathered
on the two directions. -/
theorem entriesHessian_bilinear (tan cos : R → R) (i : Nat) (hv : Fin 3 → Nat)
    (av : Fin 4 → Nat) (altitude alpha orient vec_norm : R) (offset : Nat)
    (hderiv : Matrix (Fin 1) (Fin 9) R) (hhess : Matrix (Fin 9) (Fin 9) R)
    (thetaderiv : Matrix (Fin 1) (Fin 12) R) (thetahess : Matrix (Fin 12) (Fin 12) R)
    (u v : Fin 27 → R) :
    bilinearForm u (entriesHessian tan cos 0 i hv av altitude alpha orient vec_norm offset
      hderiv hhess thetaderiv thetahess) v =
    claimedEntryHessian tan cos i hv av altitude alpha orient vec_norm offset
      hderiv hhess thetaderiv thetahess u v := by
  unfold entriesHessian
  simp only
  rw [bilinearForm_addEntry, bilinearForm_addEntry, loop_magnitude_theta,
    loop_magnitude_altitude, bilinearForm_addEntry, loop_theta_theta, loop_altitude_theta,
    loop_altitude_altitude, bilinearForm_zero]
  unfold claimedEntryHessian
  simp only
  ring

end EntriesHessianForm

section EntrySecondDerivative

end EntrySecondDerivative

section EntryHessianCalculus

end EntryHessianCalculus

section EntryHessianEntries

variable {R : Type} [Field R]

theorem bilinearForm_single {n : Nat} (M : Matrix (Fin n) (Fin n) R) (a b : Fin n) :
    bilinearForm (Pi.single a 1) M (Pi.single b 1) = M a b := by
  unfold bilinearForm
  rw [Finset.sum_eq_single a, Finset.sum_eq_single b]
  · simp
  · intro c _ hc
    simp [Pi.single_apply, hc]
  · intro h
    exact absurd (Finset.mem_univ b) h
  · intro c _ hc
    simp [Pi.single_apply, hc]
  · intro h
    exact absurd (Finset.mem_univ a) h

end EntryHessianEntries

/-! ## Auxiliary lemmas: where `edgeDOFPenaltyEnergy` is defined -/

section PenaltyDefined

variable {R : Type} [Field R]

/-- A loop with an iteration that fails from every state fails. -/
theorem foldlM_none_of_step {S A : Type} (f : S → A → Option S) (l : List A) (a : A)
    (ha : a ∈ l) (hf : ∀ s, f s a = none) (init : S) : l.foldlM f init = none := by
  induction l generalizing init with
  | nil => exact absurd ha (List.not_mem_nil a)
  | cons b l ih =>
    rw [List.foldlM_cons]
    rcases List.mem_cons.1 ha with rfl | hmem
    · rw [hf init]
      rfl
    · cases hb : f init b with
      | none => rfl
      | some s => exact ih hmem s

/-- An iteration of `edgeDOFPenaltyEnergy` whose second read leaves the vector
fails. -/
theorem penaltyStep_none (edgeDOFs edge_area : VectorXd R) (penaltyScale : R) (k i : Nat)
    (h : edgeDOFs.length ≤ i * k + 2) (st : PenaltyEval R) :
    penaltyStep edgeDOFs edge_area penaltyScale k st i = none := by
  unfold penaltyStep
  have h2 : edgeDOFs[i * k + 2]? = none := List.getElem?_eq_none h
  cases h0 : edge_area[i]? with
  | none => rfl
  | some a =>
    cases h1 : edgeDOFs[i * k + 1]? with
    | none => rfl
    | some m1 => simp [h2]

/-- The inputs on which `edgeDOFPenaltyEnergy` is defined: equal sizes, or at
least one edge and a size that is not a multiple of the number of edges or is
at least three times that number. -/
theorem penalty_isSome_iff (edgeDOFs edge_area : VectorXd R) (penaltyScale : R)
    (deriv hessian : Bool) :
    (edgeDOFPenaltyEnergy edgeDOFs edge_area penaltyScale deriv hessian).isSome = true ↔
      edgeDOFs.length = edge_area.length ∨
        (edge_area.length ≠ 0 ∧
          (edgeDOFs.length % edge_area.length ≠ 0 ∨ 3 * edge_area.length ≤ edgeDOFs.length)) := by
  constructor
  · intro h
    by_contra hc
    rw [not_or, not_and_or, not_or, not_not, not_not, not_le] at hc
    obtain ⟨hne, hc⟩ := hc
    unfold edgeDOFPenaltyEnergy at h
    simp only [hne, if_false] at h
    rcases hc with h0 | ⟨hmod, hlt⟩
    · simp [h0] at h
    · by_cases h0 : edge_area.length = 0
      · simp [h0] at h
      · simp only [h0, if_false, hmod, ne_eq, not_true_eq_false] at h
        have hn : edge_area.length - 1 ∈ List.range edge_area.length :=
          List.mem_range.2 (by omega)
        have hk : edgeDOFs.length / edge_area.length * edge_area.length = edgeDOFs.length :=
          Nat.div_mul_cancel (Nat.dvd_of_mod_eq_zero hmod)
        have hk2 : edgeDOFs.length / edge_area.length ≤ 2 := by
          by_contra hk3
          have : 3 * edge_area.length ≤ edgeDOFs.length / edge_area.length * edge_area.length :=
            Nat.mul_le_mul_right _ (Nat.lt_of_not_le hk3)
          omega
        have hk1 : edgeDOFs.length / edge_area.length ≠ 1 := by
          intro h1
          rw [h1, one_mul] at hk
          exact hne hk.symm
        have hbound : edgeDOFs.length ≤
            (edge_area.length - 1) * (edgeDOFs.length / edge_area.length) + 2 := by
          have hk0 : edgeDOFs.length / edge_area.length = 0 ∨
              edgeDOFs.length / edge_area.length = 2 := by
            generalize edgeDOFs.length / edge_area.length = q at hk2 hk1
            omega
          rcases hk0 with hk0 | hk0
          · rw [hk0] at hk ⊢
            omega
          · rw [hk0] at hk ⊢
            omega
        rw [foldlM_none_of_step _ _ _ hn
          (penaltyStep_none edgeDOFs edge_area penaltyScale _ _ hbound)] at h
        simp at h
  · intro h
    by_cases hn : edge_area.length = 0
    · have hlen : edgeDOFs.length = edge_area.length := by
        rcases h with h | ⟨h, -⟩
        · exact h
        · exact absurd hn h
      unfold edgeDOFPenaltyEnergy
      simp [hlen]
    · have hs : edgeDOFs.length % edge_area.length ≠ 0 ∨ edgeDOFs.length = edge_area.length ∨
          3 * edge_area.length ≤ edgeDOFs.length := by
        rcases h with h | ⟨-, h | h⟩
        · exact Or.inr (Or.inl h)
        · exact Or.inl h
        · exact Or.inr (Or.inr h)
      obtain ⟨pen, hpen, -⟩ := penalty_returns edgeDOFs edge_area penaltyScale deriv hessian
        (by omega) hs
      rw [hpen]
      rfl

end PenaltyDefined

/-! ## Auxiliary lemmas: the sign of the penalty -/

section PenaltySign

/-- The result of `edgeDOFPenaltyEnergy` on three DOFs per edge, whatever the
number of edges. -/
theorem penalty_three {R : Type} [Field R] (edgeDOFs edge_area : VectorXd R) (penaltyScale : R)
    (n : Nat) (deriv hessian : Bool) (harea : edge_area.length = n)
    (hlen : edgeDOFs.length = 3 * n) :
    edgeDOFPenaltyEnergy edgeDOFs edge_area penaltyScale deriv hessian =
      some ⟨∑ i ∈ Finset.range n,
          ((edgeDOFs.getD (i * 3 + 1) 0 - 1) * (edgeDOFs.getD (i * 3 + 1) 0 - 1) * penaltyScale *
              edge_area.getD i 0 +
            (edgeDOFs.getD (i * 3 + 2) 0 - 1) * (edgeDOFs.getD (i * 3 + 2) 0 - 1) * penaltyScale *
              edge_area.getD i 0),
        if deriv then some ((List.range (3 * n)).map (fun j =>
          if j / 3 < n ∧ (j % 3 = 1 ∨ j % 3 = 2) then
            2 * (edgeDOFs.getD j 0 - 1) * penaltyScale * edge_area.getD (j / 3) 0
          else 0)) else none,
        if hessian then some ((List.range n).flatMap (fun i =>
          [(⟨i * 3 + 1, i * 3 + 1, 2 * penaltyScale * edge_area.getD i 0⟩ : Triplet R),
           ⟨i * 3 + 2, i * 3 + 2, 2 * penaltyScale * edge_area.getD i 0⟩])) else none⟩ := by
  by_cases hn : n = 0
  · subst hn
    have h0 : edgeDOFs.length = edge_area.length := by rw [hlen, harea]
    have hl : edgeDOFs.length = 0 := by rw [hlen]
    unfold edgeDOFPenaltyEnergy
    simp [h0, harea]
  · exact penalty_eq_fold edgeDOFs edge_area penaltyScale 3 n deriv hessian (by omega) le_rfl
      harea hlen

/-- The sum of the entries of a vector, by index. -/
theorem sum_range_getD {R : Type} [Field R] (v : VectorXd R) :
    ∑ i ∈ Finset.range v.length, v.getD i 0 = v.sum := by
  induction v using List.reverseRecOn with
  | nil => simp
  | append_singleton l a ih =>
    rw [List.length_append, List.length_singleton, Finset.sum_range_succ, List.sum_append,
      List.sum_singleton, ← ih]
    congr 1
    · apply Finset.sum_congr rfl
      intro i hi
      rw [List.getD_append _ _ _ _ (Finset.mem_range.1 hi)]
    · rw [List.getD_eq_getElem?_getD, List.getElem?_append_right (le_refl _)]
      simp

variable {R : Type} [LinearOrderedField R]

theorem getD_nonneg (v : VectorXd R) (h : ∀ a ∈ v, 0 ≤ a) (i : Nat) : 0 ≤ v.getD i 0 := by
  rw [List.getD_eq_getElem?_getD]
  by_cases hi : i < v.length
  · rw [List.getElem?_eq_getElem hi, Option.getD_some]
    exact h _ (List.getElem_mem hi)
  · rw [List.getElem?_eq_none (by omega), Option.getD_none]

theorem getD_pos (v : VectorXd R) (h : ∀ a ∈ v, 0 < a) (i : Nat) (hi : i < v.length) :
    0 < v.getD i 0 := by
  rw [List.getD_eq_getElem?_getD, List.getElem?_eq_getElem hi, Option.getD_some]
  exact h _ (List.getElem_mem hi)

/-- One term of the penalty is non-negative. -/
theorem penalty_term_nonneg (m1 m2 s a : R) (hs : 0 ≤ s) (ha : 0 ≤ a) :
    0 ≤ (m1 - 1) * (m1 - 1) * s * a + (m2 - 1) * (m2 - 1) * s * a :=
  add_nonneg (mul_nonneg (mul_nonneg (mul_self_nonneg _) hs) ha)
    (mul_nonneg (mul_nonneg (mul_self_nonneg _) hs) ha)

/-- One term of the penalty vanishes exactly when its two magnitudes are 1. -/
theorem penalty_term_eq_zero (m1 m2 s a : R) (hs : 0 < s) (ha : 0 < a) :
    (m1 - 1) * (m1 - 1) * s * a + (m2 - 1) * (m2 - 1) * s * a = 0 ↔ m1 = 1 ∧ m2 = 1 := by
  have hsa : 0 < s * a := mul_pos hs ha
  constructor
  · intro h
    have h1 : 0 ≤ (m1 - 1) * (m1 - 1) * s * a :=
      mul_nonneg (mul_nonneg (mul_self_nonneg _) hs.le) ha.le
    have h2 : 0 ≤ (m2 - 1) * (m2 - 1) * s * a :=
      mul_nonneg (mul_nonneg (mul_self_nonneg _) hs.le) ha.le
    have e1 : (m1 - 1) * (m1 - 1) * s * a = 0 := by linarith
    have e2 : (m2 - 1) * (m2 - 1) * s * a = 0 := by linarith
    have f1 : (m1 - 1) * (m1 - 1) = 0 := by
      rcases mul_eq_zero.1 e1 with h | h
      · rcases mul_eq_zero.1 h with h | h
        · exact h
        · exact absurd h hs.ne'
      · exact absurd h ha.ne'
    have f2 : (m2 - 1) * (m2 - 1) = 0 := by
      rcases mul_eq_zero.1 e2 with h | h
      · rcases mul_eq_zero.1 h with h | h
        · exact h
        · exact absurd h hs.ne'
      · exact absurd h ha.ne'
    exact ⟨sub_eq_zero.1 (mul_self_eq_zero.1 f1), sub_eq_zero.1 (mul_self_eq_zero.1 f2)⟩
  · rintro ⟨rfl, rfl⟩
    simp

/-- The value returned by `edgeDOFPenaltyEnergy` is non-negative when the
scale and the areas are. -/
theorem penalty_nonneg (edgeDOFs edge_area : VectorXd R) (penaltyScale : R)
    (deriv hessian : Bool) (hs : 0 ≤ penaltyScale) (ha : ∀ a ∈ edge_area, 0 ≤ a)
    (r : PenaltyEval R)
    (hr : edgeDOFPenaltyEnergy edgeDOFs edge_area penaltyScale deriv hessian = some r) :
    0 ≤ r.value := by
  have hsome := (penalty_isSome_iff edgeDOFs edge_area penaltyScale deriv hessian).1
    (by rw [hr]; rfl)
  by_cases h1 : edgeDOFs.length = edge_area.length
  · unfold edgeDOFPenaltyEnergy at hr
    simp only [h1, if_true, Option.some.injEq] at hr
    rw [← hr]
  · rcases hsome with h | ⟨h0, h⟩
    · exact absurd h h1
    · by_cases hmod : edgeDOFs.length % edge_area.length ≠ 0
      · unfold edgeDOFPenaltyEnergy at hr
        simp only [h1, h0, hmod, if_true, if_false, ne_eq, not_false_eq_true,
          Option.some.injEq] at hr
        rw [← hr]
      · rw [not_not] at hmod
        have h3 : 3 * edge_area.length ≤ edgeDOFs.length := by
          rcases h with h | h
          · exact absurd hmod h
          · exact h
        have hk : edgeDOFs.length / edge_area.length * edge_area.length = edgeDOFs.length :=
          Nat.div_mul_cancel (Nat.dvd_of_mod_eq_zero hmod)
        have hk3 : 3 ≤ edgeDOFs.length / edge_area.length := by
          rw [Nat.le_div_iff_mul_le (Nat.pos_of_ne_zero h0)]
          exact h3
        rw [penalty_eq_fold edgeDOFs edge_area penaltyScale _ edge_area.length deriv hessian
          (Nat.pos_of_ne_zero h0) hk3 rfl hk.symm, Option.some.injEq] at hr
        rw [← hr]
        show 0 ≤ ∑ i ∈ Finset.range edge_area.length, _
        apply Finset.sum_nonneg
        intro i _
        exact penalty_term_nonneg _ _ _ _ hs (getD_nonneg edge_area ha i)

end PenaltySign

section PenaltyZero

/-- With every magnitude equal to 1 the penalty and its gradient vanish. -/
theorem penalty_at_ones {R : Type} [Field R] (edgeDOFs edge_area : VectorXd R) (penaltyScale : R)
    (deriv hessian : Bool) (hlen : edgeDOFs.length = 3 * edge_area.length)
    (hones : ∀ i, i < edge_area.length →
      edgeDOFs.getD (3 * i + 1) 0 = 1 ∧ edgeDOFs.getD (3 * i + 2) 0 = 1) :
    ∃ r, edgeDOFPenaltyEnergy edgeDOFs edge_area penaltyScale deriv hessian = some r ∧
      r.value = 0 ∧ (deriv = true → r.derivative = some (List.replicate edgeDOFs.length 0)) := by
  refine ⟨_, penalty_three edgeDOFs edge_area penaltyScale _ deriv hessian rfl hlen, ?_, ?_⟩
  · show ∑ i ∈ Finset.range edge_area.length, _ = 0
    apply Finset.sum_eq_zero
    intro i hi
    obtain ⟨h1, h2⟩ := hones i (Finset.mem_range.1 hi)
    rw [Nat.mul_comm i 3, h1, h2]
    simp
  · intro hd
    show (if deriv = true then _ else none) = _
    simp only [hd, if_true, Option.some.injEq]
    rw [List.eq_replicate_iff]
    refine ⟨by simp [hlen], ?_⟩
    intro b hb
    rw [List.mem_map] at hb
    obtain ⟨j, -, rfl⟩ := hb
    by_cases hc : j / 3 < edge_area.length ∧ (j % 3 = 1 ∨ j % 3 = 2)
    · rw [if_pos hc]
      obtain ⟨h1, h2⟩ := hones (j / 3) hc.1
      have hj : edgeDOFs.getD j 0 = 1 := by
        rcases hc.2 with h | h
        · have : j = 3 * (j / 3) + 1 := by omega
          rw [this]; exact h1
        · have : j = 3 * (j / 3) + 2 := by omega
          rw [this]; exact h2
      rw [hj]
      simp
    · rw [if_neg hc]

/-- With every magnitude equal to 0 the penalty is twice the scale times the
sum of the areas. -/
theorem penalty_at_zeros {R : Type} [Field R] (edgeDOFs edge_area : VectorXd R)
    (penaltyScale : R) (deriv hessian : Bool) (hlen : edgeDOFs.length = 3 * edge_area.length)
    (hzeros : ∀ i, i < edge_area.length →
      edgeDOFs.getD (3 * i + 1) 0 = 0 ∧ edgeDOFs.getD (3 * i + 2) 0 = 0) :
    ∃ r, edgeDOFPenaltyEnergy edgeDOFs edge_area penaltyScale deriv hessian = some r ∧
      r.value = 2 * penaltyScale * edge_area.sum := by
  refine ⟨_, penalty_three edgeDOFs edge_area penaltyScale _ deriv hessian rfl hlen, ?_⟩
  show ∑ i ∈ Finset.range edge_area.length, _ = _
  rw [← sum_range_getD edge_area, Finset.mul_sum]
  apply Finset.sum_congr rfl
  intro i hi
  obtain ⟨h1, h2⟩ := hzeros i (Finset.mem_range.1 hi)
  rw [Nat.mul_comm i 3, h1, h2]
  ring

/-- For a positive scale and positive areas the penalty vanishes exactly when
every magnitude is 1. -/
theorem penalty_eq_zero_iff {R : Type} [LinearOrderedField R] (edgeDOFs edge_area : VectorXd R)
    (penaltyScale : R) (deriv hessian : Bool) (hlen : edgeDOFs.length = 3 * edge_area.length)
    (hs : 0 < penaltyScale) (ha : ∀ a ∈ edge_area, 0 < a) :
    ∃ r, edgeDOFPenaltyEnergy edgeDOFs edge_area penaltyScale deriv hessian = some r ∧
      (r.value = 0 ↔ ∀ i, i < edge_area.length →
        edgeDOFs.getD (3 * i + 1) 0 = 1 ∧ edgeDOFs.getD (3 * i + 2) 0 = 1) := by
  refine ⟨_, penalty_three edgeDOFs edge_area penaltyScale _ deriv hessian rfl hlen, ?_⟩
  show ∑ i ∈ Finset.range edge_area.length, _ = 0 ↔ _
  rw [Finset.sum_eq_zero_iff_of_nonneg]
  · constructor
    · intro h i hi
      have := (penalty_term_eq_zero _ _ _ _ hs (getD_pos edge_area ha i hi)).1
        (h i (Finset.mem_range.2 hi))
      rw [Nat.mul_comm i 3] at this
      exact this
    · intro h i hi
      have := h i (Finset.mem_range.1 hi)
      rw [Nat.mul_comm 3 i] at this
      exact (penalty_term_eq_zero _ _ _ _ hs
        (getD_pos edge_area ha i (Finset.mem_range.1 hi))).2 this
  · intro i hi
    exact penalty_term_nonneg _ _ _ _ hs.le
      (getD_pos edge_area ha i (Finset.mem_range.1 hi)).le

/-- The magnitudes written by `initializeExtraDOFs` are 1. -/
theorem initializeExtraDOFs_magnitudes {R : Type} [Field R] (mesh : MeshConnectivity)
    (curPos : MatrixX3d R) (i : Nat) (hi : i < mesh.nEdges) :
    (initializeExtraDOFs mesh curPos : VectorXd R).getD (3 * i + 1) 0 = 1 ∧
    (initializeExtraDOFs mesh curPos : VectorXd R).getD (3 * i + 2) 0 = 1 := by
  obtain ⟨-, h⟩ := @initializeExtraDOFs_entries R _ mesh curPos
  obtain ⟨-, h1, h2⟩ := h i hi
  rw [List.getD_eq_getElem?_getD, List.getD_eq_getElem?_getD, h1, h2]
  exact ⟨rfl, rfl⟩

end PenaltyZero

/-! ## Auxiliary lemmas: the reads of `secondFundamentalFormEntries` -/

section EntriesReads

variable {R : Type} [Field R]

/-- A successful iteration of `secondFundamentalFormEntries` has made its
three reads. -/
theorem entriesStep_reads (tan cos : R → R) (G : GeometryDerivatives R) (mesh : MeshConnectivity)
    (curPos : MatrixX3d R) (edgeDOFs : VectorXd R) (face : Int) (derivative hessian : Bool)
    (st st' : EntriesEval R) (i : Fin 3)
    (h : entriesStep tan cos G mesh curPos edgeDOFs face derivative hessian st i = some st') :
    ∃ th angleDOF vec_norm,
      edgeTheta G mesh curPos (mesh.faceEdge face i.val) (derivative || hessian) hessian =
        some th ∧
      coeffAt edgeDOFs (3 * mesh.faceEdge face i.val) = some angleDOF ∧
      coeffAt edgeDOFs
        (3 * mesh.faceEdge face i.val + (mesh.faceEdgeOrientation face i.val).val + 1) =
          some vec_norm := by
  unfold entriesStep at h
  simp only [Option.bind_eq_bind, Option.bind_eq_some] at h
  obtain ⟨th, hth, a, ha, m, hm, -⟩ := h
  refine ⟨th, a, m, hth, ha, ?_⟩
  rw [← hm]
  congr 1
  push_cast
  ring

/-- A successful call of `secondFundamentalFormEntries` has made the three
reads of each of its three iterations. -/
theorem entries_reads (tan cos : R → R) (G : GeometryDerivatives R) (mesh : MeshConnectivity)
    (curPos : MatrixX3d R) (edgeDOFs : VectorXd R) (face : Int) (derivative hessian : Bool)
    (e : EntriesEval R)
    (h : secondFundamentalFormEntries tan cos G mesh curPos edgeDOFs face derivative hessian =
      some e) (i : Fin 3) :
    ∃ th angleDOF vec_norm,
      edgeTheta G mesh curPos (mesh.faceEdge face i.val) (derivative || hessian) hessian =
        some th ∧
      coeffAt edgeDOFs (3 * mesh.faceEdge face i.val) = some angleDOF ∧
      coeffAt edgeDOFs
        (3 * mesh.faceEdge face i.val + (mesh.faceEdgeOrientation face i.val).val + 1) =
          some vec_norm := by
  unfold secondFundamentalFormEntries at h
  have hr : List.finRange 3 = [0, 1, 2] := by decide
  simp only [hr, List.foldlM_cons, List.foldlM_nil, Option.bind_eq_bind, Option.pure_def,
    Option.bind_eq_some] at h
  obtain ⟨s0, h0, s1, h1, s2, h2, -⟩ := h
  fin_cases i
  · exact entriesStep_reads tan cos G mesh curPos edgeDOFs face derivative hessian _ _ 0 h0
  · exact entriesStep_reads tan cos G mesh curPos edgeDOFs face derivative hessian _ _ 1 h1
  · exact entriesStep_reads tan cos G mesh curPos edgeDOFs face derivative hessian _ _ 2 h2

/-- What a successful call of `secondFundamentalFormEntries` returns, in terms
of the values it has read. -/
theorem entries_of_some (tan cos : R → R) (G : GeometryDerivatives R) (mesh : MeshConnectivity)
    (curPos : MatrixX3d R) (edgeDOFs : VectorXd R) (face : Int) (derivative hessian : Bool)
    (e : EntriesEval R)
    (h : secondFundamentalFormEntries tan cos G mesh curPos edgeDOFs face derivative hessian =
      some e) :
    ∃ (th : Fin 3 → Eval R (Matrix (Fin 1) (Fin 12) R) (Matrix (Fin 12) (Fin 12) R))
      (angleDOF vec_norm : Fin 3 → R),
      (∀ i : Fin 3, edgeTheta G mesh curPos (mesh.faceEdge face i.val) (derivative || hessian)
        hessian = some (th i)) ∧
      (∀ i : Fin 3, coeffAt edgeDOFs (3 * mesh.faceEdge face i.val) = some (angleDOF i)) ∧
      (∀ i : Fin 3, coeffAt edgeDOFs
        (3 * mesh.faceEdge face i.val + (mesh.faceEdgeOrientation face i.val).val + 1) =
          some (vec_norm i)) ∧
      (∀ i : Fin 3, e.value i =
        2 * G.triangleAltitude mesh curPos face i.val *
          tan (0.5 * (th i).value +
            (if mesh.faceEdgeOrientation face i.val = 0 then 1 else -1) * angleDOF i) *
          vec_norm i) ∧
      (derivative = true → ∃ D, e.derivative = some D ∧ ∀ (i : Fin 3) (c : Fin 27), D i c =
        claimedEntryRow tan cos i.val (altitudeSlots i.val)
          (thetaSlots i.val (mesh.faceEdgeOrientation face i.val))
          (G.triangleAltitude mesh curPos face i.val)
          (0.5 * (th i).value +
            (if mesh.faceEdgeOrientation face i.val = 0 then 1 else -1) * angleDOF i)
          (if mesh.faceEdgeOrientation face i.val = 0 then 1 else -1) (vec_norm i)
          ((mesh.faceEdgeOrientation face i.val).val + 1)
          (G.triangleAltitudeDeriv mesh curPos face i.val) ((th i).derivative.getD 0) c) ∧
      (hessian = true → ∃ Hs, e.hessian = some Hs ∧ ∀ i : Fin 3, Hs i =
        entriesHessian tan cos 0 i.val (altitudeSlots i.val)
          (thetaSlots i.val (mesh.faceEdgeOrientation face i.val))
          (G.triangleAltitude mesh curPos face i.val)
          (0.5 * (th i).value +
            (if mesh.faceEdgeOrientation face i.val = 0 then 1 else -1) * angleDOF i)
          (if mesh.faceEdgeOrientation face i.val = 0 then 1 else -1) (vec_norm i)
          ((mesh.faceEdgeOrientation face i.val).val + 1)
          (G.triangleAltitudeDeriv mesh curPos face i.val)
          (G.triangleAltitudeHess mesh curPos face i.val)
          ((th i).derivative.getD 0) ((th i).hessian.getD 0)) := by
  choose th angleDOF vec_norm hth ha hm using
    entries_reads tan cos G mesh curPos edgeDOFs face derivative hessian e h
  obtain ⟨e', he', hv, hd, hh⟩ := entries_slots_of_reads tan cos G mesh curPos edgeDOFs face
    derivative hessian th angleDOF vec_norm
    (fun i => 0.5 * (th i).value +
      (if mesh.faceEdgeOrientation face i.val = 0 then 1 else -1) * angleDOF i)
    (fun i => if mesh.faceEdgeOrientation face i.val = 0 then 1 else -1)
    hth ha hm (fun _ => rfl) (fun _ => rfl)
  rw [h] at he'
  cases he'
  exact ⟨th, angleDOF, vec_norm, hth, ha, hm, hv, hd, hh⟩

/-- The value of `edgeTheta` with any slots, from its value with null slots. -/
theorem edgeTheta_value_of_null (G : GeometryDerivatives R) (mesh : MeshConnectivity)
    (curPos : MatrixX3d R) (edge : Int) (derivative hessian : Bool)
    (th0 : Eval R (Matrix (Fin 1) (Fin 12) R) (Matrix (Fin 12) (Fin 12) R))
    (h : edgeTheta G mesh curPos edge false false = some th0) :
    ∃ th, edgeTheta G mesh curPos edge derivative hessian = some th ∧ th.value = th0.value := by
  have := edgeTheta_value_flags G mesh curPos edge derivative hessian
  rw [h, Option.map_some', Option.map_eq_some'] at this
  exact this

/-- The value of `edgeTheta` with null slots, from its value with any slots. -/
theorem edgeTheta_null_of_value (G : GeometryDerivatives R) (mesh : MeshConnectivity)
    (curPos : MatrixX3d R) (edge : Int) (derivative hessian : Bool)
    (th : Eval R (Matrix (Fin 1) (Fin 12) R) (Matrix (Fin 12) (Fin 12) R))
    (h : edgeTheta G mesh curPos edge derivative hessian = some th) :
    ∃ th0, edgeTheta G mesh curPos edge false false = some th0 ∧ th0.value = th.value := by
  have := edgeTheta_value_flags G mesh curPos edge derivative hessian
  rw [h, Option.map_some'] at this
  have := this.symm
  rw [Option.map_eq_some'] at this
  exact this

/-- The entry `II[i]` of a successful call of `secondFundamentalFormEntries`
is `2 * h * tan(alpha) * m` with the half angle of `entryAlpha` and the
magnitude at `magnitudeIndex`. -/
theorem entries_value_alpha (tan cos : R → R) (G : GeometryDerivatives R)
    (mesh : MeshConnectivity) (curPos : MatrixX3d R) (edgeDOFs : VectorXd R) (face : Int)
    (derivative hessian : Bool) (e : EntriesEval R)
    (h : secondFundamentalFormEntries tan cos G mesh curPos edgeDOFs face derivative hessian =
      some e) (i : Fin 3) :
    ∃ alpha vec_norm, entryAlpha G mesh curPos edgeDOFs face i.val = some alpha ∧
      coeffAt edgeDOFs (magnitudeIndex mesh face i.val) = some vec_norm ∧
      e.value i = 2 * G.triangleAltitude mesh curPos face i.val * tan alpha * vec_norm := by
  obtain ⟨th, a, m, hth, ha, hm, hv, -, -⟩ := entries_of_some tan cos G mesh curPos edgeDOFs face
    derivative hessian e h
  obtain ⟨th0, hth0, hval⟩ := edgeTheta_null_of_value G mesh curPos _ _ _ _ (hth i)
  refine ⟨_, m i, ?_, ?_, hv i⟩
  · unfold entryAlpha
    simp only [hth0, ha i, Option.bind_eq_bind, Option.some_bind, Option.pure_def, hval]
  · rw [← hm i]
    unfold magnitudeIndex
    congr 1
    push_cast
    ring

end EntriesReads

section EntryDependence

variable {R : Type} [Field R]

theorem thetaSlots_lt (i : Fin 3) (o : Fin 2) (j : Fin 4) : thetaSlots i.val o j < 6 := by
  unfold thetaSlots
  fin_cases o <;> fin_cases j <;> simp <;> omega

/-- The claimed row vanishes in the columns of the edge DOFs other than the
angle and the magnitude of the local edge `i`. -/
theorem claimedEntryRow_dof_zero (tan cos : R → R) (i : Fin 3) (o : Fin 2)
    (altitude alpha orient vec_norm : R) (hderiv : Matrix (Fin 1) (Fin 9) R)
    (thetaderiv : Matrix (Fin 1) (Fin 12) R) (c : Fin 27) (hc : 18 ≤ c.val)
    (h1 : c.val ≠ 18 + 3 * i.val) (h2 : c.val ≠ 18 + 3 * i.val + (o.val + 1)) :
    claimedEntryRow tan cos i.val (altitudeSlots i.val) (thetaSlots i.val o) altitude alpha
      orient vec_norm (o.val + 1) hderiv thetaderiv c = 0 := by
  unfold claimedEntryRow
  have e1 : ∀ (j : Fin 3) (b : Fin 3), ¬ (3 * altitudeSlots i.val j + b.val = c.val) := by
    intro j b
    have : altitudeSlots i.val j < 3 := by
      unfold altitudeSlots
      omega
    omega
  have e2 : ∀ (j : Fin 4) (b : Fin 3), ¬ (3 * thetaSlots i.val o j + b.val = c.val) := by
    intro j b
    have := thetaSlots_lt i o j
    omega
  simp only [e1, e2, if_false, Finset.sum_const_zero, add_zero, zero_add,
    if_neg (Ne.symm h1), if_neg (Ne.symm h2)]

/-- The entry `II[i]` is the same for two edge-DOF vectors that agree on the
angle and on the magnitude that iteration `i` reads. -/
theorem entries_value_congr (tan cos : R → R) (G : GeometryDerivatives R)
    (mesh : MeshConnectivity) (curPos : MatrixX3d R) (edgeDOFs edgeDOFs' : VectorXd R)
    (face : Int) (derivative hessian derivative' hessian' : Bool) (e e' : EntriesEval R)
    (i : Fin 3)
    (h : secondFundamentalFormEntries tan cos G mesh curPos edgeDOFs face derivative hessian =
      some e)
    (h' : secondFundamentalFormEntries tan cos G mesh curPos edgeDOFs' face derivative' hessian' =
      some e')
    (ha : coeffAt edgeDOFs (3 * mesh.faceEdge face i.val) =
      coeffAt edgeDOFs' (3 * mesh.faceEdge face i.val))
    (hm : coeffAt edgeDOFs (magnitudeIndex mesh face i.val) =
      coeffAt edgeDOFs' (magnitudeIndex mesh face i.val)) :
    e.value i = e'.value i := by
  obtain ⟨a, m, hal, hmag, hv⟩ := entries_value_alpha tan cos G mesh curPos edgeDOFs face
    derivative hessian e h i
  obtain ⟨a', m', hal', hmag', hv'⟩ := entries_value_alpha tan cos G mesh curPos edgeDOFs' face
    derivative' hessian' e' h' i
  have hmm : m = m' := by
    rw [hm, hmag'] at hmag
    exact (Option.some.inj hmag).symm
  have haa : a = a' := by
    have : entryAlpha G mesh curPos edgeDOFs face i.val =
        entryAlpha G mesh curPos edgeDOFs' face i.val := by
      unfold entryAlpha
      simp only [ha]
    rw [this, hal'] at hal
    exact (Option.some.inj hal).symm
  rw [hv, hv', hmm, haa]

/-- Two faces that see an edge with different orientations read different
magnitude DOFs. -/
theorem magnitudeIndex_ne (mesh : MeshConnectivity) (f g : Int) (i j : Int)
    (he : mesh.faceEdge f i = mesh.faceEdge g j)
    (ho : mesh.faceEdgeOrientation f i ≠ mesh.faceEdgeOrientation g j) :
    magnitudeIndex mesh f i ≠ magnitudeIndex mesh g j := by
  unfold magnitudeIndex
  simp only [he]
  intro h
  apply ho
  apply Fin.ext
  have := add_left_cancel h
  push_cast at this
  omega

end EntryDependence

/-! ## Auxiliary lemmas: the outputs do not depend on the other slots -/

section SlotsLemmas

variable {R : Type} [Field R]

/-- Every call of `angle` that `edgeTheta` makes has the slots
`(derivative || hessian, hessian)`. -/
theorem withSlots_edgeTheta (F : WithSlots.GeometryCalls R) (mesh : MeshConnectivity)
    (curPos : MatrixX3d R) (edge : Int) (derivative hessian : Bool) :
    WithSlots.edgeTheta F mesh curPos edge derivative hessian =
      edgeTheta (F.withSlots (derivative || hessian) hessian) mesh curPos edge derivative
        hessian := rfl

/-- Every call of a primitive that one iteration of
`secondFundamentalFormEntries` makes has the slots
`(derivative || hessian, hessian)`. -/
theorem withSlots_entriesStep (tan cos : R → R) (F : WithSlots.GeometryCalls R)
    (mesh : MeshConnectivity) (curPos : MatrixX3d R) (edgeDOFs : VectorXd R) (face : Int)
    (derivative hessian : Bool) (st : EntriesEval R) (i : Fin 3) :
    WithSlots.entriesStep tan cos F mesh curPos edgeDOFs face derivative hessian st i =
      entriesStep tan cos (F.withSlots (derivative || hessian) hessian) mesh curPos edgeDOFs
        face derivative hessian st i := by
  cases derivative <;> cases hessian <;> rfl

theorem withSlots_entries (tan cos : R → R) (F : WithSlots.GeometryCalls R)
    (mesh : MeshConnectivity) (curPos : MatrixX3d R) (edgeDOFs : VectorXd R) (face : Int)
    (derivative hessian : Bool) :
    WithSlots.secondFundamentalFormEntries tan cos F mesh curPos edgeDOFs face derivative
        hessian =
      secondFundamentalFormEntries tan cos (F.withSlots (derivative || hessian) hessian) mesh
        curPos edgeDOFs face derivative hessian := by
  unfold WithSlots.secondFundamentalFormEntries secondFundamentalFormEntries
  have : WithSlots.entriesStep tan cos F mesh curPos edgeDOFs face derivative hessian =
      entriesStep tan cos (F.withSlots (derivative || hessian) hessian) mesh curPos edgeDOFs
        face derivative hessian := by
    funext st i
    exact withSlots_entriesStep tan cos F mesh curPos edgeDOFs face derivative hessian st i
  rw [this]

theorem withSlots_form (tan cos : R → R) (F : WithSlots.GeometryCalls R)
    (mesh : MeshConnectivity) (curPos : MatrixX3d R) (extraDOFs : VectorXd R) (face : Int)
    (derivative hessian : Bool) :
    WithSlots.secondFundamentalForm tan cos F mesh curPos extraDOFs face derivative hessian =
      MidedgeAngleCompressiveFormulation.secondFundamentalForm tan cos
        (F.withSlots (derivative || hessian) hessian) mesh curPos extraDOFs face derivative
        hessian := by
  unfold WithSlots.secondFundamentalForm MidedgeAngleCompressiveFormulation.secondFundamentalForm
  rw [withSlots_entries]

end SlotsLemmas

section FlagIndependence

variable {R : Type} [Field R]

/-- The value and the derivative of `edgeTheta` do not depend on the Hessian
slot. -/
theorem edgeTheta_derivative_flags (G : GeometryDerivatives R) (mesh : MeshConnectivity)
    (curPos : MatrixX3d R) (edge : Int) (hessian : Bool) :
    (edgeTheta G mesh curPos edge true hessian).map (fun r => (r.value, r.derivative)) =
      (edgeTheta G mesh curPos edge true false).map (fun r => (r.value, r.derivative)) := by
  unfold edgeTheta
  by_cases hb : mesh.edgeOppositeVertex edge 0 = -1 ∨ mesh.edgeOppositeVertex edge 1 = -1
  · simp only [hb, if_true, Option.map_some']
  · simp only [hb, if_false, Option.bind_eq_bind, Option.pure_def]
    cases rowAt curPos (mesh.edgeVertex edge 0) <;>
    cases rowAt curPos (mesh.edgeVertex edge 1) <;>
    cases rowAt curPos (mesh.edgeOppositeVertex edge 0) <;>
    cases rowAt curPos (mesh.edgeOppositeVertex edge 1) <;> rfl

/-- A successful call of `secondFundamentalFormEntries` succeeds with any
other slots, with the same entries. -/
theorem entries_value_transfer (tan cos : R → R) (G : GeometryDerivatives R)
    (mesh : MeshConnectivity) (curPos : MatrixX3d R) (edgeDOFs : VectorXd R) (face : Int)
    (derivative hessian derivative' hessian' : Bool) (e : EntriesEval R)
    (h : secondFundamentalFormEntries tan cos G mesh curPos edgeDOFs face derivative hessian =
      some e) :
    ∃ e', secondFundamentalFormEntries tan cos G mesh curPos edgeDOFs face derivative'
        hessian' = some e' ∧ e'.value = e.value := by
  obtain ⟨th, a, m, hth, ha, hm, hv, -, -⟩ := entries_of_some tan cos G mesh curPos edgeDOFs face
    derivative hessian e h
  have hth0 : ∀ i : Fin 3, (edgeTheta G mesh curPos (mesh.faceEdge face i.val) false false).map
      (fun r => r.value) = some (th i).value := by
    intro i
    rw [← edgeTheta_value_flags G mesh curPos _ (derivative || hessian) hessian, hth i]
    rfl
  obtain ⟨e', he', hv'⟩ := entries_value_of_reads tan cos G mesh curPos edgeDOFs face derivative'
    hessian' (fun i => (th i).value) a m hth0 ha hm
  refine ⟨e', he', ?_⟩
  funext i
  rw [hv' i, hv i]

/-- The entries returned by `secondFundamentalFormEntries` do not depend on
the slots. -/
theorem entries_value_flags (tan cos : R → R) (G : GeometryDerivatives R)
    (mesh : MeshConnectivity) (curPos : MatrixX3d R) (edgeDOFs : VectorXd R) (face : Int)
    (derivative hessian derivative' hessian' : Bool) :
    (secondFundamentalFormEntries tan cos G mesh curPos edgeDOFs face derivative hessian).map
        (fun e => e.value) =
      (secondFundamentalFormEntries tan cos G mesh curPos edgeDOFs face derivative'
        hessian').map (fun e => e.value) := by
  cases h : secondFundamentalFormEntries tan cos G mesh curPos edgeDOFs face derivative hessian with
  | some e =>
    obtain ⟨e', he', hv⟩ := entries_value_transfer tan cos G mesh curPos edgeDOFs face derivative
      hessian derivative' hessian' e h
    rw [he', Option.map_some', Option.map_some', hv]
  | none =>
    cases h' : secondFundamentalFormEntries tan cos G mesh curPos edgeDOFs face derivative'
        hessian' with
    | none => rfl
    | some e' =>
      obtain ⟨e, he, -⟩ := entries_value_transfer tan cos G mesh curPos edgeDOFs face derivative'
        hessian' derivative hessian e' h'
      rw [h] at he
      exact absurd he (by simp)

/-- The derivative written by `secondFundamentalFormEntries` does not depend
on the Hessian slot. -/
theorem entries_derivative_flags (tan cos : R → R) (G : GeometryDerivatives R)
    (mesh : MeshConnectivity) (curPos : MatrixX3d R) (edgeDOFs : VectorXd R) (face : Int)
    (hessian : Bool) :
    (secondFundamentalFormEntries tan cos G mesh curPos edgeDOFs face true hessian).bind
        (fun e => e.derivative) =
      (secondFundamentalFormEntries tan cos G mesh curPos edgeDOFs face true false).bind
        (fun e => e.derivative) := by
  cases h : secondFundamentalFormEntries tan cos G mesh curPos edgeDOFs face true hessian with
  | none =>
    have := entries_value_flags tan cos G mesh curPos edgeDOFs face true hessian true false
    rw [h, Option.map_none'] at this
    rw [Option.map_eq_none'.1 this.symm]
  | some e =>
    obtain ⟨e', he', -⟩ := entries_value_transfer tan cos G mesh curPos edgeDOFs face true
      hessian true false e h
    rw [he', Option.some_bind, Option.some_bind]
    obtain ⟨th, a, m, hth, ha, hm, -, hd, -⟩ := entries_of_some tan cos G mesh curPos edgeDOFs
      face true hessian e h
    obtain ⟨th', a', m', hth', ha', hm', -, hd', -⟩ := entries_of_some tan cos G mesh curPos
      edgeDOFs face true false e' he'
    obtain ⟨D, hD, hrow⟩ := hd rfl
    obtain ⟨D', hD', hrow'⟩ := hd' rfl
    rw [hD, hD']
    congr 1
    ext i c
    have e1 : a i = a' i := Option.some.inj ((ha i).symm.trans (ha' i))
    have e2 : m i = m' i := Option.some.inj ((hm i).symm.trans (hm' i))
    have e3 : ((th i).value, (th i).derivative) = ((th' i).value, (th' i).derivative) := by
      have := edgeTheta_derivative_flags G mesh curPos (mesh.faceEdge face i.val) hessian
      have h1 := hth i
      have h2 := hth' i
      simp only [Bool.true_or] at h1 h2
      rw [h1, h2, Option.map_some', Option.map_some'] at this
      exact Option.some.inj this
    rw [hrow i c, hrow' i c, e1, e2, (Prod.mk.inj e3).1, (Prod.mk.inj e3).2]

/-- The Hessians written by `secondFundamentalFormEntries` do not depend on
the derivative slot. -/
theorem entries_hessian_flags (tan cos : R → R) (G : GeometryDerivatives R)
    (mesh : MeshConnectivity) (curPos : MatrixX3d R) (edgeDOFs : VectorXd R) (face : Int)
    (derivative : Bool) :
    (secondFundamentalFormEntries tan cos G mesh curPos edgeDOFs face derivative true).bind
        (fun e => e.hessian) =
      (secondFundamentalFormEntries tan cos G mesh curPos edgeDOFs face false true).bind
        (fun e => e.hessian) := by
  cases h : secondFundamentalFormEntries tan cos G mesh curPos edgeDOFs face derivative true with
  | none =>
    have := entries_value_flags tan cos G mesh curPos edgeDOFs face derivative true false true
    rw [h, Option.map_none'] at this
    rw [Option.map_eq_none'.1 this.symm]
  | some e =>
    obtain ⟨e', he', -⟩ := entries_value_transfer tan cos G mesh curPos edgeDOFs face derivative
      true false true e h
    rw [he', Option.some_bind, Option.some_bind]
    obtain ⟨th, a, m, hth, ha, hm, -, -, hh⟩ := entries_of_some tan cos G mesh curPos edgeDOFs
      face derivative true e h
    obtain ⟨th', a', m', hth', ha', hm', -, -, hh'⟩ := entries_of_some tan cos G mesh curPos
      edgeDOFs face false true e' he'
    obtain ⟨Hs, hHs, hmat⟩ := hh rfl
    obtain ⟨Hs', hHs', hmat'⟩ := hh' rfl
    rw [hHs, hHs']
    congr 1
    funext i
    have e1 : a i = a' i := Option.some.inj ((ha i).symm.trans (ha' i))
    have e2 : m i = m' i := Option.some.inj ((hm i).symm.trans (hm' i))
    have e3 : th i = th' i := by
      have h1 := hth i
      have h2 := hth' i
      simp only [Bool.or_true] at h1 h2
      exact Option.some.inj (h1.symm.trans h2)
    rw [hmat i, hmat' i, e1, e2, e3]

/-- The function `secondFundamentalForm` in terms of
`secondFundamentalFormEntries`. -/
theorem form_eq_map (tan cos : R → R) (G : GeometryDerivatives R)
    (mesh : MeshConnectivity) (curPos : MatrixX3d R) (extraDOFs : VectorXd R) (face : Int)
    (derivative hessian : Bool) :
    MidedgeAngleCompressiveFormulation.secondFundamentalForm tan cos G mesh curPos extraDOFs face
        derivative hessian =
      (secondFundamentalFormEntries tan cos G mesh curPos extraDOFs face derivative hessian).map
        (fun e => ⟨formValue e.value, e.derivative.map (fun IIderiv => formDerivative 0 IIderiv),
          e.hessian.map (fun IIhess => formHessian (fun _ => 0) IIhess)⟩) := by
  cases h : secondFundamentalFormEntries tan cos G mesh curPos extraDOFs face derivative hessian with
  | none =>
    unfold MidedgeAngleCompressiveFormulation.secondFundamentalForm
    rw [h]
    rfl
  | some e =>
    obtain ⟨r, hr, hv, hd, hh⟩ := form_of_entries tan cos G mesh curPos extraDOFs face derivative
      hessian e h
    rw [hr, Option.map_some']
    congr 1
    cases r
    simp only at hv hd hh
    rw [hv, hd, hh]

/-- The three outputs of `secondFundamentalForm` do not depend on the other
slots. -/
theorem form_flags (tan cos : R → R) (G : GeometryDerivatives R)
    (mesh : MeshConnectivity) (curPos : MatrixX3d R) (extraDOFs : VectorXd R) (face : Int) :
    (∀ derivative hessian : Bool,
      (MidedgeAngleCompressiveFormulation.secondFundamentalForm tan cos G mesh curPos extraDOFs
        face derivative hessian).map (fun r => r.value) =
      (MidedgeAngleCompressiveFormulation.secondFundamentalForm tan cos G mesh curPos extraDOFs
        face false false).map (fun r => r.value)) ∧
    ((MidedgeAngleCompressiveFormulation.secondFundamentalForm tan cos G mesh curPos extraDOFs
        face true true).bind (fun r => r.derivative) =
      (MidedgeAngleCompressiveFormulation.secondFundamentalForm tan cos G mesh curPos extraDOFs
        face true false).bind (fun r => r.derivative)) ∧
    ((MidedgeAngleCompressiveFormulation.secondFundamentalForm tan cos G mesh curPos extraDOFs
        face true true).bind (fun r => r.hessian) =
      (MidedgeAngleCompressiveFormulation.secondFundamentalForm tan cos G mesh curPos extraDOFs
        face false true).bind (fun r => r.hessian)) := by
  refine ⟨fun derivative hessian => ?_, ?_, ?_⟩
  · rw [form_eq_map, form_eq_map, Option.map_map, Option.map_map]
    have := entries_value_flags tan cos G mesh curPos extraDOFs face derivative hessian false
      false
    have h2 := congrArg (Option.map formValue) this
    rw [Option.map_map, Option.map_map] at h2
    exact h2
  · rw [form_eq_map, form_eq_map]
    have := entries_derivative_flags tan cos G mesh curPos extraDOFs face true
    have h2 := congrArg (Option.map (fun IIderiv => formDerivative (0 : Matrix (Fin 4) (Fin 27) R)
      IIderiv)) this
    cases h : secondFundamentalFormEntries tan cos G mesh curPos extraDOFs face true true <;>
    cases h' : secondFundamentalFormEntries tan cos G mesh curPos extraDOFs face true false <;>
    simp only [h, h', Option.map_some', Option.map_none', Option.some_bind, Option.none_bind,
      Option.bind_eq_bind] at h2 ⊢ <;> exact h2
  · rw [form_eq_map, form_eq_map]
    have := entries_hessian_flags tan cos G mesh curPos extraDOFs face true
    have h2 := congrArg (Option.map (fun IIhess =>
      formHessian (fun _ => (0 : Matrix (Fin 27) (Fin 27) R)) IIhess)) this
    cases h : secondFundamentalFormEntries tan cos G mesh curPos extraDOFs face true true <;>
    cases h' : secondFundamentalFormEntries tan cos G mesh curPos extraDOFs face false true <;>
    simp only [h, h', Option.map_some', Option.map_none', Option.some_bind, Option.none_bind,
      Option.bind_eq_bind] at h2 ⊢ <;> exact h2

end FlagIndependence

/-! ## Auxiliary lemmas: symmetry of the Hessians -/

section Symmetry

variable {R : Type} [Field R]

theorem withoutAxisAxis_transpose (A : Matrix (Fin 9) (Fin 9) R) (h : A.transpose = A) :
    (withoutAxisAxis A).transpose = withoutAxisAxis A := by
  ext i j
  have := congrFun (congrFun h i) j
  simp only [Matrix.transpose_apply] at this
  simp only [Matrix.transpose_apply, withoutAxisAxis, this, and_comm]

/-- The second-order terms of the chain rule form a symmetric matrix. -/
theorem chainRuleSecondOrder_transpose (g : Matrix (Fin 1) (Fin 9) R) :
    (chainRuleSecondOrder g).transpose = chainRuleSecondOrder g := by
  apply ext_blocks_twelve
  intro a b
  rw [block_transpose]
  unfold chainRuleSecondOrder
  fin_cases a <;> fin_cases b <;>
  · simp (disch := omega) only [block_addBlock_same, block_addBlock_disjoint, block_zero,
      zero_add, Fin.val_zero, Fin.val_one, Fin.val_two, mul_zero, mul_one,
      Nat.reduceMul, Fin.zero_eta, Fin.mk_one, Fin.reduceFinMk]
    try simp only [Matrix.transpose_add, Matrix.transpose_neg, crossMatrix_transpose,
      Matrix.transpose_zero, neg_neg]
    try abel

/-- The Hessian accumulated by `edgeTheta` is symmetric when the Hessian of
`angle` is. -/
theorem edgeThetaHessian_transpose (q0 q1 q2 q3 : Vector3d R) (g : Matrix (Fin 1) (Fin 9) R)
    (A : Matrix (Fin 9) (Fin 9) R) (h : A.transpose = A) :
    (edgeThetaHessian q0 q1 q2 q3 g A).transpose = edgeThetaHessian q0 q1 q2 q3 g A := by
  rw [edgeThetaHessian_eq]
  unfold chainRuleHessian
  rw [Matrix.transpose_add, chainRuleSecondOrder_transpose, Matrix.transpose_mul,
    Matrix.transpose_mul, Matrix.transpose_transpose, withoutAxisAxis_transpose A h,
    Matrix.mul_assoc]

/-- The Hessian slot of `edgeTheta` holds a symmetric matrix when the Hessian
of `angle` is symmetric. -/
theorem edgeTheta_hessian_transpose (G : GeometryDerivatives R) (mesh : MeshConnectivity)
    (curPos : MatrixX3d R) (edge : Int) (derivative hessian : Bool)
    (hA : ∀ n0 n1 axis, (G.angleHess n0 n1 axis).transpose = G.angleHess n0 n1 axis)
    (th : Eval R (Matrix (Fin 1) (Fin 12) R) (Matrix (Fin 12) (Fin 12) R))
    (h : edgeTheta G mesh curPos edge derivative hessian = some th) :
    (th.hessian.getD 0).transpose = th.hessian.getD 0 := by
  unfold edgeTheta at h
  by_cases hb : mesh.edgeOppositeVertex edge 0 = -1 ∨ mesh.edgeOppositeVertex edge 1 = -1
  · simp only [hb, if_true, Option.some.injEq] at h
    rw [← h]
    cases hessian <;> simp
  · simp only [hb, if_false, Option.bind_eq_bind, Option.pure_def, Option.bind_eq_some,
      Option.some.injEq] at h
    obtain ⟨q0, -, q1, -, q2, -, q3, -, h⟩ := h
    rw [← h]
    cases hessian
    · simp
    · simp only [if_true, Option.getD_some]
      exact edgeThetaHessian_transpose _ _ _ _ _ _ (hA _ _ _)

theorem bilinearForm_symm {n : Nat} (u v : Fin n → R) (M : Matrix (Fin n) (Fin n) R)
    (h : M.transpose = M) : bilinearForm u M v = bilinearForm v M u := by
  unfold bilinearForm
  rw [Finset.sum_comm]
  apply Finset.sum_congr rfl
  intro b _
  apply Finset.sum_congr rfl
  intro a _
  have := congrFun (congrFun h a) b
  simp only [Matrix.transpose_apply] at this
  rw [this]
  ring

/-- The matrix added by one iteration of `secondFundamentalFormEntries` to a
zero Hessian is symmetric when the Hessians of the altitude and of the angle
are. -/
theorem entriesHessian_transpose (tan cos : R → R) (i : Nat) (hv : Fin 3 → Nat)
    (av : Fin 4 → Nat) (altitude alpha orient vec_norm : R) (offset : Nat)
    (hderiv : Matrix (Fin 1) (Fin 9) R) (hhess : Matrix (Fin 9) (Fin 9) R)
    (thetaderiv : Matrix (Fin 1) (Fin 12) R) (thetahess : Matrix (Fin 12) (Fin 12) R)
    (h1 : hhess.transpose = hhess) (h2 : thetahess.transpose = thetahess) :
    (entriesHessian tan cos 0 i hv av altitude alpha orient vec_norm offset
      hderiv hhess thetaderiv thetahess).transpose =
    entriesHessian tan cos 0 i hv av altitude alpha orient vec_norm offset
      hderiv hhess thetaderiv thetahess := by
  ext a b
  rw [Matrix.transpose_apply, ← bilinearForm_single (entriesHessian tan cos 0 i hv av altitude
    alpha orient vec_norm offset hderiv hhess thetaderiv thetahess) b a,
    ← bilinearForm_single (entriesHessian tan cos 0 i hv av altitude
    alpha orient vec_norm offset hderiv hhess thetaderiv thetahess) a b,
    entriesHessian_bilinear, entriesHessian_bilinear]
  unfold claimedEntryHessian
  simp only
  rw [bilinearForm_symm _ _ hhess h1, bilinearForm_symm _ _ thetahess h2]
  ring

/-- The Hessians of `secondFundamentalForm` are symmetric when the Hessians of
`triangleAltitude` and `angle` are. -/
theorem form_hessian_transpose (tan cos : R → R) (G : GeometryDerivatives R)
    (mesh : MeshConnectivity) (curPos : MatrixX3d R) (extraDOFs : VectorXd R) (face : Int)
    (derivative hessian : Bool)
    (hH : ∀ mesh curPos face i, (G.triangleAltitudeHess mesh curPos face i).transpose =
      G.triangleAltitudeHess mesh curPos face i)
    (hA : ∀ n0 n1 axis, (G.angleHess n0 n1 axis).transpose = G.angleHess n0 n1 axis)
    (r : FormEval R)
    (hr : MidedgeAngleCompressiveFormulation.secondFundamentalForm tan cos G mesh curPos
      extraDOFs face derivative hessian = some r)
    (Hs : Fin 4 → Matrix (Fin 27) (Fin 27) R) (hHs : r.hessian = some Hs) (q : Fin 4) :
    (Hs q).transpose = Hs q := by
  rw [form_eq_map, Option.map_eq_some'] at hr
  obtain ⟨e, he, hre⟩ := hr
  rw [← hre] at hHs
  simp only [Option.map_eq_some'] at hHs
  obtain ⟨IIhess, hII, hform⟩ := hHs
  have hflag : hessian = true := by
    have := (entries_slots tan cos G mesh curPos extraDOFs face derivative hessian e he).2
    rw [hII] at this
    exact this.symm
  subst hflag
  obtain ⟨th, a, m, hth, -, -, -, -, hh⟩ := entries_of_some tan cos G mesh curPos extraDOFs face
    derivative true e he
  obtain ⟨Hs', hHs', hmat⟩ := hh rfl
  rw [hII] at hHs'
  cases hHs'
  have hsym : ∀ i : Fin 3, (IIhess i).transpose = IIhess i := by
    intro i
    rw [hmat i]
    exact entriesHessian_transpose _ _ _ _ _ _ _ _ _ _ _ _ _ _ (hH _ _ _ _)
      (edgeTheta_hessian_transpose G mesh curPos _ _ _ hA _ (hth i))
  rw [← hform, formHessian_zero]
  fin_cases q <;> simp [Matrix.transpose_add, hsym]

end Symmetry

/-! ## Auxiliary lemmas: the edge areas -/

section EdgeAreaLemmas

variable {R : Type} [Field R]

theorem edgeAreaStep_eq (sqrt : R → R) (mesh : MeshConnectivity)
    (abars : List (Matrix (Fin 2) (Fin 2) R)) (i j : Nat) (v : VectorXd R) (hv : i < v.length)
    (hf : mesh.edgeFace i j = -1 ∨
      (0 ≤ mesh.edgeFace i j ∧ mesh.edgeFace i j < abars.length)) :
    edgeAreaStep sqrt mesh abars i v j =
      some (v.set i (v.getD i 0 + faceShare sqrt mesh abars i j)) := by
  unfold edgeAreaStep faceShare
  rcases hf with h | ⟨h0, h1⟩
  · simp only [h, ne_eq, not_true_eq_false, if_false, add_zero, Option.pure_def]
    congr 1
    apply List.ext_getElem
    · simp
    · intro k h1 h2
      rw [List.getElem_set]
      by_cases hk : i = k
      · subst hk
        simp [List.getD_eq_getElem?_getD, List.getElem?_eq_getElem hv]
      · rw [if_neg hk]
  · have hne : mesh.edgeFace i j ≠ -1 := by omega
    have hlt : (mesh.edgeFace i j).toNat < abars.length := by omega
    have h6 : ∀ x : R, x / 2 / 3 = x / 6 := by
      intro x
      rw [div_div]
      norm_num
    simp only [hne, ne_eq, not_false_eq_true, if_true, abarAt, not_lt.2 h0, if_false,
      List.getElem?_eq_getElem hlt, Option.bind_eq_bind, Option.some_bind,
      addCoeff_eq v i _ hv, h6, List.getD_eq_getElem?_getD, Option.getD_some]

/-- The two iterations over the sides of edge `i` add the two shares to entry
`i`. -/
theorem edgeArea_inner (sqrt : R → R) (mesh : MeshConnectivity)
    (abars : List (Matrix (Fin 2) (Fin 2) R)) (ea : VectorXd R) (i : Nat) (hi : i < ea.length)
    (hf : ∀ j : Nat, j < 2 → mesh.edgeFace i j = -1 ∨
      (0 ≤ mesh.edgeFace i j ∧ mesh.edgeFace i j < abars.length)) :
    (List.range 2).foldlM (edgeAreaStep sqrt mesh abars i) ea =
    some (ea.set i (ea.getD i 0 + faceShare sqrt mesh abars i 0 +
      faceShare sqrt mesh abars i 1)) := by
  have hr : List.range 2 = [0, 1] := by decide
  rw [hr, List.foldlM_cons, edgeAreaStep_eq sqrt mesh abars i 0 ea hi (hf 0 (by omega)),
    Option.bind_eq_bind, Option.some_bind, List.foldlM_cons,
    edgeAreaStep_eq sqrt mesh abars i 1 _ (by rw [List.length_set]; exact hi) (hf 1 (by omega)),
    Option.bind_eq_bind, Option.some_bind, List.foldlM_nil, Option.pure_def]
  congr 1
  rw [List.set_set]
  congr 1
  rw [List.getD_eq_getElem?_getD, List.getD_eq_getElem?_getD, List.getElem?_set_self hi,
    Option.getD_some]

/-- The loop over the edges of `cylinderEdgeArea`, after `m` edges. -/
theorem edgeArea_loop (sqrt : R → R) (mesh : MeshConnectivity)
    (abars : List (Matrix (Fin 2) (Fin 2) R))
    (hf : ∀ i j : Nat, i < mesh.nEdges → j < 2 → mesh.edgeFace i j = -1 ∨
      (0 ≤ mesh.edgeFace i j ∧ mesh.edgeFace i j < abars.length))
    (m : Nat) (hm : m ≤ mesh.nEdges) :
    (List.range m).foldlM (fun (edge_area : VectorXd R) (i : Nat) =>
      (List.range 2).foldlM (edgeAreaStep sqrt mesh abars i) edge_area)
        (List.replicate mesh.nEdges 0) =
    some ((List.range mesh.nEdges).map (fun e =>
      if e < m then faceShare sqrt mesh abars e 0 + faceShare sqrt mesh abars e 1 else 0)) := by
  induction m with
  | zero =>
    rw [List.range_zero, List.foldlM_nil, Option.pure_def]
    congr 1
    apply List.ext_getElem
    · simp
    · intro k h1 h2
      simp
  | succ m ih =>
    rw [show List.range (m + 1) = List.range m ++ [m] from List.range_succ m,
      List.foldlM_append, ih (by omega), Option.bind_eq_bind,
      Option.some_bind, List.foldlM_cons]
    rw [edgeArea_inner sqrt mesh abars _ m (by simp; omega)
      (fun j hj => hf m j (by omega) hj), Option.bind_eq_bind, Option.some_bind,
      List.foldlM_nil, Option.pure_def]
    congr 1
    apply List.ext_getElem
    · simp
    · intro k h1 h2
      have hk : k < mesh.nEdges := by simpa using h2
      have hmn : m < mesh.nEdges := by omega
      simp only [List.getElem_set, List.getElem_map, List.getElem_range,
        List.getD_eq_getElem?_getD, List.getElem?_map, List.getElem?_range hmn, Option.map_some',
        Option.getD_some, lt_irrefl, if_false, zero_add]
      by_cases hkm : m = k
      · subst hkm
        simp
      · rw [if_neg hkm]
        by_cases hlt : k < m
        · rw [if_pos hlt, if_pos (by omega)]
        · rw [if_neg hlt, if_neg (by omega)]

/-- The vector `edge_area` of `measureCylinderEnergy`, entry by entry. -/
theorem cylinderEdgeArea_eq (sqrt : R → R) (mesh : MeshConnectivity)
    (abars : List (Matrix (Fin 2) (Fin 2) R))
    (hf : ∀ i j : Nat, i < mesh.nEdges → j < 2 → mesh.edgeFace i j = -1 ∨
      (0 ≤ mesh.edgeFace i j ∧ mesh.edgeFace i j < abars.length)) :
    cylinderEdgeArea sqrt mesh abars =
      some ((List.range mesh.nEdges).map (fun e =>
        faceShare sqrt mesh abars e 0 + faceShare sqrt mesh abars e 1)) := by
  unfold cylinderEdgeArea
  rw [edgeArea_loop sqrt mesh abars hf mesh.nEdges le_rfl]
  congr 1
  apply List.map_congr_left
  intro e he
  rw [if_pos (List.mem_range.1 he)]

end EdgeAreaLemmas

section EdgeAreaTotal

variable {R : Type} [Field R]

theorem sum_map_range (f : Nat → R) (n : Nat) :
    ((List.range n).map f).sum = ∑ i ∈ Finset.range n, f i := by
  induction n with
  | zero => simp
  | succ n ih =>
    rw [List.range_succ, List.map_append, List.sum_append, ih, Finset.sum_range_succ]
    simp

/-- The share of a side of an edge, spread over the faces. -/
theorem faceShare_eq_sum (sqrt : R → R) (mesh : MeshConnectivity)
    (abars : List (Matrix (Fin 2) (Fin 2) R)) (e j : Nat)
    (hf : mesh.edgeFace e j = -1 ∨
      (0 ≤ mesh.edgeFace e j ∧ mesh.edgeFace e j < abars.length)) :
    faceShare sqrt mesh abars e j =
      ∑ f ∈ Finset.range abars.length,
        if mesh.edgeFace e j = (f : Int) then sqrt ((abars.getD f 0).det) / 6 else 0 := by
  unfold faceShare
  rcases hf with h | ⟨h0, h1⟩
  · rw [h, if_neg (by simp)]
    symm
    apply Finset.sum_eq_zero
    intro f _
    rw [if_neg (by omega)]
  · rw [if_pos (by omega)]
    rw [Finset.sum_eq_single (mesh.edgeFace e j).toNat]
    · rw [if_pos (by omega)]
    · intro f _ hne
      rw [if_neg (by omega)]
    · intro hn
      exact absurd (Finset.mem_range.2 (by omega)) hn

/-- The sum of the edge areas is the total rest area when every face is the
face of exactly three sides of edges. -/
theorem edgeArea_total [CharZero R] (sqrt : R → R) (mesh : MeshConnectivity)
    (abars : List (Matrix (Fin 2) (Fin 2) R))
    (hf : ∀ i j : Nat, i < mesh.nEdges → j < 2 → mesh.edgeFace i j = -1 ∨
      (0 ≤ mesh.edgeFace i j ∧ mesh.edgeFace i j < abars.length))
    (hinc : ∀ f : Nat, f < abars.length →
      ((Finset.range mesh.nEdges ×ˢ Finset.range 2).filter
        (fun p => mesh.edgeFace p.1 p.2 = (f : Int))).card = 3) :
    ((List.range mesh.nEdges).map (fun e =>
      faceShare sqrt mesh abars e 0 + faceShare sqrt mesh abars e 1)).sum =
    ∑ f ∈ Finset.range abars.length, sqrt ((abars.getD f 0).det) / 2 := by
  rw [sum_map_range]
  have h1 : ∀ e ∈ Finset.range mesh.nEdges,
      faceShare sqrt mesh abars e 0 + faceShare sqrt mesh abars e 1 =
        ∑ j ∈ Finset.range 2, ∑ f ∈ Finset.range abars.length,
          if mesh.edgeFace e j = (f : Int) then sqrt ((abars.getD f 0).det) / 6 else 0 := by
    intro e he
    rw [Finset.sum_range_succ, Finset.sum_range_one,
      ← faceShare_eq_sum sqrt mesh abars e 0 (hf e 0 (Finset.mem_range.1 he) (by omega)),
      ← faceShare_eq_sum sqrt mesh abars e 1 (hf e 1 (Finset.mem_range.1 he) (by omega))]
  rw [Finset.sum_congr rfl h1, ← Finset.sum_product', Finset.sum_comm]
  apply Finset.sum_congr rfl
  intro f hfm
  rw [← Finset.sum_filter, Finset.sum_const, hinc f (Finset.mem_range.1 hfm), nsmul_eq_mul]
  have h3 : (3 : R) ≠ 0 := by norm_num
  have h2 : (2 : R) ≠ 0 := by norm_num
  field_simp
  ring

end EdgeAreaTotal

/-! ## Auxiliary lemmas: packing the free rows -/

section PackRows

variable {α : Type}

theorem packRows_length (free : Nat → Bool) (rows : Nat → Fin 3 → α) (m : Nat) :
    (packRows free rows m).length = 3 * (List.range m).countP free := by
  induction m with
  | zero => rfl
  | succ m ih =>
    rw [packRows, List.length_append, ih, List.range_succ, List.countP_append,
      List.countP_cons, List.countP_nil]
    cases free m <;> simp
    omega

theorem packRows_map {β : Type} (f : α → β) (free : Nat → Bool) (rows : Nat → Fin 3 → α)
    (m : Nat) :
    (packRows free rows m).map f = packRows free (fun i b => f (rows i b)) m := by
  induction m with
  | zero => rfl
  | succ m ih =>
    rw [packRows, packRows, List.map_append, ih]
    cases free m <;> simp

theorem packRows_congr (free : Nat → Bool) (rows rows' : Nat → Fin 3 → α) (m : Nat)
    (h : ∀ i, i < m → free i = true → rows i = rows' i) :
    packRows free rows m = packRows free rows' m := by
  induction m with
  | zero => rfl
  | succ m ih =>
    rw [packRows, packRows, ih (fun i hi => h i (by omega))]
    cases hf : free m
    · rfl
    · rw [h m (by omega) hf]

theorem countP_range_mono (free : Nat → Bool) {i m : Nat} (h : i ≤ m) :
    (List.range i).countP free ≤ (List.range m).countP free :=
  List.Sublist.countP_le _ (List.range_sublist.2 h)

theorem countP_range_succ (free : Nat → Bool) (m : Nat) :
    (List.range (m + 1)).countP free = (List.range m).countP free + if free m then 1 else 0 := by
  rw [List.range_succ, List.countP_append, List.countP_cons, List.countP_nil]
  simp

/-- The entries of a free vertex in the packed list. -/
theorem packRows_getElem? (free : Nat → Bool) (rows : Nat → Fin 3 → α) (m i : Nat)
    (hi : i < m) (hf : free i = true) (b : Fin 3) :
    (packRows free rows m)[3 * (List.range i).countP free + b.val]? = some (rows i b) := by
  induction m with
  | zero => omega
  | succ m ih =>
    rw [packRows]
    by_cases him : i = m
    · subst him
      rw [hf, if_pos rfl, List.getElem?_append_right (by rw [packRows_length]; omega),
        packRows_length]
      fin_cases b <;> simp
    · rw [List.getElem?_append_left]
      · exact ih (by omega)
      · rw [packRows_length]
        have h1 := countP_range_mono free (show i + 1 ≤ m by omega)
        rw [countP_range_succ, hf, if_pos rfl] at h1
        omega

/-- Packing the entries that were read from a vector gives back its first
entries. -/
theorem packRows_eq_take (free : Nat → Bool) (var : List α) (d : α) (m : Nat)
    (hlen : 3 * (List.range m).countP free ≤ var.length) :
    packRows free (fun i b => var.getD (3 * (List.range i).countP free + b.val) d) m =
      var.take (3 * (List.range m).countP free) := by
  induction m with
  | zero => simp [packRows]
  | succ m ih =>
    have hmono := countP_range_succ free m
    rw [packRows, ih (by rw [hmono] at hlen; omega), hmono]
    cases hf : free m
    · simp
    · rw [hmono, hf] at hlen
      simp only [if_true, Nat.mul_add, Nat.mul_one] at hlen ⊢
      have h0 : 3 * (List.range m).countP free < var.length := by omega
      have h1 : 3 * (List.range m).countP free + 1 < var.length := by omega
      have h2 : 3 * (List.range m).countP free + 2 < var.length := by omega
      rw [show 3 * (List.range m).countP free + 3 = 3 * (List.range m).countP free + 1 + 1 + 1
        from rfl, List.take_succ, List.take_succ, List.take_succ,
        List.getElem?_eq_getElem h0, List.getElem?_eq_getElem h1, List.getElem?_eq_getElem h2]
      simp only [List.getD_eq_getElem?_getD, List.getElem?_eq_getElem h0,
        List.getElem?_eq_getElem h1, List.getElem?_eq_getElem h2, Option.getD_some,
        Option.toList, List.append_assoc, List.singleton_append, Fin.val_zero, Fin.val_one,
        Fin.val_two, add_zero]
      rfl

end PackRows

/-! ## Auxiliary lemmas: `pos_edgedofs_to_variable` -/

section PackLemmas

variable {R : Type} [Field R]

theorem setSegment3_append (A : VectorXd R) (z : Nat) (p : Vector3d R) :
    setSegment3 (A ++ List.replicate (z + 3) 0) A.length p =
      some (A ++ [p 0, p 1, p 2] ++ List.replicate z 0) := by
  unfold setSegment3
  rw [if_pos (by simp)]
  congr 1
  rw [List.set_append_right _ _ (le_refl _), List.set_append_right _ _ (by omega),
    List.set_append_right _ _ (by omega), List.append_assoc]
  congr 1
  simp [List.replicate_succ]

/-- The loop of `pos_edgedofs_to_variable` after `m` vertices. -/
theorem pack_loop (fixed_verts : Option (List Int)) (pos : MatrixX3d R) (nfree : Nat)
    (hn : 3 * (List.range pos.length).countP (isFreeVertex fixed_verts) ≤ nfree)
    (m : Nat) (hm : m ≤ pos.length) :
    (List.range m).foldlM (fun (st : VectorXd R × Nat) i =>
      if isFreeVertex fixed_verts i then do
        let var ← setSegment3 st.1 st.2 (pos.getD i 0)
        pure (var, st.2 + 3)
      else pure st) (List.replicate nfree 0, 0) =
    some (packRows (isFreeVertex fixed_verts) (fun i => pos.getD i 0) m ++
        List.replicate (nfree - 3 * (List.range m).countP (isFreeVertex fixed_verts)) 0,
      3 * (List.range m).countP (isFreeVertex fixed_verts)) := by
  induction m with
  | zero => simp [packRows]
  | succ m ih =>
    have hmono := countP_range_mono (isFreeVertex fixed_verts) hm
    have hsucc := countP_range_succ (isFreeVertex fixed_verts) m
    rw [packRows, hsucc, show List.range (m + 1) = List.range m ++ [m] from List.range_succ m,
      List.foldlM_append, ih (by omega), Option.bind_eq_bind, Option.some_bind,
      List.foldlM_cons]
    cases hf : isFreeVertex fixed_verts m
    · simp
    · rw [hsucc, hf] at hmono
      simp only [if_true] at hmono ⊢
      have hz : nfree - 3 * (List.range m).countP (isFreeVertex fixed_verts) =
          (nfree - 3 * ((List.range m).countP (isFreeVertex fixed_verts) + 1)) + 3 := by omega
      have hl := packRows_length (isFreeVertex fixed_verts) (fun i => pos.getD i 0) m
      rw [hz, ← hl, setSegment3_append]
      simp [hl, Nat.mul_add]
      exact packRows_length _ _ _

/-- The vector returned by `pos_edgedofs_to_variable`: the rows of the free
vertices, then the edge DOFs. -/
theorem pack_spec (fixed_verts : Option (List Int)) (nedges nedgedofs nfree : Nat)
    (pos : MatrixX3d R) (edge_DOFs : VectorXd R)
    (hn : nfree = 3 * (List.range pos.length).countP (isFreeVertex fixed_verts) +
      nedges * nedgedofs)
    (he : edge_DOFs.length = nedges * nedgedofs) :
    pos_edgedofs_to_variable fixed_verts nedges nedgedofs nfree pos edge_DOFs =
      some (packRows (isFreeVertex fixed_verts) (fun i => pos.getD i 0) pos.length ++
        edge_DOFs) := by
  unfold pos_edgedofs_to_variable
  dsimp only
  rw [pack_loop fixed_verts pos nfree (by omega) pos.length le_rfl]
  have hl := packRows_length (isFreeVertex fixed_verts) (fun i => pos.getD i 0) pos.length
  simp only [Option.bind_eq_bind, Option.some_bind, List.length_append, List.length_replicate,
    hl, he]
  rw [if_pos ⟨trivial, by omega⟩]
  simp only [Option.pure_def, Option.some.injEq]
  congr 1
  rw [List.take_left']
  rw [hl]
  omega

end PackLemmas

/-! ## Auxiliary lemmas: the projection matrix of `run_simulation` -/

section SelectionLemmas

variable {R : Type} [Field R]

theorem selectionTriplets_append (cols extra : List Nat) :
    (selectionTriplets (cols ++ extra) : List (Triplet R)) =
      selectionTriplets cols ++
        (List.range extra.length).map (fun r => ⟨cols.length + r, extra.getD r 0, 1⟩) := by
  unfold selectionTriplets
  rw [List.length_append, List.range_add, List.map_append, List.map_map]
  congr 1
  · apply List.map_congr_left
    intro r hr
    rw [List.getD_append _ _ _ _ (List.mem_range.1 hr)]
  · apply List.map_congr_left
    intro r _
    simp only [Function.comp_apply]
    rw [List.getD_eq_getElem?_getD, List.getD_eq_getElem?_getD,
      List.getElem?_append_right (by omega)]
    simp

/-- The triplets and the counter after the loop of `run_simulation` over the
first `m` vertices. -/
theorem setup_vertices_triplets (cur_pos : MatrixX3d R) (fixed_verts : Option (List Int))
    (m : Nat) :
    let st := (List.range m).foldl (fun (st : ProjectionSetup R) i =>
      if isFreeVertex fixed_verts i then
        { st with
          Pcoeffs := st.Pcoeffs ++
            [⟨st.nfree, 3 * i, 1⟩, ⟨st.nfree + 1, 3 * i + 1, 1⟩, ⟨st.nfree + 2, 3 * i + 2, 1⟩],
          nfree := st.nfree + 3 }
      else
        { st with
          fixed_dofs :=
            (setSegment3 st.fixed_dofs (3 * i) (cur_pos.getD i 0)).getD st.fixed_dofs })
      (⟨[], List.replicate (3 * cur_pos.length) 0, 0⟩ : ProjectionSetup R)
    st.Pcoeffs = selectionTriplets
        (packRows (isFreeVertex fixed_verts) (fun i b => 3 * i + b.val) m) ∧
      st.nfree = (packRows (isFreeVertex fixed_verts) (fun i b => 3 * i + b.val) m).length := by
  induction m with
  | zero => exact ⟨rfl, rfl⟩
  | succ m ih =>
    simp only [List.range_succ, List.foldl_append, List.foldl_cons, List.foldl_nil] at ih ⊢
    obtain ⟨hP, hn⟩ := ih
    rw [packRows]
    cases hf : isFreeVertex fixed_verts m
    · simp only [Bool.false_eq_true, if_false, List.append_nil]
      exact ⟨hP, hn⟩
    · simp only [if_true]
      rw [selectionTriplets_append, hP, hn]
      refine ⟨?_, by simp⟩
      congr 1

/-- The triplets and the counter after the loop of `run_simulation` over the
first `k` edge DOFs. -/
theorem setup_edges_triplets (st : ProjectionSetup R) (cols : List Nat) (rows k : Nat)
    (hP : st.Pcoeffs = selectionTriplets cols) (hn : st.nfree = cols.length) :
    let st' := (List.range k).foldl (fun (st : ProjectionSetup R) i =>
      { st with
        Pcoeffs := st.Pcoeffs ++ [⟨st.nfree, 3 * rows + i, 1⟩],
        nfree := st.nfree + 1 }) st
    st'.Pcoeffs = selectionTriplets (cols ++ (List.range k).map (fun i => 3 * rows + i)) ∧
      st'.nfree = (cols ++ (List.range k).map (fun i => 3 * rows + i)).length := by
  induction k with
  | zero => simpa using ⟨hP, hn⟩
  | succ k ih =>
    simp only [List.range_succ, List.foldl_append, List.foldl_cons, List.foldl_nil,
      List.map_append, List.map_cons, List.map_nil] at ih ⊢
    obtain ⟨hP', hn'⟩ := ih
    rw [← List.append_assoc, selectionTriplets_append, hP', hn']
    refine ⟨?_, by simp [Nat.add_assoc]⟩
    congr 1

/-- The triplets and the number of rows collected by the set-up loops of
`run_simulation`. -/
theorem projectionSetup_triplets (cur_pos : MatrixX3d R) (fixed_verts : Option (List Int))
    (nedges nedgedofs : Nat) :
    (projectionSetup cur_pos fixed_verts nedges nedgedofs).Pcoeffs =
      selectionTriplets (freeColumns fixed_verts cur_pos.length (nedges * nedgedofs)) ∧
    (projectionSetup cur_pos fixed_verts nedges nedgedofs).nfree =
      (freeColumns fixed_verts cur_pos.length (nedges * nedgedofs)).length := by
  have h1 := setup_vertices_triplets cur_pos fixed_verts cur_pos.length
  simp only at h1
  have h2 := setup_edges_triplets _ _ cur_pos.length (nedges * nedgedofs) h1.1 h1.2
  simp only at h2
  unfold projectionSetup freeColumns
  exact h2

/-- The entries of the matrix set from the triplets that select `cols`. -/
theorem tripletSum_selection (cols : List Nat) (r c : Nat) :
    tripletSum (selectionTriplets cols : List (Triplet R)) r c =
      if cols[r]? = some c then 1 else 0 := by
  induction cols using List.reverseRecOn with
  | nil => simp [selectionTriplets, tripletSum]
  | append_singleton cols x ih =>
    rw [selectionTriplets_append]
    unfold tripletSum at ih ⊢
    rw [List.filter_append, List.map_append, List.sum_append, ih]
    have h1 : List.range 1 = [0] := rfl
    simp only [List.length_singleton, h1, List.map_cons, List.map_nil, add_zero,
      List.getD_cons_zero]
    by_cases hr : r < cols.length
    · rw [List.getElem?_append_left hr, List.filter_cons_of_neg (by simp; omega)]
      simp
    · by_cases hr' : r = cols.length
      · subst hr'
        rw [List.getElem?_eq_none (le_refl _), List.getElem?_append_right (le_refl _)]
        by_cases hc : x = c
        · subst hc
          simp
        · rw [List.filter_cons_of_neg (by simp [hc])]
          simp [hc]
      · rw [List.getElem?_eq_none (by omega), List.getElem?_eq_none (by simp; omega),
          List.filter_cons_of_neg (by simp; omega)]
        simp

end SelectionLemmas

/-! ## Auxiliary lemmas: the columns kept by the projection -/

section ColumnLemmas

variable {R : Type} [Field R]

theorem packRows_cols_lt (free : Nat → Bool) (m c : Nat)
    (hc : c ∈ packRows free (fun i (b : Fin 3) => 3 * i + b.val) m) : c < 3 * m := by
  induction m with
  | zero => simp [packRows] at hc
  | succ m ih =>
    rw [packRows, List.mem_append] at hc
    rcases hc with hc | hc
    · have := ih hc
      omega
    · cases hf : free m
      · simp [hf] at hc
      · simp [hf] at hc
        omega

theorem packRows_cols_pairwise (free : Nat → Bool) (m : Nat) :
    (packRows free (fun i (b : Fin 3) => 3 * i + b.val) m).Pairwise (fun a b => a < b) := by
  induction m with
  | zero => simp [packRows]
  | succ m ih =>
    rw [packRows, List.pairwise_append]
    refine ⟨ih, ?_, ?_⟩
    · cases free m <;> simp
    · intro a ha b hb
      have := packRows_cols_lt free m a ha
      cases hf : free m
      · simp [hf] at hb
      · simp [hf] at hb
        omega

theorem freeColumns_length (fixed_verts : Option (List Int)) (n m : Nat) :
    (freeColumns fixed_verts n m).length =
      3 * (List.range n).countP (isFreeVertex fixed_verts) + m := by
  simp [freeColumns, packRows_length]

theorem freeColumns_lt (fixed_verts : Option (List Int)) (n m c : Nat)
    (hc : c ∈ freeColumns fixed_verts n m) : c < 3 * n + m := by
  rw [freeColumns, List.mem_append] at hc
  rcases hc with hc | hc
  · have := packRows_cols_lt _ n c hc
    omega
  · simp only [List.mem_map, List.mem_range] at hc
    obtain ⟨i, hi, rfl⟩ := hc
    omega

theorem freeColumns_pairwise (fixed_verts : Option (List Int)) (n m : Nat) :
    (freeColumns fixed_verts n m).Pairwise (fun a b => a < b) := by
  rw [freeColumns, List.pairwise_append]
  refine ⟨packRows_cols_pairwise _ n, ?_, ?_⟩
  · rw [List.pairwise_map]
    exact List.Pairwise.imp (by intro a b h; omega) (List.pairwise_lt_range m)
  · intro a ha b hb
    have := packRows_cols_lt _ n a ha
    simp only [List.mem_map, List.mem_range] at hb
    obtain ⟨i, hi, rfl⟩ := hb
    omega

/-- Two positions of a strictly increasing list that hold the same value are
the same position. -/
theorem pairwise_getElem?_inj (cols : List Nat) (hp : cols.Pairwise (fun a b => a < b))
    (r s c : Nat) (hr : cols[r]? = some c) (hs : cols[s]? = some c) : r = s := by
  obtain ⟨hr1, hr2⟩ := List.getElem?_eq_some.1 hr
  obtain ⟨hs1, hs2⟩ := List.getElem?_eq_some.1 hs
  rcases Nat.lt_trichotomy r s with h | h | h
  · have := List.pairwise_iff_getElem.1 hp r s hr1 hs1 h
    omega
  · exact h
  · have := List.pairwise_iff_getElem.1 hp s r hs1 hr1 h
    omega

/-- When no vertex is fixed, every column is kept. -/
theorem packRows_cols_all (free : Nat → Bool) (m : Nat) (h : ∀ i, i < m → free i = true) :
    packRows free (fun i (b : Fin 3) => 3 * i + b.val) m = List.range (3 * m) := by
  induction m with
  | zero => rfl
  | succ m ih =>
    rw [packRows, ih (fun i hi => h i (by omega)), h m (by omega)]
    have e : 3 * (m + 1) = 3 * m + 1 + 1 + 1 := by ring
    rw [e, List.range_succ, List.range_succ, List.range_succ]
    simp

theorem freeColumns_none (n m : Nat) : freeColumns none n m = List.range (3 * n + m) := by
  rw [freeColumns, packRows_cols_all (isFreeVertex none) n (fun _ _ => rfl), List.range_add]

/-- The matrix `P` of `run_simulation`: it is built, and its entry at `(r, c)`
is one when `c` is the `r`-th kept column and zero otherwise. -/
theorem runProjection_eq (cur_pos : MatrixX3d R) (fixed_verts : Option (List Int))
    (nedges nedgedofs : Nat) :
    runProjection cur_pos fixed_verts nedges nedgedofs =
      some ⟨(freeColumns fixed_verts cur_pos.length (nedges * nedgedofs)).length,
        3 * cur_pos.length + nedges * nedgedofs,
        fun r c =>
          if (freeColumns fixed_verts cur_pos.length (nedges * nedgedofs))[r]? = some c
          then 1 else 0⟩ := by
  obtain ⟨hP, hn⟩ := projectionSetup_triplets cur_pos fixed_verts nedges nedgedofs
  unfold runProjection
  dsimp only
  rw [hP, hn, sparseFromTriplets_eq]
  · congr 2
    funext r c
    exact tripletSum_selection _ r c
  · intro t ht
    simp only [selectionTriplets, List.mem_map, List.mem_range] at ht
    obtain ⟨r, hr, rfl⟩ := ht
    refine ⟨hr, ?_⟩
    apply freeColumns_lt fixed_verts
    show (freeColumns fixed_verts cur_pos.length (nedges * nedgedofs)).getD r 0 ∈ _
    rw [List.getD_eq_getElem _ _ hr]
    exact List.getElem_mem _

/-- A row of a selection matrix applied to a function of the column. -/
theorem selection_sum (cols : List Nat) (N r : Nat) (hN : ∀ c ∈ cols, c < N) (f : Nat → R) :
    (∑ k ∈ Finset.range N, (if cols[r]? = some k then (1 : R) else 0) * f k) =
      if r < cols.length then f (cols.getD r 0) else 0 := by
  by_cases hr : r < cols.length
  · rw [if_pos hr, Finset.sum_eq_single (cols.getD r 0)]
    · rw [List.getD_eq_getElem _ _ hr, List.getElem?_eq_getElem hr]
      simp
    · intro k _ hk
      rw [List.getD_eq_getElem _ _ hr] at hk
      rw [List.getElem?_eq_getElem hr, if_neg (by intro e; exact hk (Option.some.inj e).symm)]
      simp
    · intro h
      exfalso
      apply h
      rw [Finset.mem_range, List.getD_eq_getElem _ _ hr]
      exact hN _ (List.getElem_mem _)
  · rw [if_neg hr]
    apply Finset.sum_eq_zero
    intro k _
    rw [List.getElem?_eq_none (by omega)]
    simp

/-- A selection matrix applied to a vector picks the selected entries. -/
theorem selection_mulVec (cols : List Nat) (N : Nat) (hN : ∀ c ∈ cols, c < N) (g : VectorXd R)
    (hg : g.length = N) :
    SparseMatrix.mulVec
        (⟨cols.length, N, fun r c => if cols[r]? = some c then 1 else 0⟩ : SparseMatrix R) g =
      some (cols.map (fun c => g.getD c 0)) := by
  unfold SparseMatrix.mulVec
  rw [if_pos hg.symm]
  congr 1
  apply List.ext_getElem
  · simp
  · intro r h1 h2
    simp only [List.length_map, List.length_range] at h1
    simp only [List.getElem_map, List.getElem_range]
    rw [selection_sum cols N r hN, if_pos h1, List.getD_eq_getElem _ _ h1]

end ColumnLemmas

/-! ## Auxiliary lemmas: the projection applied to vectors and matrices -/

section ProjectionLemmas

variable {R : Type} [Field R]

theorem globalVector_cons (p : Vector3d R) (pos : MatrixX3d R) (e : VectorXd R) :
    globalVector (p :: pos) e = p 0 :: p 1 :: p 2 :: globalVector pos e := by
  simp [globalVector]

theorem globalVector_length (pos : MatrixX3d R) (e : VectorXd R) :
    (globalVector pos e).length = 3 * pos.length + e.length := by
  induction pos with
  | nil => simp [globalVector]
  | cons p pos ih =>
    rw [globalVector_cons]
    simp only [List.length_cons, ih]
    omega

theorem globalVector_getD_pos (pos : MatrixX3d R) (e : VectorXd R) (i : Nat)
    (hi : i < pos.length) (b : Fin 3) :
    (globalVector pos e).getD (3 * i + b.val) 0 = pos.getD i 0 b := by
  induction pos generalizing i with
  | nil => simp at hi
  | cons p pos ih =>
    rw [globalVector_cons]
    cases i with
    | zero =>
      fin_cases b <;> rfl
    | succ i =>
      have e3 : 3 * (i + 1) + b.val = (3 * i + b.val) + 1 + 1 + 1 := by ring
      rw [e3, List.getD_cons_succ, List.getD_cons_succ, List.getD_cons_succ, List.getD_cons_succ]
      exact ih i (by simpa using hi)

theorem globalVector_getD_edge (pos : MatrixX3d R) (e : VectorXd R) (i : Nat) :
    (globalVector pos e).getD (3 * pos.length + i) 0 = e.getD i 0 := by
  induction pos with
  | nil => simp [globalVector]
  | cons p pos ih =>
    rw [globalVector_cons]
    have e3 : 3 * (p :: pos).length + i = (3 * pos.length + i) + 1 + 1 + 1 := by
      simp only [List.length_cons]
      ring
    rw [e3, List.getD_cons_succ, List.getD_cons_succ, List.getD_cons_succ]
    exact ih

/-- The kept columns of a global vector are the packed rows of the free
vertices followed by the edge DOFs. -/
theorem freeColumns_map_global (fixed_verts : Option (List Int)) (pos : MatrixX3d R)
    (e : VectorXd R) :
    (freeColumns fixed_verts pos.length e.length).map (fun c => (globalVector pos e).getD c 0) =
      packRows (isFreeVertex fixed_verts) (fun i => pos.getD i 0) pos.length ++ e := by
  rw [freeColumns, List.map_append, packRows_map, List.map_map]
  congr 1
  · apply packRows_congr
    intro i hi _
    funext b
    exact globalVector_getD_pos pos e i hi b
  · apply List.ext_getElem
    · simp
    · intro i h1 h2
      simp only [List.getElem_map, List.getElem_range, Function.comp_apply]
      rw [globalVector_getD_edge, List.getD_eq_getElem _ _ h2]

/-- The product of a selection matrix of distinct columns with its transpose
is the identity. -/
theorem selection_mul_transpose (cols : List Nat) (N : Nat) (hN : ∀ c ∈ cols, c < N)
    (hp : cols.Pairwise (fun a b => a < b)) :
    ∃ Q : SparseMatrix R,
      SparseMatrix.mul
        (⟨cols.length, N, fun r c => if cols[r]? = some c then 1 else 0⟩ : SparseMatrix R)
        (SparseMatrix.transpose
          (⟨cols.length, N, fun r c => if cols[r]? = some c then 1 else 0⟩ : SparseMatrix R)) =
        some Q ∧ Q.rows = cols.length ∧ Q.cols = cols.length ∧
      ∀ r s, r < cols.length → s < cols.length → Q.coeff r s = if r = s then 1 else 0 := by
  refine ⟨_, by unfold SparseMatrix.mul SparseMatrix.transpose; rw [if_pos rfl], rfl, rfl, ?_⟩
  intro r s hr hs
  show (∑ k ∈ Finset.range N, (if cols[r]? = some k then (1 : R) else 0) *
    (if cols[s]? = some k then (1 : R) else 0)) = _
  rw [selection_sum cols N r hN, if_pos hr]
  by_cases hrs : r = s
  · subst hrs
    rw [if_pos rfl, List.getD_eq_getElem _ _ hr, List.getElem?_eq_getElem hr, if_pos rfl]
  · rw [if_neg hrs, if_neg]
    intro h
    apply hrs
    apply pairwise_getElem?_inj cols hp r s _ _ h
    rw [List.getD_eq_getElem _ _ hr, List.getElem?_eq_getElem hr]

/-- The product `P * H * P.transpose()` of a selection matrix with a square
matrix picks the selected rows and columns. -/
theorem selection_sandwich (cols : List Nat) (N : Nat) (hN : ∀ c ∈ cols, c < N)
    (H : SparseMatrix R) (hr : H.rows = N) (hc : H.cols = N) :
    ∃ Q : SparseMatrix R,
      (SparseMatrix.mul
        (⟨cols.length, N, fun r c => if cols[r]? = some c then 1 else 0⟩ : SparseMatrix R)
        H).bind (fun PH => SparseMatrix.mul PH (SparseMatrix.transpose
          (⟨cols.length, N, fun r c => if cols[r]? = some c then 1 else 0⟩ : SparseMatrix R))) =
        some Q ∧ Q.rows = cols.length ∧ Q.cols = cols.length ∧
      ∀ r s, r < cols.length → s < cols.length →
        Q.coeff r s = H.coeff (cols.getD r 0) (cols.getD s 0) := by
  obtain ⟨rows, ncols, h⟩ := H
  simp only at hr hc
  rw [hr, hc]
  have hm : (SparseMatrix.mul
        (⟨cols.length, N, fun r c => if cols[r]? = some c then 1 else 0⟩ : SparseMatrix R)
        ⟨N, N, h⟩).bind (fun PH => SparseMatrix.mul PH (SparseMatrix.transpose
          (⟨cols.length, N, fun r c => if cols[r]? = some c then 1 else 0⟩ :
            SparseMatrix R))) =
      some ⟨cols.length, cols.length, fun r s => ∑ k ∈ Finset.range N,
        (∑ j ∈ Finset.range N, (if cols[r]? = some j then (1 : R) else 0) * h j k) *
          (if cols[s]? = some k then (1 : R) else 0)⟩ := by
    unfold SparseMatrix.mul SparseMatrix.transpose
    rw [if_pos rfl, Option.some_bind, if_pos rfl]
  refine ⟨_, hm, rfl, rfl, ?_⟩
  intro r s hr hs
  show (∑ k ∈ Finset.range N, (∑ j ∈ Finset.range N,
    (if cols[r]? = some j then (1 : R) else 0) * h j k) *
    (if cols[s]? = some k then (1 : R) else 0)) = _
  have h1 : ∀ k, (∑ j ∈ Finset.range N,
      (if cols[r]? = some j then (1 : R) else 0) * h j k) = h (cols.getD r 0) k := by
    intro k
    rw [selection_sum cols N r hN (fun j => h j k), if_pos hr]
  simp only [h1]
  have h2 : ∀ k, h (cols.getD r 0) k * (if cols[s]? = some k then (1 : R) else 0) =
      (if cols[s]? = some k then (1 : R) else 0) * h (cols.getD r 0) k := fun k => mul_comm _ _
  simp only [h2]
  rw [selection_sum cols N s hN (fun k => h (cols.getD r 0) k), if_pos hs]

end ProjectionLemmas

/-! ## Auxiliary lemmas: projected gradient and Hessian, and the round trips -/

section RoundTripLemmas

variable {R : Type} [Field R]

theorem range_map_getD (g : VectorXd R) :
    (List.range g.length).map (fun c => g.getD c 0) = g := by
  apply List.ext_getElem
  · simp
  · intro i h1 h2
    simp only [List.getElem_map, List.getElem_range]
    exact List.getD_eq_getElem _ _ h2

/-- The gradient after `obj_func` of `run_simulation` holds, at each index of
the optimizer variable, the entry of the full gradient at the kept column. -/
theorem projectedGradient_eq (cur_pos : MatrixX3d R) (fixed_verts : Option (List Int))
    (nedges nedgedofs : Nat) (P : SparseMatrix R)
    (hP : runProjection cur_pos fixed_verts nedges nedgedofs = some P) (g : VectorXd R)
    (hg : g.length = 3 * cur_pos.length + nedges * nedgedofs) :
    projectedGradient P fixed_verts g =
      some ((freeColumns fixed_verts cur_pos.length (nedges * nedgedofs)).map
        (fun c => g.getD c 0)) := by
  rw [runProjection_eq] at hP
  cases hP
  unfold projectedGradient
  cases fixed_verts with
  | none =>
    rw [if_neg (by simp), freeColumns_none, ← hg, range_map_getD]
  | some s =>
    rw [if_pos (by simp)]
    exact selection_mulVec _ _ (freeColumns_lt (some s) _ _) g hg

/-- The Hessian after `obj_func` of `run_simulation` holds, at each pair of
indices of the optimizer variable, the entry of the full Hessian at the kept
columns. -/
theorem projectedHessian_eq (cur_pos : MatrixX3d R) (fixed_verts : Option (List Int))
    (nedges nedgedofs : Nat) (P : SparseMatrix R)
    (hP : runProjection cur_pos fixed_verts nedges nedgedofs = some P)
    (triplets : List (Triplet R))
    (ht : ∀ t ∈ triplets, t.row < 3 * cur_pos.length + nedges * nedgedofs ∧
      t.col < 3 * cur_pos.length + nedges * nedgedofs) :
    ∃ Q : SparseMatrix R,
      projectedHessian P fixed_verts (3 * cur_pos.length + nedges * nedgedofs) triplets =
        some Q ∧
      Q.rows = (freeColumns fixed_verts cur_pos.length (nedges * nedgedofs)).length ∧
      Q.cols = (freeColumns fixed_verts cur_pos.length (nedges * nedgedofs)).length ∧
      ∀ r s, r < (freeColumns fixed_verts cur_pos.length (nedges * nedgedofs)).length →
        s < (freeColumns fixed_verts cur_pos.length (nedges * nedgedofs)).length →
        Q.coeff r s = tripletSum triplets
          ((freeColumns fixed_verts cur_pos.length (nedges * nedgedofs)).getD r 0)
          ((freeColumns fixed_verts cur_pos.length (nedges * nedgedofs)).getD s 0) := by
  rw [runProjection_eq] at hP
  cases hP
  unfold projectedHessian
  rw [sparseFromTriplets_eq _ _ _ ht]
  cases fixed_verts with
  | none =>
    refine ⟨_, by simp; rfl, ?_, ?_, ?_⟩
    · simp [freeColumns_none]
    · simp [freeColumns_none]
    · intro r s hr hs
      rw [freeColumns_none] at hr hs ⊢
      simp only [List.length_range] at hr hs
      rw [List.getD_eq_getElem _ _ (by simpa using hr),
        List.getD_eq_getElem _ _ (by simpa using hs)]
      simp
  | some fs =>
    obtain ⟨Q, hQ, h1, h2, h3⟩ := selection_sandwich
      (freeColumns (some fs) cur_pos.length (nedges * nedgedofs)) _
      (freeColumns_lt (some fs) _ _)
      (⟨3 * cur_pos.length + nedges * nedgedofs, 3 * cur_pos.length + nedges * nedgedofs,
        tripletSum triplets⟩ : SparseMatrix R) rfl rfl
    refine ⟨Q, ?_, h1, h2, h3⟩
    rw [← hQ]
    simp

/-- Unpacking a variable vector and packing the result gives the vector back. -/
theorem unpack_then_pack (cur_pos : MatrixX3d R) (fixed_verts : Option (List Int))
    (nedges nedgedofs : Nat) (var : VectorXd R)
    (hvar : var.length = (projectionSetup cur_pos fixed_verts nedges nedgedofs).nfree) :
    ∃ pos e, variable_to_pos_edgedofs fixed_verts nedges nedgedofs cur_pos.length
        (projectionSetup cur_pos fixed_verts nedges nedgedofs).fixed_dofs var = some (pos, e) ∧
      pos.length = cur_pos.length ∧ e.length = nedges * nedgedofs ∧
      pos_edgedofs_to_variable fixed_verts nedges nedgedofs
        (projectionSetup cur_pos fixed_verts nedges nedgedofs).nfree pos e = some var := by
  obtain ⟨hn, -, -⟩ := projectionSetup_spec cur_pos fixed_verts nedges nedgedofs
  obtain ⟨pos, hpos, hlen, hrows⟩ := unpack_spec cur_pos fixed_verts nedges nedgedofs var hvar
  have hl : var.length - nedges * nedgedofs =
      3 * (List.range cur_pos.length).countP (isFreeVertex fixed_verts) := by
    rw [hvar, hn]
    omega
  have he : (var.drop (var.length - nedges * nedgedofs)).length = nedges * nedgedofs := by
    rw [List.length_drop, hl, hvar, hn]
    omega
  refine ⟨pos, _, hpos, hlen, he, ?_⟩
  rw [pack_spec fixed_verts nedges nedgedofs _ pos _ (by rw [hn, hlen]) he, hlen]
  congr 1
  rw [hl]
  have h1 : packRows (isFreeVertex fixed_verts) (fun i => pos.getD i 0) cur_pos.length =
      packRows (isFreeVertex fixed_verts) (fun i b =>
        var.getD (3 * (List.range i).countP (isFreeVertex fixed_verts) + b.val) 0)
        cur_pos.length := by
    apply packRows_congr
    intro i hi hf
    have := hrows i hi
    rw [hf, if_pos rfl] at this
    rw [List.getD_eq_getElem?_getD, this]
    funext b
    fin_cases b <;> rfl
  rw [h1, packRows_eq_take _ _ _ _ (by rw [hvar, hn]; omega)]
  exact List.take_append_drop _ _

/-- Packing a configuration whose fixed rows are the captured ones and
unpacking the result gives the configuration back. -/
theorem pack_then_unpack (cur_pos : MatrixX3d R) (fixed_verts : Option (List Int))
    (nedges nedgedofs : Nat) (pos : MatrixX3d R) (e : VectorXd R)
    (hpos : pos.length = cur_pos.length) (he : e.length = nedges * nedgedofs)
    (hfix : ∀ j, j < cur_pos.length → isFreeVertex fixed_verts j = false →
      pos.getD j 0 = cur_pos.getD j 0) :
    ∃ var, pos_edgedofs_to_variable fixed_verts nedges nedgedofs
        (projectionSetup cur_pos fixed_verts nedges nedgedofs).nfree pos e = some var ∧
      var.length = (projectionSetup cur_pos fixed_verts nedges nedgedofs).nfree ∧
      variable_to_pos_edgedofs fixed_verts nedges nedgedofs cur_pos.length
        (projectionSetup cur_pos fixed_verts nedges nedgedofs).fixed_dofs var = some (pos, e) := by
  obtain ⟨hn, -, -⟩ := projectionSetup_spec cur_pos fixed_verts nedges nedgedofs
  have hp := pack_spec fixed_verts nedges nedgedofs
    (projectionSetup cur_pos fixed_verts nedges nedgedofs).nfree pos e (by rw [hn, hpos]) he
  have hvl : (packRows (isFreeVertex fixed_verts) (fun i => pos.getD i 0) pos.length ++
      e).length = (projectionSetup cur_pos fixed_verts nedges nedgedofs).nfree := by
    rw [List.length_append, packRows_length, hn, hpos, he]
  refine ⟨_, hp, hvl, ?_⟩
  obtain ⟨pos', hpos', hlen', hrows'⟩ := unpack_spec cur_pos fixed_verts nedges nedgedofs _ hvl
  rw [hpos']
  congr 2
  · apply List.ext_getElem?
    intro j
    by_cases hj : j < cur_pos.length
    · rw [hrows' j hj, List.getElem?_eq_getElem (by omega)]
      congr 1
      cases hf : isFreeVertex fixed_verts j
      · rw [if_neg (by simp), ← hfix j hj hf, List.getD_eq_getElem _ _ (by omega)]
      · rw [if_pos rfl]
        have hg : ∀ b : Fin 3,
            (packRows (isFreeVertex fixed_verts) (fun i => pos.getD i 0) pos.length ++ e).getD
              (3 * (List.range j).countP (isFreeVertex fixed_verts) + b.val) 0 =
              pos.getD j 0 b := by
          intro b
          have h1 := packRows_getElem? (isFreeVertex fixed_verts) (fun i => pos.getD i 0)
            pos.length j (by omega) hf b
          have h2 := List.getElem?_eq_some.1 h1
          rw [List.getD_eq_getElem?_getD, List.getElem?_append_left h2.1, h1]
          rfl
        have h0 := hg 0
        have h1 := hg 1
        have h2 := hg 2
        simp only [Fin.val_zero, Fin.val_one, Fin.val_two, add_zero] at h0 h1 h2
        rw [h0, h1, h2, vec3_eta, List.getD_eq_getElem _ _ (by omega)]
    · rw [List.getElem?_eq_none (by omega), List.getElem?_eq_none (by omega)]
  · rw [hvl, hn]
    have : 3 * (List.range cur_pos.length).countP (isFreeVertex fixed_verts) +
        nedges * nedgedofs - nedges * nedgedofs =
        (packRows (isFreeVertex fixed_verts) (fun i => pos.getD i 0) pos.length).length := by
      rw [packRows_length, hpos]
      omega
    rw [this, List.drop_left]

end RoundTripLemmas

/-! ## Auxiliary lemmas: the derivative of the signed angle -/

section SignedAngleLemmas

/-- The derivative of `atan2(s, c)`, read as the argument of `c + s i`, along
differentiable `c` and `s`, away from the cut `c ≤ 0, s = 0`. -/
theorem hasFDerivAt_arg_pair {E : Type} [NormedAddCommGroup E] [NormedSpace ℝ E]
    (c s : E → ℝ) (dc ds : E →L[ℝ] ℝ) (x : E) (hc : HasFDerivAt c dc x)
    (hs : HasFDerivAt s ds x) (h : 0 < c x ∨ s x ≠ 0) :
    HasFDerivAt (fun y => Complex.arg ⟨c y, s y⟩)
      ((c x / (c x ^ 2 + s x ^ 2)) • ds - (s x / (c x ^ 2 + s x ^ 2)) • dc) x := by
  have hz : HasFDerivAt (fun y => (⟨c y, s y⟩ : ℂ))
      (dc.smulRight (1 : ℂ) + ds.smulRight Complex.I) x := by
    have h1 := (hc.smul_const (1 : ℂ)).add (hs.smul_const Complex.I)
    have e : (fun y => (⟨c y, s y⟩ : ℂ)) = fun y => c y • (1 : ℂ) + s y • Complex.I := by
      funext y
      apply Complex.ext <;> simp
    rw [e]
    exact h1
  have hmem : (⟨c x, s x⟩ : ℂ) ∈ Complex.slitPlane := Complex.mem_slitPlane_iff.2 h
  have hlog := (Complex.hasStrictFDerivAt_log_real hmem).hasFDerivAt.comp x hz
  have him := Complex.imCLM.hasFDerivAt.comp _ hlog
  have e : (fun y => Complex.arg ⟨c y, s y⟩) =
      (⇑Complex.imCLM ∘ Complex.log ∘ fun y => (⟨c y, s y⟩ : ℂ)) := by
    funext y
    simp [Complex.log_im]
  rw [e]
  refine him.congr_fderiv ?_
  have hne : c x ^ 2 + s x ^ 2 ≠ 0 := by
    rcases h with h | h
    · have := sq_nonneg (s x)
      have := pow_pos h 2
      linarith
    · have := sq_nonneg (c x)
      have := pow_pos (sq_pos_of_ne_zero h) 1
      nlinarith [sq_pos_of_ne_zero h]
  have hne1 : c x * c x + s x * s x ≠ 0 := by
    rw [← sq, ← sq]
    exact hne
  have hne2 : s x ^ 2 + c x ^ 2 ≠ 0 := by
    rw [add_comm]
    exact hne
  ext v
  simp only [ContinuousLinearMap.comp_apply, ContinuousLinearMap.add_apply,
    ContinuousLinearMap.smulRight_apply, ContinuousLinearMap.smul_apply,
    ContinuousLinearMap.one_apply, ContinuousLinearMap.sub_apply, Complex.imCLM_apply,
    smul_eq_mul, Complex.real_smul, Complex.mul_im, Complex.add_im, Complex.add_re,
    Complex.mul_re, Complex.inv_re, Complex.inv_im, Complex.normSq_mk, Complex.ofReal_re,
    Complex.ofReal_im, Complex.one_re, Complex.one_im, Complex.I_re, Complex.I_im, mul_zero,
    mul_one, zero_mul, add_zero, zero_add, sub_zero]
  field_simp
  ring

end SignedAngleLemmas

section SignedAngleAxis

theorem dot_self_pos (a : Vector3d ℝ) (ha : a ≠ 0) : 0 < dot a a := by
  unfold dot
  by_contra h
  apply ha
  have h0 := mul_self_nonneg (a 0)
  have h1 := mul_self_nonneg (a 1)
  have h2 := mul_self_nonneg (a 2)
  funext i
  fin_cases i
  · exact mul_self_eq_zero.1 (by simp only [Fin.zero_eta]; linarith)
  · exact mul_self_eq_zero.1 (by simp only [Fin.mk_one]; linarith)
  · exact mul_self_eq_zero.1 (by simp only [Fin.reduceFinMk]; linarith)

/-- The sine part `(n0 x n1) . axis / |axis|` of the signed angle does not
change at first order with `axis` where `n0` and `n1` are perpendicular to
`axis`. -/
theorem sinePart_axis_hasFDerivAt (v w a : Vector3d ℝ) (hv : dot v a = 0) (hw : dot w a = 0)
    (ha : a ≠ 0) :
    HasFDerivAt (fun b : Fin 3 → ℝ => dot (cross v w) b / Real.sqrt (dot b b))
      (0 : (Fin 3 → ℝ) →L[ℝ] ℝ) a := by
  have p0 : HasFDerivAt (fun b : Fin 3 → ℝ => b 0)
      (ContinuousLinearMap.proj 0 : (Fin 3 → ℝ) →L[ℝ] ℝ) a := hasFDerivAt_apply 0 a
  have p1 : HasFDerivAt (fun b : Fin 3 → ℝ => b 1)
      (ContinuousLinearMap.proj 1 : (Fin 3 → ℝ) →L[ℝ] ℝ) a := hasFDerivAt_apply 1 a
  have p2 : HasFDerivAt (fun b : Fin 3 → ℝ => b 2)
      (ContinuousLinearMap.proj 2 : (Fin 3 → ℝ) →L[ℝ] ℝ) a := hasFDerivAt_apply 2 a
  have hP : HasFDerivAt (fun b : Fin 3 → ℝ => dot (cross v w) b) _ a :=
    ((p0.const_mul (cross v w 0)).add (p1.const_mul (cross v w 1))).add
      (p2.const_mul (cross v w 2))
  have hQ : HasFDerivAt (fun b : Fin 3 → ℝ => dot b b) _ a :=
    ((p0.mul p0).add (p1.mul p1)).add (p2.mul p2)
  have hpos := dot_self_pos a ha
  have hq : Real.sqrt (dot a a) ≠ 0 := (Real.sqrt_pos.2 hpos).ne'
  have hsq := hQ.sqrt hpos.ne'
  have hinv := (hasDerivAt_inv hq).comp_hasFDerivAt a hsq
  have hs := hP.mul hinv
  have e : (fun b : Fin 3 → ℝ => dot (cross v w) b / Real.sqrt (dot b b)) =
      fun b => dot (cross v w) b * ((fun y => y⁻¹) ∘ fun b => Real.sqrt (dot b b)) b := by
    funext b
    rw [div_eq_mul_inv]
    rfl
  rw [e]
  refine hs.congr_fderiv ?_
  have hqq : Real.sqrt (dot a a) ^ 2 = dot a a := Real.sq_sqrt hpos.le
  ext δ
  simp only [ContinuousLinearMap.add_apply, ContinuousLinearMap.smul_apply,
    ContinuousLinearMap.proj_apply, smul_eq_mul, Function.comp_apply,
    ContinuousLinearMap.zero_apply]
  have hnum : (cross v w 0 * δ 0 + cross v w 1 * δ 1 + cross v w 2 * δ 2) * dot a a =
      dot (cross v w) a * (a 0 * δ 0 + a 1 * δ 1 + a 2 * δ 2) := by
    simp only [dot, cross, Matrix.cons_val_zero, Matrix.cons_val_one, Matrix.head_cons,
      Matrix.cons_val_two, Matrix.tail_cons] at hv hw ⊢
    linear_combination (δ 0 * (a 1 * w 2 - a 2 * w 1) + δ 1 * (a 2 * w 0 - a 0 * w 2) +
      δ 2 * (a 0 * w 1 - a 1 * w 0)) * hv - (δ 0 * (a 1 * v 2 - a 2 * v 1) +
      δ 1 * (a 2 * v 0 - a 0 * v 2) + δ 2 * (a 0 * v 1 - a 1 * v 0)) * hw
  field_simp
  linear_combination 2 * Real.sqrt (dot a a) * hnum

/-- The signed angle does not change at first order with `axis` where `n0`
and `n1` are perpendicular to `axis` and not opposite. -/
theorem signedAngle_axis_hasFDerivAt (v w a : Vector3d ℝ) (hv : dot v a = 0) (hw : dot w a = 0)
    (ha : a ≠ 0) (hc : 0 < dot v w + Real.sqrt (dot v v) * Real.sqrt (dot w w)) :
    HasFDerivAt (fun b : Fin 3 → ℝ =>
        signedAngle (fun y x => Complex.arg ⟨x, y⟩) Real.sqrt v w b)
      (0 : (Fin 3 → ℝ) →L[ℝ] ℝ) a := by
  have hs := sinePart_axis_hasFDerivAt v w a hv hw ha
  have hcst : HasFDerivAt
      (fun _ : Fin 3 → ℝ => dot v w + Real.sqrt (dot v v) * Real.sqrt (dot w w))
      (0 : (Fin 3 → ℝ) →L[ℝ] ℝ) a := hasFDerivAt_const _ _
  have h := (hasFDerivAt_arg_pair _ _ _ _ a hcst hs (Or.inl hc)).const_mul 2
  unfold signedAngle
  refine h.congr_fderiv ?_
  simp

/-- A derivative row of the signed angle has no part for `axis` where `n0` and
`n1` are perpendicular to `axis` and not opposite. -/
theorem angleDeriv_axis_zero (v w a : Vector3d ℝ) (g : Matrix (Fin 1) (Fin 9) ℝ)
    (hv : dot v a = 0) (hw : dot w a = 0) (ha : a ≠ 0)
    (hc : 0 < dot v w + Real.sqrt (dot v v) * Real.sqrt (dot w w))
    (hg : HasFDerivAt (signedAngleOfInputs (fun y x => Complex.arg ⟨x, y⟩) Real.sqrt)
      (∑ k : Fin 9, g 0 k • (ContinuousLinearMap.proj k : (Fin 9 → ℝ) →L[ℝ] ℝ))
      ![v 0, v 1, v 2, w 0, w 1, w 2, a 0, a 1, a 2]) :
    block g 0 6 1 3 = 0 := by
  have hi : HasFDerivAt
      (fun b : Fin 3 → ℝ => (![v 0, v 1, v 2, w 0, w 1, w 2, b 0, b 1, b 2] : Fin 9 → ℝ))
      (ContinuousLinearMap.pi ![0, 0, 0, 0, 0, 0,
        (ContinuousLinearMap.proj 0 : (Fin 3 → ℝ) →L[ℝ] ℝ), ContinuousLinearMap.proj 1,
        ContinuousLinearMap.proj 2]) a := by
    rw [hasFDerivAt_pi']
    intro k
    fin_cases k
    · exact hasFDerivAt_const _ _
    · exact hasFDerivAt_const _ _
    · exact hasFDerivAt_const _ _
    · exact hasFDerivAt_const _ _
    · exact hasFDerivAt_const _ _
    · exact hasFDerivAt_const _ _
    · exact hasFDerivAt_apply (0 : Fin 3) a
    · exact hasFDerivAt_apply (1 : Fin 3) a
    · exact hasFDerivAt_apply (2 : Fin 3) a
  have hcomp := hg.comp a hi
  have hzero := signedAngle_axis_hasFDerivAt v w a hv hw ha hc
  have hfun : (signedAngleOfInputs (fun y x => Complex.arg ⟨x, y⟩) Real.sqrt ∘
      fun b : Fin 3 → ℝ => (![v 0, v 1, v 2, w 0, w 1, w 2, b 0, b 1, b 2] : Fin 9 → ℝ)) =
      fun b => signedAngle (fun y x => Complex.arg ⟨x, y⟩) Real.sqrt v w b := by
    funext b
    show signedAngle (fun y x => Complex.arg ⟨x, y⟩) Real.sqrt ![v 0, v 1, v 2]
      ![w 0, w 1, w 2] ![b 0, b 1, b 2] = _
    rw [vec3_eta, vec3_eta, vec3_eta]
  rw [hfun] at hcomp
  have hu := hcomp.unique hzero
  have key : ∀ δ : Fin 3 → ℝ, g 0 6 * δ 0 + g 0 7 * δ 1 + g 0 8 * δ 2 = 0 := by
    intro δ
    have h := congrArg (fun L : (Fin 3 → ℝ) →L[ℝ] ℝ => L δ) hu
    have eM : ∀ k : Fin 9, (![0, 0, 0, 0, 0, 0,
        (ContinuousLinearMap.proj 0 : (Fin 3 → ℝ) →L[ℝ] ℝ), ContinuousLinearMap.proj 1,
        ContinuousLinearMap.proj 2] : Fin 9 → _) k δ =
        (![0, 0, 0, 0, 0, 0, δ 0, δ 1, δ 2] : Fin 9 → ℝ) k := by
      intro k
      fin_cases k <;> rfl
    simp only [ContinuousLinearMap.comp_apply, ContinuousLinearMap.sum_apply,
      ContinuousLinearMap.smul_apply, ContinuousLinearMap.proj_apply, smul_eq_mul,
      ContinuousLinearMap.zero_apply, ContinuousLinearMap.pi_apply, eM] at h
    rw [sum_univ_nine] at h
    have e : ∀ k : Fin 9, (![0, 0, 0, 0, 0, 0, δ 0, δ 1, δ 2] : Fin 9 → ℝ) k =
        if k.val = 6 then δ 0 else if k.val = 7 then δ 1 else if k.val = 8 then δ 2 else 0 := by
      intro k
      fin_cases k <;> rfl
    simp only [e] at h
    obtain ⟨w3, w4, w5, w6, w7, w8⟩ := fin_nine_val
    simpa [w3, w4, w5, w6, w7, w8] using h
  ext i j
  have hi0 : i = 0 := Subsingleton.elim _ _
  subst hi0
  obtain ⟨-, -, -, w6, w7, w8⟩ := fin_nine_val
  fin_cases j
  · simpa [block, w6] using key (Pi.single 0 1)
  · simpa [block, w7] using key (Pi.single 1 1)
  · simpa [block, w8] using key (Pi.single 2 1)

end SignedAngleAxis

section SignedAngleFolded

theorem sqrt_twenty_five : Real.sqrt 25 = 5 := by
  rw [show (25 : ℝ) = 5 ^ 2 by norm_num]
  exact Real.sqrt_sq (by norm_num)

/-- At the arguments `n0 = (0,0,1)`, `n1 = (0,3,4)`, `axis = (1,0,0)` the
derivative row of the signed angle is `(0,1,0, 0,-4/25,3/25, 0,0,0)`. -/
theorem signedAngle_folded_hasFDerivAt :
    HasFDerivAt (signedAngleOfInputs (fun y x => Complex.arg ⟨x, y⟩) Real.sqrt)
      ((ContinuousLinearMap.proj 1 : (Fin 9 → ℝ) →L[ℝ] ℝ) -
        (4 / 25 : ℝ) • (ContinuousLinearMap.proj 4 : (Fin 9 → ℝ) →L[ℝ] ℝ) +
        (3 / 25 : ℝ) • (ContinuousLinearMap.proj 5 : (Fin 9 → ℝ) →L[ℝ] ℝ))
      ![0, 0, 1, 0, 3, 4, 1, 0, 0] := by
  have p : ∀ i : Fin 9, HasFDerivAt (fun n : Fin 9 → ℝ => n i)
      (ContinuousLinearMap.proj i : (Fin 9 → ℝ) →L[ℝ] ℝ) ![0, 0, 1, 0, 3, 4, 1, 0, 0] :=
    fun i => hasFDerivAt_apply i _
  have e0 : (![0, 0, 1, 0, 3, 4, 1, 0, 0] : Fin 9 → ℝ) 0 = 0 := rfl
  have e1 : (![0, 0, 1, 0, 3, 4, 1, 0, 0] : Fin 9 → ℝ) 1 = 0 := rfl
  have e2 : (![0, 0, 1, 0, 3, 4, 1, 0, 0] : Fin 9 → ℝ) 2 = 1 := rfl
  have e3 : (![0, 0, 1, 0, 3, 4, 1, 0, 0] : Fin 9 → ℝ) 3 = 0 := rfl
  have e4 : (![0, 0, 1, 0, 3, 4, 1, 0, 0] : Fin 9 → ℝ) 4 = 3 := rfl
  have e5 : (![0, 0, 1, 0, 3, 4, 1, 0, 0] : Fin 9 → ℝ) 5 = 4 := rfl
  have e6 : (![0, 0, 1, 0, 3, 4, 1, 0, 0] : Fin 9 → ℝ) 6 = 1 := rfl
  have e7 : (![0, 0, 1, 0, 3, 4, 1, 0, 0] : Fin 9 → ℝ) 7 = 0 := rfl
  have e8 : (![0, 0, 1, 0, 3, 4, 1, 0, 0] : Fin 9 → ℝ) 8 = 0 := rfl
  have hU : HasFDerivAt (fun n : Fin 9 → ℝ => n 0 * n 3 + n 1 * n 4 + n 2 * n 5) _
      ![0, 0, 1, 0, 3, 4, 1, 0, 0] :=
    (((p 0).mul (p 3)).add ((p 1).mul (p 4))).add ((p 2).mul (p 5))
  have hV : HasFDerivAt (fun n : Fin 9 → ℝ => n 0 * n 0 + n 1 * n 1 + n 2 * n 2) _
      ![0, 0, 1, 0, 3, 4, 1, 0, 0] :=
    (((p 0).mul (p 0)).add ((p 1).mul (p 1))).add ((p 2).mul (p 2))
  have hW : HasFDerivAt (fun n : Fin 9 → ℝ => n 3 * n 3 + n 4 * n 4 + n 5 * n 5) _
      ![0, 0, 1, 0, 3, 4, 1, 0, 0] :=
    (((p 3).mul (p 3)).add ((p 4).mul (p 4))).add ((p 5).mul (p 5))
  have hQ : HasFDerivAt (fun n : Fin 9 → ℝ => n 6 * n 6 + n 7 * n 7 + n 8 * n 8) _
      ![0, 0, 1, 0, 3, 4, 1, 0, 0] :=
    (((p 6).mul (p 6)).add ((p 7).mul (p 7))).add ((p 8).mul (p 8))
  have hP : HasFDerivAt (fun n : Fin 9 → ℝ => (n 1 * n 5 - n 2 * n 4) * n 6 +
      (n 2 * n 3 - n 0 * n 5) * n 7 + (n 0 * n 4 - n 1 * n 3) * n 8) _
      ![0, 0, 1, 0, 3, 4, 1, 0, 0] :=
    (((((p 1).mul (p 5)).sub ((p 2).mul (p 4))).mul (p 6)).add
      ((((p 2).mul (p 3)).sub ((p 0).mul (p 5))).mul (p 7))).add
      ((((p 0).mul (p 4)).sub ((p 1).mul (p 3))).mul (p 8))
  have vV : (![0, 0, 1, 0, 3, 4, 1, 0, 0] : Fin 9 → ℝ) 0 * ![0, 0, 1, 0, 3, 4, 1, 0, 0] 0 +
      ![0, 0, 1, 0, 3, 4, 1, 0, 0] 1 * ![0, 0, 1, 0, 3, 4, 1, 0, 0] 1 +
      ![0, 0, 1, 0, 3, 4, 1, 0, 0] 2 * ![0, 0, 1, 0, 3, 4, 1, 0, 0] 2 = 1 := by
    rw [e0, e1, e2]
    norm_num
  have vW : (![0, 0, 1, 0, 3, 4, 1, 0, 0] : Fin 9 → ℝ) 3 * ![0, 0, 1, 0, 3, 4, 1, 0, 0] 3 +
      ![0, 0, 1, 0, 3, 4, 1, 0, 0] 4 * ![0, 0, 1, 0, 3, 4, 1, 0, 0] 4 +
      ![0, 0, 1, 0, 3, 4, 1, 0, 0] 5 * ![0, 0, 1, 0, 3, 4, 1, 0, 0] 5 = 25 := by
    rw [e3, e4, e5]
    norm_num
  have vQ : (![0, 0, 1, 0, 3, 4, 1, 0, 0] : Fin 9 → ℝ) 6 * ![0, 0, 1, 0, 3, 4, 1, 0, 0] 6 +
      ![0, 0, 1, 0, 3, 4, 1, 0, 0] 7 * ![0, 0, 1, 0, 3, 4, 1, 0, 0] 7 +
      ![0, 0, 1, 0, 3, 4, 1, 0, 0] 8 * ![0, 0, 1, 0, 3, 4, 1, 0, 0] 8 = 1 := by
    rw [e6, e7, e8]
    norm_num
  have hsV := hV.sqrt (by rw [vV]; norm_num)
  have hsW := hW.sqrt (by rw [vW]; norm_num)
  have hsQ := hQ.sqrt (by rw [vQ]; norm_num)
  have hiQ := (hasDerivAt_inv (by rw [vQ, Real.sqrt_one]; norm_num)).comp_hasFDerivAt _ hsQ
  have hc := hU.add (hsV.mul hsW)
  have hs := hP.mul hiQ
  have hA := (hasFDerivAt_arg_pair _ _ _ _ _ hc hs (Or.inl (by
    simp only [e0, e1, e2, e3, e4, e5]
    norm_num [sqrt_twenty_five]))).const_mul 2
  have e : signedAngleOfInputs (fun y x => Complex.arg ⟨x, y⟩) Real.sqrt =
      fun n : Fin 9 → ℝ => 2 * Complex.arg ⟨n 0 * n 3 + n 1 * n 4 + n 2 * n 5 +
        Real.sqrt (n 0 * n 0 + n 1 * n 1 + n 2 * n 2) *
          Real.sqrt (n 3 * n 3 + n 4 * n 4 + n 5 * n 5),
        ((n 1 * n 5 - n 2 * n 4) * n 6 + (n 2 * n 3 - n 0 * n 5) * n 7 +
          (n 0 * n 4 - n 1 * n 3) * n 8) *
          ((fun y => y⁻¹) ∘ fun n : Fin 9 → ℝ =>
            Real.sqrt (n 6 * n 6 + n 7 * n 7 + n 8 * n 8)) n⟩ := by
    funext n
    simp only [signedAngleOfInputs, signedAngle, div_eq_mul_inv, Function.comp_apply]
    rfl
  rw [e]
  refine hA.congr_fderiv ?_
  ext δ
  simp only [ContinuousLinearMap.add_apply, ContinuousLinearMap.sub_apply,
    ContinuousLinearMap.smul_apply, ContinuousLinearMap.proj_apply, smul_eq_mul,
    Function.comp_apply, e0, e1, e2, e3, e4, e5, e6, e7, e8]
  norm_num [sqrt_twenty_five]
  ring

/-- The arguments that `edgeTheta` passes to `angle` at the folded
configuration `q0 = (0,0,0)`, `q1 = (1,0,0)`, `q2 = (0,1,0)`, `q3 = (0,-4,3)`. -/
theorem edgeNormals_folded :
    edgeNormals (![0, 0, 0, 1, 0, 0, 0, 1, 0, 0, -4, 3] : Fin 12 → ℝ) =
      ![0, 0, 1, 0, 3, 4, 1, 0, 0] ∧
    cross ((![0, 0, 0] : Vector3d ℝ) - ![0, 1, 0]) (![1, 0, 0] - ![0, 1, 0]) = ![0, 0, 1] ∧
    cross ((![1, 0, 0] : Vector3d ℝ) - ![0, -4, 3]) (![0, 0, 0] - ![0, -4, 3]) = ![0, 3, 4] ∧
    (![1, 0, 0] : Vector3d ℝ) - ![0, 0, 0] = ![1, 0, 0] := by
  have c0 : cross ((![0, 0, 0] : Vector3d ℝ) - ![0, 1, 0]) (![1, 0, 0] - ![0, 1, 0]) =
      ![0, 0, 1] := by
    funext k
    fin_cases k <;> simp [cross]
  have c1 : cross ((![1, 0, 0] : Vector3d ℝ) - ![0, -4, 3]) (![0, 0, 0] - ![0, -4, 3]) =
      ![0, 3, 4] := by
    funext k
    fin_cases k <;> norm_num [cross]
  have c2 : (![1, 0, 0] : Vector3d ℝ) - ![0, 0, 0] = ![1, 0, 0] := by
    funext k
    fin_cases k <;> simp
  refine ⟨?_, c0, c1, c2⟩
  funext k
  fin_cases k
  · exact congrFun c0 0
  · exact congrFun c0 1
  · exact congrFun c0 2
  · exact congrFun c1 0
  · exact congrFun c1 1
  · exact congrFun c1 2
  · exact congrFun c2 0
  · exact congrFun c2 1
  · exact congrFun c2 2

/-- The row `(0,1,0, 0,-4/25,3/25, 0,0,0)` is the derivative of the signed
angle with respect to its 9 scalar inputs at the arguments of the folded
configuration. -/
theorem signedAngle_folded_row :
    HasFDerivAt (signedAngleOfInputs (fun y x => Complex.arg ⟨x, y⟩) Real.sqrt)
      (∑ k : Fin 9, (!![0, 1, 0, 0, -4 / 25, 3 / 25, 0, 0, 0] : Matrix (Fin 1) (Fin 9) ℝ) 0 k •
        (ContinuousLinearMap.proj k : (Fin 9 → ℝ) →L[ℝ] ℝ))
      ![0, 0, 1, 0, 3, 4, 1, 0, 0] := by
  refine signedAngle_folded_hasFDerivAt.congr_fderiv ?_
  rw [sum_univ_nine]
  have r0 : (!![0, 1, 0, 0, -4 / 25, 3 / 25, 0, 0, 0] : Matrix (Fin 1) (Fin 9) ℝ) 0 0 = 0 := rfl
  have r1 : (!![0, 1, 0, 0, -4 / 25, 3 / 25, 0, 0, 0] : Matrix (Fin 1) (Fin 9) ℝ) 0 1 = 1 := rfl
  have r2 : (!![0, 1, 0, 0, -4 / 25, 3 / 25, 0, 0, 0] : Matrix (Fin 1) (Fin 9) ℝ) 0 2 = 0 := rfl
  have r3 : (!![0, 1, 0, 0, -4 / 25, 3 / 25, 0, 0, 0] : Matrix (Fin 1) (Fin 9) ℝ) 0 3 = 0 := rfl
  have r4 : (!![0, 1, 0, 0, -4 / 25, 3 / 25, 0, 0, 0] : Matrix (Fin 1) (Fin 9) ℝ) 0 4 =
      -4 / 25 := rfl
  have r5 : (!![0, 1, 0, 0, -4 / 25, 3 / 25, 0, 0, 0] : Matrix (Fin 1) (Fin 9) ℝ) 0 5 =
      3 / 25 := rfl
  have r6 : (!![0, 1, 0, 0, -4 / 25, 3 / 25, 0, 0, 0] : Matrix (Fin 1) (Fin 9) ℝ) 0 6 = 0 := rfl
  have r7 : (!![0, 1, 0, 0, -4 / 25, 3 / 25, 0, 0, 0] : Matrix (Fin 1) (Fin 9) ℝ) 0 7 = 0 := rfl
  have r8 : (!![0, 1, 0, 0, -4 / 25, 3 / 25, 0, 0, 0] : Matrix (Fin 1) (Fin 9) ℝ) 0 8 = 0 := rfl
  rw [r0, r1, r2, r3, r4, r5, r6, r7, r8]
  ext δ
  simp
  ring

end SignedAngleFolded

section SignedAngleSecond

end SignedAngleSecond

section EdgeThetaExact

theorem edgeNormals_perpendicular {R : Type} [Field R] (q0 q1 q2 q3 : Vector3d R) :
    dot (cross (q0 - q2) (q1 - q2)) (q1 - q0) = 0 ∧
      dot (cross (q1 - q3) (q0 - q3)) (q1 - q0) = 0 := by
  constructor
  · simp only [dot, cross, Matrix.cons_val_zero, Matrix.cons_val_one, Matrix.head_cons,
      Matrix.cons_val_two, Matrix.tail_cons, Pi.sub_apply]
    ring
  · simp only [dot, cross, Matrix.cons_val_zero, Matrix.cons_val_one, Matrix.head_cons,
      Matrix.cons_val_two, Matrix.tail_cons, Pi.sub_apply]
    ring

/-- The four blocks of the chain-rule derivative at the folded configuration
`q0 = (0,0,0)`, `q1 = (1,0,0)`, `q2 = (0,1,0)`, `q3 = (0,-4,3)` for the row
`(0,1,0, 0,-4/25,3/25, 0,0,0)`. -/
theorem folded_derivative_blocks :
    block (!![0, 1, 0, 0, -4 / 25, 3 / 25, 0, 0, 0] : Matrix (Fin 1) (Fin 9) ℝ) 0 0 1 3 *
        crossMatrix ((![0, 1, 0] : Vector3d ℝ) - ![1, 0, 0]) +
      block (!![0, 1, 0, 0, -4 / 25, 3 / 25, 0, 0, 0] : Matrix (Fin 1) (Fin 9) ℝ) 0 3 1 3 *
        crossMatrix ((![1, 0, 0] : Vector3d ℝ) - ![0, -4, 3]) =
      (!![0, 3 / 25, 29 / 25] : Matrix (Fin 1) (Fin 3) ℝ) ∧
    block (!![0, 1, 0, 0, -4 / 25, 3 / 25, 0, 0, 0] : Matrix (Fin 1) (Fin 9) ℝ) 0 0 1 3 *
        crossMatrix ((![0, 0, 0] : Vector3d ℝ) - ![0, 1, 0]) +
      block (!![0, 1, 0, 0, -4 / 25, 3 / 25, 0, 0, 0] : Matrix (Fin 1) (Fin 9) ℝ) 0 3 1 3 *
        crossMatrix ((![0, -4, 3] : Vector3d ℝ) - ![0, 0, 0]) =
      (!![0, 0, 0] : Matrix (Fin 1) (Fin 3) ℝ) ∧
    block (!![0, 1, 0, 0, -4 / 25, 3 / 25, 0, 0, 0] : Matrix (Fin 1) (Fin 9) ℝ) 0 0 1 3 *
        crossMatrix ((![1, 0, 0] : Vector3d ℝ) - ![0, 0, 0]) =
      (!![0, 0, -1] : Matrix (Fin 1) (Fin 3) ℝ) ∧
    block (!![0, 1, 0, 0, -4 / 25, 3 / 25, 0, 0, 0] : Matrix (Fin 1) (Fin 9) ℝ) 0 3 1 3 *
        crossMatrix ((![0, 0, 0] : Vector3d ℝ) - ![1, 0, 0]) =
      (!![0, -3 / 25, -4 / 25] : Matrix (Fin 1) (Fin 3) ℝ) := by
  have b0 : block (!![0, 1, 0, 0, -4 / 25, 3 / 25, 0, 0, 0] : Matrix (Fin 1) (Fin 9) ℝ) 0 0 1 3 =
      !![0, 1, 0] := by
    ext i j
    fin_cases i
    fin_cases j <;> rfl
  have b3 : block (!![0, 1, 0, 0, -4 / 25, 3 / 25, 0, 0, 0] : Matrix (Fin 1) (Fin 9) ℝ) 0 3 1 3 =
      !![0, -4 / 25, 3 / 25] := by
    ext i j
    fin_cases i
    fin_cases j <;> rfl
  rw [b0, b3]
  refine ⟨?_, ?_, ?_, ?_⟩
  · ext i j
    fin_cases i
    fin_cases j <;> norm_num [crossMatrix, Matrix.mul_apply, Fin.sum_univ_three]
  · ext i j
    fin_cases i
    fin_cases j <;> norm_num [crossMatrix, Matrix.mul_apply, Fin.sum_univ_three]
  · ext i j
    fin_cases i
    fin_cases j <;> simp [crossMatrix, Matrix.mul_apply, Fin.sum_univ_three]
  · ext i j
    fin_cases i
    fin_cases j <;> norm_num [crossMatrix, Matrix.mul_apply, Fin.sum_univ_three]

end EdgeThetaExact

section PlainAngleSecond

end PlainAngleSecond

/-! ## The claims -/

/-- Claim C1: when the reads of `secondFundamentalFormEntries` succeed (the
value `theta i` of `edgeTheta` on the edge `faceEdge(f, i)`, the angle DOF
`edgeDOFs[3e]` and the magnitude DOF `edgeDOFs[3e + faceEdgeOrientation(f, i) + 1]`),
the function returns, whatever slots are requested, and its `i`-th entry is
`2 * h_i * tan(alpha_i) * m_i` with `h_i = triangleAltitude(mesh, pos, f, i)`,
`alpha_i = 0.5 * theta_i + s * edgeDOFs[3e]`, `s = +1` when the orientation is
0 and `-1` otherwise, and `m_i` the magnitude DOF. -/
theorem entries_formula {R : Type} [Field R] (tan cos : R → R) (G : GeometryDerivatives R)
    (mesh : MeshConnectivity) (curPos : MatrixX3d R) (edgeDOFs : VectorXd R) (face : Int)
    (derivative hessian : Bool) (theta angleDOF vec_norm : Fin 3 → R)
    (htheta : ∀ i : Fin 3, (edgeTheta G mesh curPos (mesh.faceEdge face i.val) false false).map
      (fun r => r.value) = some (theta i))
    (hangle : ∀ i : Fin 3, coeffAt edgeDOFs (3 * mesh.faceEdge face i.val) = some (angleDOF i))
    (hnorm : ∀ i : Fin 3, coeffAt edgeDOFs
      (3 * mesh.faceEdge face i.val + (mesh.faceEdgeOrientation face i.val).val + 1) =
        some (vec_norm i)) :
    ∃ r, secondFundamentalFormEntries tan cos G mesh curPos edgeDOFs face derivative hessian =
        some r ∧
      ∀ i : Fin 3, r.value i =
        2 * G.triangleAltitude mesh curPos face i.val *
          tan (0.5 * theta i +
            (if mesh.faceEdgeOrientation face i.val = 0 then 1 else -1) * angleDOF i) *
          vec_norm i :=
  entries_value_of_reads tan cos G mesh curPos edgeDOFs face derivative hessian theta angleDOF
    vec_norm htheta hangle hnorm

/-- Witness of C1: the isolated triangle with the director of edge 0 tilted by
`π / 4`; every edge is a boundary edge, so `theta` is 0 on the three edges. -/
theorem entries_formula_witness :
    ∃ r, secondFundamentalFormEntries Real.tan Real.cos (boundaryGeometry Real.sqrt)
        isolatedTriangle [![0, 0, 0], ![1, 0, 0], ![0, 1, 0]]
        [Real.pi / 4, 1, 1, 0, 1, 1, 0, 1, 1] 0 false false = some r ∧
      ∀ i : Fin 3, r.value i =
        2 * (boundaryGeometry Real.sqrt).triangleAltitude isolatedTriangle
            [![0, 0, 0], ![1, 0, 0], ![0, 1, 0]] 0 i.val *
          Real.tan (0.5 * (fun _ => (0 : ℝ)) i +
            (if isolatedTriangle.faceEdgeOrientation 0 i.val = 0 then 1 else -1) *
              (![0, 0, Real.pi / 4] : Fin 3 → ℝ) i) *
          (![1, 1, 1] : Fin 3 → ℝ) i :=
  entries_formula Real.tan Real.cos (boundaryGeometry Real.sqrt) isolatedTriangle
    [![0, 0, 0], ![1, 0, 0], ![0, 1, 0]] [Real.pi / 4, 1, 1, 0, 1, 1, 0, 1, 1] 0 false false
    (fun _ => 0) ![0, 0, Real.pi / 4] ![1, 1, 1]
    (fun i => by rw [edgeTheta_of_boundary _ _ _ _ _ _ (isolatedTriangle_boundary _)]; rfl)
    (fun i => by fin_cases i <;> simp [isolatedTriangle, coeffAt])
    (fun i => by fin_cases i <;> simp [isolatedTriangle, coeffAt])

/-- Claim C2: `secondFundamentalForm` returns exactly when
`secondFundamentalFormEntries` does, and then its value is the 2x2 matrix with
entry (0,0) = II0 + II1, entries (0,1) = (1,0) = II0 and entry (1,1) = II0 + II2,
where II0, II1, II2 are the three entries of the face; every returned matrix is
symmetric. -/
theorem form_value_table {R : Type} [Field R] (tan cos : R → R) (G : GeometryDerivatives R)
    (mesh : MeshConnectivity) (curPos : MatrixX3d R) (extraDOFs : VectorXd R) (face : Int)
    (derivative hessian : Bool) :
    (secondFundamentalForm tan cos G mesh curPos extraDOFs face derivative hessian).map
        (fun r => r.value) =
      (secondFundamentalFormEntries tan cos G mesh curPos extraDOFs face derivative hessian).map
        (fun e => !![e.value 0 + e.value 1, e.value 0; e.value 0, e.value 0 + e.value 2]) ∧
    ∀ r, secondFundamentalForm tan cos G mesh curPos extraDOFs face derivative hessian = some r →
      r.value.transpose = r.value := by
  unfold secondFundamentalForm
  cases hE : secondFundamentalFormEntries tan cos G mesh curPos extraDOFs face derivative hessian with
  | none => simp
  | some e =>
    refine ⟨by simp [formValue], ?_⟩
    intro r hr
    simp only [Option.bind_eq_bind, Option.some_bind, Option.pure_def, Option.some.injEq] at hr
    subst hr
    ext i j
    fin_cases i <;> fin_cases j <;> simp [formValue]

/-- Claim C3: whenever `secondFundamentalFormEntries` returns, so does
`secondFundamentalForm`, and its derivative rows and Hessians are combined from
`IIderiv` and `IIhess` by the table of the value: row 0 = IIderiv row 0 +
IIderiv row 1, rows 1 and 2 = IIderiv row 0, row 3 = IIderiv row 0 + IIderiv
row 2, and likewise for the Hessians.  Hence, if the rows of `IIderiv` are the
derivatives of three functions `F · k` of the 27 local variables, row `q` is the
derivative of the `q`-th flattened entry of the matrix built from `F`, and the
sum of the rows 0, 1, 3 is the derivative of b(0,0) + b(0,1) + b(1,1); if the
matrices `IIhess k` are the derivatives of the rows `k` of a field `D` of
3x27 derivatives, `hessian[q]` is the derivative of the combined row `q`.  A
slot is filled exactly when it is requested. -/
theorem form_derivative_table (tan cos : ℝ → ℝ) (G : GeometryDerivatives ℝ)
    (mesh : MeshConnectivity) (curPos : MatrixX3d ℝ) (extraDOFs : VectorXd ℝ) (face : Int)
    (derivative hessian : Bool) (e : EntriesEval ℝ)
    (hE : secondFundamentalFormEntries tan cos G mesh curPos extraDOFs face derivative hessian =
      some e) :
    ∃ r, secondFundamentalForm tan cos G mesh curPos extraDOFs face derivative hessian = some r ∧
      r.derivative.isSome = derivative ∧ r.hessian.isSome = hessian ∧
      (∀ IIderiv, e.derivative = some IIderiv → ∃ D, r.derivative = some D ∧
        D 0 = IIderiv 0 + IIderiv 1 ∧ D 1 = IIderiv 0 ∧ D 2 = IIderiv 0 ∧
        D 3 = IIderiv 0 + IIderiv 2 ∧
        ∀ (F : (Fin 27 → ℝ) → Vector3d ℝ) (x : Fin 27 → ℝ),
          (∀ k : Fin 3, HasFDerivAt (fun y => F y k)
            (∑ j : Fin 27, IIderiv k j • (ContinuousLinearMap.proj j : (Fin 27 → ℝ) →L[ℝ] ℝ))
            x) →
          (∀ q : Fin 4, HasFDerivAt
            (fun y => ![formValue (F y) 0 0, formValue (F y) 0 1, formValue (F y) 1 0,
              formValue (F y) 1 1] q)
            (∑ j : Fin 27, D q j • (ContinuousLinearMap.proj j : (Fin 27 → ℝ) →L[ℝ] ℝ)) x) ∧
          HasFDerivAt
            (fun y => formValue (F y) 0 0 + formValue (F y) 0 1 + formValue (F y) 1 1)
            (∑ j : Fin 27, (D 0 j + D 1 j + D 3 j) •
              (ContinuousLinearMap.proj j : (Fin 27 → ℝ) →L[ℝ] ℝ)) x) ∧
      (∀ IIhess, e.hessian = some IIhess → ∃ H, r.hessian = some H ∧
        H 0 = IIhess 0 + IIhess 1 ∧ H 1 = IIhess 0 ∧ H 2 = IIhess 0 ∧
        H 3 = IIhess 0 + IIhess 2 ∧
        ∀ (D : (Fin 27 → ℝ) → Matrix (Fin 3) (Fin 27) ℝ) (x : Fin 27 → ℝ),
          (∀ k : Fin 3, HasFDerivAt (fun y => D y k)
            (LinearMap.toContinuousLinearMap (Matrix.toLin' (IIhess k))) x) →
          ∀ q : Fin 4, HasFDerivAt (fun y => formDerivative 0 (D y) q)
            (LinearMap.toContinuousLinearMap (Matrix.toLin' (H q))) x) := by
  obtain ⟨r, hr, -, hrd, hrh⟩ := form_of_entries tan cos G mesh curPos extraDOFs face
    derivative hessian e hE
  obtain ⟨hd, hh⟩ := entries_slots tan cos G mesh curPos extraDOFs face derivative hessian e hE
  refine ⟨r, hr, ?_, ?_, ?_, ?_⟩
  · rw [hrd, ← hd]; cases e.derivative <;> rfl
  · rw [hrh, ← hh]; cases e.hessian <;> rfl
  · intro IIderiv hI
    rw [hI, Option.map_some'] at hrd
    refine ⟨_, hrd, ?_, ?_, ?_, ?_, ?_⟩
    · rw [formDerivative_zero]; rfl
    · rw [formDerivative_zero]; rfl
    · rw [formDerivative_zero]; rfl
    · rw [formDerivative_zero]; rfl
    · intro F x hF
      exact ⟨formValue_hasFDerivAt F x IIderiv hF, formValue_sum_hasFDerivAt F x IIderiv hF⟩
  · intro IIhess hI
    rw [hI, Option.map_some'] at hrh
    refine ⟨_, hrh, ?_, ?_, ?_, ?_, ?_⟩
    · rw [formHessian_zero]; rfl
    · rw [formHessian_zero]; rfl
    · rw [formHessian_zero]; rfl
    · rw [formHessian_zero]; rfl
    · intro D x hD
      exact formDerivative_hasFDerivAt D x IIhess hD

/-- Witness of C3: the isolated triangle, both slots requested. -/
theorem form_derivative_table_witness :
    ∃ e r, secondFundamentalFormEntries Real.tan Real.cos (boundaryGeometry Real.sqrt)
        isolatedTriangle [![0, 0, 0], ![1, 0, 0], ![0, 1, 0]]
        [Real.pi / 4, 1, 1, 0, 1, 1, 0, 1, 1] 0 true true = some e ∧
      secondFundamentalForm Real.tan Real.cos (boundaryGeometry Real.sqrt)
        isolatedTriangle [![0, 0, 0], ![1, 0, 0], ![0, 1, 0]]
        [Real.pi / 4, 1, 1, 0, 1, 1, 0, 1, 1] 0 true true = some r ∧
      r.derivative.isSome = true ∧ r.hessian.isSome = true := by
  obtain ⟨e, hE, -⟩ := entries_value_of_reads Real.tan Real.cos (boundaryGeometry Real.sqrt)
    isolatedTriangle [![0, 0, 0], ![1, 0, 0], ![0, 1, 0]] [Real.pi / 4, 1, 1, 0, 1, 1, 0, 1, 1]
    0 true true (fun _ => 0) ![0, 0, Real.pi / 4] ![1, 1, 1]
    (fun i => by rw [edgeTheta_of_boundary _ _ _ _ _ _ (isolatedTriangle_boundary _)]; rfl)
    (fun i => by fin_cases i <;> simp [isolatedTriangle, coeffAt])
    (fun i => by fin_cases i <;> simp [isolatedTriangle, coeffAt])
  obtain ⟨r, hr, hd, hh, -⟩ := form_derivative_table Real.tan Real.cos
    (boundaryGeometry Real.sqrt) isolatedTriangle [![0, 0, 0], ![1, 0, 0], ![0, 1, 0]]
    [Real.pi / 4, 1, 1, 0, 1, 1, 0, 1, 1] 0 true true e hE
  exact ⟨e, r, hE, hr, hd, hh⟩

/-- Claim C4: for every mesh and every position matrix, `initializeExtraDOFs`
produces a vector of length exactly `3 * nEdges` in which, for every edge `i`,
entry `3i` is 0 and entries `3i + 1` and `3i + 2` are 1; the result does not
depend on the positions. -/
theorem initializeExtraDOFs_spec {R : Type} [Field R] (mesh : MeshConnectivity)
    (curPos : MatrixX3d R) :
    (initializeExtraDOFs mesh curPos).length = 3 * mesh.nEdges ∧
    (∀ i, i < mesh.nEdges →
      (initializeExtraDOFs mesh curPos)[3 * i]? = some 0 ∧
      (initializeExtraDOFs mesh curPos)[3 * i + 1]? = some 1 ∧
      (initializeExtraDOFs mesh curPos)[3 * i + 2]? = some 1) ∧
    ∀ otherPos : MatrixX3d R,
      initializeExtraDOFs mesh otherPos = initializeExtraDOFs mesh curPos :=
  ⟨(initializeExtraDOFs_entries mesh curPos).1, (initializeExtraDOFs_entries mesh curPos).2,
    fun _ => rfl⟩

/-- Claim C5: on an edge with `edgeOppositeVertex(edge, 0) = -1` or
`edgeOppositeVertex(edge, 1) = -1`, `edgeTheta` returns 0, an all-zero 1x12
derivative when requested and an all-zero 12x12 Hessian when requested, for
every position matrix; the result is the one obtained on the empty position
matrix, on which every read of a row fails. -/
theorem edgeTheta_boundary_zero {R : Type} [Field R] (G : GeometryDerivatives R)
    (mesh : MeshConnectivity) (edge : Int) (derivative hessian : Bool)
    (hb : mesh.edgeOppositeVertex edge 0 = -1 ∨ mesh.edgeOppositeVertex edge 1 = -1) :
    ∀ curPos : MatrixX3d R,
      edgeTheta G mesh curPos edge derivative hessian =
        some ⟨0, if derivative then some (fun _ _ => 0) else none,
          if hessian then some (fun _ _ => 0) else none⟩ ∧
      edgeTheta G mesh curPos edge derivative hessian =
        edgeTheta G mesh [] edge derivative hessian := by
  intro curPos
  rw [edgeTheta_of_boundary G mesh curPos edge derivative hessian hb,
    edgeTheta_of_boundary G mesh [] edge derivative hessian hb]
  exact ⟨rfl, rfl⟩

/-- Witness of C5: edge 0 of the isolated triangle, both slots requested. -/
theorem edgeTheta_boundary_zero_witness :
    (isolatedTriangle.edgeOppositeVertex 0 0 = -1 ∨
      isolatedTriangle.edgeOppositeVertex 0 1 = -1) ∧
    ∀ curPos : MatrixX3d ℚ,
      edgeTheta (boundaryGeometry id) isolatedTriangle curPos 0 true true =
        some ⟨0, if true then some (fun _ _ => 0) else none,
          if true then some (fun _ _ => 0) else none⟩ ∧
      edgeTheta (boundaryGeometry id) isolatedTriangle curPos 0 true true =
        edgeTheta (boundaryGeometry id) isolatedTriangle [] 0 true true :=
  ⟨by decide, edgeTheta_boundary_zero (boundaryGeometry id) isolatedTriangle 0 true true
    (by decide)⟩

/-- Counterexample to C6 as stated: the isolated triangle with vertices
(0,0,0), (1,0,0), (0,1,0), every edge of which has a missing opposite vertex.
With the edge-DOF vector (π/4, 1, 1, 0, 1, 1, 0, 1, 1), the director of edge 0
(opposite vertex 2, altitude 1) is tilted by `π / 4`, and the second
fundamental form of the face is `[[0, 0], [0, 2]]`, not the zero matrix. -/
theorem isolated_triangle_nonzero :
    (∀ e : Int, isolatedTriangle.edgeOppositeVertex e 0 = -1 ∨
      isolatedTriangle.edgeOppositeVertex e 1 = -1) ∧
    (secondFundamentalForm Real.tan Real.cos (boundaryGeometry Real.sqrt) isolatedTriangle
      [![0, 0, 0], ![1, 0, 0], ![0, 1, 0]] [Real.pi / 4, 1, 1, 0, 1, 1, 0, 1, 1] 0 false
        false).map (fun r => r.value) = some !![0, 0; 0, 2] ∧
    (!![0, 0; 0, 2] : Matrix (Fin 2) (Fin 2) ℝ) ≠ 0 := by
  refine ⟨fun e => isolatedTriangle_boundary e, ?_, ?_⟩
  · obtain ⟨r, hr, hv⟩ := boundary_face_value (boundaryGeometry Real.sqrt)
      isolatedTriangle [![0, 0, 0], ![1, 0, 0], ![0, 1, 0]] [Real.pi / 4, 1, 1, 0, 1, 1, 0, 1, 1]
      0 false false ![0, 0, Real.pi / 4] ![1, 1, 1]
      (fun i => isolatedTriangle_boundary _)
      (fun i => by fin_cases i <;> simp [isolatedTriangle, coeffAt])
      (fun i => by fin_cases i <;> simp [isolatedTriangle, coeffAt])
    rw [hr, Option.map_some', hv]
    congr 1
    ext i j
    fin_cases i <;> fin_cases j <;>
      simp [formValue, boundaryGeometry, triangleAltitudeSpec, isolatedTriangle, rowAt, cross]
  · intro h
    have := congrFun (congrFun h 1) 1
    simp at this

/-- Claim C6, amended: on a face whose three edges are boundary edges, for
every position matrix and every edge-DOF vector holding the DOFs of these
edges, `secondFundamentalForm` returns the matrix built from the entries
`2 * h_i * tan(s_i * edgeDOFs[3 e_i]) * m_i`; it is the zero matrix if and
only if `h_i * tan(s_i * edgeDOFs[3 e_i]) * m_i = 0` for the three edges, in
particular when the three angle DOFs are 0, and then the bending energy built
from it with a zero rest second fundamental form is zero. -/
theorem boundary_face_form (G : GeometryDerivatives ℝ) (mesh : MeshConnectivity)
    (curPos : MatrixX3d ℝ) (edgeDOFs : VectorXd ℝ) (face : Int) (derivative hessian : Bool)
    (angleDOF vec_norm : Fin 3 → ℝ)
    (hb : ∀ i : Fin 3, mesh.edgeOppositeVertex (mesh.faceEdge face i.val) 0 = -1 ∨
      mesh.edgeOppositeVertex (mesh.faceEdge face i.val) 1 = -1)
    (hangle : ∀ i : Fin 3, coeffAt edgeDOFs (3 * mesh.faceEdge face i.val) = some (angleDOF i))
    (hnorm : ∀ i : Fin 3, coeffAt edgeDOFs
      (3 * mesh.faceEdge face i.val + (mesh.faceEdgeOrientation face i.val).val + 1) =
        some (vec_norm i)) :
    ∃ r, secondFundamentalForm Real.tan Real.cos G mesh curPos edgeDOFs face derivative hessian =
        some r ∧
      r.value = formValue (fun i => 2 * G.triangleAltitude mesh curPos face i.val *
        Real.tan ((if mesh.faceEdgeOrientation face i.val = 0 then 1 else -1) * angleDOF i) *
        vec_norm i) ∧
      (r.value = 0 ↔ ∀ i : Fin 3, G.triangleAltitude mesh curPos face i.val *
        Real.tan ((if mesh.faceEdgeOrientation face i.val = 0 then 1 else -1) * angleDOF i) *
        vec_norm i = 0) ∧
      ((∀ i, angleDOF i = 0) → r.value = 0 ∧
        ∀ (sqrt : ℝ → ℝ) (thickness lameAlpha lameBeta : ℝ) (abar : Matrix (Fin 2) (Fin 2) ℝ),
          stvkBendingEnergy sqrt thickness lameAlpha lameBeta abar 0 r.value = 0) := by
  obtain ⟨r, hr, hrv⟩ := boundary_face_value G mesh curPos edgeDOFs face derivative hessian
    angleDOF vec_norm hb hangle hnorm
  have hiff : r.value = 0 ↔ ∀ i : Fin 3, G.triangleAltitude mesh curPos face i.val *
        Real.tan ((if mesh.faceEdgeOrientation face i.val = 0 then 1 else -1) * angleDOF i) *
        vec_norm i = 0 := by
    rw [hrv, formValue_eq_zero_iff]
    constructor
    · intro h i
      have := h i
      simp only at this
      linarith
    · intro h i
      have := h i
      linarith
  refine ⟨r, hr, hrv, hiff, ?_⟩
  intro h0
  have hz : r.value = 0 := by
    rw [hiff]
    intro i
    simp [h0 i]
  exact ⟨hz, fun sqrt t a b abar => by rw [hz]; exact stvkBendingEnergy_zero sqrt t a b abar⟩

/-- Witness of C6 amended: the isolated triangle with the edge DOFs of
`initializeExtraDOFs` (angle 0, magnitudes 1). -/
theorem boundary_face_form_witness :
    ∃ r, secondFundamentalForm Real.tan Real.cos (boundaryGeometry Real.sqrt) isolatedTriangle
        [![0, 0, 0], ![1, 0, 0], ![0, 1, 0]] [0, 1, 1, 0, 1, 1, 0, 1, 1] 0 true true = some r ∧
      r.value = 0 := by
  obtain ⟨r, hr, -, -, h0⟩ := boundary_face_form (boundaryGeometry Real.sqrt) isolatedTriangle
    [![0, 0, 0], ![1, 0, 0], ![0, 1, 0]] [0, 1, 1, 0, 1, 1, 0, 1, 1] 0 true true
    (fun _ => 0) (fun _ => 1)
    (fun i => isolatedTriangle_boundary _)
    (fun i => by fin_cases i <;> simp [isolatedTriangle, coeffAt])
    (fun i => by fin_cases i <;> simp [isolatedTriangle, coeffAt])
  exact ⟨r, hr, (h0 (fun _ => rfl)).1⟩

/-- Claim C7: if every edge of the face is an edge of the mesh, the edge-DOF
vector is the one produced by `initializeExtraDOFs` and `edgeTheta` is 0 on
each of the three edges of the face, then `secondFundamentalForm` returns the
zero 2x2 matrix, whatever the triangle altitudes and the requested slots are. -/
theorem initial_flat_form_zero (G : GeometryDerivatives ℝ) (mesh : MeshConnectivity)
    (curPos initPos : MatrixX3d ℝ) (face : Int) (derivative hessian : Bool)
    (hedge : ∀ i : Fin 3, 0 ≤ mesh.faceEdge face i.val ∧ mesh.faceEdge face i.val < mesh.nEdges)
    (htheta : ∀ i : Fin 3, (edgeTheta G mesh curPos (mesh.faceEdge face i.val) false false).map
      (fun r => r.value) = some 0) :
    ∃ r, secondFundamentalForm Real.tan Real.cos G mesh curPos (initializeExtraDOFs mesh initPos)
        face derivative hessian = some r ∧ r.value = 0 := by
  obtain ⟨e, hE, hv⟩ := entries_value_of_reads Real.tan Real.cos G mesh curPos
    (initializeExtraDOFs mesh initPos) face derivative hessian (fun _ => 0) (fun _ => 0)
    (fun _ => 1) htheta
    (fun i => (coeffAt_initializeExtraDOFs mesh initPos _ (hedge i) 0).1)
    (fun i => (coeffAt_initializeExtraDOFs mesh initPos _ (hedge i) _).2)
  obtain ⟨r, hr, hrv, -⟩ := form_of_entries Real.tan Real.cos G mesh curPos _
    face derivative hessian e hE
  refine ⟨r, hr, ?_⟩
  rw [hrv, formValue_eq_zero_iff]
  intro i
  rw [hv i]
  simp

/-- Witness of C7: the isolated triangle, whose three edges are boundary
edges, so that `edgeTheta` is 0 on each of them. -/
theorem initial_flat_form_zero_witness :
    ∃ r, secondFundamentalForm Real.tan Real.cos (boundaryGeometry Real.sqrt) isolatedTriangle
        [![0, 0, 0], ![1, 0, 0], ![0, 1, 0]]
        (initializeExtraDOFs isolatedTriangle ([] : MatrixX3d ℝ)) 0 true true = some r ∧
      r.value = 0 :=
  initial_flat_form_zero (boundaryGeometry Real.sqrt) isolatedTriangle
    [![0, 0, 0], ![1, 0, 0], ![0, 1, 0]] [] 0 true true
    (fun i => by fin_cases i <;> simp [isolatedTriangle])
    (fun i => by
      rw [edgeTheta_of_boundary _ _ _ _ _ _ (isolatedTriangle_boundary _)]; rfl)

/-- Claim C8: for every `n >= 1`, every `edge_area` of length `n`, every
`k >= 3` and every `edgeDOFs` of length `k * n`, `edgeDOFPenaltyEnergy` returns
the sum over the edges `i` of
`penaltyScale * edge_area[i] * ((edgeDOFs[k*i+1] - 1)^2 + (edgeDOFs[k*i+2] - 1)^2)`;
a vector of the same length that differs only at indices that are multiples of
`k` (among them the angle entries `k*i`) gives the same value. -/
theorem penalty_value_formula {R : Type} [Field R] (edgeDOFs edge_area : VectorXd R)
    (penaltyScale : R) (k n : Nat) (deriv hessian : Bool) (hn : 1 ≤ n) (hk : 3 ≤ k)
    (harea : edge_area.length = n) (hlen : edgeDOFs.length = k * n) :
    ∃ r, edgeDOFPenaltyEnergy edgeDOFs edge_area penaltyScale deriv hessian = some r ∧
      r.value = ∑ i ∈ Finset.range n, penaltyScale * edge_area.getD i 0 *
        ((edgeDOFs.getD (k * i + 1) 0 - 1) ^ 2 + (edgeDOFs.getD (k * i + 2) 0 - 1) ^ 2) ∧
      ∀ otherDOFs : VectorXd R, otherDOFs.length = k * n →
        (∀ j, j % k ≠ 0 → otherDOFs.getD j 0 = edgeDOFs.getD j 0) →
        (edgeDOFPenaltyEnergy otherDOFs edge_area penaltyScale deriv hessian).map
          (fun r' => r'.value) = some r.value := by
  rw [penalty_eq_fold edgeDOFs edge_area penaltyScale k n deriv hessian hn hk harea hlen]
  refine ⟨_, rfl, ?_, ?_⟩
  · dsimp only
    apply Finset.sum_congr rfl
    intro i _
    rw [Nat.mul_comm i k]
    ring
  · intro otherDOFs hlen' hagree
    rw [penalty_eq_fold otherDOFs edge_area penaltyScale k n deriv hessian hn hk harea hlen']
    simp only [Option.map_some', Option.some.injEq]
    apply Finset.sum_congr rfl
    intro i _
    have h1 := (index_div_mod k i 1 (by omega)).2
    have h2 := (index_div_mod k i 2 (by omega)).2
    rw [hagree (i * k + 1) (by omega), hagree (i * k + 2) (by omega)]

/-- Witness of C8: two edges of areas 1 and 2, three DOFs per edge. -/
theorem penalty_value_formula_witness :
    ∃ r, edgeDOFPenaltyEnergy ([0, 2, 3, 0, 1, 1 / 2] : VectorXd ℚ) [1, 2] 10 true true = some r ∧
      r.value = ∑ i ∈ Finset.range 2, 10 * ([1, 2] : VectorXd ℚ).getD i 0 *
        ((([0, 2, 3, 0, 1, 1 / 2] : VectorXd ℚ).getD (3 * i + 1) 0 - 1) ^ 2 +
          (([0, 2, 3, 0, 1, 1 / 2] : VectorXd ℚ).getD (3 * i + 2) 0 - 1) ^ 2) ∧
      ∀ otherDOFs : VectorXd ℚ, otherDOFs.length = 3 * 2 →
        (∀ j, j % 3 ≠ 0 → otherDOFs.getD j 0 = ([0, 2, 3, 0, 1, 1 / 2] : VectorXd ℚ).getD j 0) →
        (edgeDOFPenaltyEnergy otherDOFs [1, 2] 10 true true).map
          (fun r' => r'.value) = some r.value :=
  penalty_value_formula [0, 2, 3, 0, 1, 1 / 2] [1, 2] 10 3 2 true true (by decide) (by decide)
    rfl rfl

/-- Claim C9: for `n >= 1` edges and every `edgeDOFs` of length `3 * n`, the
derivative written by `edgeDOFPenaltyEnergy` has length `3 * n` with entry
`3i+1 = 2*(edgeDOFs[3i+1]-1)*penaltyScale*edge_area[i]`, entry
`3i+2 = 2*(edgeDOFs[3i+2]-1)*penaltyScale*edge_area[i]` and entry `3i = 0`, and
the Hessian triplet list consists exactly of the diagonal entries
`(3i+1, 3i+1)` and `(3i+2, 3i+2)` with value `2*penaltyScale*edge_area[i]`.
They are the exact gradient and Hessian of the returned penalty: the Fréchet
derivative of the value at `x` is `v ↦ Σ_j deriv[j] * v_j`, and the Fréchet
derivative of the gradient at `x` is the matrix assembled from the triplets. -/
theorem penalty_derivatives_exact (edge_area : VectorXd ℝ) (penaltyScale : ℝ) (n : Nat)
    (hn : 1 ≤ n) (harea : edge_area.length = n) :
    (∀ (edgeDOFs : VectorXd ℝ) (deriv hessian : Bool), edgeDOFs.length = 3 * n →
      ∃ r, edgeDOFPenaltyEnergy edgeDOFs edge_area penaltyScale deriv hessian = some r ∧
        (deriv = true → ∃ dv, r.derivative = some dv ∧ dv.length = 3 * n ∧
          ∀ i, i < n →
            dv.getD (3 * i) 0 = 0 ∧
            dv.getD (3 * i + 1) 0 =
              2 * (edgeDOFs.getD (3 * i + 1) 0 - 1) * penaltyScale * edge_area.getD i 0 ∧
            dv.getD (3 * i + 2) 0 =
              2 * (edgeDOFs.getD (3 * i + 2) 0 - 1) * penaltyScale * edge_area.getD i 0) ∧
        (hessian = true → r.hessian = some ((List.range n).flatMap (fun i =>
          [(⟨3 * i + 1, 3 * i + 1, 2 * penaltyScale * edge_area.getD i 0⟩ : Triplet ℝ),
           ⟨3 * i + 2, 3 * i + 2, 2 * penaltyScale * edge_area.getD i 0⟩])))) ∧
    (∀ x : Fin (3 * n) → ℝ,
      HasFDerivAt (fun y : Fin (3 * n) → ℝ => penaltyValue edge_area penaltyScale y)
        (∑ j : Fin (3 * n), penaltyGradient edge_area penaltyScale x j •
          (ContinuousLinearMap.proj j : (Fin (3 * n) → ℝ) →L[ℝ] ℝ)) x ∧
      HasFDerivAt (fun y : Fin (3 * n) → ℝ => penaltyGradient edge_area penaltyScale y)
        (LinearMap.toContinuousLinearMap
          (Matrix.toLin' (penaltyHessian edge_area penaltyScale x))) x) := by
  refine ⟨?_, fun x => ⟨penaltyValue_hasFDerivAt edge_area penaltyScale n hn harea x,
    penaltyGradient_hasFDerivAt edge_area penaltyScale n hn harea x⟩⟩
  intro edgeDOFs deriv hessian hlen
  rw [penalty_eq_fold edgeDOFs edge_area penaltyScale 3 n deriv hessian hn le_rfl harea hlen]
  refine ⟨_, rfl, ?_, ?_⟩
  · intro hd
    subst hd
    refine ⟨_, rfl, by simp, ?_⟩
    intro i hi
    have g : ∀ j, j < 3 * n → ((List.range (3 * n)).map (fun j =>
          if j / 3 < n ∧ (j % 3 = 1 ∨ j % 3 = 2) then
            2 * (edgeDOFs.getD j 0 - 1) * penaltyScale * edge_area.getD (j / 3) 0
          else 0)).getD j 0 = if j / 3 < n ∧ (j % 3 = 1 ∨ j % 3 = 2) then
            2 * (edgeDOFs.getD j 0 - 1) * penaltyScale * edge_area.getD (j / 3) 0
          else 0 := by
      intro j hj
      rw [List.getD_eq_getElem?_getD, List.getElem?_map, List.getElem?_range hj]
      rfl
    refine ⟨?_, ?_, ?_⟩
    · rw [g (3 * i) (by omega)]
      have : ¬ ((3 * i) % 3 = 1 ∨ (3 * i) % 3 = 2) := by omega
      simp [this]
    · rw [g (3 * i + 1) (by omega)]
      have h1 : (3 * i + 1) / 3 < n ∧ ((3 * i + 1) % 3 = 1 ∨ (3 * i + 1) % 3 = 2) := by omega
      have h2 : (3 * i + 1) / 3 = i := by omega
      rw [if_pos h1, h2]
    · rw [g (3 * i + 2) (by omega)]
      have h1 : (3 * i + 2) / 3 < n ∧ ((3 * i + 2) % 3 = 1 ∨ (3 * i + 2) % 3 = 2) := by omega
      have h2 : (3 * i + 2) / 3 = i := by omega
      rw [if_pos h1, h2]
  · intro hh
    subst hh
    simp only [if_true, Option.some.injEq]
    congr 1
    funext i
    rw [Nat.mul_comm i 3]

/-- Witness of C9: two edges of areas 1 and 2; the four triplets are
(1, 1, 20), (2, 2, 20), (4, 4, 40) and (5, 5, 40). -/
theorem penalty_derivatives_exact_witness :
    ∃ r, edgeDOFPenaltyEnergy ([0, 2, 3, 0, 1, 1 / 2] : VectorXd ℝ) [1, 2] 10 true true = some r ∧
      r.hessian = some [⟨1, 1, 20⟩, ⟨2, 2, 20⟩, ⟨4, 4, 40⟩, ⟨5, 5, 40⟩] := by
  obtain ⟨r, hr, -, hh⟩ := (penalty_derivatives_exact [1, 2] 10 2 (by decide) rfl).1
    [0, 2, 3, 0, 1, 1 / 2] true true rfl
  refine ⟨r, hr, ?_⟩
  rw [hh rfl]
  simp [List.range_succ, List.flatMap]
  norm_num

/-- Claim C10: for every `edge_area` of length `n >= 1` and every `edgeDOFs`
whose length is not a multiple of `n`, or is equal to `n`,
`edgeDOFPenaltyEnergy` returns 0 without failing, the derivative (when
requested) is the all-zero vector of length `edgeDOFs.size()` and the Hessian
triplet list (when requested) is empty. -/
theorem penalty_malformed_zero {R : Type} [Field R] (edgeDOFs edge_area : VectorXd R)
    (penaltyScale : R) (deriv hessian : Bool) (hn : 1 ≤ edge_area.length)
    (hlen : edgeDOFs.length % edge_area.length ≠ 0 ∨ edgeDOFs.length = edge_area.length) :
    edgeDOFPenaltyEnergy edgeDOFs edge_area penaltyScale deriv hessian =
      some ⟨0, if deriv then some (List.replicate edgeDOFs.length 0) else none,
        if hessian then some [] else none⟩ := by
  unfold edgeDOFPenaltyEnergy
  rcases hlen with h | h
  · have h0 : edge_area.length ≠ 0 := by omega
    by_cases h1 : edgeDOFs.length = edge_area.length
    · simp only [h1, if_true]
    · simp only [h1, h0, h, if_false, ne_eq, not_false_eq_true, if_true]
  · simp only [h, if_true]

/-- Witness of C10: five DOFs for two edges. -/
theorem penalty_malformed_zero_witness :
    1 ≤ ([1, 2] : VectorXd ℚ).length ∧
    (([0, 2, 3, 0, 1] : VectorXd ℚ).length % ([1, 2] : VectorXd ℚ).length ≠ 0 ∨
      ([0, 2, 3, 0, 1] : VectorXd ℚ).length = ([1, 2] : VectorXd ℚ).length) ∧
    edgeDOFPenaltyEnergy ([0, 2, 3, 0, 1] : VectorXd ℚ) [1, 2] 10 true true =
      some ⟨0, if true then some (List.replicate ([0, 2, 3, 0, 1] : VectorXd ℚ).length 0) else none,
        if true then some [] else none⟩ :=
  ⟨by decide, by decide, penalty_malformed_zero _ _ _ _ _ (by decide) (by decide)⟩

/-- Claim C11: when the three iterations of `secondFundamentalFormEntries` can
read (`edgeTheta` returns `theta`, `theta'` on the edge, the angle and the
magnitude DOF exist), the function returns and row `i` of the 3x27 derivative
is `2*tan(alpha)*m*h'` scattered to the slots `(i+j) mod 3`, plus
`h*m*theta'/cos²(alpha)` scattered to the slots `av`, plus
`2*h*m*s/cos²(alpha)` in column `18+3i` and `2*h*tan(alpha)` in column
`18+3i+orientation+1`, and 0 in every column that none of these reaches.  It
is the exact gradient of `II[i] = 2*h*tan(theta/2 + s*phi)*m` in the 27 local
variables: for every altitude function with derivative `h'`, every angle
function with derivative `theta'` and `cos(alpha) ≠ 0`, the Fréchet derivative
of `y ↦ 2 * H(y_hv) * tan(Theta(y_av)/2 + s*y[18+3i]) * y[18+3i+offset]` at a
point with these values is the row. -/
theorem entries_derivative_exact (G : GeometryDerivatives ℝ) (mesh : MeshConnectivity)
    (curPos : MatrixX3d ℝ) (edgeDOFs : VectorXd ℝ) (face : Int) (hessian : Bool)
    (th : Fin 3 → Eval ℝ (Matrix (Fin 1) (Fin 12) ℝ) (Matrix (Fin 12) (Fin 12) ℝ))
    (angleDOF vec_norm alpha orient : Fin 3 → ℝ)
    (htheta : ∀ i : Fin 3, edgeTheta G mesh curPos (mesh.faceEdge face i.val) true hessian =
      some (th i))
    (hangle : ∀ i : Fin 3, coeffAt edgeDOFs (3 * mesh.faceEdge face i.val) = some (angleDOF i))
    (hnorm : ∀ i : Fin 3, coeffAt edgeDOFs
      (3 * mesh.faceEdge face i.val + (mesh.faceEdgeOrientation face i.val).val + 1) =
        some (vec_norm i))
    (horient : ∀ i : Fin 3, orient i = if mesh.faceEdgeOrientation face i.val = 0 then 1 else -1)
    (halpha : ∀ i : Fin 3, alpha i = 0.5 * (th i).value + orient i * angleDOF i) :
    ∃ e D, secondFundamentalFormEntries Real.tan Real.cos G mesh curPos edgeDOFs face true hessian =
        some e ∧ e.derivative = some D ∧
      ∀ i : Fin 3,
        (∀ c : Fin 27, D i c =
          (∑ j : Fin 3, ∑ b : Fin 3, if 3 * altitudeSlots i.val j + b.val = c.val then
            2 * Real.tan (alpha i) *
              coord (G.triangleAltitudeDeriv mesh curPos face i.val 0) (3 * j.val + b.val) *
              vec_norm i else 0) +
          (∑ j : Fin 4, ∑ b : Fin 3,
            if 3 * thetaSlots i.val (mesh.faceEdgeOrientation face i.val) j + b.val = c.val then
              G.triangleAltitude mesh curPos face i.val / Real.cos (alpha i) / Real.cos (alpha i) *
                coord ((th i).derivative.getD 0 0) (3 * j.val + b.val) * vec_norm i
            else 0) +
          (if 18 + 3 * i.val = c.val then
            2 * G.triangleAltitude mesh curPos face i.val / Real.cos (alpha i) /
              Real.cos (alpha i) * orient i * vec_norm i else 0) +
          (if 18 + 3 * i.val + ((mesh.faceEdgeOrientation face i.val).val + 1) = c.val then
            2 * Real.tan (alpha i) * G.triangleAltitude mesh curPos face i.val else 0)) ∧
        (∀ c : Fin 27,
          (∀ (j : Fin 3) (b : Fin 3), 3 * altitudeSlots i.val j + b.val ≠ c.val) →
          (∀ (j : Fin 4) (b : Fin 3),
            3 * thetaSlots i.val (mesh.faceEdgeOrientation face i.val) j + b.val ≠ c.val) →
          18 + 3 * i.val ≠ c.val →
          18 + 3 * i.val + ((mesh.faceEdgeOrientation face i.val).val + 1) ≠ c.val →
          D i c = 0) ∧
        ∀ (Hfn : (Fin 9 → ℝ) → ℝ) (Tfn : (Fin 12 → ℝ) → ℝ) (x : Fin 27 → ℝ),
          Hfn (gatherH (altitudeSlots i.val) x) = G.triangleAltitude mesh curPos face i.val →
          Tfn (gatherA (thetaSlots i.val (mesh.faceEdgeOrientation face i.val)) x) =
            (th i).value →
          coord x (18 + 3 * i.val) = angleDOF i →
          coord x (18 + 3 * i.val + ((mesh.faceEdgeOrientation face i.val).val + 1)) =
            vec_norm i →
          HasFDerivAt Hfn
            (∑ p : Fin 9, G.triangleAltitudeDeriv mesh curPos face i.val 0 p •
              (ContinuousLinearMap.proj p : (Fin 9 → ℝ) →L[ℝ] ℝ))
            (gatherH (altitudeSlots i.val) x) →
          HasFDerivAt Tfn
            (∑ p : Fin 12, (th i).derivative.getD 0 0 p •
              (ContinuousLinearMap.proj p : (Fin 12 → ℝ) →L[ℝ] ℝ))
            (gatherA (thetaSlots i.val (mesh.faceEdgeOrientation face i.val)) x) →
          Real.cos (alpha i) ≠ 0 →
          HasFDerivAt (fun y : Fin 27 → ℝ => 2 * Hfn (gatherH (altitudeSlots i.val) y) *
              Real.tan (0.5 * Tfn (gatherA (thetaSlots i.val
                (mesh.faceEdgeOrientation face i.val)) y) + orient i * coord y (18 + 3 * i.val)) *
              coord y (18 + 3 * i.val + ((mesh.faceEdgeOrientation face i.val).val + 1)))
            (∑ c : Fin 27, D i c • (ContinuousLinearMap.proj c : (Fin 27 → ℝ) →L[ℝ] ℝ)) x := by
  obtain ⟨e, he, -, hd, -⟩ := entries_slots_of_reads Real.tan Real.cos G mesh curPos edgeDOFs
    face true hessian th angleDOF vec_norm alpha orient htheta hangle hnorm horient halpha
  obtain ⟨D, hD, hrow⟩ := hd rfl
  refine ⟨e, D, he, hD, fun i => ⟨fun c => ?_, fun c h1 h2 h3 h4 => ?_, ?_⟩⟩
  · rw [hrow i c]
    rfl
  · rw [hrow i c]
    unfold claimedEntryRow
    simp only [h1, h2, h3, h4, if_false, Finset.sum_const_zero, add_zero]
  · intro Hfn Tfn x hHx hTx hphi hm hH hT hcos
    have hrows : (fun c => D i c) = claimedEntryRow Real.tan Real.cos i.val (altitudeSlots i.val)
        (thetaSlots i.val (mesh.faceEdgeOrientation face i.val))
        (G.triangleAltitude mesh curPos face i.val) (alpha i) (orient i) (vec_norm i)
        ((mesh.faceEdgeOrientation face i.val).val + 1)
        (G.triangleAltitudeDeriv mesh curPos face i.val) ((th i).derivative.getD 0) :=
      funext (hrow i)
    have ha : alpha i = 0.5 * Tfn (gatherA (thetaSlots i.val
        (mesh.faceEdgeOrientation face i.val)) x) + orient i * coord x (18 + 3 * i.val) := by
      rw [halpha i, hTx, hphi]
    have key := claimedEntryRow_hasFDerivAt i.val (altitudeSlots i.val)
      (thetaSlots i.val (mesh.faceEdgeOrientation face i.val))
      ((mesh.faceEdgeOrientation face i.val).val + 1) (orient i) Hfn Tfn x
      (G.triangleAltitudeDeriv mesh curPos face i.val) ((th i).derivative.getD 0) hH hT
      (by rw [← ha]; exact hcos)
    rw [← ha, hHx, hm] at key
    have hsum : (∑ c : Fin 27, D i c • (ContinuousLinearMap.proj c : (Fin 27 → ℝ) →L[ℝ] ℝ)) =
        ∑ c : Fin 27, (fun c => D i c) c •
          (ContinuousLinearMap.proj c : (Fin 27 → ℝ) →L[ℝ] ℝ) := rfl
    rw [hsum, hrows]
    exact key

/-- Witness of C11: the isolated triangle with the director of edge 0 tilted
by `π / 4` and magnitudes 1; every edge is a boundary edge, so `edgeTheta`
returns 0 with a zero derivative on the three edges. -/
theorem entries_derivative_exact_witness :
    ∃ e D, secondFundamentalFormEntries Real.tan Real.cos (boundaryGeometry Real.sqrt)
        isolatedTriangle [![0, 0, 0], ![1, 0, 0], ![0, 1, 0]]
        [Real.pi / 4, 1, 1, 0, 1, 1, 0, 1, 1] 0 true false = some e ∧ e.derivative = some D ∧
      D 0 0 = 0 := by
  obtain ⟨e, D, he, hD, hrows⟩ := entries_derivative_exact (boundaryGeometry Real.sqrt)
    isolatedTriangle [![0, 0, 0], ![1, 0, 0], ![0, 1, 0]] [Real.pi / 4, 1, 1, 0, 1, 1, 0, 1, 1] 0
    false (fun _ => ⟨0, some 0, none⟩) ![0, 0, Real.pi / 4] ![1, 1, 1]
    (fun i => 0.5 * 0 + (if isolatedTriangle.faceEdgeOrientation 0 i.val = 0 then 1 else -1) *
      (![0, 0, Real.pi / 4] : Fin 3 → ℝ) i)
    (fun i => if isolatedTriangle.faceEdgeOrientation 0 i.val = 0 then 1 else -1)
    (fun i => by rw [edgeTheta_of_boundary _ _ _ _ _ _ (isolatedTriangle_boundary _)]; rfl)
    (fun i => by fin_cases i <;> simp [isolatedTriangle, coeffAt])
    (fun i => by fin_cases i <;> simp [isolatedTriangle, coeffAt])
    (fun _ => rfl) (fun _ => rfl)
  refine ⟨e, D, he, hD, ?_⟩
  rw [(hrows 0).1 0]
  simp [boundaryGeometry, coord, altitudeSlots, thetaSlots, isolatedTriangle,
    Fin.sum_univ_three, Fin.sum_univ_four]

/-- Claim C13: in `run_simulation`, for every optimizer variable `var` of
length `nfree`, `variable_to_pos_edgedofs` returns; the positions have one row
per vertex; row `i` is row `i` of the `cur_pos` captured at set-up for every
fixed vertex `i`, whatever `var` is; the row of a free vertex `i` is the
segment of three entries of `var` starting at three times the number of free
vertices before `i`; and the edge DOFs are the last `nedges * nedgedofs`
entries of `var`. -/
theorem fixed_vertices_kept {R : Type} [Field R] (cur_pos : MatrixX3d R)
    (fixed_verts : Option (List Int)) (nedges nedgedofs : Nat) (var : VectorXd R)
    (hvar : var.length = (projectionSetup cur_pos fixed_verts nedges nedgedofs).nfree) :
    ∃ pos edge_DOFs,
      variable_to_pos_edgedofs fixed_verts nedges nedgedofs cur_pos.length
        (projectionSetup cur_pos fixed_verts nedges nedgedofs).fixed_dofs var =
        some (pos, edge_DOFs) ∧
      pos.length = cur_pos.length ∧
      (∀ i, i < cur_pos.length → isFreeVertex fixed_verts i = false → pos[i]? = cur_pos[i]?) ∧
      (∀ i, i < cur_pos.length → isFreeVertex fixed_verts i = true →
        pos[i]? = some
          ![var.getD (3 * (List.range i).countP (isFreeVertex fixed_verts)) 0,
            var.getD (3 * (List.range i).countP (isFreeVertex fixed_verts) + 1) 0,
            var.getD (3 * (List.range i).countP (isFreeVertex fixed_verts) + 2) 0]) ∧
      edge_DOFs = var.drop (var.length - nedges * nedgedofs) ∧
      edge_DOFs.length = nedges * nedgedofs := by
  obtain ⟨pos, hpos, hlen, hrows⟩ := unpack_spec cur_pos fixed_verts nedges nedgedofs var hvar
  have hn := (projectionSetup_spec cur_pos fixed_verts nedges nedgedofs).1
  refine ⟨pos, _, hpos, hlen, ?_, ?_, rfl, ?_⟩
  · intro i hi hf
    rw [hrows i hi, hf]
    simp [List.getD_eq_getElem?_getD, List.getElem?_eq_getElem hi]
  · intro i hi hf
    rw [hrows i hi, hf]
    simp
  · rw [List.length_drop, hvar, hn]
    omega

/-- Witness of C13: four vertices of which 1 and 3 are fixed, two edges with
one DOF each, and a variable vector of length `nfree = 8`. -/
theorem fixed_vertices_kept_witness :
    ∃ pos edge_DOFs,
      variable_to_pos_edgedofs (some [1, 3]) 2 1
        ([![1, 2, 3], ![4, 5, 6], ![7, 8, 9], ![10, 11, 12]] : MatrixX3d ℚ).length
        (projectionSetup ([![1, 2, 3], ![4, 5, 6], ![7, 8, 9], ![10, 11, 12]] : MatrixX3d ℚ)
          (some [1, 3]) 2 1).fixed_dofs
        [100, 101, 102, 103, 104, 105, 106, 107] = some (pos, edge_DOFs) ∧
      pos.length = 4 ∧ pos[1]? = some ![4, 5, 6] ∧ pos[3]? = some ![10, 11, 12] ∧
      pos[2]? = some ![103, 104, 105] ∧ edge_DOFs = [106, 107] := by
  obtain ⟨pos, e, h, hl, hfix, hfree, he, -⟩ := fixed_vertices_kept
    ([![1, 2, 3], ![4, 5, 6], ![7, 8, 9], ![10, 11, 12]] : MatrixX3d ℚ) (some [1, 3]) 2 1
    [100, 101, 102, 103, 104, 105, 106, 107] (by rfl)
  refine ⟨pos, e, h, hl, ?_, ?_, ?_, ?_⟩
  · rw [hfix 1 (by decide) (by decide)]; rfl
  · rw [hfix 3 (by decide) (by decide)]; rfl
  · rw [hfree 2 (by decide) (by decide)]
    simp [isFreeVertex, List.range_succ]
  · rw [he]; rfl

/-- Claim C14: for a variable vector `var` as long as the edge-DOF vector
handed to `optimizeEdgeDOFs` (sizes for which the penalty call is well
defined, an elastic gradient over the `3 * nVertices` position coordinates
followed by the edge DOFs, elastic Hessian triplets inside that range), the
objective returns `elasticEnergy(curPos, var) + edgeDOFPenaltyEnergy(var,
edge_area, penaltyScale)` with `penaltyScale = 1000 * thickness`; a requested
gradient has length `|var|` and entry `i` is entry `3 * nVertices + i` of the
elastic gradient plus entry `i` of the penalty gradient; a requested Hessian
is `|var| x |var|` and entry `(i, j)` is entry `(3 * nVertices + i,
3 * nVertices + j)` of the elastic Hessian plus the entry of the penalty
Hessian, whose triplets are diagonal.  Hence, on `3 * n` DOFs, whenever the
edge-DOF block of the elastic gradient is the derivative of the elastic energy
in the edge DOFs (positions fixed) and the trailing block of the elastic
Hessian the derivative of that block, the written gradient and Hessian are the
Fréchet derivatives of the returned value and of the written gradient. -/
theorem objective_penalty_augmented (thickness : ℝ) (energy : ShellEnergy ℝ)
    (curPos : MatrixX3d ℝ) (edge_area edgeDOFs var : VectorXd ℝ) (grad hessian psd_proj : Bool)
    (hvar : var.length = edgeDOFs.length) (hn : 1 ≤ edge_area.length)
    (hs : var.length % edge_area.length ≠ 0 ∨ var.length = edge_area.length ∨
      3 * edge_area.length ≤ var.length)
    (hg : grad = true →
      (energy.elasticEnergyDeriv curPos var true).length = 3 * curPos.length + var.length)
    (hH : hessian = true → ∀ t ∈ energy.elasticEnergyHess curPos var true
        (if psd_proj then HessianProjectType.kMaxZero else HessianProjectType.kNone),
      t.row < 3 * curPos.length + var.length ∧ t.col < 3 * curPos.length + var.length) :
    (∃ pen r, edgeDOFPenaltyEnergy var edge_area (1000 * thickness) grad hessian = some pen ∧
      optimizeObjective thickness energy curPos edge_area edgeDOFs var grad hessian psd_proj =
        some r ∧
      r.value = energy.elasticEnergy curPos var true + pen.value ∧
      (grad = true → ∃ g, r.derivative = some g ∧ g.length = var.length ∧
        ∀ i, i < var.length → g.getD i 0 =
          (energy.elasticEnergyDeriv curPos var true).getD (3 * curPos.length + i) 0 +
            (pen.derivative.getD []).getD i 0) ∧
      (grad = false → r.derivative = none) ∧
      (hessian = true → ∃ H, r.hessian = some H ∧ H.rows = var.length ∧ H.cols = var.length ∧
        ∀ i j, i < var.length → j < var.length → H.coeff i j =
          tripletSum (energy.elasticEnergyHess curPos var true
            (if psd_proj then HessianProjectType.kMaxZero else HessianProjectType.kNone))
            (3 * curPos.length + i) (3 * curPos.length + j) +
          tripletSum (pen.hessian.getD []) i j) ∧
      (hessian = false → r.hessian = none) ∧
      ∀ t ∈ pen.hessian.getD [], t.row = t.col) ∧
    (∀ (n : Nat) (x : Fin (3 * n) → ℝ), 1 ≤ n → edge_area.length = n →
      (∀ y : Fin (3 * n) → ℝ,
        (energy.elasticEnergyDeriv curPos (List.ofFn y) true).length =
          3 * curPos.length + 3 * n) →
      (∀ t ∈ energy.elasticEnergyHess curPos (List.ofFn x) true HessianProjectType.kNone,
        t.row < 3 * curPos.length + 3 * n ∧ t.col < 3 * curPos.length + 3 * n) →
      HasFDerivAt (fun y : Fin (3 * n) → ℝ => energy.elasticEnergy curPos (List.ofFn y) true)
        (∑ j : Fin (3 * n),
          (energy.elasticEnergyDeriv curPos (List.ofFn x) true).getD
            (3 * curPos.length + j.val) 0 •
            (ContinuousLinearMap.proj j : (Fin (3 * n) → ℝ) →L[ℝ] ℝ)) x →
      HasFDerivAt (fun (y : Fin (3 * n) → ℝ) (j : Fin (3 * n)) =>
          (energy.elasticEnergyDeriv curPos (List.ofFn y) true).getD
            (3 * curPos.length + j.val) 0)
        (LinearMap.toContinuousLinearMap (Matrix.toLin' (fun i j : Fin (3 * n) =>
          tripletSum (energy.elasticEnergyHess curPos (List.ofFn x) true HessianProjectType.kNone)
            (3 * curPos.length + i.val) (3 * curPos.length + j.val)))) x →
      HasFDerivAt (fun y : Fin (3 * n) → ℝ => objectiveValue thickness energy curPos edge_area y)
          (∑ j : Fin (3 * n), objectiveGradient thickness energy curPos edge_area x j •
            (ContinuousLinearMap.proj j : (Fin (3 * n) → ℝ) →L[ℝ] ℝ)) x ∧
        HasFDerivAt
          (fun y : Fin (3 * n) → ℝ => objectiveGradient thickness energy curPos edge_area y)
          (LinearMap.toContinuousLinearMap
            (Matrix.toLin' (objectiveHessian thickness energy curPos edge_area x))) x) := by
  constructor
  · obtain ⟨pen, hpen, -, -, -, -, hpt⟩ :=
      penalty_returns var edge_area (1000 * thickness) grad hessian hn hs
    obtain ⟨pen', r, hpen', hr, hv, h1, h2, h3, h4⟩ := optimizeObjective_eq thickness energy
      curPos edge_area edgeDOFs var grad hessian psd_proj hvar hn hs hg hH
    have hpp : pen' = pen := Option.some.inj (hpen'.symm.trans hpen)
    subst hpp
    exact ⟨pen', r, hpen', hr, hv, h1, h2, h3, h4, fun t ht => (hpt t ht).1⟩
  · intro n x hn1 harea hgl hHl hE hE2
    exact objective_hasFDerivAt thickness energy curPos edge_area n hn1 harea x hgl hHl hE hE2

/-- Witness of C14: three vertices, one edge of area 1, the sample quadratic
energy and the variable (1/2, 2, 3), with thickness 1. -/
theorem objective_penalty_augmented_witness :
    ∃ pen r, edgeDOFPenaltyEnergy ([1 / 2, 2, 3] : VectorXd ℝ) [1] (1000 * 1) true true =
        some pen ∧
      optimizeObjective 1 sampleQuadraticEnergy [![0, 0, 0], ![1, 0, 0], ![0, 1, 0]] [1]
        [0, 1, 1] [1 / 2, 2, 3] true true false = some r ∧
      r.value = (sampleQuadraticEnergy : ShellEnergy ℝ).elasticEnergy
        [![0, 0, 0], ![1, 0, 0], ![0, 1, 0]] [1 / 2, 2, 3] true + pen.value := by
  obtain ⟨pen, r, hpen, hr, hv, -⟩ := (objective_penalty_augmented 1 sampleQuadraticEnergy
    [![0, 0, 0], ![1, 0, 0], ![0, 1, 0]] [1] [0, 1, 1] [1 / 2, 2, 3] true true false
    rfl (by decide) (by decide) (fun _ => by simp [sampleQuadraticEnergy])
    (fun _ t ht => by
      simp [sampleQuadraticEnergy, List.range_succ] at ht
      rcases ht with rfl | rfl | rfl <;> simp)).1
  exact ⟨pen, r, hpen, hr, hv⟩

/-- Claim C15: for every thickness, Lamé parameters, height and radius
`curRadius ≠ 0`, the value `result.exact` computed by `measureCylinderEnergy`
is `thickness³/12 * (PI * curRadius * curHeight) * (lameAlpha/2 * tr(M)² +
lameBeta * tr(M²))` with `M = diag(1/curRadius, 0)` and `PI` the constant
`3.1415926535898`, which is
`thickness³ * PI * curHeight * (lameAlpha/2 + lameBeta) / (12 * curRadius)`. -/
theorem cylinder_exact_value {R : Type} [Field R] [CharZero R]
    (thickness lameAlpha lameBeta curRadius curHeight : R) (hr : curRadius ≠ 0) :
    cylinderExact thickness lameAlpha lameBeta curRadius curHeight =
      thickness ^ 3 / 12 * (PI * curRadius * curHeight) *
        (lameAlpha / 2 * (Matrix.diagonal ![1 / curRadius, 0]).trace ^ 2 +
          lameBeta * ((Matrix.diagonal ![1 / curRadius, 0]) *
            (Matrix.diagonal ![1 / curRadius, 0])).trace) ∧
    cylinderExact thickness lameAlpha lameBeta curRadius curHeight =
      thickness ^ 3 * PI * curHeight * (lameAlpha / 2 + lameBeta) / (12 * curRadius) ∧
    (PI : R) = 31415926535898 / 10000000000000 := by
  unfold cylinderExact
  simp only [inverse2_one, one_mul]
  refine ⟨?_, ?_, ?_⟩
  · simp [Matrix.trace, Matrix.diagonal, Fin.sum_univ_two, Matrix.mul_apply]
    ring
  · simp [Matrix.trace, Fin.sum_univ_two, Matrix.mul_apply]
    have hu : curRadius⁻¹ * curRadius = 1 := inv_mul_cancel₀ hr
    linear_combination ((lameAlpha / 2 + lameBeta) * thickness ^ 3 * PI * curHeight / 12 *
      curRadius⁻¹) * hu
  · unfold PI
    norm_num

/-- Witness of C15: thickness 1, Lamé parameters 2/3 and 1/3, radius 2 and
height 5 over the rationals. -/
theorem cylinder_exact_value_witness :
    cylinderExact (1 : ℚ) (2 / 3) (1 / 3) 2 5 =
      1 ^ 3 * PI * 5 * ((2 / 3 : ℚ) / 2 + 1 / 3) / (12 * 2) :=
  (cylinder_exact_value (1 : ℚ) (2 / 3) (1 / 3) 2 5 (by norm_num)).2.1

/-- Claim C16: for every thickness, Lamé parameters and radius `radius ≠ 0`,
the value `result.exact` computed by `measureSphereEnergy` is
`thickness³/12 * (4 * PI * radius²) * (lameAlpha/2 * tr(M)² + lameBeta * tr(M²))`
with `M = diag(1/radius, 1/radius)`, which is
`(2/3) * PI * thickness³ * (lameAlpha + lameBeta)`; hence two non-zero radii
give the same value. -/
theorem sphere_exact_value {R : Type} [Field R] [CharZero R]
    (thickness lameAlpha lameBeta radius : R) (hr : radius ≠ 0) :
    sphereExact thickness lameAlpha lameBeta radius =
      thickness ^ 3 / 12 * (4 * PI * radius ^ 2) *
        (lameAlpha / 2 * (Matrix.diagonal ![1 / radius, 1 / radius]).trace ^ 2 +
          lameBeta * ((Matrix.diagonal ![1 / radius, 1 / radius]) *
            (Matrix.diagonal ![1 / radius, 1 / radius])).trace) ∧
    sphereExact thickness lameAlpha lameBeta radius =
      2 / 3 * PI * thickness ^ 3 * (lameAlpha + lameBeta) ∧
    ∀ otherRadius : R, otherRadius ≠ 0 →
      sphereExact thickness lameAlpha lameBeta otherRadius =
        sphereExact thickness lameAlpha lameBeta radius := by
  have closed : ∀ r : R, r ≠ 0 → sphereExact thickness lameAlpha lameBeta r =
      2 / 3 * PI * thickness ^ 3 * (lameAlpha + lameBeta) := by
    intro r hr0
    unfold sphereExact
    simp only [inverse2_one, one_mul]
    simp [Matrix.trace, Fin.sum_univ_two, Matrix.mul_apply]
    have hu : r⁻¹ * r = 1 := inv_mul_cancel₀ hr0
    linear_combination ((lameAlpha / 2 * 4 + lameBeta * 2) * thickness ^ 3 / 12 * 4 * PI *
      (r⁻¹ * r + 1)) * hu
  refine ⟨?_, closed radius hr, fun r hr0 => by rw [closed r hr0, closed radius hr]⟩
  unfold sphereExact
  simp only [inverse2_one, one_mul]
  simp [Matrix.trace, Matrix.diagonal, Fin.sum_univ_two, Matrix.mul_apply]
  ring

/-- Witness of C16: thickness 1, Lamé parameters 2/3 and 1/3 and radius 2
over the rationals. -/
theorem sphere_exact_value_witness :
    sphereExact (1 : ℚ) (2 / 3) (1 / 3) 2 = 2 / 3 * PI * 1 ^ 3 * ((2 / 3 : ℚ) + 1 / 3) :=
  (sphere_exact_value (1 : ℚ) (2 / 3) (1 / 3) 2 (by norm_num)).2.1

/-- Claim C17: `lame_parameters` (example driver) yields
`alpha = E*nu/(1 - nu²)` and `beta = E/(2*(1 + nu))`; `lameParameters`
(bending-model driver) yields the same pair with `E = 1/thickness`; for
`thickness = 1` and `nu = 1/2` it yields `alpha = 2/3` and `beta = 1/3`. -/
theorem lame_parameters_agree {R : Type} [Field R] [CharZero R] (young thickness poisson : R) :
    lame_parameters young poisson =
      (young * poisson / (1 - poisson ^ 2), young / (2 * (1 + poisson))) ∧
    lameParameters thickness poisson = lame_parameters (1 / thickness) poisson ∧
    lameParameters (1 : R) (1 / 2) = (2 / 3, 1 / 3) := by
  refine ⟨?_, rfl, ?_⟩
  · unfold lame_parameters
    simp only [Prod.mk.injEq]
    constructor
    · rw [pow_two]
    · rw [div_div]
  · unfold lameParameters
    simp only [Prod.mk.injEq]
    constructor <;> norm_num

/-- Witness of C17: thickness 1 and Poisson ratio 1/2 over the rationals. -/
theorem lame_parameters_agree_witness : lameParameters (1 : ℚ) (1 / 2) = (2 / 3, 1 / 3) :=
  (lame_parameters_agree (1 : ℚ) 1 (1 / 2)).2.2

/-- Claim C18 fails on the code.  On the mesh with three edges and the
optimized director angles (1/2, 1/3, 1/5), both measurements build the
edge-DOF vector (1/2, 1, 1, 1/3, 1, 1, 1/5, 1, 1); `measureCylinderEnergy`
evaluates the compressive (three DOFs per edge) model at it, whereas
`measureSphereEnergy` evaluates the director (one DOF per edge) model at it.
With the sample models the cylinder reports 1/2 + 1/3 + 1/5 = 31/30 and the
sphere 1/2 + 1 + 1 = 5/2. -/
theorem sphere_incompressible_other_model :
    cylinderIncompressibleDir (sampleDirectorEnergy 3) (sampleCompressiveEnergy 3)
        isolatedTriangle ([![0, 0, 0], ![1, 0, 0], ![0, 1, 0]] : MatrixX3d ℚ) [1 / 2, 1 / 3, 1 / 5] =
      some ((sampleCompressiveEnergy 3).elasticEnergy [![0, 0, 0], ![1, 0, 0], ![0, 1, 0]]
        [1 / 2, 1, 1, 1 / 3, 1, 1, 1 / 5, 1, 1] true) ∧
    sphereIncompressibleDir (sampleDirectorEnergy 3) (sampleCompressiveEnergy 3)
        isolatedTriangle ([![0, 0, 0], ![1, 0, 0], ![0, 1, 0]] : MatrixX3d ℚ) [1 / 2, 1 / 3, 1 / 5] =
      some ((sampleDirectorEnergy 3).elasticEnergy [![0, 0, 0], ![1, 0, 0], ![0, 1, 0]]
        [1 / 2, 1, 1, 1 / 3, 1, 1, 1 / 5, 1, 1] true) ∧
    cylinderIncompressibleDir (sampleDirectorEnergy 3) (sampleCompressiveEnergy 3)
        isolatedTriangle ([![0, 0, 0], ![1, 0, 0], ![0, 1, 0]] : MatrixX3d ℚ) [1 / 2, 1 / 3, 1 / 5] =
      some (31 / 30) ∧
    sphereIncompressibleDir (sampleDirectorEnergy 3) (sampleCompressiveEnergy 3)
        isolatedTriangle ([![0, 0, 0], ![1, 0, 0], ![0, 1, 0]] : MatrixX3d ℚ) [1 / 2, 1 / 3, 1 / 5] =
      some (5 / 2) := by
  obtain ⟨hc, hs⟩ := incompressibleDir_eq (sampleDirectorEnergy 3) (sampleCompressiveEnergy 3)
    isolatedTriangle ([![0, 0, 0], ![1, 0, 0], ![0, 1, 0]] : MatrixX3d ℚ) [1 / 2, 1 / 3, 1 / 5]
    (by decide) (by decide)
  have hv : (List.range isolatedTriangle.nEdges).flatMap
      (fun i => [([1 / 2, 1 / 3, 1 / 5] : VectorXd ℚ).getD i 0, 1, 1]) =
      [1 / 2, 1, 1, 1 / 3, 1, 1, 1 / 5, 1, 1] := by
    simp [isolatedTriangle, List.range_succ, List.flatMap]
  rw [hv] at hc hs
  refine ⟨hc, hs, ?_, ?_⟩
  · rw [hc]
    simp [sampleCompressiveEnergy, List.range_succ]
    norm_num
  · rw [hs]
    simp [sampleDirectorEnergy, List.range_succ]
    norm_num

/-- Claim C19: on an interior edge whose four position rows exist, with
`q0 ≠ q1` and normals `n0`, `n1` that are not opposite (so that the signed
angle is differentiable at the arguments `edgeTheta` passes), for every
derivative row `g = (g_n0, g_n1, g_axis)` returned by `angle` that is the
derivative of the signed angle with respect to its 9 scalar inputs at
`(n0, n1, axis)`: `g_axis = 0` (both normals are perpendicular to `axis`),
`edgeTheta` returns, and the derivative it writes is the full chain-rule
derivative, block `q0 = g_n0*[q2-q1]x + g_n1*[q1-q3]x - g_axis`, block
`q1 = g_n0*[q0-q2]x + g_n1*[q3-q0]x + g_axis`, block `q2 = g_n0*[q1-q0]x`,
block `q3 = g_n1*[q0-q1]x`; it is the Fréchet derivative of
`(q0, q1, q2, q3) ↦ angle(n0, n1, axis)`.  The reason is that the sine part
`(n0 x n1) . axis / |axis|`, through which `axis` enters the angle, has
derivative zero with respect to `axis` at these arguments. -/
theorem edgeTheta_derivative_chain_rule (G : GeometryDerivatives ℝ) (mesh : MeshConnectivity)
    (curPos : MatrixX3d ℝ) (edge : Int) (hessian : Bool) (x : Fin 12 → ℝ)
    (q0 q1 q2 q3 n0 n1 axis : Vector3d ℝ) (g : Matrix (Fin 1) (Fin 9) ℝ)
    (hq0 : q0 = ![x 0, x 1, x 2]) (hq1 : q1 = ![x 3, x 4, x 5]) (hq2 : q2 = ![x 6, x 7, x 8])
    (hq3 : q3 = ![x 9, x 10, x 11])
    (hn0 : n0 = cross (q0 - q2) (q1 - q2)) (hn1 : n1 = cross (q1 - q3) (q0 - q3))
    (haxis : axis = q1 - q0) (hg : g = G.angleDeriv n0 n1 axis)
    (hi : mesh.edgeOppositeVertex edge 0 ≠ -1 ∧ mesh.edgeOppositeVertex edge 1 ≠ -1)
    (h0 : rowAt curPos (mesh.edgeVertex edge 0) = some q0)
    (h1 : rowAt curPos (mesh.edgeVertex edge 1) = some q1)
    (h2 : rowAt curPos (mesh.edgeOppositeVertex edge 0) = some q2)
    (h3 : rowAt curPos (mesh.edgeOppositeVertex edge 1) = some q3)
    (hne : q0 ≠ q1)
    (hnd : 0 < dot n0 n1 + Real.sqrt (dot n0 n0) * Real.sqrt (dot n1 n1))
    (hderiv : HasFDerivAt (signedAngleOfInputs (fun y x => Complex.arg ⟨x, y⟩) Real.sqrt)
      (∑ k : Fin 9, g 0 k • (ContinuousLinearMap.proj k : (Fin 9 → ℝ) →L[ℝ] ℝ))
      (edgeNormals x)) :
    ∃ r D, edgeTheta G mesh curPos edge true hessian = some r ∧ r.derivative = some D ∧
      dot n0 axis = 0 ∧ dot n1 axis = 0 ∧
      HasFDerivAt (fun b : Fin 3 → ℝ => dot (cross n0 n1) b / Real.sqrt (dot b b))
        (0 : (Fin 3 → ℝ) →L[ℝ] ℝ) axis ∧
      block g 0 6 1 3 = 0 ∧
      block D 0 0 1 3 =
        block g 0 0 1 3 * crossMatrix (q2 - q1) + block g 0 3 1 3 * crossMatrix (q1 - q3) -
          block g 0 6 1 3 ∧
      block D 0 3 1 3 =
        block g 0 0 1 3 * crossMatrix (q0 - q2) + block g 0 3 1 3 * crossMatrix (q3 - q0) +
          block g 0 6 1 3 ∧
      block D 0 6 1 3 = block g 0 0 1 3 * crossMatrix (q1 - q0) ∧
      block D 0 9 1 3 = block g 0 3 1 3 * crossMatrix (q0 - q1) ∧
      D = chainRuleDerivative q0 q1 q2 q3 g ∧
      HasFDerivAt (fun y : Fin 12 → ℝ =>
          signedAngleOfInputs (fun y x => Complex.arg ⟨x, y⟩) Real.sqrt (edgeNormals y))
        (∑ j : Fin 12, D 0 j • (ContinuousLinearMap.proj j : (Fin 12 → ℝ) →L[ℝ] ℝ)) x := by
  obtain ⟨hp0, hp1⟩ := edgeNormals_perpendicular q0 q1 q2 q3
  have hax : axis ≠ 0 := by
    rw [haxis]
    intro h
    exact hne (sub_eq_zero.1 h).symm
  have hpt : edgeNormals x = ![n0 0, n0 1, n0 2, n1 0, n1 1, n1 2, axis 0, axis 1, axis 2] := by
    rw [hn0, hn1, haxis, hq0, hq1, hq2, hq3]
    rfl
  have hv : dot n0 axis = 0 := by
    rw [hn0, haxis]
    exact hp0
  have hw : dot n1 axis = 0 := by
    rw [hn1, haxis]
    exact hp1
  have hz : block g 0 6 1 3 = 0 := by
    rw [hpt] at hderiv
    exact angleDeriv_axis_zero n0 n1 axis g hv hw hax hnd hderiv
  have hD : edgeThetaDerivative q0 q1 q2 q3 g = chainRuleDerivative q0 q1 q2 q3 g :=
    (edgeThetaDerivative_full_iff q0 q1 q2 q3 g).2 hz
  have hfull := chainRuleDerivative_hasFDerivAt
    (signedAngleOfInputs (fun y x => Complex.arg ⟨x, y⟩) Real.sqrt) x g hderiv
  rw [← hq0, ← hq1, ← hq2, ← hq3, ← hD] at hfull
  refine ⟨_, edgeThetaDerivative q0 q1 q2 q3 g,
    edgeTheta_of_interior G mesh curPos edge true hessian q0 q1 q2 q3 hi h0 h1 h2 h3,
    by rw [hg, hn0, hn1, haxis]; rfl, hv, hw, sinePart_axis_hasFDerivAt n0 n1 axis hv hw hax,
    hz, ?_, ?_, ?_, ?_, hD, hfull⟩
  · rw [hz, sub_zero]
    unfold edgeThetaDerivative
    simp (disch := omega) only [block_addBlock_same, block_addBlock_disjoint, block_zero, zero_add]
  · rw [hz, add_zero]
    unfold edgeThetaDerivative
    simp (disch := omega) only [block_addBlock_same, block_addBlock_disjoint, block_zero, zero_add]
  · unfold edgeThetaDerivative
    simp (disch := omega) only [block_addBlock_same, block_addBlock_disjoint, block_zero, zero_add]
  · unfold edgeThetaDerivative
    simp (disch := omega) only [block_addBlock_same, block_addBlock_disjoint, block_zero, zero_add]

/-- Witness of C19: the interior edge 0 of the mesh of two triangles at the
folded configuration `q0 = (0,0,0)`, `q1 = (1,0,0)`, `q2 = (0,1,0)`,
`q3 = (0,-4,3)`, where `angle` is called at `n0 = (0,0,1)`, `n1 = (0,3,4)`,
`axis = (1,0,0)` and returns the row `(0,1,0, 0,-4/25,3/25, 0,0,0)`: the
derivative written by `edgeTheta` is the full chain-rule derivative, with the
blocks `(0, 3/25, 29/25)`, `(0, 0, 0)`, `(0, 0, -1)`, `(0, -3/25, -4/25)`. -/
theorem edgeTheta_derivative_chain_rule_witness :
    ∃ r D, edgeTheta (foldedAngle (fun y x => Complex.arg ⟨x, y⟩) Real.sqrt) twoTriangles
        [![0, 0, 0], ![1, 0, 0], ![0, 1, 0], ![0, -4, 3]] 0 true false = some r ∧
      r.derivative = some D ∧
      D = chainRuleDerivative ![0, 0, 0] ![1, 0, 0] ![0, 1, 0] ![0, -4, 3]
        !![0, 1, 0, 0, -4 / 25, 3 / 25, 0, 0, 0] ∧
      block D 0 0 1 3 = !![0, 3 / 25, 29 / 25] ∧ block D 0 3 1 3 = !![0, 0, 0] ∧
      block D 0 6 1 3 = !![0, 0, -1] ∧ block D 0 9 1 3 = !![0, -3 / 25, -4 / 25] := by
  obtain ⟨hN, c0, c1, c2⟩ := edgeNormals_folded
  obtain ⟨f0, f1, f2, f3⟩ := folded_derivative_blocks
  obtain ⟨r, D, hr, hD, -, -, -, hz, hb0, hb1, hb2, hb3, hfull, -⟩ :=
    edgeTheta_derivative_chain_rule
    (foldedAngle (fun y x => Complex.arg ⟨x, y⟩) Real.sqrt) twoTriangles
    [![0, 0, 0], ![1, 0, 0], ![0, 1, 0], ![0, -4, 3]] 0 false
    ![0, 0, 0, 1, 0, 0, 0, 1, 0, 0, -4, 3] ![0, 0, 0] ![1, 0, 0] ![0, 1, 0] ![0, -4, 3]
    ![0, 0, 1] ![0, 3, 4] ![1, 0, 0] !![0, 1, 0, 0, -4 / 25, 3 / 25, 0, 0, 0]
    rfl rfl rfl rfl c0.symm c1.symm c2.symm rfl (by decide) rfl rfl rfl rfl
    (by
      intro h
      have h0 := congrFun h 0
      simp at h0)
    (by
      simp [dot]
      norm_num [sqrt_twenty_five])
    (by
      rw [hN]
      exact signedAngle_folded_row)
  rw [hz, sub_zero, f0] at hb0
  rw [hz, add_zero, f1] at hb1
  rw [f2] at hb2
  rw [f3] at hb3
  exact ⟨r, D, hr, hD, hfull, hb0, hb1, hb2, hb3⟩

/-- Claim C21: each output of `secondFundamentalForm` is independent of which
other outputs are requested.  For primitives whose value and slot contents do
not depend on the slots they are called with (`G`): the 2x2 matrix is the same
for the four combinations of slots (and the call fails for all four or for
none), the derivative is the same with and without the Hessian slot, and the
Hessians are the same with and without the derivative slot.  With the slots of
every call made explicit (`WithSlots`): a call with slots
`(derivative, hessian)` calls `triangleAltitude`, `edgeTheta` and `angle` with
the slots `(derivative || hessian, hessian)`, so with both slots null every
primitive is called with null slots and the result depends on nothing that a
primitive does with a non-null slot; and the Hessians are the same with and
without the derivative slot whatever the primitives do. -/
theorem slots_independent {R : Type} [Field R] (tan cos : R → R) (mesh : MeshConnectivity)
    (curPos : MatrixX3d R) (extraDOFs : VectorXd R) (face : Int) :
    (∀ G : GeometryDerivatives R,
      (∀ derivative hessian : Bool,
        (secondFundamentalForm tan cos G mesh curPos extraDOFs face derivative hessian).map
          (fun r => r.value) =
        (secondFundamentalForm tan cos G mesh curPos extraDOFs face false false).map
          (fun r => r.value)) ∧
      ((secondFundamentalForm tan cos G mesh curPos extraDOFs face true true).bind
          (fun r => r.derivative) =
        (secondFundamentalForm tan cos G mesh curPos extraDOFs face true false).bind
          (fun r => r.derivative)) ∧
      ((secondFundamentalForm tan cos G mesh curPos extraDOFs face true true).bind
          (fun r => r.hessian) =
        (secondFundamentalForm tan cos G mesh curPos extraDOFs face false true).bind
          (fun r => r.hessian))) ∧
    (∀ (F : WithSlots.GeometryCalls R) (derivative hessian : Bool),
      WithSlots.secondFundamentalForm tan cos F mesh curPos extraDOFs face derivative hessian =
        secondFundamentalForm tan cos (F.withSlots (derivative || hessian) hessian) mesh curPos
          extraDOFs face derivative hessian) ∧
    (∀ (F : WithSlots.GeometryCalls R) (edge : Int) (derivative hessian : Bool),
      WithSlots.edgeTheta F mesh curPos edge derivative hessian =
        edgeTheta (F.withSlots (derivative || hessian) hessian) mesh curPos edge derivative
          hessian) ∧
    (∀ F F' : WithSlots.GeometryCalls R, F.withSlots false false = F'.withSlots false false →
      WithSlots.secondFundamentalForm tan cos F mesh curPos extraDOFs face false false =
        WithSlots.secondFundamentalForm tan cos F' mesh curPos extraDOFs face false false) ∧
    (∀ F : WithSlots.GeometryCalls R,
      (WithSlots.secondFundamentalForm tan cos F mesh curPos extraDOFs face true true).bind
          (fun r => r.hessian) =
        (WithSlots.secondFundamentalForm tan cos F mesh curPos extraDOFs face false true).bind
          (fun r => r.hessian)) := by
  refine ⟨fun G => form_flags tan cos G mesh curPos extraDOFs face,
    fun F derivative hessian => withSlots_form tan cos F mesh curPos extraDOFs face derivative
      hessian,
    fun F edge derivative hessian => withSlots_edgeTheta F mesh curPos edge derivative hessian,
    fun F F' h => ?_, fun F => ?_⟩
  · rw [withSlots_form, withSlots_form]
    simp only [Bool.or_self]
    rw [h]
  · rw [withSlots_form, withSlots_form]
    exact (form_flags tan cos (F.withSlots true true) mesh curPos extraDOFs face).2.2

/-- Claim C22: the projection matrix `P` of `run_simulation` is built; it has
`nfree = 3 * (number of non-fixed vertices) + nedges * nedgedofs` rows and
`3 * nVertices + nedges * nedgedofs` columns; each row holds exactly one entry
one (at the kept column `freeColumns[r]`) and zeros elsewhere; each column
holds at most one non-zero entry; `P * P.transpose()` is the identity; for a
global vector laid out as position coordinates followed by edge DOFs, `P * g`
is `pos_edgedofs_to_variable` of its two parts; and the gradient and the
Hessian that `obj_func` returns hold, at the indices of the optimizer variable,
the entries of the full gradient and Hessian at the kept columns. -/
theorem projection_matrix {R : Type} [Field R] (cur_pos : MatrixX3d R)
    (fixed_verts : Option (List Int)) (nedges nedgedofs : Nat) :
    ∃ P : SparseMatrix R, runProjection cur_pos fixed_verts nedges nedgedofs = some P ∧
      P.rows = (projectionSetup cur_pos fixed_verts nedges nedgedofs).nfree ∧
      P.rows = 3 * (List.range cur_pos.length).countP (isFreeVertex fixed_verts) +
        nedges * nedgedofs ∧
      P.cols = 3 * cur_pos.length + nedges * nedgedofs ∧
      (∀ r, r < P.rows → ∃ c, c < P.cols ∧ P.coeff r c = 1 ∧
        ∀ c', c' ≠ c → P.coeff r c' = 0) ∧
      (∀ c r r', P.coeff r c ≠ 0 → P.coeff r' c ≠ 0 → r = r') ∧
      (∃ Q : SparseMatrix R, P.mul P.transpose = some Q ∧ Q.rows = P.rows ∧ Q.cols = P.rows ∧
        ∀ r s, r < P.rows → s < P.rows → Q.coeff r s = if r = s then 1 else 0) ∧
      (∀ (pos : MatrixX3d R) (edge_DOFs : VectorXd R), pos.length = cur_pos.length →
        edge_DOFs.length = nedges * nedgedofs →
        (P.mulVec (globalVector pos edge_DOFs)).isSome = true ∧
        P.mulVec (globalVector pos edge_DOFs) =
          pos_edgedofs_to_variable fixed_verts nedges nedgedofs P.rows pos edge_DOFs) ∧
      (∀ g : VectorXd R, g.length = P.cols →
        projectedGradient P fixed_verts g =
          some ((freeColumns fixed_verts cur_pos.length (nedges * nedgedofs)).map
            (fun c => g.getD c 0))) ∧
      (∀ triplets : List (Triplet R),
        (∀ t ∈ triplets, t.row < P.cols ∧ t.col < P.cols) →
        ∃ Q : SparseMatrix R, projectedHessian P fixed_verts P.cols triplets = some Q ∧
          Q.rows = P.rows ∧ Q.cols = P.rows ∧
          ∀ r s, r < P.rows → s < P.rows →
            Q.coeff r s = tripletSum triplets
              ((freeColumns fixed_verts cur_pos.length (nedges * nedgedofs)).getD r 0)
              ((freeColumns fixed_verts cur_pos.length (nedges * nedgedofs)).getD s 0)) := by
  have hP := runProjection_eq cur_pos fixed_verts nedges nedgedofs
  have hlt := freeColumns_lt fixed_verts cur_pos.length (nedges * nedgedofs)
  have hpw := freeColumns_pairwise fixed_verts cur_pos.length (nedges * nedgedofs)
  have hlen := freeColumns_length fixed_verts cur_pos.length (nedges * nedgedofs)
  obtain ⟨-, hn⟩ := projectionSetup_triplets cur_pos fixed_verts nedges nedgedofs
  refine ⟨_, hP, hn.symm, hlen, rfl, ?_, ?_, ?_, ?_, ?_, ?_⟩
  · intro r hr
    refine ⟨(freeColumns fixed_verts cur_pos.length (nedges * nedgedofs))[r], ?_, ?_, ?_⟩
    · exact hlt _ (List.getElem_mem _)
    · exact if_pos (List.getElem?_eq_getElem hr)
    · intro c' hc'
      apply if_neg
      rw [List.getElem?_eq_getElem hr]
      intro h
      exact hc' (Option.some.inj h).symm
  · intro c r r' h1 h2
    have e1 : (freeColumns fixed_verts cur_pos.length (nedges * nedgedofs))[r]? = some c := by
      by_contra hne
      exact h1 (if_neg hne)
    have e2 : (freeColumns fixed_verts cur_pos.length (nedges * nedgedofs))[r']? = some c := by
      by_contra hne
      exact h2 (if_neg hne)
    exact pairwise_getElem?_inj _ hpw r r' c e1 e2
  · exact selection_mul_transpose _ _ hlt hpw
  · intro pos edge_DOFs hpos he
    have hg : (globalVector pos edge_DOFs).length = 3 * cur_pos.length + nedges * nedgedofs := by
      rw [globalVector_length, hpos, he]
    have hm := selection_mulVec (freeColumns fixed_verts cur_pos.length (nedges * nedgedofs))
      _ hlt (globalVector pos edge_DOFs) hg
    refine ⟨by rw [hm]; rfl, ?_⟩
    rw [hm]
    show _ = pos_edgedofs_to_variable fixed_verts nedges nedgedofs
      (freeColumns fixed_verts cur_pos.length (nedges * nedgedofs)).length pos edge_DOFs
    rw [pack_spec fixed_verts nedges nedgedofs _ pos edge_DOFs (by rw [hlen, hpos]) he,
      ← freeColumns_map_global, hpos, he]
  · intro g hg
    exact projectedGradient_eq cur_pos fixed_verts nedges nedgedofs _ hP g hg
  · intro triplets ht
    exact projectedHessian_eq cur_pos fixed_verts nedges nedgedofs _ hP triplets ht

/-- Claim C23: in `run_simulation`, `pos_edgedofs_to_variable` and
`variable_to_pos_edgedofs` are mutually inverse on the free degrees of
freedom.  For every `var` of length `nfree`, `variable_to_pos_edgedofs`
returns a pair and packing that pair gives back `var`; and for every
`(pos, edge_DOFs)` of the sizes of the mesh whose rows at fixed vertices are
the rows of `cur_pos` captured at set-up, `pos_edgedofs_to_variable` returns a
vector of length `nfree` and unpacking it gives back `(pos, edge_DOFs)`. -/
theorem pack_unpack_inverse {R : Type} [Field R] (cur_pos : MatrixX3d R)
    (fixed_verts : Option (List Int)) (nedges nedgedofs : Nat) :
    (∀ var : VectorXd R,
      var.length = (projectionSetup cur_pos fixed_verts nedges nedgedofs).nfree →
      ∃ pos edge_DOFs,
        variable_to_pos_edgedofs fixed_verts nedges nedgedofs cur_pos.length
          (projectionSetup cur_pos fixed_verts nedges nedgedofs).fixed_dofs var =
          some (pos, edge_DOFs) ∧
        pos_edgedofs_to_variable fixed_verts nedges nedgedofs
          (projectionSetup cur_pos fixed_verts nedges nedgedofs).nfree pos edge_DOFs =
          some var) ∧
    (∀ (pos : MatrixX3d R) (edge_DOFs : VectorXd R), pos.length = cur_pos.length →
      edge_DOFs.length = nedges * nedgedofs →
      (∀ j, j < cur_pos.length → isFreeVertex fixed_verts j = false →
        pos.getD j 0 = cur_pos.getD j 0) →
      ∃ var,
        pos_edgedofs_to_variable fixed_verts nedges nedgedofs
          (projectionSetup cur_pos fixed_verts nedges nedgedofs).nfree pos edge_DOFs =
          some var ∧
        var.length = (projectionSetup cur_pos fixed_verts nedges nedgedofs).nfree ∧
        variable_to_pos_edgedofs fixed_verts nedges nedgedofs cur_pos.length
          (projectionSetup cur_pos fixed_verts nedges nedgedofs).fixed_dofs var =
          some (pos, edge_DOFs)) := by
  refine ⟨fun var hvar => ?_, fun pos edge_DOFs hpos he hfix =>
    pack_then_unpack cur_pos fixed_verts nedges nedgedofs pos edge_DOFs hpos he hfix⟩
  obtain ⟨pos, e, h1, -, -, h2⟩ := unpack_then_pack cur_pos fixed_verts nedges nedgedofs var hvar
  exact ⟨pos, e, h1, h2⟩

/-- Claim C24 (refuted): `edgeDOFPenaltyEnergy` is not total.  It is defined
exactly when the two sizes are equal, or there is at least one edge and the
size of `edgeDOFs` is not a multiple of the number of edges or is at least
three times that number.  With an empty `edge_area` and a non-empty
`edgeDOFs` the guard computes a modulo by zero; with `k = 2` (sizes 4 and 2)
the last iteration reads `edgeDOFs(4)`, outside the vector. -/
theorem penalty_not_total {R : Type} [Field R] (edgeDOFs edge_area : VectorXd R)
    (penaltyScale : R) (deriv hessian : Bool) :
    ((edgeDOFPenaltyEnergy edgeDOFs edge_area penaltyScale deriv hessian).isSome = true ↔
      edgeDOFs.length = edge_area.length ∨
        (edge_area.length ≠ 0 ∧
          (edgeDOFs.length % edge_area.length ≠ 0 ∨
            3 * edge_area.length ≤ edgeDOFs.length))) ∧
    edgeDOFPenaltyEnergy ([1] : VectorXd ℚ) [] 1 false false = none ∧
    edgeDOFPenaltyEnergy ([0, 2, 3, 0] : VectorXd ℚ) [1, 2] 1 false false = none := by
  refine ⟨penalty_isSome_iff edgeDOFs edge_area penaltyScale deriv hessian, ?_, ?_⟩
  · rw [← Option.not_isSome_iff_eq_none]
    intro h
    have := (penalty_isSome_iff _ _ _ _ _).1 h
    simp at this
  · rw [← Option.not_isSome_iff_eq_none]
    intro h
    have := (penalty_isSome_iff _ _ _ _ _).1 h
    simp at this

/-- Claim C25: for `penaltyScale ≥ 0` and edge areas `≥ 0` every value returned
by `edgeDOFPenaltyEnergy` is `≥ 0`; on an edge-DOF vector of length `3 * n` the
function returns, and for `penaltyScale > 0` and areas `> 0` the value is 0 if
and only if every magnitude (entries `3i+1` and `3i+2`) equals 1; with all
magnitudes 1 the value is 0 and the gradient is zero; with all magnitudes 0
the value is `2 * penaltyScale * sum of edge_area`; the vector produced by
`initializeExtraDOFs` has zero penalty. -/
theorem penalty_sign {R : Type} [LinearOrderedField R] (edgeDOFs edge_area : VectorXd R)
    (penaltyScale : R) (deriv hessian : Bool) :
    (0 ≤ penaltyScale → (∀ a ∈ edge_area, 0 ≤ a) →
      ∀ r, edgeDOFPenaltyEnergy edgeDOFs edge_area penaltyScale deriv hessian = some r →
        0 ≤ r.value) ∧
    (edgeDOFs.length = 3 * edge_area.length →
      ∃ r, edgeDOFPenaltyEnergy edgeDOFs edge_area penaltyScale deriv hessian = some r ∧
        (0 < penaltyScale → (∀ a ∈ edge_area, 0 < a) →
          (r.value = 0 ↔ ∀ i, i < edge_area.length →
            edgeDOFs.getD (3 * i + 1) 0 = 1 ∧ edgeDOFs.getD (3 * i + 2) 0 = 1)) ∧
        ((∀ i, i < edge_area.length →
            edgeDOFs.getD (3 * i + 1) 0 = 1 ∧ edgeDOFs.getD (3 * i + 2) 0 = 1) →
          r.value = 0 ∧
            (deriv = true → r.derivative = some (List.replicate edgeDOFs.length 0))) ∧
        ((∀ i, i < edge_area.length →
            edgeDOFs.getD (3 * i + 1) 0 = 0 ∧ edgeDOFs.getD (3 * i + 2) 0 = 0) →
          r.value = 2 * penaltyScale * edge_area.sum)) ∧
    (∀ (mesh : MeshConnectivity) (curPos : MatrixX3d R), edge_area.length = mesh.nEdges →
      ∃ r, edgeDOFPenaltyEnergy (initializeExtraDOFs mesh curPos) edge_area penaltyScale
          deriv hessian = some r ∧ r.value = 0 ∧
        (deriv = true →
          r.derivative = some (List.replicate (3 * mesh.nEdges) 0))) := by
  refine ⟨fun hs ha r hr => penalty_nonneg edgeDOFs edge_area penaltyScale deriv hessian hs ha r hr,
    fun hlen => ?_, fun mesh curPos hn => ?_⟩
  · have h3 := penalty_three edgeDOFs edge_area penaltyScale _ deriv hessian rfl hlen
    refine ⟨_, h3, fun hs ha => ?_, fun hones => ?_, fun hzeros => ?_⟩
    · obtain ⟨r, hr, p⟩ := penalty_eq_zero_iff edgeDOFs edge_area penaltyScale deriv hessian
        hlen hs ha
      rw [h3] at hr
      cases hr
      exact p
    · obtain ⟨r, hr, p⟩ := penalty_at_ones edgeDOFs edge_area penaltyScale deriv hessian
        hlen hones
      rw [h3] at hr
      cases hr
      exact p
    · obtain ⟨r, hr, p⟩ := penalty_at_zeros edgeDOFs edge_area penaltyScale deriv hessian
        hlen hzeros
      rw [h3] at hr
      cases hr
      exact p
  · have hl : (initializeExtraDOFs mesh curPos : VectorXd R).length = 3 * edge_area.length := by
      rw [(initializeExtraDOFs_entries mesh curPos).1, hn]
    obtain ⟨r, hr, hv, hd⟩ := penalty_at_ones (initializeExtraDOFs mesh curPos) edge_area
      penaltyScale deriv hessian hl
      (fun i hi => initializeExtraDOFs_magnitudes mesh curPos i (by omega))
    refine ⟨r, hr, hv, fun h => ?_⟩
    rw [hd h, (initializeExtraDOFs_entries mesh curPos).1]

/-- Claim C26: when an edge `e` is local edge `i` of face `f` and local edge
`j` of face `g` with different orientations, `edgeTheta(e)` returns `theta`
and the angle DOF `edgeDOFs[3e]` is `phi`, the half angles of the two faces
are `theta/2 + s*phi` and `theta/2 - s*phi` (with `s = ±1` the sign of `f`), so
their sum is `theta` for every `phi`; they are the half angles inside the
tangent: every successful call of `secondFundamentalFormEntries` on `f`
returns `II[i] = 2 * h * tan(alpha_f) * m`, and likewise on `g`. -/
theorem half_angles_sum {R : Type} [Field R] [CharZero R] (G : GeometryDerivatives R)
    (mesh : MeshConnectivity) (curPos : MatrixX3d R) (edgeDOFs : VectorXd R) (f g : Int)
    (i j : Fin 3) (th : Eval R (Matrix (Fin 1) (Fin 12) R) (Matrix (Fin 12) (Fin 12) R))
    (phi : R)
    (he : mesh.faceEdge f i.val = mesh.faceEdge g j.val)
    (ho : mesh.faceEdgeOrientation f i.val ≠ mesh.faceEdgeOrientation g j.val)
    (hth : edgeTheta G mesh curPos (mesh.faceEdge f i.val) false false = some th)
    (hphi : coeffAt edgeDOFs (3 * mesh.faceEdge f i.val) = some phi) :
    ∃ af ag, entryAlpha G mesh curPos edgeDOFs f i.val = some af ∧
      entryAlpha G mesh curPos edgeDOFs g j.val = some ag ∧
      af = 0.5 * th.value + (if mesh.faceEdgeOrientation f i.val = 0 then 1 else -1) * phi ∧
      ag = 0.5 * th.value - (if mesh.faceEdgeOrientation f i.val = 0 then 1 else -1) * phi ∧
      af + ag = th.value ∧
      (∀ (tan cos : R → R) (derivative hessian : Bool) (e : EntriesEval R),
        secondFundamentalFormEntries tan cos G mesh curPos edgeDOFs f derivative hessian =
          some e →
        ∃ m, coeffAt edgeDOFs (magnitudeIndex mesh f i.val) = some m ∧
          e.value i = 2 * G.triangleAltitude mesh curPos f i.val * tan af * m) ∧
      (∀ (tan cos : R → R) (derivative hessian : Bool) (e : EntriesEval R),
        secondFundamentalFormEntries tan cos G mesh curPos edgeDOFs g derivative hessian =
          some e →
        ∃ m, coeffAt edgeDOFs (magnitudeIndex mesh g j.val) = some m ∧
          e.value j = 2 * G.triangleAltitude mesh curPos g j.val * tan ag * m) := by
  have hs : (if mesh.faceEdgeOrientation g j.val = 0 then (1 : R) else -1) =
      -(if mesh.faceEdgeOrientation f i.val = 0 then (1 : R) else -1) := by
    by_cases hf : mesh.faceEdgeOrientation f i.val = 0
    · have hg : mesh.faceEdgeOrientation g j.val ≠ 0 := fun hg => ho (hf.trans hg.symm)
      rw [if_pos hf, if_neg hg]
    · have hg : mesh.faceEdgeOrientation g j.val = 0 := by
        by_contra hg
        apply ho
        apply Fin.ext
        have h1 : (mesh.faceEdgeOrientation f i.val).val ≠ 0 := fun h => hf (Fin.ext h)
        have h2 : (mesh.faceEdgeOrientation g j.val).val ≠ 0 := fun h => hg (Fin.ext h)
        omega
      rw [if_neg hf, if_pos hg, neg_neg]
  have haf : entryAlpha G mesh curPos edgeDOFs f i.val = some
      (0.5 * th.value + (if mesh.faceEdgeOrientation f i.val = 0 then 1 else -1) * phi) := by
    unfold entryAlpha
    simp only [hth, hphi, Option.bind_eq_bind, Option.some_bind, Option.pure_def]
  have hag : entryAlpha G mesh curPos edgeDOFs g j.val = some
      (0.5 * th.value - (if mesh.faceEdgeOrientation f i.val = 0 then 1 else -1) * phi) := by
    unfold entryAlpha
    simp only [← he, hth, hphi, Option.bind_eq_bind, Option.some_bind, Option.pure_def, hs]
    rw [neg_mul, sub_eq_add_neg]
  refine ⟨_, _, haf, hag, rfl, rfl, ?_, ?_, ?_⟩
  · have h2 : (0.5 : R) + 0.5 = 1 := by norm_num
    linear_combination th.value * h2
  · intro tan cos derivative hessian e hE
    obtain ⟨a, m, ha, hm, hv⟩ := entries_value_alpha tan cos G mesh curPos edgeDOFs f derivative
      hessian e hE i
    rw [haf] at ha
    cases ha
    exact ⟨m, hm, hv⟩
  · intro tan cos derivative hessian e hE
    obtain ⟨a, m, ha, hm, hv⟩ := entries_value_alpha tan cos G mesh curPos edgeDOFs g derivative
      hessian e hE j
    rw [hag] at ha
    cases ha
    exact ⟨m, hm, hv⟩

/-- Witness of C26: the two triangles (0, 1, 2) and (1, 0, 3) sharing edge 0,
a dihedral angle 3 and the angle DOF 1/5 on that edge: the half angles are
17/10 and 13/10. -/
theorem half_angles_sum_witness :
    entryAlpha (constantGeometry (3 : ℚ) 1) twoTriangles
        [![0, 0, 0], ![1, 0, 0], ![0, 1, 0], ![1, 1, 1]]
        [1 / 5, 1, 1, 0, 1, 1, 0, 1, 1, 0, 1, 1, 0, 1, 1] 0 2 = some (17 / 10) ∧
      entryAlpha (constantGeometry (3 : ℚ) 1) twoTriangles
        [![0, 0, 0], ![1, 0, 0], ![0, 1, 0], ![1, 1, 1]]
        [1 / 5, 1, 1, 0, 1, 1, 0, 1, 1, 0, 1, 1, 0, 1, 1] 1 2 = some (13 / 10) := by
  obtain ⟨af, ag, hf, hg, ef, eg, -⟩ := half_angles_sum (constantGeometry (3 : ℚ) 1) twoTriangles
    [![0, 0, 0], ![1, 0, 0], ![0, 1, 0], ![1, 1, 1]]
    [1 / 5, 1, 1, 0, 1, 1, 0, 1, 1, 0, 1, 1, 0, 1, 1] 0 1 2 2 ⟨3, none, none⟩ (1 / 5)
    (by decide) (by decide)
    (edgeTheta_of_interior _ twoTriangles _ _ false false ![0, 0, 0] ![1, 0, 0] ![0, 1, 0]
      ![1, 1, 1] (by decide) rfl rfl rfl rfl)
    (by simp [twoTriangles, coeffAt])
  have h2 : (((2 : Fin 3) : ℕ) : ℤ) = 2 := rfl
  rw [h2] at hf hg ef eg
  rw [hf, hg, ef, eg]
  constructor
  · congr 1
    simp [twoTriangles]
    norm_num
  · congr 1
    simp [twoTriangles]
    norm_num

/-- Claim C27: the entry `II[i]` of a face depends on the edge-DOF vector only
through `edgeDOFs[3e]` and `edgeDOFs[3e + 1 + faceEdgeOrientation(f, i)]` with
`e = faceEdge(f, i)`: two successful calls on edge-DOF vectors that agree on
these two entries return the same `II[i]`; in row `i` of the derivative every
column of the edge DOFs (columns 18..26) other than `18 + 3i` and
`18 + 3i + 1 + faceEdgeOrientation(f, i)` is zero, that is the column of the
other magnitude of `e` and the columns of the other two edges; and a face that
sees `e` with the other orientation reads a different magnitude entry. -/
theorem entry_reads_two_dofs {R : Type} [Field R] (tan cos : R → R) (G : GeometryDerivatives R)
    (mesh : MeshConnectivity) (curPos : MatrixX3d R) (face : Int) (i : Fin 3) :
    (∀ (edgeDOFs edgeDOFs' : VectorXd R) (derivative hessian derivative' hessian' : Bool)
        (e e' : EntriesEval R),
      secondFundamentalFormEntries tan cos G mesh curPos edgeDOFs face derivative hessian =
        some e →
      secondFundamentalFormEntries tan cos G mesh curPos edgeDOFs' face derivative' hessian' =
        some e' →
      coeffAt edgeDOFs (3 * mesh.faceEdge face i.val) =
        coeffAt edgeDOFs' (3 * mesh.faceEdge face i.val) →
      coeffAt edgeDOFs (magnitudeIndex mesh face i.val) =
        coeffAt edgeDOFs' (magnitudeIndex mesh face i.val) →
      e.value i = e'.value i) ∧
    (∀ (edgeDOFs : VectorXd R) (hessian : Bool) (e : EntriesEval R)
        (D : Matrix (Fin 3) (Fin 27) R),
      secondFundamentalFormEntries tan cos G mesh curPos edgeDOFs face true hessian = some e →
      e.derivative = some D →
      ∀ c : Fin 27, 18 ≤ c.val → c.val ≠ 18 + 3 * i.val →
        c.val ≠ 18 + 3 * i.val + ((mesh.faceEdgeOrientation face i.val).val + 1) →
        D i c = 0) ∧
    (∀ (g : Int) (j : Fin 3), mesh.faceEdge face i.val = mesh.faceEdge g j.val →
      mesh.faceEdgeOrientation face i.val ≠ mesh.faceEdgeOrientation g j.val →
      magnitudeIndex mesh face i.val ≠ magnitudeIndex mesh g j.val) := by
  refine ⟨fun edgeDOFs edgeDOFs' d h d' h' e e' he he' ha hm =>
      entries_value_congr tan cos G mesh curPos edgeDOFs edgeDOFs' face d h d' h' e e' i he he'
        ha hm,
    fun edgeDOFs hessian e D he hD c hc h1 h2 => ?_,
    fun g j hedge ho => magnitudeIndex_ne mesh face g i.val j.val hedge ho⟩
  obtain ⟨th, a, m, -, -, -, -, hd, -⟩ := entries_of_some tan cos G mesh curPos edgeDOFs face
    true hessian e he
  obtain ⟨D', hD', hrow⟩ := hd rfl
  rw [hD] at hD'
  cases hD'
  rw [hrow i c]
  exact claimedEntryRow_dof_zero tan cos i _ _ _ _ _ _ _ c hc h1 h2

/-- Claim C28: when the 9x9 Hessians returned by `triangleAltitude` and by
`angle` are symmetric, each of the four 27x27 Hessians returned by
`secondFundamentalForm` is symmetric, and so is the 12x12 Hessian returned by
`edgeTheta`, for every input on which the functions return. -/
theorem hessians_symmetric {R : Type} [Field R] (tan cos : R → R) (G : GeometryDerivatives R)
    (hH : ∀ mesh curPos face i, (G.triangleAltitudeHess mesh curPos face i).transpose =
      G.triangleAltitudeHess mesh curPos face i)
    (hA : ∀ n0 n1 axis, (G.angleHess n0 n1 axis).transpose = G.angleHess n0 n1 axis) :
    (∀ (mesh : MeshConnectivity) (curPos : MatrixX3d R) (extraDOFs : VectorXd R) (face : Int)
        (derivative hessian : Bool) (r : FormEval R) (Hs : Fin 4 → Matrix (Fin 27) (Fin 27) R),
      secondFundamentalForm tan cos G mesh curPos extraDOFs face derivative hessian = some r →
      r.hessian = some Hs → ∀ q : Fin 4, (Hs q).transpose = Hs q) ∧
    (∀ (mesh : MeshConnectivity) (curPos : MatrixX3d R) (edge : Int) (derivative hessian : Bool)
        (th : Eval R (Matrix (Fin 1) (Fin 12) R) (Matrix (Fin 12) (Fin 12) R))
        (H : Matrix (Fin 12) (Fin 12) R),
      edgeTheta G mesh curPos edge derivative hessian = some th → th.hessian = some H →
      H.transpose = H) := by
  refine ⟨fun mesh curPos extraDOFs face derivative hessian r Hs hr hHs q =>
      form_hessian_transpose tan cos G mesh curPos extraDOFs face derivative hessian hH hA r hr
        Hs hHs q,
    fun mesh curPos edge derivative hessian th H hth hHth => ?_⟩
  have := edgeTheta_hessian_transpose G mesh curPos edge derivative hessian hA th hth
  rw [hHth, Option.getD_some] at this
  exact this

/-- Witness of C28: the isolated triangle with the edge DOFs of
`initializeExtraDOFs`, the identity in place of `tan`, and primitives whose
Hessians are zero: the call with both slots returns four Hessians, and the
first one is symmetric. -/
theorem hessians_symmetric_witness :
    ∃ r Hs, secondFundamentalForm (fun x : ℚ => x) (fun _ => 1) (boundaryGeometry (fun x => x))
        isolatedTriangle [![0, 0, 0], ![1, 0, 0], ![0, 1, 0]] [0, 1, 1, 0, 1, 1, 0, 1, 1] 0
        true true = some r ∧ r.hessian = some Hs ∧ (Hs 0).transpose = Hs 0 := by
  obtain ⟨e, he, -, -, hh⟩ := entries_slots_of_reads (fun x : ℚ => x) (fun _ => 1)
    (boundaryGeometry (fun x => x)) isolatedTriangle [![0, 0, 0], ![1, 0, 0], ![0, 1, 0]]
    [0, 1, 1, 0, 1, 1, 0, 1, 1] 0 true true (fun _ => ⟨0, some 0, some 0⟩) ![0, 0, 0] ![1, 1, 1]
    (fun i => 0.5 * 0 + (if isolatedTriangle.faceEdgeOrientation 0 i.val = 0 then 1 else -1) *
      (![0, 0, 0] : Fin 3 → ℚ) i)
    (fun i => if isolatedTriangle.faceEdgeOrientation 0 i.val = 0 then 1 else -1)
    (fun i => by rw [edgeTheta_of_boundary _ _ _ _ _ _ (isolatedTriangle_boundary _)]; rfl)
    (fun i => by fin_cases i <;> simp [isolatedTriangle, coeffAt])
    (fun i => by fin_cases i <;> simp [isolatedTriangle, coeffAt])
    (fun _ => rfl) (fun _ => rfl)
  obtain ⟨IIhess, hII, -⟩ := hh rfl
  obtain ⟨r, hr, -, -, hrh⟩ := form_of_entries _ _ _ _ _ _ _ _ _ e he
  rw [hII, Option.map_some'] at hrh
  exact ⟨r, _, hr, hrh, (hessians_symmetric (fun x : ℚ => x) (fun _ => 1)
    (boundaryGeometry (fun x => x)) (fun _ _ _ _ => by simp [boundaryGeometry])
    (fun _ _ _ => by simp [boundaryGeometry])).1 _ _ _ _ _ _ r _ hr hrh 0⟩

/-- Claim C29 (refuted): the two calls of `optimizeEdgeDOFs` in
`measureCylinderEnergy` and the second call in `measureSphereEnergy` bind the
position matrix to `curPos` and the edge areas to `edge_area`, so that
`nposdofs = 3 * nVertices`; the first call in `measureSphereEnergy` has the
two arguments exchanged: `curPos` is bound to the edge areas, so that
`nposdofs = 3 * nEdges`, and `edge_area` to the position matrix, which is not
a vector as soon as there are two vertices. -/
theorem sphere_call_exchanged {R : Type} [Field R] (curPos : MatrixX3d R)
    (edge_area : VectorXd R) :
    cylinderDirectorCall curPos edge_area = some ⟨positionsAsMatrix curPos, edge_area⟩ ∧
    cylinderCompressiveCall curPos edge_area = some ⟨positionsAsMatrix curPos, edge_area⟩ ∧
    sphereCompressiveCall curPos edge_area = some ⟨positionsAsMatrix curPos, edge_area⟩ ∧
    nposdofs (positionsAsMatrix curPos) = 3 * curPos.length ∧
    (∀ c, sphereDirectorCall curPos edge_area = some c →
      c.curPos = vectorAsMatrix edge_area ∧ nposdofs c.curPos = 3 * edge_area.length) ∧
    (2 ≤ curPos.length → sphereDirectorCall curPos edge_area = none) ∧
    sphereDirectorCall ([![0, 0, 0], ![1, 0, 0], ![0, 1, 0]] : MatrixX3d ℚ) [1, 1, 1] = none := by
  refine ⟨rfl, rfl, rfl, ?_, ?_, ?_, ?_⟩
  · unfold nposdofs positionsAsMatrix
    exact Nat.mul_comm _ _
  · intro c hc
    unfold sphereDirectorCall at hc
    simp only [Option.bind_eq_bind, Option.pure_def, Option.bind_eq_some,
      Option.some.injEq] at hc
    obtain ⟨v, -, rfl⟩ := hc
    exact ⟨rfl, Nat.mul_comm _ _⟩
  · intro h
    unfold sphereDirectorCall matrixAsVector positionsAsMatrix
    have h1 : curPos.length ≠ 1 := by omega
    simp [h1]
  · unfold sphereDirectorCall matrixAsVector positionsAsMatrix
    simp

/-- Claim C30: in `measureCylinderEnergy`, when every face index stored in
`edgeFace` is `-1` or the index of a rest first fundamental form, the loops
return, and for every edge `e` the entry `edge_area[e]` is the sum over the
existing faces `f = edgeFace(e, j) ≠ -1` (`j = 0, 1`) of
`sqrt(det(abar_f)) / 6`, one third of the rest area `sqrt(det(abar_f)) / 2`;
if every face is the face of exactly three sides of edges, the sum of
`edge_area` is the total rest area, the sum over the faces of
`sqrt(det(abar_f)) / 2`. -/
theorem cylinder_edge_area {R : Type} [Field R] [CharZero R] (sqrt : R → R)
    (mesh : MeshConnectivity) (abars : List (Matrix (Fin 2) (Fin 2) R))
    (hf : ∀ i j : Nat, i < mesh.nEdges → j < 2 → mesh.edgeFace i j = -1 ∨
      (0 ≤ mesh.edgeFace i j ∧ mesh.edgeFace i j < abars.length)) :
    ∃ edge_area, cylinderEdgeArea sqrt mesh abars = some edge_area ∧
      edge_area.length = mesh.nEdges ∧
      (∀ e : Nat, e < mesh.nEdges → edge_area.getD e 0 =
        (if mesh.edgeFace e 0 ≠ -1 then
          sqrt ((abars.getD (mesh.edgeFace e 0).toNat 0).det) / 6 else 0) +
        (if mesh.edgeFace e 1 ≠ -1 then
          sqrt ((abars.getD (mesh.edgeFace e 1).toNat 0).det) / 6 else 0)) ∧
      (∀ x : R, x / 6 = x / 2 / 3) ∧
      ((∀ f : Nat, f < abars.length →
          ((Finset.range mesh.nEdges ×ˢ Finset.range 2).filter
            (fun p => mesh.edgeFace p.1 p.2 = (f : Int))).card = 3) →
        edge_area.sum = ∑ f ∈ Finset.range abars.length, sqrt ((abars.getD f 0).det) / 2) := by
  refine ⟨_, cylinderEdgeArea_eq sqrt mesh abars hf, by simp, ?_, ?_, ?_⟩
  · intro e he
    rw [List.getD_eq_getElem?_getD, List.getElem?_map, List.getElem?_range he]
    simp [faceShare]
  · intro x
    rw [div_div]
    norm_num
  · intro hinc
    exact edgeArea_total sqrt mesh abars hf hinc

/-- Witness of C30: the two triangles sharing an edge, with the identity as
rest first fundamental form of both faces and the identity in place of the
square root: the five edge areas add up to the total rest area 1. -/
theorem cylinder_edge_area_witness :
    ∃ edge_area : VectorXd ℚ, cylinderEdgeArea (fun x => x) twoTriangles [1, 1] =
      some edge_area ∧ edge_area.getD 0 0 = 1 / 3 ∧ edge_area.getD 1 0 = 1 / 6 ∧
      edge_area.sum = 1 := by
  obtain ⟨ea, h, -, he, -, hs⟩ := cylinder_edge_area (fun x : ℚ => x) twoTriangles [1, 1]
    (by
      intro i j hi hj
      have hi' : i < 5 := hi
      interval_cases i <;> interval_cases j <;> simp [twoTriangles])
  refine ⟨ea, h, ?_, ?_, ?_⟩
  · rw [he 0 (by decide)]
    simp [twoTriangles]
    norm_num
  · rw [he 1 (by decide)]
    simp [twoTriangles]
  · rw [hs (by
      intro f hf
      have hf' : f < 2 := hf
      interval_cases f <;> decide)]
    simp [Finset.sum_range_succ]
    norm_num

end LibShell
